import Mathlib

/-!
# DVD-Audio / SACD disc reader: a verification development

A shallow embedding of the decoding core of the disc reader
(`src/lib/dvdaiso`, `src/lib/sacdiso/libdstdec/binding`) together with the
properties established about it.

Conventions of the embedding:

* a byte buffer `uint8_t*` with its length is a `List Nat` whose elements are
  below 256 (stated as a hypothesis where it matters);
* `uint32_t` arithmetic is arithmetic on `Nat` reduced modulo `2 ^ 32`;
* loops are structural recursions over the remaining input or the remaining
  iteration count;
* a function that can fail returns an `Option`.
-/

set_option linter.unusedVariables false

/-! ## `dvda_zone.h` / `dvda_zone.cpp`: the downmix matrix -/

/-- Modelled from the spec: the constant `DOWNMIX_CHANNELS` is declared in a
header that is not part of the sources; the spec describes the downmix matrix
as an 8×2 table, and `audio_stream_t::set_downmix_coef(double dmx_coef[8][2])`
receives `LR_dmx_coef[DOWNMIX_CHANNELS][2]`. -/
def DOWNMIX_CHANNELS : Nat := 8

/-- The class `dvda_downmix_channel_t`: `bool inv_phase; uint8_t coef`. -/
structure dvda_downmix_channel_t where
  inv_phase : Bool
  coef : Nat
deriving DecidableEq, Repr, Inhabited

/-- The class `dvda_downmix_matrix_t`: the array
`LR_dmx[DOWNMIX_CHANNELS][2]`, indexed by channel and by side. -/
structure dvda_downmix_matrix_t where
  LR_dmx : Nat → Nat → dvda_downmix_channel_t

namespace dvda_downmix_matrix_t

/-- The method `get_downmix_channel(int channel, int dmx_channel)`: the entry
for a valid index pair, `nullptr` (here `none`) otherwise. -/
def get_downmix_channel (m : dvda_downmix_matrix_t) (channel dmx_channel : Int) :
    Option dvda_downmix_channel_t :=
  if 0 ≤ channel ∧ channel < DOWNMIX_CHANNELS ∧ 0 ≤ dmx_channel ∧ dmx_channel < 2 then
    some (m.LR_dmx channel.toNat dmx_channel.toNat)
  else none

/-- The method `get_downmix_coef(int channel, int dmx_channel)`.

The source computes in `double`; the embedding is generic in the number type
`F` of the result and takes `std::pow` as the parameter `pow`, while the
argument of `pow`, `L_db / 20.0` with `L_db = -0.2007 * coef` or
`L_db = -(2.0 * 0.2007 * (coef - 200) + 0.2007 * 200)`, is computed exactly, as
a rational number. The method assigns to no member, so the embedding is a
function of the matrix alone. -/
def get_downmix_coef {F : Type} [Zero F] [Neg F] (pow : ℚ → ℚ → F)
    (m : dvda_downmix_matrix_t) (channel dmx_channel : Int) : F :=
  match m.get_downmix_channel channel dmx_channel with
  | none => 0
  | some p_dmx_channel =>
    let coef := p_dmx_channel.coef
    if coef < 200 then
      let L_db : ℚ := -0.2007 * (coef : ℚ)
      let dmx_coef := pow 10 (L_db / 20)
      if p_dmx_channel.inv_phase then -dmx_coef else dmx_coef
    else if coef < 255 then
      let L_db : ℚ := -(2 * 0.2007 * ((coef : ℚ) - 200) + 0.2007 * 200)
      let dmx_coef := pow 10 (L_db / 20)
      if p_dmx_channel.inv_phase then -dmx_coef else dmx_coef
    else 0

/-- The sign factor of a downmix entry: `-1` when the phase-invert flag is
set, `+1` otherwise. -/
def phaseSign (p : Bool) : ℝ := if p then -1 else 1

end dvda_downmix_matrix_t

/-! ## `dvda_filesystem.h`: files of the disc -/

/-- Modelled from the spec: `DVD_BLOCK_SIZE` is declared in `dvda_block.h`,
which is not part of the sources; a disc block is a 2048-byte DVD sector
(`dvda_filesystem_t::open` computes `base = 2048 * lba`). -/
def DVD_BLOCK_SIZE : Nat := 2048

/-- The names under which `dvda_zone.cpp` opens files, in place of the
strings that `snprintf` formats: `"AUDIO_TS.IFO"`, `"AUDIO_TS.BUP"`,
`"ATS_%02d_0.IFO"`, `"ATS_%02d_0.BUP"` and `"ATS_%02d_%01d.AOB"`. -/
inductive FileName where
  | AUDIO_TS_IFO : FileName
  | AUDIO_TS_BUP : FileName
  | ATS_IFO (titleset : Nat) : FileName
  | ATS_BUP (titleset : Nat) : FileName
  | ATS_AOB (titleset : Nat) (n : Nat) : FileName
deriving DecidableEq, Repr

/-- The class `dvda_fileobject_t` as far as the catalog uses it: the declared
size (`get_size()`) and the bytes that `read` delivers from the start of the
file. -/
structure dvda_fileobject_t where
  size : Nat
  data : List Nat
deriving DecidableEq, Repr

namespace dvda_fileobject_t

/-- The bytes delivered by `read(buffer, count)` at file position `pos`; the
return value of `read` is their number. -/
def read (f : dvda_fileobject_t) (pos count : Nat) : List Nat :=
  (f.data.drop pos).take count

/-- The method `seek(offset)`: succeeds iff `offset < size`. -/
def seek (f : dvda_fileobject_t) (offset : Nat) : Bool := decide (offset < f.size)

end dvda_fileobject_t

/-- The class `dvda_filesystem_t`: `open(file_name)` gives a file object or a
null pointer. -/
structure dvda_filesystem_t where
  files : FileName → Option dvda_fileobject_t

namespace dvda_filesystem_t

/-- The method `open(file_name)` (`open` is a keyword of Lean). -/
def open_file (fs : dvda_filesystem_t) (file_name : FileName) : Option dvda_fileobject_t :=
  fs.files file_name

end dvda_filesystem_t

/-! ## Byte-level access to the descriptor buffer -/

namespace Ifo

/-- The byte at offset `off` of a buffer. -/
def rd8 (buf : List Nat) (off : Nat) : Nat := buf.getD off 0

/-- A `uint16_t` field read in host (little-endian) byte order. -/
def rd16 (buf : List Nat) (off : Nat) : Nat := rd8 buf off + 256 * rd8 buf (off + 1)

/-- A `uint32_t` field read in host (little-endian) byte order. -/
def rd32 (buf : List Nat) (off : Nat) : Nat :=
  rd8 buf off + 256 * rd8 buf (off + 1) + 65536 * rd8 buf (off + 2) + 16777216 * rd8 buf (off + 3)

/-- Modelled from the spec: the macro `B2N_16` comes from `b2n.h`, which is not
part of the sources; all multi-byte fields of the disc are big-endian, and the
macro converts a field to host order in place, which on a little-endian host
swaps its two bytes. -/
def B2N_16 (buf : List Nat) (off : Nat) : List Nat :=
  (buf.set off (rd8 buf (off + 1))).set (off + 1) (rd8 buf off)

/-- Modelled from the spec: the macro `B2N_32` of `b2n.h` (not part of the
sources), which reverses the four bytes of a big-endian field in place. -/
def B2N_32 (buf : List Nat) (off : Nat) : List Nat :=
  (((buf.set off (rd8 buf (off + 3))).set (off + 1) (rd8 buf (off + 2))).set (off + 2)
    (rd8 buf (off + 1))).set (off + 3) (rd8 buf off)

end Ifo

/-- The header record `amgi_mat_t` of `AUDIO_TS.IFO`, after the `B2N`
conversions, as far as `dvda_zone_t::open` uses it. -/
structure amgi_mat_t where
  amg_identifier : List Nat
  amg_nr_of_audio_title_sets : Nat
  amg_nr_of_video_title_sets : Nat
deriving DecidableEq, Repr

/-- One entry of `atsi_mat_t::ats_downmix_matrices`: the phase bytes
`phase.L`, `phase.R` and the coefficient bytes `coef[ch].L`, `coef[ch].R`. -/
structure ats_downmix_matrix_t where
  phase_L : Nat
  phase_R : Nat
  coef_L : Nat → Nat
  coef_R : Nat → Nat

/-- The header record `atsi_mat_t` of `ATS_xx_0.IFO`, after the `B2N`
conversions, as far as `dvda_titleset_t::open` uses it. -/
structure atsi_mat_t where
  ats_identifier : List Nat
  ats_last_sector : Nat
  atsi_last_sector : Nat
  atsm_vobs : Nat
  ats_downmix_matrices : Nat → ats_downmix_matrix_t

/-- The record layouts of `ifo.h`, which is not part of the sources, as a
parameter: the `*_SIZE` macros that the bounds checks use, the `sizeof` of the
records that are indexed as arrays, the offsets of the fields inside their
records, and the reading of the two header records from their bytes. -/
structure IfoLayout where
  DOWNMIX_MATRICES : Nat
  sizeof_amgi_mat : Nat
  amgi_mat : List Nat → amgi_mat_t
  sizeof_atsi_mat : Nat
  atsi_mat : List Nat → atsi_mat_t
  AUDIO_PGCIT_SIZE : Nat
  ATS_TITLE_IDX_SIZE : Nat
  ATS_TITLE_SIZE : Nat
  ATS_TRACK_TIMESTAMP_SIZE : Nat
  ATS_TRACK_SECTOR_SIZE : Nat
  sizeof_ats_title_idx : Nat
  sizeof_ats_track_timestamp : Nat
  sizeof_ats_track_sector : Nat
  pgcit_nr_of_titles : Nat
  pgcit_last_byte : Nat
  idx_title_nr : Nat
  idx_title_table_offset : Nat
  title_tracks : Nat
  title_indexes : Nat
  title_len_in_pts : Nat
  title_track_sector_table_offset : Nat
  ts_n : Nat
  ts_first_pts : Nat
  ts_len_in_pts : Nat
  ts_downmix_matrix : Nat
  sector_first : Nat
  sector_last : Nat

/-- The magic `"DVDAUDIO-AMG"` as bytes. -/
def AMG_MAGIC : List Nat := [0x44, 0x56, 0x44, 0x41, 0x55, 0x44, 0x49, 0x4F, 0x2D, 0x41, 0x4D, 0x47]

/-- The magic `"DVDAUDIO-ATS"` as bytes. -/
def ATS_MAGIC : List Nat := [0x44, 0x56, 0x44, 0x41, 0x55, 0x44, 0x49, 0x4F, 0x2D, 0x41, 0x54, 0x53]

/-! ## `dvda_zone.h`: the catalog -/

/-- The class `dvda_sector_pointer_t` (the back reference to the track is
left out): `index`, `first`, `last`. -/
structure dvda_sector_pointer_t where
  index : Nat
  first : Nat
  last : Nat
deriving DecidableEq, Repr, Inhabited

/-- The class `dvda_track_t`. -/
structure dvda_track_t where
  dvda_sector_pointers : List dvda_sector_pointer_t
  index : Nat
  track : Nat
  first_pts : Nat
  length_pts : Nat
  downmix_matrix : Int
deriving DecidableEq, Repr, Inhabited

/-- The class `dvda_title_t`. -/
structure dvda_title_t where
  dvda_tracks : List dvda_track_t
  title : Nat
  length_pts : Nat
  indexes : Nat
  tracks : Nat
deriving DecidableEq, Repr, Inhabited

/-- The class `dvda_aob_t`; `present` stands for a non-null
`dvda_fileobject`. -/
structure dvda_aob_t where
  file_name : FileName
  block_first : Nat
  block_last : Nat
  present : Bool
deriving DecidableEq, Repr

/-- The enumeration `dvda_titleset_e`. -/
inductive dvda_titleset_e where
  | DVDTitlesetUnknown
  | DVDTitlesetAudio
  | DVDTitlesetVideo
deriving DecidableEq, Repr

/-- The class `dvda_titleset_t`. -/
structure dvda_titleset_t where
  dvda_titleset : Nat
  dvda_titles : List dvda_title_t
  is_open : Bool
  dvda_titleset_type : dvda_titleset_e
  aobs : List dvda_aob_t
  downmix_matrices : Nat → dvda_downmix_matrix_t
  aobs_last_sector : Nat

namespace dvda_track_t

/-- The loop of `get_first`: `sector = std::min(sector, get_sector_pointer(i).get_first())`
over the sector pointers from index 1 on. -/
def get_first_loop : Nat → List dvda_sector_pointer_t → Nat
  | sector, [] => sector
  | sector, sp :: rest => get_first_loop (min sector sp.first) rest

/-- The method `dvda_track_t::get_first()`. -/
def get_first (t : dvda_track_t) : Nat :=
  match t.dvda_sector_pointers with
  | [] => 0
  | sp0 :: rest => get_first_loop sp0.first rest

/-- The loop of `get_last`: `sector = std::max(sector, get_sector_pointer(i).get_last())`. -/
def get_last_loop : Nat → List dvda_sector_pointer_t → Nat
  | sector, [] => sector
  | sector, sp :: rest => get_last_loop (max sector sp.last) rest

/-- The method `dvda_track_t::get_last()`. -/
def get_last (t : dvda_track_t) : Nat :=
  match t.dvda_sector_pointers with
  | [] => 0
  | sp0 :: rest => get_last_loop sp0.last rest

end dvda_track_t

namespace dvda_titleset_t

open Ifo

/-- The condition of the sector-pointer assignment,
`j + 1 >= track_curr_idx && (j + 1 < track_next_idx || track_next_idx == 0)`,
for the record with 1-based index `s = j + 1`. -/
def sector_belongs (s track_curr_idx track_next_idx : Nat) : Bool :=
  decide (s ≥ track_curr_idx) && (decide (s < track_next_idx) || decide (track_next_idx = 0))

/-- The inner loop `for (auto k = 0u; k < dvda_title.get_tracks().size(); k++)`
of the sector-pointer assignment, run over the tracks from position `k` on:
`track_next_idx` is the start index of the following track, or 0 for the last
track, and the sector pointer is appended to every track whose condition
holds. -/
def assign_sector_pointer (sp : dvda_sector_pointer_t) : List dvda_track_t → List dvda_track_t
  | [] => []
  | dvda_track :: rest =>
    let track_curr_idx := dvda_track.index
    let track_next_idx := match rest with
      | [] => 0
      | next :: _ => next.index
    (if sector_belongs sp.index track_curr_idx track_next_idx then
      { dvda_track with dvda_sector_pointers := dvda_track.dvda_sector_pointers ++ [sp] }
    else dvda_track) :: assign_sector_pointer sp rest

/-- The constructor `dvda_track_t(ats_track_timestamp, track_no)`, reading the
record at offset `off` of the descriptor buffer. -/
def mk_track (L : IfoLayout) (buf : List Nat) (off : Nat) (track_no : Nat) : dvda_track_t :=
  { dvda_sector_pointers := []
    index := rd8 buf (off + L.ts_n)
    track := track_no
    first_pts := rd32 buf (off + L.ts_first_pts)
    length_pts := rd32 buf (off + L.ts_len_in_pts)
    downmix_matrix :=
      if rd8 buf (off + L.ts_downmix_matrix) < L.DOWNMIX_MATRICES then
        (rd8 buf (off + L.ts_downmix_matrix) : Int)
      else -1 }

/-- The constructor `dvda_title_t(p_ats_title, p_ats_title_idx)`. -/
def mk_title (L : IfoLayout) (buf : List Nat) (title_off idx_off : Nat) : dvda_title_t :=
  { dvda_tracks := []
    title := rd8 buf (idx_off + L.idx_title_nr)
    indexes := rd8 buf (title_off + L.title_indexes)
    tracks := rd8 buf (title_off + L.title_tracks)
    length_pts := rd32 buf (title_off + L.title_len_in_pts) }

/-- The loop `for (auto j = 0; j < p_ats_title->tracks; j++)` that reads the
track timestamps, entered with counter `j`. The bound `p_ats_title->tracks` is
a byte of the buffer and is read again on every pass; `fuel` is `256 - j`, so
the loop has ended before the fuel is spent. A record that extends past
`ats_end` is the `goto error_exit` (`none`). Returns the buffer (the `B2N`
conversions are made in place) and the tracks. -/
def read_track_timestamps (L : IfoLayout) (ats_end title_off ts_off : Nat) :
    Nat → Nat → List Nat → List dvda_track_t → Option (List Nat × List dvda_track_t)
  | 0, _, buf, tracks => some (buf, tracks)
  | fuel + 1, j, buf, tracks =>
    if j < rd8 buf (title_off + L.title_tracks) then
      let off := ts_off + j * L.sizeof_ats_track_timestamp
      if off + L.ATS_TRACK_TIMESTAMP_SIZE > ats_end then none
      else
        let buf := B2N_32 buf (off + L.ts_first_pts)
        let buf := B2N_32 buf (off + L.ts_len_in_pts)
        read_track_timestamps L ats_end title_off ts_off fuel (j + 1) buf
          (tracks ++ [mk_track L buf off (j + 1)])
    else some (buf, tracks)

/-- The loop `for (auto j = 0; j < p_ats_title->indexes; j++)` that reads the
sector records and assigns each to the tracks, entered with counter `j`;
`fuel` is `256 - j`. -/
def read_track_sectors (L : IfoLayout) (ats_end title_off sector_off : Nat) :
    Nat → Nat → List Nat → List dvda_track_t → Option (List Nat × List dvda_track_t)
  | 0, _, buf, tracks => some (buf, tracks)
  | fuel + 1, j, buf, tracks =>
    if j < rd8 buf (title_off + L.title_indexes) then
      let off := sector_off + j * L.sizeof_ats_track_sector
      if off + L.ATS_TRACK_SECTOR_SIZE > ats_end then none
      else
        let buf := B2N_32 buf (off + L.sector_first)
        let buf := B2N_32 buf (off + L.sector_last)
        let sp : dvda_sector_pointer_t :=
          { index := j + 1
            first := rd32 buf (off + L.sector_first)
            last := rd32 buf (off + L.sector_last) }
        read_track_sectors L ats_end title_off sector_off fuel (j + 1) buf
          (assign_sector_pointer sp tracks)
    else some (buf, tracks)

/-- One pass of the loop over the titles, for the title with counter `i`:
the bounds checks of the title-index record and of the title record, the
`B2N` conversions, the construction of the title, and the two loops over its
track timestamps and its sector records. -/
def read_title (L : IfoLayout) (ats_end : Nat) (i : Nat) (buf : List Nat) :
    Option (List Nat × dvda_title_t) :=
  let idx_off := L.AUDIO_PGCIT_SIZE + i * L.sizeof_ats_title_idx
  if idx_off + L.ATS_TITLE_IDX_SIZE > ats_end then none
  else
    let buf := B2N_32 buf (idx_off + L.idx_title_table_offset)
    let title_off := rd32 buf (idx_off + L.idx_title_table_offset)
    if title_off + L.ATS_TITLE_SIZE > ats_end then none
    else
      let buf := B2N_32 buf (title_off + L.title_len_in_pts)
      let buf := B2N_16 buf (title_off + L.title_track_sector_table_offset)
      let ts_off := title_off + L.ATS_TITLE_SIZE
      let sector_off := title_off + rd16 buf (title_off + L.title_track_sector_table_offset)
      let dvda_title := mk_title L buf title_off idx_off
      match read_track_timestamps L ats_end title_off ts_off 256 0 buf [] with
      | none => none
      | some (buf, tracks) =>
        match read_track_sectors L ats_end title_off sector_off 256 0 buf tracks with
        | none => none
        | some (buf, tracks) => some (buf, { dvda_title with dvda_tracks := tracks })

/-- The loop `for (auto i = 0u; i < p_audio_pgcit->nr_of_titles; i++)`, entered
with counter `i`; the bound is a 16-bit field of the buffer, read again on
every pass, and `fuel` is `65536 - i`. -/
def read_titles (L : IfoLayout) (ats_end : Nat) :
    Nat → Nat → List Nat → List dvda_title_t → Option (List dvda_title_t)
  | 0, _, _, titles => some titles
  | fuel + 1, i, buf, titles =>
    if i < rd16 buf L.pgcit_nr_of_titles then
      match read_title L ats_end i buf with
      | none => none
      | some (buf, dvda_title) => read_titles L ats_end fuel (i + 1) buf (titles ++ [dvda_title])
    else some titles

/-- The parse of the descriptor buffer `ats_buf` of length `ats_len` in
`dvda_titleset_t::open`, from the check of the `audio_pgcit_t` header to the
end of the loop over the titles; `none` is `goto error_exit`. -/
def read_pgcit (L : IfoLayout) (ats_buf : List Nat) : Option (List dvda_title_t) :=
  let ats_len := ats_buf.length
  if L.AUDIO_PGCIT_SIZE > ats_len then none
  else
    let buf := B2N_16 ats_buf L.pgcit_nr_of_titles
    let buf := B2N_32 buf L.pgcit_last_byte
    let last_byte_1 := (rd32 buf L.pgcit_last_byte + 1) % 2 ^ 32
    let ats_end := if ats_len < last_byte_1 then ats_len else last_byte_1
    read_titles L ats_end 65536 0 buf []

/-- The loop `for (auto i = 0; i < 9; i++)` that lays out the AOB extents,
entered with counter `i`, `n` passes to go and the running `aob_offset`. An
existing file of `aob_size` bytes gets
`block_last = (uint32_t)(block_first + aob_size / DVD_BLOCK_SIZE + (aob_size % DVD_BLOCK_SIZE > 0 ? 1 : 0) - 1)`,
a missing one
`block_last = block_first + (1024 * 1024 - 32) * 1024 / DVD_BLOCK_SIZE - 1`
in `uint32_t` arithmetic. -/
def layout_aobs (fs : dvda_filesystem_t) (titleset : Nat) : Nat → Nat → Nat → List dvda_aob_t
  | 0, _, _ => []
  | n + 1, i, aob_offset =>
    let file_name := FileName.ATS_AOB titleset (i + 1)
    let block_first := aob_offset
    let block_last : Nat :=
      match fs.open_file file_name with
      | some f =>
        let aob_size := f.size
        (((block_first : Int) + (aob_size / DVD_BLOCK_SIZE : Nat)
          + (if aob_size % DVD_BLOCK_SIZE > 0 then 1 else 0) - 1) % 2 ^ 32).toNat
      | none =>
        (((block_first : Int) + ((1024 * 1024 - 32) * 1024 / DVD_BLOCK_SIZE : Nat) - 1) % 2 ^ 32).toNat
    { file_name := file_name, block_first := block_first, block_last := block_last,
      present := (fs.open_file file_name).isSome }
      :: layout_aobs fs titleset n (i + 1) ((block_last + 1) % 2 ^ 32)

/-- The filling of one downmix matrix from the header:
`inv_phase = ((phase.L >> (DOWNMIX_CHANNELS - ch - 1)) & 1) == 1` and
`coef = coef[ch].L` for side 0, likewise with `R` for side 1. -/
def mk_downmix_matrix (raw : ats_downmix_matrix_t) : dvda_downmix_matrix_t :=
  { LR_dmx := fun ch dmx_channel =>
      if dmx_channel = 0 then
        { inv_phase := decide ((raw.phase_L >>> (DOWNMIX_CHANNELS - ch - 1)) &&& 1 = 1)
          coef := raw.coef_L ch }
      else
        { inv_phase := decide ((raw.phase_R >>> (DOWNMIX_CHANNELS - ch - 1)) &&& 1 = 1)
          coef := raw.coef_R ch } }

/-- The object that the constructor `dvda_titleset_t(zone)` leaves:
`is_open = false`, no titles, nine empty `dvda_aob_t`. -/
def fresh : dvda_titleset_t :=
  { dvda_titleset := 0
    dvda_titles := []
    is_open := false
    dvda_titleset_type := dvda_titleset_e.DVDTitlesetUnknown
    aobs := []
    downmix_matrices := fun _ => { LR_dmx := fun _ _ => default }
    aobs_last_sector := 0 }

/-- The descriptor buffer `ats_buf` of `dvda_titleset_t::open`:
`ats_len = (uint32_t)atsi_size - 0x0800` zero bytes, over which the bytes read
after `seek(0x0800)` are laid. The seek fails, and the position stays behind
the header, when `0x0800 < size` does not hold. -/
def read_ats_buf (L : IfoLayout) (atsi_file : dvda_fileobject_t) : List Nat :=
  let atsi_size := atsi_file.size
  let ats_len := ((((atsi_size % 2 ^ 32 : Nat) : Int) - 0x0800) % 2 ^ 32).toNat
  let pos := if atsi_file.seek 0x0800 then 0x0800 else L.sizeof_atsi_mat
  let bytes := atsi_file.read pos ats_len
  bytes ++ List.replicate (ats_len - bytes.length) 0

/-- The descriptor file that `dvda_titleset_t::open` opens for a titleset:
`ATS_xx_0.IFO`, or `ATS_xx_0.BUP` when that is missing. -/
def atsi_file (fs : dvda_filesystem_t) (titleset : Nat) : Option dvda_fileobject_t :=
  match fs.open_file (FileName.ATS_IFO titleset) with
  | some f => some f
  | none => fs.open_file (FileName.ATS_BUP titleset)

/-- The method `dvda_titleset_t::open(size_t titleset)` on a freshly
constructed object (`open` is a keyword of Lean): the state of the object
afterwards, whose `is_open` is the value returned. On `goto error_exit` the
source leaves the titles read so far in the object, which
`dvda_zone_t::open` then destroys; here they are dropped at once. -/
def open_titleset (L : IfoLayout) (fs : dvda_filesystem_t) (titleset : Nat) : dvda_titleset_t :=
  let self := { fresh with dvda_titleset := titleset }
  match atsi_file fs titleset with
  | none => self
  | some atsi_file =>
    if atsi_file.size ≥ 0x0800 then
      let header := atsi_file.read 0 L.sizeof_atsi_mat
      if header.length = L.sizeof_atsi_mat then
        let atsi_mat := L.atsi_mat header
        if atsi_mat.ats_identifier = ATS_MAGIC then
          let self :=
            { self with
              aobs := layout_aobs fs titleset 9 0 0
              downmix_matrices := fun m => mk_downmix_matrix (atsi_mat.ats_downmix_matrices m)
              dvda_titleset_type :=
                if atsi_mat.atsm_vobs = 0 then dvda_titleset_e.DVDTitlesetAudio
                else dvda_titleset_e.DVDTitlesetVideo
              aobs_last_sector :=
                (((atsi_mat.ats_last_sector : Int) - 2 * ((atsi_mat.atsi_last_sector : Int) + 1))
                  % 2 ^ 32).toNat }
          match read_pgcit L (read_ats_buf L atsi_file) with
          | none => self
          | some titles => { self with dvda_titles := titles, is_open := true }
        else self
      else self
    else self

/-- The method `is_audio_ts()`. -/
def is_audio_ts (ts : dvda_titleset_t) : Bool :=
  decide (ts.dvda_titleset_type = dvda_titleset_e.DVDTitlesetAudio)

end dvda_titleset_t

/-- The class `dvda_zone_t`. -/
structure dvda_zone_t where
  dvda_titlesets : List dvda_titleset_t
  audio_titlesets : Nat
  video_titlesets : Nat

namespace dvda_zone_t

/-- The loop `for (auto i = 0u; i < audio_titlesets; i++)` of
`dvda_zone_t::open`, entered with counter `i` and `n` passes to go:
`emplace_back` a fresh titleset, `open(i + 1)` it, `pop_back` when that
returned false. -/
def open_titlesets (L : IfoLayout) (fs : dvda_filesystem_t) :
    Nat → Nat → List dvda_titleset_t → List dvda_titleset_t
  | 0, _, titlesets => titlesets
  | n + 1, i, titlesets =>
    let dvda_titleset := dvda_titleset_t.open_titleset L fs (i + 1)
    let titlesets := titlesets ++ [dvda_titleset]
    let titlesets := if !dvda_titleset.is_open then titlesets.dropLast else titlesets
    open_titlesets L fs n (i + 1) titlesets

/-- The descriptor file that `dvda_zone_t::open` opens: `AUDIO_TS.IFO`, or
`AUDIO_TS.BUP` when that is missing. -/
def amgi_file (fs : dvda_filesystem_t) : Option dvda_fileobject_t :=
  match fs.open_file FileName.AUDIO_TS_IFO with
  | some f => some f
  | none => fs.open_file FileName.AUDIO_TS_BUP

/-- The method `dvda_zone_t::open()` (`open` is a keyword of Lean): the value
returned and the state of the zone afterwards. -/
def open_zone (L : IfoLayout) (fs : dvda_filesystem_t) : Bool × dvda_zone_t :=
  let zone : dvda_zone_t := { dvda_titlesets := [], audio_titlesets := 99, video_titlesets := 99 }
  match amgi_file fs with
  | none => (false, zone)
  | some amgi_file =>
    let header := amgi_file.read 0 L.sizeof_amgi_mat
    if header.length = L.sizeof_amgi_mat then
      let amgi_mat := L.amgi_mat header
      if amgi_mat.amg_identifier = AMG_MAGIC then
        let audio_titlesets :=
          if 99 < amgi_mat.amg_nr_of_audio_title_sets then 99
          else amgi_mat.amg_nr_of_audio_title_sets
        let video_titlesets :=
          if 99 < amgi_mat.amg_nr_of_video_title_sets then 99
          else amgi_mat.amg_nr_of_video_title_sets
        (true,
          { dvda_titlesets := open_titlesets L fs audio_titlesets 0 []
            audio_titlesets := audio_titlesets
            video_titlesets := video_titlesets })
      else (false, zone)
    else (false, zone)

end dvda_zone_t

/-! ## The assignment rule of C8, in the words of the specification -/

namespace dvda_titleset_t

/-- The rule of the specification for the start indexes `idxs` of the tracks
of a title: the sector-pointer record with 1-based index `s` belongs to the
track at position `k` when `index_k ≤ s` and `s < index_(k+1)`, or `k` is the
last track, or `index_(k+1) = 0`. -/
def AssignedTo (idxs : List Nat) (k s : Nat) : Prop :=
  ∃ c, idxs[k]? = some c ∧ c ≤ s ∧
    ((∃ n, idxs[k + 1]? = some n ∧ s < n) ∨ k + 1 = idxs.length ∨
      (∃ n, idxs[k + 1]? = some n ∧ n = 0))

/-- The records `1 .. m` that the rule of the code gives to the track at
position `k`, in ascending order; `track_next_idx` is 0 behind the last
track. -/
def assigned_records (idxs : List Nat) (k m : Nat) : List Nat :=
  (List.range' 1 m).filter (fun s => sector_belongs s (idxs.getD k 0) (idxs.getD (k + 1) 0))

/-- The invariant of the sector loop after the records `1 .. m`: every track
holds exactly the records that the rule gives it, in ascending order. -/
def SectorsAssigned (tracks : List dvda_track_t) (m : Nat) : Prop :=
  ∀ (k : Nat) (t : dvda_track_t), tracks[k]? = some t →
    t.dvda_sector_pointers.map (fun sp => sp.index) =
      assigned_records (tracks.map (fun t => t.index)) k m

end dvda_titleset_t

/-! ## The records that the parse of a titleset descriptor reads -/

/-- The kinds of record in the descriptor buffer of a titleset. -/
inductive RecordKind where
  | audio_pgcit
  | ats_title_idx
  | ats_title
  | ats_track_timestamp
  | ats_track_sector
deriving DecidableEq, Repr

namespace dvda_titleset_t

open Ifo

/-- The size that the bounds check of `dvda_titleset_t::open` uses for a
record of the given kind. -/
def record_size (L : IfoLayout) : RecordKind → Nat
  | RecordKind.audio_pgcit => L.AUDIO_PGCIT_SIZE
  | RecordKind.ats_title_idx => L.ATS_TITLE_IDX_SIZE
  | RecordKind.ats_title => L.ATS_TITLE_SIZE
  | RecordKind.ats_track_timestamp => L.ATS_TRACK_TIMESTAMP_SIZE
  | RecordKind.ats_track_sector => L.ATS_TRACK_SECTOR_SIZE

/-- The track-timestamp records that the loop `read_track_timestamps` reaches,
with their offsets, up to and including one that fails its bounds check. -/
def timestamp_records (L : IfoLayout) (ats_end title_off ts_off : Nat) :
    Nat → Nat → List Nat → List (RecordKind × Nat)
  | 0, _, _ => []
  | fuel + 1, j, buf =>
    if j < rd8 buf (title_off + L.title_tracks) then
      let off := ts_off + j * L.sizeof_ats_track_timestamp
      (RecordKind.ats_track_timestamp, off) ::
        (if off + L.ATS_TRACK_TIMESTAMP_SIZE > ats_end then []
        else
          let buf := B2N_32 buf (off + L.ts_first_pts)
          let buf := B2N_32 buf (off + L.ts_len_in_pts)
          timestamp_records L ats_end title_off ts_off fuel (j + 1) buf)
    else []

/-- The sector records that the loop `read_track_sectors` reaches, with their
offsets, up to and including one that fails its bounds check. -/
def sector_records (L : IfoLayout) (ats_end title_off sector_off : Nat) :
    Nat → Nat → List Nat → List (RecordKind × Nat)
  | 0, _, _ => []
  | fuel + 1, j, buf =>
    if j < rd8 buf (title_off + L.title_indexes) then
      let off := sector_off + j * L.sizeof_ats_track_sector
      (RecordKind.ats_track_sector, off) ::
        (if off + L.ATS_TRACK_SECTOR_SIZE > ats_end then []
        else
          let buf := B2N_32 buf (off + L.sector_first)
          let buf := B2N_32 buf (off + L.sector_last)
          sector_records L ats_end title_off sector_off fuel (j + 1) buf)
    else []

/-- The records that `read_title` reaches for the title with counter `i`: its
title-index record, its title record, its track timestamps and its sector
records, up to and including one that fails its bounds check. -/
def title_records (L : IfoLayout) (ats_end : Nat) (i : Nat) (buf : List Nat) :
    List (RecordKind × Nat) :=
  let idx_off := L.AUDIO_PGCIT_SIZE + i * L.sizeof_ats_title_idx
  (RecordKind.ats_title_idx, idx_off) ::
    (if idx_off + L.ATS_TITLE_IDX_SIZE > ats_end then []
    else
      let buf := B2N_32 buf (idx_off + L.idx_title_table_offset)
      let title_off := rd32 buf (idx_off + L.idx_title_table_offset)
      (RecordKind.ats_title, title_off) ::
        (if title_off + L.ATS_TITLE_SIZE > ats_end then []
        else
          let buf := B2N_32 buf (title_off + L.title_len_in_pts)
          let buf := B2N_16 buf (title_off + L.title_track_sector_table_offset)
          let ts_off := title_off + L.ATS_TITLE_SIZE
          let sector_off := title_off + rd16 buf (title_off + L.title_track_sector_table_offset)
          timestamp_records L ats_end title_off ts_off 256 0 buf ++
            (match read_track_timestamps L ats_end title_off ts_off 256 0 buf [] with
            | none => []
            | some (buf, _) => sector_records L ats_end title_off sector_off 256 0 buf)))

/-- The records that the loop `read_titles` reaches. -/
def titles_records (L : IfoLayout) (ats_end : Nat) :
    Nat → Nat → List Nat → List (RecordKind × Nat)
  | 0, _, _ => []
  | fuel + 1, i, buf =>
    if i < rd16 buf L.pgcit_nr_of_titles then
      title_records L ats_end i buf ++
        (match read_title L ats_end i buf with
        | none => []
        | some (buf, _) => titles_records L ats_end fuel (i + 1) buf)
    else []

/-- The records that `read_pgcit` reaches in the descriptor buffer `ats_buf`:
the table header at offset 0 and, when that is inside the buffer, the records
of the titles; the list ends with the record whose bounds check failed, if
one did. -/
def records_read (L : IfoLayout) (ats_buf : List Nat) : List (RecordKind × Nat) :=
  let ats_len := ats_buf.length
  (RecordKind.audio_pgcit, 0) ::
    (if L.AUDIO_PGCIT_SIZE > ats_len then []
    else
      let buf := B2N_16 ats_buf L.pgcit_nr_of_titles
      let buf := B2N_32 buf L.pgcit_last_byte
      let last_byte_1 := (rd32 buf L.pgcit_last_byte + 1) % 2 ^ 32
      let ats_end := if ats_len < last_byte_1 then ats_len else last_byte_1
      titles_records L ats_end 65536 0 buf)

end dvda_titleset_t

/-! ## The AOB extents: what the specification says -/

namespace dvda_titleset_t

/-- The number of blocks that extent `i` (from 0) of a titleset stands for:
`ceil(s / 2048)` for an existing file of `s` bytes, the placeholder of
`(1024 * 1024 - 32) * 1024 / 2048` blocks for a missing one. -/
def aob_blocks (fs : dvda_filesystem_t) (titleset i : Nat) : Nat :=
  match fs.open_file (FileName.ATS_AOB titleset (i + 1)) with
  | some f => (f.size + (DVD_BLOCK_SIZE - 1)) / DVD_BLOCK_SIZE
  | none => (1024 * 1024 - 32) * 1024 / 2048

/-- The first block of extent `i` when the extents follow one another from
block 0. -/
def aob_start (fs : dvda_filesystem_t) (titleset : Nat) : Nat → Nat
  | 0 => 0
  | i + 1 => aob_start fs titleset i + aob_blocks fs titleset i

/-- The nine extents tile the block addresses: the first starts at block 0,
each following one starts right after the one before, none is empty, and
extent `i` has `aob_blocks fs titleset i` blocks. -/
def AobsTile (fs : dvda_filesystem_t) (titleset : Nat) (aobs : List dvda_aob_t) : Prop :=
  aobs.length = 9 ∧
  (∀ a, aobs[0]? = some a → a.block_first = 0) ∧
  (∀ i a b, i < 8 → aobs[i]? = some a → aobs[i + 1]? = some b →
    b.block_first = a.block_last + 1) ∧
  (∀ i a, aobs[i]? = some a →
    a.block_first ≤ a.block_last ∧ a.block_last + 1 - a.block_first = aob_blocks fs titleset i)

end dvda_titleset_t

/-! ## `audio_stream_info.h`, `audio_track.h`, `audio_track.cpp`: the track list -/

/-- The value `PCM_STREAM_ID` of `stream_id_e`. -/
def PCM_STREAM_ID : Nat := 0xa0

/-- The value `MLP_STREAM_ID` of `stream_id_e`. -/
def MLP_STREAM_ID : Nat := 0xa1

/-- The value `STREAM_TYPE_TRUEHD` of `stream_type_e`. -/
def STREAM_TYPE_TRUEHD : Nat := 0xba

/-- The enumeration `chmode_e`. -/
inductive chmode_e where
  | CHMODE_BOTH
  | CHMODE_TWOCH
  | CHMODE_MULCH
deriving DecidableEq, Repr

/-- The class `audio_stream_info_t` (without `is_atmos` and `channel_layout`,
which no modelled function reads). -/
structure audio_stream_info_t where
  stream_id : Nat
  stream_type : Nat
  channel_arrangement : Nat
  group1_channels : Nat
  group1_bits : Nat
  group1_samplerate : Nat
  group2_channels : Nat
  group2_bits : Nat
  group2_samplerate : Nat
  bitrate : Nat
  can_downmix : Bool
  is_vbr : Bool
  sync_offset : Nat
deriving DecidableEq, Repr, Inhabited

/-- The class `audio_track_t`. The `double` member `duration` holds
`length_pts / 90000.0`, kept here as the exact quotient; the table
`LR_dmx_coef` of `double` coefficients is left out. -/
structure audio_track_t where
  dvda_titleset : Nat
  dvda_title : Nat
  dvda_track : Nat
  track_index : Nat
  track_number : Nat
  block_first : Nat
  block_last : Nat
  duration : ℚ
  track_downmix : Bool
  audio_stream_info : audio_stream_info_t
deriving DecidableEq, Repr

namespace audio_track_t

/-- The method `audio_track_t::check_chmode(chmode, downmix)`. -/
def check_chmode (t : audio_track_t) (chmode : chmode_e) (downmix : Bool) : Bool :=
  let channels := t.audio_stream_info.group1_channels + t.audio_stream_info.group2_channels
  match chmode with
  | chmode_e.CHMODE_TWOCH => decide (channels ≤ 2) || (downmix && t.audio_stream_info.can_downmix)
  | chmode_e.CHMODE_MULCH => decide (channels > 2) && !downmix
  | chmode_e.CHMODE_BOTH => true

end audio_track_t

namespace track_list_t

/-- The static method `track_list_t::get_track_index(titleset, title, track, downmix)`:
`(((titleset & 0xff) + 1) << 16) | (((title + 1) & 0xff) << 8) | ((track + 1) & 0xff) | (downmix ? 0x01000000 : 0)`. -/
def get_track_index (titleset title track : Nat) (downmix : Bool) : Nat :=
  ((((titleset &&& 0xff) + 1) <<< 16) ||| (((title + 1) &&& 0xff) <<< 8) ||| ((track + 1) &&& 0xff))
    ||| (if downmix then 0x01000000 else 0)

/-- What `track_list_t::init` takes from outside the catalog:
`below_threshold length_pts` is the comparison `audio_track.duration < threshold_time`
of `double` values, `get_audio_stream_info ts block_no` the probe of the disc
blocks of the track (`none` when it returns false), and `tag_exists`, when a
metabase is given, the answer `handler.WantTag()` after
`dvda_metabase->get_track_info(track_index, downmix, handler)`. -/
structure InitEnv where
  downmix : Bool
  chmode : chmode_e
  below_threshold : Nat → Bool
  get_audio_stream_info : Nat → Nat → Option audio_stream_info_t
  tag_exists : Option (Nat → Bool → Bool)
  no_untagged : Bool

/-- The body of the innermost loop of `track_list_t::init` for the track
`dvda_track` at the positions `ts`, `ti`, `tr`: the entry to add, if any. -/
def init_track (env : InitEnv) (dvda_titleset : dvda_titleset_t) (dvda_track : dvda_track_t)
    (ts ti tr track_number : Nat) : Option audio_track_t :=
  let block_first := dvda_track.get_first
  let block_last := dvda_track.get_last
  if env.below_threshold dvda_track.length_pts then none
  else
    match env.get_audio_stream_info ts block_first with
    | none => none
    | some info =>
      let track_downmix := env.downmix
      let track_index := get_track_index ts ti tr track_downmix
      let info :=
        if track_downmix && decide (info.stream_id = PCM_STREAM_ID)
            && decide (dvda_track.downmix_matrix ≥ 0) then
          { info with can_downmix := true }
        else info
      let audio_track : audio_track_t :=
        { dvda_titleset := ts + 1
          dvda_title := ti + 1
          dvda_track := tr + 1
          track_number := track_number
          block_first := block_first
          block_last := block_last
          duration := (dvda_track.length_pts : ℚ) / 90000
          track_downmix := track_downmix
          track_index := track_index
          audio_stream_info := info }
      let add_track :=
        if !track_downmix then true
        else if info.can_downmix then audio_track.check_chmode env.chmode env.downmix
        else false
      let add_track :=
        match env.tag_exists with
        | some tag_exists =>
          if add_track && env.no_untagged then tag_exists track_index env.downmix else add_track
        | none => add_track
      if add_track then some audio_track else none

/-- The loop over the tracks of a title, entered at position `tr`, with the
running `track_number` and the list built so far. -/
def init_tracks (env : InitEnv) (dvda_titleset : dvda_titleset_t) (ts ti : Nat) :
    List dvda_track_t → Nat → Nat × List audio_track_t → Nat × List audio_track_t
  | [], _, st => st
  | dvda_track :: rest, tr, (track_number, track_list) =>
    match init_track env dvda_titleset dvda_track ts ti tr track_number with
    | some audio_track =>
      init_tracks env dvda_titleset ts ti rest (tr + 1) (track_number + 1, track_list ++ [audio_track])
    | none => init_tracks env dvda_titleset ts ti rest (tr + 1) (track_number, track_list)

/-- The loop over the titles of a titleset, entered at position `ti`. -/
def init_titles (env : InitEnv) (dvda_titleset : dvda_titleset_t) (ts : Nat) :
    List dvda_title_t → Nat → Nat × List audio_track_t → Nat × List audio_track_t
  | [], _, st => st
  | dvda_title :: rest, ti, st =>
    init_titles env dvda_titleset ts rest (ti + 1)
      (init_tracks env dvda_titleset ts ti dvda_title.dvda_tracks 0 st)

/-- The loop over the titlesets of the zone, entered at position `ts`; only
audio titlesets contribute. -/
def init_titlesets (env : InitEnv) :
    List dvda_titleset_t → Nat → Nat × List audio_track_t → Nat × List audio_track_t
  | [], _, st => st
  | dvda_titleset :: rest, ts, st =>
    init_titlesets env rest (ts + 1)
      (if dvda_titleset.is_audio_ts then
        init_titles env dvda_titleset ts dvda_titleset.dvda_titles 0 st
      else st)

/-- The method `track_list_t::init(dvda_zone, ...)` on an empty list: the
track list it builds. -/
def init (env : InitEnv) (dvda_zone : dvda_zone_t) : List audio_track_t :=
  (init_titlesets env dvda_zone.dvda_titlesets 0 (1, [])).2

end track_list_t

/-! ## `mlp_audio_stream.cpp`: resynchronisation -/

namespace MlpAudioStream

/-- The loop of `mlp_audio_stream_t::resync`, entered at index `i` with the
bytes `buf[i ..]` still to scan and the 32-bit shift register `major_sync`:
```
major_sync = (major_sync << 8) | buf[i];
if ((major_sync & 0xfffffffe) == 0xf8726fba) return i - 7;
```
and `return -1` once the window is exhausted. -/
def resync_loop : List Nat → Nat → Nat → Int
  | [], _, _ => -1
  | b :: rest, i, major_sync =>
    let ms := ((major_sync <<< 8) % 2 ^ 32) ||| b
    if ms &&& 0xfffffffe = 0xf8726fba then (i : Int) - 7 else resync_loop rest (i + 1) ms

/-- The function `mlp_audio_stream_t::resync(buf, buf_size)`: the window is
the list `buf`, `buf_size` its length; the scan starts at `i = 4` with
`major_sync = 0`. -/
def resync (buf : List Nat) : Int := resync_loop (buf.drop 4) 4 0

/-- The major-sync pattern `F8 72 6F BA` (or `F8 72 6F BB`: the lowest bit of
the last byte is masked out) begins at offset `k` of `buf`. -/
def SyncAt (buf : List Nat) (k : Nat) : Prop :=
  buf[k]? = some 0xF8 ∧ buf[k + 1]? = some 0x72 ∧ buf[k + 2]? = some 0x6F ∧
    (buf[k + 3]? = some 0xBA ∨ buf[k + 3]? = some 0xBB)

instance (buf : List Nat) (k : Nat) : Decidable (SyncAt buf k) := by
  unfold SyncAt; infer_instance

end MlpAudioStream

/-! ## `audio_stream.cpp`, `pcm_audio_stream.cpp`: the PCM decoder -/

/-- The ways in which a modelled function fails to return a value: a read
outside the input window, an integer division by zero, a loop that makes no
progress. -/
inductive Fault where
  | out_of_bounds_read
  | division_by_zero
  | no_progress
deriving DecidableEq, Repr

namespace audio_stream_t

/-- The bytes `w` written over `data` from position `pos` on (a write behind
the end of `data` is dropped). -/
def write_bytes : List Nat → Nat → List Nat → List Nat
  | data, _, [] => data
  | data, pos, b :: bs => write_bytes (data.set pos b) (pos + 1) bs

/-- The sample `sample[k]` of the frame at `offset`, as its `w` bytes. -/
def get_sample (w : Nat) (data : List Nat) (offset k : Nat) : List Nat :=
  (List.range w).map (fun b => data.getD (offset + k * w + b) 0)

/-- The assignment `sample[k] = v` in the frame at `offset`. -/
def set_sample (w : Nat) (data : List Nat) (offset k : Nat) (v : List Nat) : List Nat :=
  write_bytes data (offset + k * w) v

/-- The loop `for (int i = 0; i < info.group2_channels; i++) sample[2 + i] = sample[info.group1_channels + i]`,
entered with counter `i` and `n` passes to go. -/
def move_group2 (w group1_channels offset : Nat) : Nat → Nat → List Nat → List Nat
  | 0, _, data => data
  | n + 1, i, data =>
    move_group2 w group1_channels offset n (i + 1)
      (set_sample w data offset (2 + i) (get_sample w data offset (group1_channels + i)))

/-- The body of the reordering loop for the frame at `offset`:
`Ls = sample[2]`, `Rs = sample[3]`, the group-2 samples moved forward,
`Ls` and `Rs` stored behind them. -/
def reorder_frame (w : Nat) (info : audio_stream_info_t) (data : List Nat) (offset : Nat) :
    List Nat :=
  let Ls := get_sample w data offset 2
  let Rs := get_sample w data offset 3
  let data := move_group2 w info.group1_channels offset info.group2_channels 0 data
  let data := set_sample w data offset (2 + info.group2_channels + 0) Ls
  set_sample w data offset (2 + info.group2_channels + 1) Rs

/-- A loop `for (int offset = 0; offset < *data_size; offset += step)` with
the body `body`, entered at `offset`; `data_size` is the length of `data`.
The fuel is spent only when `step` is 0. -/
def frame_loop (step : Nat) (body : List Nat → Nat → List Nat) :
    Nat → Nat → List Nat → Except Fault (List Nat)
  | 0, _, _ => Except.error Fault.no_progress
  | fuel + 1, offset, data =>
    if offset < data.length then frame_loop step body fuel (offset + step) (body data offset)
    else Except.ok data

/-- The method `audio_stream_t::reorder_channels(data, data_size)`; the
buffer is `data`, `*data_size` its length, which the method does not change. -/
def reorder_channels (info : audio_stream_info_t) (data : List Nat) : Except Fault (List Nat) :=
  if info.stream_id = MLP_STREAM_ID ∧ info.stream_type = STREAM_TYPE_TRUEHD then Except.ok data
  else if info.channel_arrangement = 33 then
    if info.group1_bits = 16 then
      frame_loop ((info.group1_channels + info.group2_channels) * 2)
        (fun data offset => set_sample 2 data offset 0 [0, 0]) (data.length + 1) 0 data
    else if info.group1_bits = 20 ∨ info.group1_bits = 24 then
      frame_loop ((info.group1_channels + info.group2_channels) * 4)
        (fun data offset =>
          set_sample 4 (set_sample 4 (set_sample 4 data offset 0 [0, 0, 0, 0]) offset 1 [0, 0, 0, 0])
            offset 2 [0, 0, 0, 0])
        (data.length + 1) 0 data
    else Except.ok data
  else if info.channel_arrangement < 18 then Except.ok data
  else if info.group1_bits = 16 then
    frame_loop ((info.group1_channels + info.group2_channels) * 2) (reorder_frame 2 info)
      (data.length + 1) 0 data
  else if info.group1_bits = 20 ∨ info.group1_bits = 24 then
    frame_loop ((info.group1_channels + info.group2_channels) * 4) (reorder_frame 4 info)
      (data.length + 1) 0 data
  else Except.ok data

/-- The value of a sample of `w` bytes, little-endian and two's complement
(`int16_t` for `w = 2`, `int32_t` for `w = 4`). -/
def sample_value (w : Nat) (bytes : List Nat) : Int :=
  let u : Nat := (List.range w).foldr (fun b acc => bytes.getD b 0 + 256 * acc) 0
  if u < 2 ^ (8 * w - 1) then (u : Int) else (u : Int) - 2 ^ (8 * w)

/-- The `w` bytes of the value `v` converted to a `w`-byte integer. -/
def sample_bytes (w : Nat) (v : Int) : List Nat :=
  (List.range w).map (fun b => ((v / 256 ^ b) % 256).toNat)

/-- The body of a loop of `downmix_channels` for the frame at `offset`: the
samples of the channels below 8 are mixed into `L` and `R`, which are stored
at `dmx_offset` and behind it. `mix 0` and `mix 1` stand for
`conv_sample` of the sums of the samples weighted with `LR_dmx_coef[ch][0]`
and `LR_dmx_coef[ch][1]`, which the source computes in `double`. -/
def downmix_frame (w channels : Nat) (mix : Nat → List Int → Int) (data : List Nat)
    (offset dmx_offset : Nat) : List Nat :=
  let samples := ((List.range channels).filter (fun ch => ch < 8)).map
    (fun ch => sample_value w (get_sample w data offset ch))
  let data := write_bytes data dmx_offset (sample_bytes w (mix 0 samples))
  write_bytes data (dmx_offset + w) (sample_bytes w (mix 1 samples))

/-- A loop `for (int offset = 0; offset < *data_size; offset += channels * sizeof(sample))`
of `downmix_channels`, entered at `offset` with the running `dmx_offset`;
`data_size` is the length of `data`. Returns the data and the final
`dmx_offset`. The fuel is spent only when the step is 0. -/
def downmix_loop (w channels : Nat) (mix : Nat → List Int → Int) :
    Nat → Nat → Nat → List Nat → Except Fault (List Nat × Nat)
  | 0, _, _, _ => Except.error Fault.no_progress
  | fuel + 1, offset, dmx_offset, data =>
    if offset < data.length then
      downmix_loop w channels mix fuel (offset + channels * w) (dmx_offset + 2 * w)
        (downmix_frame w channels mix data offset dmx_offset)
    else Except.ok (data, dmx_offset)

/-- The method `audio_stream_t::downmix_channels(data, data_size)`: the
stereo output is written over the front of `data` and `*data_size` becomes the
final `dmx_offset`; the result is the buffer up to the new `*data_size`. (With
a single channel the output outgrows the input; what would be written behind
the old `*data_size` is dropped.) -/
def downmix_channels (mix : Nat → List Int → Int) (info : audio_stream_info_t) (data : List Nat) :
    Except Fault (List Nat) :=
  let channels := info.group1_channels + info.group2_channels
  if info.group1_bits = 16 then do
    let (data, dmx_offset) ← downmix_loop 2 channels mix (data.length + 1) 0 0 data
    pure (data.take dmx_offset)
  else if info.group1_bits = 20 ∨ info.group1_bits = 24 then do
    let (data, dmx_offset) ← downmix_loop 4 channels mix (data.length + 1) 0 0 data
    pure (data.take dmx_offset)
  else pure []

end audio_stream_t

/-- The class `pcm_audio_stream_t` with the members of `audio_stream_t` that
the PCM decoder uses. Of the statistics only the totals `bits_read` and
`bits_decoded` are kept; the coefficient table `LR_dmx_coef` is left out. -/
structure pcm_audio_stream_t where
  info : audio_stream_info_t
  do_downmix : Bool
  bits_read : Int
  bits_decoded : Int
  raw_group2_index : Nat
  raw_group2_factor : Nat
  raw_group1_size : Nat
  raw_group2_size : Nat
  pcm_sample_size : Nat
  pcm_group1_size : Nat
  pcm_group2_size : Nat
  pcm_group1_pack : List Nat
  pcm_group2_pack : List Nat
deriving DecidableEq, Repr

namespace pcm_audio_stream_t

/-- The assignments of `pcm_audio_stream_t::init` once `info = get_info(buf, buf_size)`
has given the stream info `info`. The quotient
`info.group1_samplerate / info.group2_samplerate` is an integer division, by
zero when group 2 has channels and no valid sample rate. -/
def init (s : pcm_audio_stream_t) (info : audio_stream_info_t) (downmix reset_statistics : Bool) :
    Except Fault pcm_audio_stream_t :=
  if info.group2_channels > 0 ∧ info.group2_samplerate = 0 then
    Except.error Fault.division_by_zero
  else
    Except.ok
      { s with
        info := info
        raw_group2_index := 0
        raw_group2_factor :=
          if info.group2_channels > 0 then info.group1_samplerate / info.group2_samplerate else 1
        raw_group1_size := info.group1_channels * info.group1_bits / 4
        raw_group2_size := info.group2_channels * info.group2_bits / 4
        pcm_sample_size := if info.group1_bits > 16 then 4 else 2
        pcm_group1_size := 2 * info.group1_channels * (if info.group1_bits > 16 then 4 else 2)
        pcm_group2_size := 2 * info.group2_channels * (if info.group1_bits > 16 then 4 else 2)
        do_downmix := downmix
        bits_read := if reset_statistics then 0 else s.bits_read
        bits_decoded := if reset_statistics then 0 else s.bits_decoded }

/-- The read `buf_inp[k]` of the input window, with `buf_inp = buf + p`: a
fault when `p + k` is not below `buf_size`. -/
def rd (buf : List Nat) (p k : Nat) : Except Fault Nat :=
  match buf[p + k]? with
  | some b => Except.ok b
  | none => Except.error Fault.out_of_bounds_read

/-- The bytes that one pass `i` of the group-2 loop stores into
`pcm_group2_pack`. -/
def group2_sample (info : audio_stream_info_t) (buf : List Nat) (p i : Nat) :
    Except Fault (List Nat) :=
  if info.group2_bits = 16 then do
    let b1 ← rd buf p (2 * i + 1)
    let b0 ← rd buf p (2 * i)
    pure ((if info.group1_bits > 16 then [0, 0] else []) ++ [b1, b0])
  else if info.group2_bits = 20 then do
    let nb ← rd buf p (4 * info.group2_channels + i / 2)
    let b1 ← rd buf p (2 * i + 1)
    let b0 ← rd buf p (2 * i)
    pure [0, if i % 2 ≠ 0 then nb &&& 0x0f else nb >>> 4, b1, b0]
  else if info.group2_bits = 24 then do
    let b2 ← rd buf p (4 * info.group2_channels + i)
    let b1 ← rd buf p (2 * i + 1)
    let b0 ← rd buf p (2 * i)
    pure [0, b2, b1, b0]
  else pure []

/-- The bytes that one pass `i` of the group-1 loop stores into
`pcm_group1_pack`; `buf_inp[...] << 4` is stored into a `uint8_t`. -/
def group1_sample (info : audio_stream_info_t) (buf : List Nat) (p i : Nat) :
    Except Fault (List Nat) :=
  if info.group1_bits = 16 then do
    let b1 ← rd buf p (2 * i + 1)
    let b0 ← rd buf p (2 * i)
    pure [b1, b0]
  else if info.group1_bits = 20 then do
    let nb ← rd buf p (4 * info.group1_channels + i / 2)
    let b1 ← rd buf p (2 * i + 1)
    let b0 ← rd buf p (2 * i)
    pure [0, if i % 2 ≠ 0 then (nb <<< 4) % 256 else nb &&& 0xf0, b1, b0]
  else if info.group1_bits = 24 then do
    let b2 ← rd buf p (4 * info.group1_channels + i)
    let b1 ← rd buf p (2 * i + 1)
    let b0 ← rd buf p (2 * i)
    pure [0, b2, b1, b0]
  else pure []

/-- A loop `for (int i = 0; i < 2 * channels; i++)` over the samples of a
group, entered with counter `i` and `n` passes to go: the bytes stored into
the pack array, in order. -/
def unpack_samples (sample : Nat → Except Fault (List Nat)) : Nat → Nat → Except Fault (List Nat)
  | 0, _ => pure []
  | n + 1, i => do
    let bytes ← sample i
    let rest ← unpack_samples sample n (i + 1)
    pure (bytes ++ rest)

/-- The state of the loop of `decode`: the offset `buf_inp - buf`, the output
written so far, `raw_group2_index` and the two pack arrays. -/
structure LoopState where
  inp : Nat
  out : List Nat
  raw_group2_index : Nat
  pcm_group1_pack : List Nat
  pcm_group2_pack : List Nat
deriving DecidableEq, Repr

/-- The size of the next access unit:
`raw_group1_size + (raw_group2_index == 0 ? raw_group2_size : 0)`. -/
def unit_size (s : pcm_audio_stream_t) (raw_group2_index : Nat) : Nat :=
  s.raw_group1_size + (if raw_group2_index = 0 then s.raw_group2_size else 0)

/-- The body of the `while` loop of `decode`. A pack array keeps what the
bytes stored into it do not overwrite. -/
def decode_unit (s : pcm_audio_stream_t) (buf : List Nat) (st : LoopState) :
    Except Fault LoopState := do
  let (inp, pack2) ←
    if st.raw_group2_index = 0 then do
      let bytes ← unpack_samples (group2_sample s.info buf st.inp) (2 * s.info.group2_channels) 0
      pure (st.inp + s.raw_group2_size, bytes ++ st.pcm_group2_pack.drop bytes.length)
    else pure (st.inp, st.pcm_group2_pack)
  let raw_group2_index := st.raw_group2_index + 1
  let raw_group2_index := if raw_group2_index = s.raw_group2_factor then 0 else raw_group2_index
  let bytes ← unpack_samples (group1_sample s.info buf inp) (2 * s.info.group1_channels) 0
  let pack1 := bytes ++ st.pcm_group1_pack.drop bytes.length
  let inp := inp + s.raw_group1_size
  let out := st.out
    ++ pack1.take (s.pcm_group1_size / 2)
    ++ pack2.take (s.pcm_group2_size / 2)
    ++ (pack1.drop (s.pcm_group1_size / 2)).take (s.pcm_group1_size / 2)
    ++ (pack2.drop (s.pcm_group2_size / 2)).take (s.pcm_group2_size / 2)
  pure
    { inp := inp, out := out, raw_group2_index := raw_group2_index,
      pcm_group1_pack := pack1, pcm_group2_pack := pack2 }

/-- The `while` loop of `decode`,
`while (buf_inp + raw_group1_size + (raw_group2_index == 0 ? raw_group2_size : 0) <= buf + buf_size)`,
with `buf_size` already cut to `DVD_BLOCK_SIZE` (`limit`). The fuel is
`limit + 1` and is spent only when passes consume no input. -/
def decode_loop (s : pcm_audio_stream_t) (buf : List Nat) (limit : Nat) :
    Nat → LoopState → Except Fault LoopState
  | 0, _ => Except.error Fault.no_progress
  | fuel + 1, st =>
    if st.inp + unit_size s st.raw_group2_index ≤ limit then
      match decode_unit s buf st with
      | Except.ok st => decode_loop s buf limit fuel st
      | Except.error e => Except.error e
    else Except.ok st

/-- An integer division `a / b` of the source. -/
def idiv (a b : Nat) : Except Fault Nat :=
  if b = 0 then Except.error Fault.division_by_zero else Except.ok (a / b)

/-- The result of `decode`: the decoder afterwards, the output `data` (whose
length is `*data_size`) and the value returned, `bytes_decoded`. -/
structure DecodeResult where
  stream : pcm_audio_stream_t
  data : List Nat
  bytes_decoded : Nat
deriving DecidableEq, Repr

/-- The method `pcm_audio_stream_t::decode(data, data_size, buf, buf_size)`;
the window is `buf`, `buf_size` its length; `mix` is the mixing of
`audio_stream_t::downmix_channels`. -/
def decode (mix : Nat → List Int → Int) (s : pcm_audio_stream_t) (buf : List Nat) :
    Except Fault DecodeResult := do
  let buf_size := if buf.length > DVD_BLOCK_SIZE then DVD_BLOCK_SIZE else buf.length
  let st ← decode_loop s buf buf_size (buf_size + 1)
    { inp := 0, out := [], raw_group2_index := s.raw_group2_index,
      pcm_group1_pack := s.pcm_group1_pack, pcm_group2_pack := s.pcm_group2_pack }
  let data_size := st.out.length
  let bytes_decoded := st.inp
  let buf_bits_read := 8 * bytes_decoded
  let q ← idiv data_size s.pcm_sample_size
  let buf_samples_decoded ← idiv q (s.info.group1_channels + s.info.group2_channels)
  let r ← idiv (s.info.group2_channels * s.info.group2_bits * s.info.group2_samplerate)
    s.info.group1_samplerate
  let buf_bits_decoded := buf_samples_decoded * (s.info.group1_channels * s.info.group1_bits + r)
  let data ←
    if !s.do_downmix then audio_stream_t.reorder_channels s.info st.out
    else if !s.info.can_downmix then do
      let data ← audio_stream_t.reorder_channels s.info st.out
      audio_stream_t.downmix_channels mix s.info data
    else pure st.out
  pure
    { stream :=
        { s with
          raw_group2_index := st.raw_group2_index
          pcm_group1_pack := st.pcm_group1_pack
          pcm_group2_pack := st.pcm_group2_pack
          bits_read := s.bits_read + buf_bits_read
          bits_decoded := s.bits_decoded + buf_bits_decoded }
      data := data
      bytes_decoded := bytes_decoded }

end pcm_audio_stream_t

/-! ## Notions for the statements about the PCM decoder -/

namespace pcm_audio_stream_t

/-- The sizes of a decoder are those that `init` computes from its stream
info. -/
def Initialised (s : pcm_audio_stream_t) : Prop :=
  s.raw_group1_size = s.info.group1_channels * s.info.group1_bits / 4 ∧
  s.raw_group2_size = s.info.group2_channels * s.info.group2_bits / 4 ∧
  s.pcm_sample_size = (if s.info.group1_bits > 16 then 4 else 2) ∧
  s.pcm_group1_size = 2 * s.info.group1_channels * (if s.info.group1_bits > 16 then 4 else 2) ∧
  s.pcm_group2_size = 2 * s.info.group2_channels * (if s.info.group1_bits > 16 then 4 else 2)

/-- The value of `raw_group2_index` after an access unit:
`raw_group2_index++; if (raw_group2_index == raw_group2_factor) raw_group2_index = 0`. -/
def next_index (s : pcm_audio_stream_t) (raw_group2_index : Nat) : Nat :=
  if raw_group2_index + 1 = s.raw_group2_factor then 0 else raw_group2_index + 1

/-- The total size of `n` consecutive access units, the first with the given
`raw_group2_index`: an access unit is a group-1 block, preceded by a group-2
block when `raw_group2_index` is 0. -/
def units_size (s : pcm_audio_stream_t) : Nat → Nat → Nat
  | _, 0 => 0
  | raw_group2_index, n + 1 =>
    unit_size s raw_group2_index + units_size s (next_index s raw_group2_index) n

/-- A bit depth of PCM samples: 16, 20 or 24. -/
def IsDepth (b : Nat) : Prop := b = 16 ∨ b = 20 ∨ b = 24

instance (s : pcm_audio_stream_t) : Decidable (Initialised s) := by
  unfold Initialised; infer_instance

instance (b : Nat) : Decidable (IsDepth b) := by
  unfold IsDepth; infer_instance

end pcm_audio_stream_t

namespace pcm_audio_stream_t

/-- The bytes of pass `i` of the group-1 loop, read without bounds checks. -/
def group1_bytes (info : audio_stream_info_t) (buf : List Nat) (p i : Nat) : List Nat :=
  if info.group1_bits = 16 then [buf.getD (p + (2 * i + 1)) 0, buf.getD (p + 2 * i) 0]
  else if info.group1_bits = 20 then
    [0, if i % 2 ≠ 0 then (buf.getD (p + (4 * info.group1_channels + i / 2)) 0 <<< 4) % 256
        else buf.getD (p + (4 * info.group1_channels + i / 2)) 0 &&& 0xf0,
      buf.getD (p + (2 * i + 1)) 0, buf.getD (p + 2 * i) 0]
  else if info.group1_bits = 24 then
    [0, buf.getD (p + (4 * info.group1_channels + i)) 0,
      buf.getD (p + (2 * i + 1)) 0, buf.getD (p + 2 * i) 0]
  else []

/-- The bytes of pass `i` of the group-2 loop, read without bounds checks. -/
def group2_bytes (info : audio_stream_info_t) (buf : List Nat) (p i : Nat) : List Nat :=
  if info.group2_bits = 16 then
    (if info.group1_bits > 16 then [0, 0] else []) ++
      [buf.getD (p + (2 * i + 1)) 0, buf.getD (p + 2 * i) 0]
  else if info.group2_bits = 20 then
    [0, if i % 2 ≠ 0 then buf.getD (p + (4 * info.group2_channels + i / 2)) 0 &&& 0x0f
        else buf.getD (p + (4 * info.group2_channels + i / 2)) 0 >>> 4,
      buf.getD (p + (2 * i + 1)) 0, buf.getD (p + 2 * i) 0]
  else if info.group2_bits = 24 then
    [0, buf.getD (p + (4 * info.group2_channels + i)) 0,
      buf.getD (p + (2 * i + 1)) 0, buf.getD (p + 2 * i) 0]
  else []

/-- The concatenation of `f i`, `f (i + 1)`, ... over `n` passes. -/
def concat_from (f : Nat → List Nat) : Nat → Nat → List Nat
  | 0, _ => []
  | n + 1, i => f i ++ concat_from f n (i + 1)

/-- The body of the loop of `decode` with the reads made without bounds
checks. -/
def unit_pure (s : pcm_audio_stream_t) (buf : List Nat) (st : LoopState) : LoopState :=
  let inp := if st.raw_group2_index = 0 then st.inp + s.raw_group2_size else st.inp
  let pack2 :=
    if st.raw_group2_index = 0 then
      concat_from (group2_bytes s.info buf st.inp) (2 * s.info.group2_channels) 0 ++
        st.pcm_group2_pack.drop
          (concat_from (group2_bytes s.info buf st.inp) (2 * s.info.group2_channels) 0).length
    else st.pcm_group2_pack
  let pack1 :=
    concat_from (group1_bytes s.info buf inp) (2 * s.info.group1_channels) 0 ++
      st.pcm_group1_pack.drop
        (concat_from (group1_bytes s.info buf inp) (2 * s.info.group1_channels) 0).length
  { inp := inp + s.raw_group1_size
    out := st.out
      ++ pack1.take (s.pcm_group1_size / 2)
      ++ pack2.take (s.pcm_group2_size / 2)
      ++ (pack1.drop (s.pcm_group1_size / 2)).take (s.pcm_group1_size / 2)
      ++ (pack2.drop (s.pcm_group2_size / 2)).take (s.pcm_group2_size / 2)
    raw_group2_index := next_index s st.raw_group2_index
    pcm_group1_pack := pack1
    pcm_group2_pack := pack2 }

/-- The loop state after `n` passes. -/
def units_pure (s : pcm_audio_stream_t) (buf : List Nat) : Nat → LoopState → LoopState
  | 0, st => st
  | n + 1, st => units_pure s buf n (unit_pure s buf st)

/-- The output of one pass of the loop of `decode`: the first halves of the
two pack arrays, then their second halves. -/
def chunk (s : pcm_audio_stream_t) (buf : List Nat) (st : LoopState) : List Nat :=
  (unit_pure s buf st).pcm_group1_pack.take (s.pcm_group1_size / 2)
    ++ (unit_pure s buf st).pcm_group2_pack.take (s.pcm_group2_size / 2)
    ++ ((unit_pure s buf st).pcm_group1_pack.drop (s.pcm_group1_size / 2)).take
        (s.pcm_group1_size / 2)
    ++ ((unit_pure s buf st).pcm_group2_pack.drop (s.pcm_group2_size / 2)).take
        (s.pcm_group2_size / 2)

/-- The output of `n` passes. -/
def chunks (s : pcm_audio_stream_t) (buf : List Nat) : Nat → LoopState → List Nat
  | 0, _ => []
  | n + 1, st => chunk s buf st ++ chunks s buf n (unit_pure s buf st)

/-- Two loop states that differ at most in the output written so far. -/
def Agree (a b : LoopState) : Prop :=
  a.inp = b.inp ∧ a.raw_group2_index = b.raw_group2_index ∧
    a.pcm_group1_pack = b.pcm_group1_pack ∧ a.pcm_group2_pack = b.pcm_group2_pack

/-- The hypotheses on the stream of the lossless decoding: sizes as `init`
sets them, a group-1 depth of 16, 20 or 24 bits, and group 2 absent or of such
a depth not above that of group 1. -/
def Lossless (s : pcm_audio_stream_t) : Prop :=
  Initialised s ∧ IsDepth s.info.group1_bits ∧
    (s.info.group2_channels = 0 ∨
      (IsDepth s.info.group2_bits ∧ s.info.group2_bits ≤ s.info.group1_bits))

end pcm_audio_stream_t

/-! ## `audio_stream.cpp`: `conv_sample` -/

namespace audio_stream_t

/-- The conversion `(int32_t)sample` of a `double` inside the range of
`int32_t`: the fraction is dropped, towards zero. -/
def to_int32_trunc {F : Type} [LinearOrderedField F] [FloorRing F] (sample : F) : Int :=
  if 0 ≤ sample then ⌊sample⌋ else ⌈sample⌉

/-- The limit `lim` of `conv_sample`:
`(double)(((uint32_t)1 << ((info.group1_bits > 16 ? 32 : 16) - 1)) - 1)`. -/
def conv_lim (info : audio_stream_info_t) : Nat :=
  ((1 <<< ((if info.group1_bits > 16 then 32 else 16) - 1)) % 2 ^ 32 - 1) % 2 ^ 32

/-- The method `audio_stream_t::conv_sample(sample)`, the `double` values
taken as exact numbers of the ordered field `F`. -/
def conv_sample {F : Type} [LinearOrderedField F] [FloorRing F] (info : audio_stream_info_t)
    (sample : F) : Int :=
  let lim : F := (conv_lim info : F)
  let sample := sample + 1 / 2
  let sample := if sample > lim then lim else if sample < -lim then -lim else sample
  to_int32_trunc sample

end audio_stream_t

/-! ## `pcm_audio_stream.cpp`: `get_info` and `init` on a header -/

namespace pcm_audio_stream_t

/-- What `get_info` and `init` take from `audio_stream_info.cpp`, which is
not part of the sources: the object that the constructor
`audio_stream_info_t()` makes, the channel counts `group1_channels` and
`group2_channels` of the entries of `mlppcm_table`, and `operator bool`. -/
structure InfoEnv where
  fresh_info : audio_stream_info_t
  mlppcm_table : Nat → Nat × Nat
  is_valid : audio_stream_info_t → Bool

/-- The size `sizeof(pcm_header_t)`: nine bytes of members, aligned to the
`uint16_t` member. -/
def sizeof_pcm_header_t : Nat := 10

/-- The sample rate that `get_info` computes from a 4-bit code:
`(code & 7) > 2 ? 0 : code & 8 ? 44100 << (code & 7) : 48000 << (code & 7)`. -/
def samplerate_of_code (code : Nat) : Nat :=
  if (code &&& 7) > 2 then 0
  else if code &&& 8 ≠ 0 then 44100 <<< (code &&& 7) else 48000 <<< (code &&& 7)

/-- The bit depth that `get_info` computes from a 4-bit code:
`code > 2 ? 0 : 16 + code * 4`. -/
def bits_of_code (code : Nat) : Nat :=
  if code > 2 then 0 else 16 + code * 4

/-- The method `pcm_audio_stream_t::get_info(buf, buf_size)` on a buffer of
bytes. Byte 3 of `pcm_header_t` holds `group2_bits` in its low and
`group1_bits` in its high four bits, byte 4 the two sample rate codes
likewise, byte 6 is `channel_assignment`. -/
def get_info (env : InfoEnv) (buf : List Nat) : audio_stream_info_t :=
  let si := env.fresh_info
  if buf.length ≥ sizeof_pcm_header_t then
    let channel_assignment := buf.getD 6 0
    if channel_assignment ≤ 20 then
      let group1_channels := (env.mlppcm_table channel_assignment).1
      let group2_channels := (env.mlppcm_table channel_assignment).2
      let group1_bits := bits_of_code (buf.getD 3 0 / 16)
      let group2_bits := bits_of_code (buf.getD 3 0 % 16)
      let group1_samplerate := samplerate_of_code (buf.getD 4 0 / 16)
      let group2_samplerate := samplerate_of_code (buf.getD 4 0 % 16)
      { si with
        stream_id := PCM_STREAM_ID
        channel_arrangement := channel_assignment
        group1_channels := group1_channels
        group2_channels := group2_channels
        group1_bits := group1_bits
        group2_bits := group2_bits
        group1_samplerate := group1_samplerate
        group2_samplerate := group2_samplerate
        bitrate := group1_channels * group1_bits * group1_samplerate
          + group2_channels * group2_bits * group2_samplerate
        can_downmix := false
        is_vbr := false
        sync_offset := 0 }
    else si
  else si

/-- The method `pcm_audio_stream_t::init(buf, buf_size, downmix, reset_statistics)`:
the value returned and the decoder afterwards. -/
def init_header (env : InfoEnv) (s : pcm_audio_stream_t) (buf : List Nat)
    (downmix reset_statistics : Bool) : Except Fault (Int × pcm_audio_stream_t) :=
  let info := get_info env buf
  if env.is_valid info = false then Except.ok (-1, { s with info := info })
  else
    match init s info downmix reset_statistics with
    | Except.ok s => Except.ok (0, s)
    | Except.error f => Except.error f

end pcm_audio_stream_t

/-! ## `audio_stream.cpp`: the sums of `downmix_channels` -/

namespace audio_stream_t

/-- The size of a sample of the decoded data: `sizeof(int16_t)` for 16 bits,
`sizeof(int32_t)` for 20 and 24 bits. -/
def sample_size (info : audio_stream_info_t) : Nat :=
  if info.group1_bits = 16 then 2 else 4

end audio_stream_t

/-! ## `audio_stream.cpp`: the reordering of a frame, sample by sample -/

namespace audio_stream_t

/-- The loop `move_group2` on a frame as a list of samples: with `n` passes
to go, sample `2 + i` takes the value of sample `group1_channels + i`. -/
def move_samples (group1_channels : Nat) : Nat → Nat → List (List Nat) → List (List Nat)
  | 0, _, frame => frame
  | n + 1, i, frame =>
    move_samples group1_channels n (i + 1)
      (frame.set (2 + i) (frame.getD (group1_channels + i) []))

/-- The body `reorder_frame` on a frame as a list of samples. -/
def reorder_samples (info : audio_stream_info_t) (frame : List (List Nat)) : List (List Nat) :=
  ((move_samples info.group1_channels info.group2_channels 0 frame).set
    (2 + info.group2_channels + 0) (frame.getD 2 [])).set
      (2 + info.group2_channels + 1) (frame.getD 3 [])

/-- The frame `[Lf, Rf, x1..xg, Ls, Rs]` that the specification gives for
the frame `[Lf, Rf, Ls, Rs, x1..xg]`. -/
def reordered (frame : List (List Nat)) : List (List Nat) :=
  frame.take 2 ++ frame.drop 4 ++ (frame.drop 2).take 2

/-- The bytes of a buffer of frames, each a list of samples. -/
def frames_bytes (frames : List (List (List Nat))) : List Nat :=
  (frames.map List.flatten).flatten

end audio_stream_t

/-! ## `dst_engine.h`: the parallel codec pipeline -/

/-- The enumeration `model_e`. -/
inductive model_e where
  | MT
  | MPP
deriving DecidableEq, Repr

/-- The enumeration `slot_state_t`. -/
inductive slot_state_t where
  | SLOT_EMPTY
  | SLOT_LOADED
  | SLOT_RUNNING
  | SLOT_READY
  | SLOT_READY_WITH_ERROR
  | SLOT_TERMINATING
deriving DecidableEq, Repr

/-- The template parameter `codec_t` with state type `σ`: `run state inp bits out`
is `codec.run(inp_data.data(), 8 * inp_data.size(), out_data.data())` and gives
the state of the codec afterwards, the error code returned and the output
buffer as the codec leaves it. -/
structure codec_t (σ : Type) where
  run : σ → List Nat → Nat → List Nat → σ × Int × List Nat

/-- The class `dst_slot_t<codec_t>`; a semaphore is its counter, and the
thread of the slot is what `worker_pass` does. -/
structure dst_slot_t (σ : Type) where
  inp_semaphore : Nat
  out_semaphore : Nat
  codec : σ
  state : slot_state_t
  inp_data : List Nat
  out_data : List Nat

/-- The class `dst_engine_t<codec_t, model>`. -/
structure dst_engine_t (σ : Type) where
  slots : List (dst_slot_t σ)
  slot_index : Nat
  out_size : Nat
  run_threads : Bool

namespace dst_slot_t

/-- The slot that the constructor `dst_slot_t()` makes, with codec state `c`. -/
def fresh {σ : Type} (c : σ) : dst_slot_t σ :=
  { inp_semaphore := 0, out_semaphore := 0, codec := c, state := slot_state_t.SLOT_EMPTY,
    inp_data := [], out_data := [] }

/-- One pass of the loop of `dst_slot_t::run(running)` with `running` true,
from the return of `inp_semaphore.acquire()` to `out_semaphore.release()`;
the pass can be made when `inp_semaphore` is positive. -/
def worker_pass {σ : Type} (codec : codec_t σ) (slot : dst_slot_t σ) : dst_slot_t σ :=
  let slot := { slot with inp_semaphore := slot.inp_semaphore - 1 }
  let slot :=
    if !slot.inp_data.isEmpty then
      let r := codec.run slot.codec slot.inp_data (8 * slot.inp_data.length) slot.out_data
      { slot with
        codec := r.1
        out_data := r.2.2
        state :=
          if r.2.1 = 0 then slot_state_t.SLOT_READY else slot_state_t.SLOT_READY_WITH_ERROR }
    else { slot with out_data := [] }
  { slot with out_semaphore := slot.out_semaphore + 1 }

/-- A step of the thread of the slot: a pass of its loop when the input
semaphore lets it run, nothing while it is blocked in `acquire`. -/
def worker_step {σ : Type} (codec : codec_t σ) (slot : dst_slot_t σ) : dst_slot_t σ :=
  if slot.inp_semaphore > 0 then worker_pass codec slot else slot

/-- The call `out_semaphore.acquire()` of the engine thread on this slot. It
returns at once when the counter is positive. Otherwise the engine thread
waits for the worker of the slot, which first has to make its pass; when the
worker is itself blocked, no one is left to release either semaphore and the
call never returns (`none`). -/
def acquire_out {σ : Type} (codec : codec_t σ) (slot : dst_slot_t σ) : Option (dst_slot_t σ) :=
  if slot.out_semaphore > 0 then some { slot with out_semaphore := slot.out_semaphore - 1 }
  else if slot.inp_semaphore > 0 then
    let slot := worker_pass codec slot
    some { slot with out_semaphore := slot.out_semaphore - 1 }
  else none

end dst_slot_t

namespace dst_engine_t

/-- The call `v.resize(n)` on a byte vector: cut, or filled up with zeros. -/
def vector_resize (v : List Nat) (n : Nat) : List Nat :=
  v.take n ++ List.replicate (n - v.length) 0

/-- The engine after the constructor `dst_engine_t(num_threads)` and `init`:
`n` fresh slots, the codec of slot `i` in the state `c0 i`, and `out_size` as
`init` computed it. -/
def fresh {σ : Type} (c0 : Nat → σ) (n out_size : Nat) : dst_engine_t σ :=
  { slots := (List.range n).map (fun i => dst_slot_t.fresh (c0 i))
    slot_index := 0, out_size := out_size, run_threads := true }

/-- A step of the worker thread of slot `i`. -/
def worker_step {σ : Type} (codec : codec_t σ) (e : dst_engine_t σ) (i : Nat) : dst_engine_t σ :=
  match e.slots[i]? with
  | some slot => { e with slots := e.slots.set i (dst_slot_t.worker_step codec slot) }
  | none => e

/-- The worker threads scheduled in the order `schedule`, one step each time
a slot is named. -/
def workers {σ : Type} (codec : codec_t σ) (schedule : List Nat) (e : dst_engine_t σ) :
    dst_engine_t σ :=
  schedule.foldl (worker_step codec) e

/-- The method `dst_engine_t::run(dsx_data)`: the engine afterwards and the
buffer `dsx_data` as the call leaves it (its size is the value returned). The
worker threads run concurrently with the call: `before` schedules their steps
before the slot is loaded, `during` those between the loading and the wait on
the output semaphore, where the engine thread further waits for the worker of
the slot it collects. -/
def run {σ : Type} (codec : codec_t σ) (model : model_e) (before during : List Nat)
    (e : dst_engine_t σ) (dsx_data : List Nat) : Option (dst_engine_t σ × List Nat) :=
  let e := workers codec before e
  match e.slots[e.slot_index]? with
  | none => none
  | some slot_set =>
    let slot_set :=
      { slot_set with
        inp_data := dsx_data
        out_data := vector_resize slot_set.out_data e.out_size }
    let slot_set :=
      if !slot_set.inp_data.isEmpty then
        { slot_set with
          state := slot_state_t.SLOT_LOADED
          inp_semaphore :=
            if model = model_e.MT then slot_set.inp_semaphore + 1 else slot_set.inp_semaphore }
      else { slot_set with state := slot_state_t.SLOT_EMPTY }
    let slots := e.slots.set e.slot_index slot_set
    let slots :=
      if model = model_e.MPP ∧ e.slot_index = slots.length - 1 then
        slots.map (fun slot => { slot with inp_semaphore := slot.inp_semaphore + 1 })
      else slots
    let slot_index := (e.slot_index + 1) % slots.length
    let e := workers codec during { e with slots := slots, slot_index := slot_index }
    match e.slots[slot_index]? with
    | none => none
    | some slot_get =>
      let acquired :=
        if slot_get.state ≠ slot_state_t.SLOT_EMPTY then dst_slot_t.acquire_out codec slot_get
        else some slot_get
      match acquired with
      | none => none
      | some slot_get =>
        if slot_get.state = slot_state_t.SLOT_READY ∨
            slot_get.state = slot_state_t.SLOT_READY_WITH_ERROR then
          some ({ e with slots := e.slots.set slot_index { slot_get with out_data := [] } },
            slot_get.out_data)
        else some ({ e with slots := e.slots.set slot_index slot_get }, [])

/-- Successive calls of `run` on the frames `frame k`, `frame (k + 1)`, ...,
`m` calls in all, the worker threads scheduled by `schedule k` around call
`k`: the engine afterwards and the buffers returned, in order. -/
def run_calls {σ : Type} (codec : codec_t σ) (model : model_e)
    (schedule : Nat → List Nat × List Nat) (frame : Nat → List Nat) :
    Nat → Nat → dst_engine_t σ → Option (dst_engine_t σ × List (List Nat))
  | 0, _, e => some (e, [])
  | m + 1, k, e =>
    match run codec model (schedule k).1 (schedule k).2 e (frame k) with
    | none => none
    | some (e, out) =>
      match run_calls codec model schedule frame m (k + 1) e with
      | none => none
      | some (e, outs) => some (e, out :: outs)

/-- The state of the codec of slot `i` before it decodes its frame of round
`r`, the frame `frame (r * n + i)`: every slot decodes its frames in order,
each into a zeroed buffer of `out_size` bytes. -/
def codec_before {σ : Type} (codec : codec_t σ) (c0 : Nat → σ) (n out_size : Nat)
    (frame : Nat → List Nat) : Nat → Nat → σ
  | 0, i => c0 i
  | r + 1, i =>
    (codec.run (codec_before codec c0 n out_size frame r i) (frame (r * n + i))
      (8 * (frame (r * n + i)).length) (List.replicate out_size 0)).1

/-- The result of `codec.run` on the frame of round `r` of slot `i`. -/
def codec_result {σ : Type} (codec : codec_t σ) (c0 : Nat → σ) (n out_size : Nat)
    (frame : Nat → List Nat) (r i : Nat) : σ × Int × List Nat :=
  codec.run (codec_before codec c0 n out_size frame r i) (frame (r * n + i))
    (8 * (frame (r * n + i)).length) (List.replicate out_size 0)

/-- The decoded output of the frame `frame j`: what the codec of its slot
`j % n` writes for it, after the earlier frames of that slot. -/
def decoded {σ : Type} (codec : codec_t σ) (c0 : Nat → σ) (n out_size : Nat)
    (frame : Nat → List Nat) (j : Nat) : List Nat :=
  (codec_result codec c0 n out_size frame (j / n) (j % n)).2.2

end dst_engine_t

/-! ## The parallel codec pipeline: the invariant of `run` -/

namespace dst_engine_t

/-- A slot that holds the non-empty frame `f`, not yet decoded; `released`
tells whether its input semaphore has been released. -/
def slot_loaded {σ : Type} (released : Bool) (c : σ) (f : List Nat) (out_size : Nat) :
    dst_slot_t σ :=
  { inp_semaphore := if released then 1 else 0, out_semaphore := 0, codec := c,
    state := slot_state_t.SLOT_LOADED, inp_data := f, out_data := List.replicate out_size 0 }

/-- A slot whose worker has decoded the frame `f` with the result `res` and
released the output semaphore. -/
def slot_done {σ : Type} (res : σ × Int × List Nat) (f : List Nat) : dst_slot_t σ :=
  { inp_semaphore := 0, out_semaphore := 1, codec := res.1,
    state := if res.2.1 = 0 then slot_state_t.SLOT_READY else slot_state_t.SLOT_READY_WITH_ERROR,
    inp_data := f, out_data := res.2.2 }

/-- A slot whose decoded frame has been collected. -/
def slot_collected {σ : Type} (res : σ × Int × List Nat) (f : List Nat) : dst_slot_t σ :=
  { inp_semaphore := 0, out_semaphore := 0, codec := res.1,
    state := if res.2.1 = 0 then slot_state_t.SLOT_READY else slot_state_t.SLOT_READY_WITH_ERROR,
    inp_data := f, out_data := [] }

/-- The slots of an engine of `n` slots satisfy the family `P` of predicates. -/
def Slots {σ : Type} (n : Nat) (P : Nat → dst_slot_t σ → Prop) (e : dst_engine_t σ) : Prop :=
  e.slots.length = n ∧ ∀ i, i < n → ∃ slot, e.slots[i]? = some slot ∧ P i slot

section
variable {σ : Type} (codec : codec_t σ) (c0 : Nat → σ) (n out_size : Nat) (frame : Nat → List Nat)

/-- Slot `i` holds its frame of round `r`, released to its worker: not yet
decoded, or decoded and not yet collected. -/
def Released (r i : Nat) (slot : dst_slot_t σ) : Prop :=
  slot = slot_loaded true (codec_before codec c0 n out_size frame r i) (frame (r * n + i)) out_size ∨
  slot = slot_done (codec_result codec c0 n out_size frame r i) (frame (r * n + i))

/-- Slot `i` holds its frame of round `r`, loaded in this round: released at
once in the model `MT`, not yet released in the model `MPP`. -/
def Pending (model : model_e) (r i : Nat) (slot : dst_slot_t σ) : Prop :=
  match model with
  | model_e.MT => Released codec c0 n out_size frame r i slot
  | model_e.MPP =>
    slot = slot_loaded false (codec_before codec c0 n out_size frame r i) (frame (r * n + i))
      out_size

/-- Slot `i` before round `q` reaches it: fresh in round 0, else with its
frame of the round before, released. -/
def Earlier (q i : Nat) (slot : dst_slot_t σ) : Prop :=
  (q = 0 → slot = dst_slot_t.fresh (c0 i)) ∧
  (∀ r, q = r + 1 → Released codec c0 n out_size frame r i slot)

/-- The slot at `slot_index` between two calls, in round `q`: fresh in round
0, else with its frame of the round before collected. -/
def AtIndex (q i : Nat) (slot : dst_slot_t σ) : Prop :=
  (q = 0 → slot = dst_slot_t.fresh (c0 i)) ∧
  (∀ r, q = r + 1 →
    slot = slot_collected (codec_result codec c0 n out_size frame r i) (frame (r * n + i)))

/-- The slots while round `q` has loaded the slots below `t`. -/
def Thresh (model : model_e) (q t i : Nat) (slot : dst_slot_t σ) : Prop :=
  if i < t then Pending codec c0 n out_size frame model q i slot
  else Earlier codec c0 n out_size frame q i slot

/-- The invariant between two calls of `run`, before the call that loads slot
`p` in round `q`. -/
def Between (model : model_e) (q p : Nat) (e : dst_engine_t σ) : Prop :=
  e.slot_index = p ∧ e.out_size = out_size ∧
  Slots n (fun i slot =>
    if i = p then AtIndex codec c0 n out_size frame q i slot
    else Thresh codec c0 n out_size frame model q p i slot) e

end


/-- The part of `run` that loads the frame `dsx_data` into the slot. -/
def load {σ : Type} (model : model_e) (out_size : Nat) (slot_set : dst_slot_t σ)
    (dsx_data : List Nat) : dst_slot_t σ :=
  let slot_set :=
    { slot_set with
      inp_data := dsx_data
      out_data := vector_resize slot_set.out_data out_size }
  if !slot_set.inp_data.isEmpty then
    { slot_set with
      state := slot_state_t.SLOT_LOADED
      inp_semaphore :=
        if model = model_e.MT then slot_set.inp_semaphore + 1 else slot_set.inp_semaphore }
  else { slot_set with state := slot_state_t.SLOT_EMPTY }

/-- The part of `run` that releases all the workers in the model `MPP`. -/
def release_all {σ : Type} (model : model_e) (slot_index : Nat) (slots : List (dst_slot_t σ)) :
    List (dst_slot_t σ) :=
  if model = model_e.MPP ∧ slot_index = slots.length - 1 then
    slots.map (fun slot => { slot with inp_semaphore := slot.inp_semaphore + 1 })
  else slots

/-- The part of `run` that collects the slot `slot_index`. -/
def collect {σ : Type} (codec : codec_t σ) (e : dst_engine_t σ) (slot_index : Nat) :
    Option (dst_engine_t σ × List Nat) :=
  match e.slots[slot_index]? with
  | none => none
  | some slot_get =>
    let acquired :=
      if slot_get.state ≠ slot_state_t.SLOT_EMPTY then dst_slot_t.acquire_out codec slot_get
      else some slot_get
    match acquired with
    | none => none
    | some slot_get =>
      if slot_get.state = slot_state_t.SLOT_READY ∨
          slot_get.state = slot_state_t.SLOT_READY_WITH_ERROR then
        some ({ e with slots := e.slots.set slot_index { slot_get with out_data := [] } },
          slot_get.out_data)
      else some ({ e with slots := e.slots.set slot_index slot_get }, [])

/-- What a call of `run` returns when it collects slot `t` in round `q`:
nothing in round 0, else the output of the frame of the round before. -/
def collected_output {σ : Type} (codec : codec_t σ) (c0 : Nat → σ) (n out_size : Nat)
    (frame : Nat → List Nat) : Nat → Nat → List Nat
  | 0, _ => []
  | r + 1, t => (codec_result codec c0 n out_size frame r t).2.2

/-- What the specification says call `k` returns. -/
def fifo_output {σ : Type} (codec : codec_t σ) (c0 : Nat → σ) (n out_size : Nat)
    (frame : Nat → List Nat) (k : Nat) : List Nat :=
  if k < n - 1 then [] else decoded codec c0 n out_size frame (k - (n - 1))

end dst_engine_t

/-! ## `dvda_disc.h`, `dvda_disc.cpp`: the track session -/

/-- The value `UNK_STREAM_ID` of `stream_id_e`. -/
def UNK_STREAM_ID : Nat := 0

/-- The value `audio_stream_t::RETCODE_REINIT`. -/
def RETCODE_REINIT : Int := -128

/-- The value `audio_stream_t::RETCODE_EXCEPT`. -/
def RETCODE_EXCEPT : Int := -256

/-- The conversion of an integer value to `uint32_t`. -/
def to_uint32 (v : Int) : Nat := (v % 2 ^ 32).toNat

/-- The conversion of an integer value to `int`, 32 bits in two's complement. -/
def to_int32 (v : Int) : Int :=
  if v % 2 ^ 32 < 2 ^ 31 then v % 2 ^ 32 else v % 2 ^ 32 - 2 ^ 32

/-- The conversion `(uint32_t)x` of a `double`: the fraction is dropped. For
`x` of `-1` or less, or `2^32` or more, C++ leaves the result undefined; here
the integer part is then reduced to 32 bits. -/
def double_to_uint32 (x : ℚ) : Nat :=
  to_uint32 (if 0 ≤ x then ⌊x⌋ else ⌈x⌉)

/-- The fields of `sub_header_t` that the session reads (`dvda_block.h` is
missing): `header.stream_id` and the bytes of `extra_header`. -/
structure sub_header_t where
  stream_id : Nat
  extra_header : List Nat
deriving DecidableEq, Repr

/-- Modelled from the spec: the class `stream_buffer_t` of `stream_buffer.h`,
which is missing, the byte buffer of the session that the block reads feed:
`data` holds the bytes written and not yet consumed, from the read pointer to
the write pointer, and `buf_size` is the capacity. -/
structure stream_buffer_t where
  buf_size : Nat
  data : List Nat
deriving DecidableEq, Repr

namespace stream_buffer_t

/-- Modelled from the spec: `get_read_size()`, the number of buffered bytes. -/
def get_read_size (b : stream_buffer_t) : Nat := b.data.length

/-- Modelled from the spec: `get_write_size()`, the free space. -/
def get_write_size (b : stream_buffer_t) : Nat := b.buf_size - b.data.length

/-- Modelled from the spec: `is_ready_to_write()`; the buffer is refilled only
when its free space can hold a full disc block. -/
def is_ready_to_write (b : stream_buffer_t) : Bool :=
  decide (DVD_BLOCK_SIZE ≤ b.get_write_size)

/-- Modelled from the spec: `move_read_ptr(n)` consumes `n` buffered bytes. -/
def move_read_ptr (b : stream_buffer_t) (n : Nat) : stream_buffer_t :=
  { b with data := b.data.drop n }

/-- Modelled from the spec: the bytes `bytes` copied to the write pointer and
then `move_write_ptr(n)`, which keeps the first `n` of them. -/
def write (b : stream_buffer_t) (bytes : List Nat) (n : Nat) : stream_buffer_t :=
  { b with data := b.data ++ bytes.take n }

/-- Modelled from the spec: `reinit()` empties the buffer. -/
def reinit (b : stream_buffer_t) : stream_buffer_t := { b with data := [] }

end stream_buffer_t

/-- The virtual methods of `audio_stream_t` that the session calls, for a
decoder object of type `α`. `decode s data_size buf` gives the decoder
afterwards, the value returned and the frame written to `data`; a fault is a
call that does not return a value. -/
structure audio_stream_ops (α : Type) where
  decode : α → Nat → List Nat → Except Fault (α × Int × List Nat)
  resync : α → List Nat → Int
  get_downmix : α → Bool
  get_info : α → audio_stream_info_t
  set_downmix_coef : α → audio_track_t → α
  set_check : α → Bool → α

/-- What the session takes from outside: the decoder classes, the object
that `std::make_unique` and `init` give for each stream id with the
`init_code` returned, the payload and header that `get_blocks` followed by
`dvda_block_t::get_ps1` extract from a run of blocks of a titleset, and
`dvda_zone->get_titleset(titleset).get_last()`. -/
structure SessionEnv (α : Type) where
  ops : audio_stream_ops α
  mlp_init : List Nat → Bool → α × Int
  pcm_init : List Nat → Bool → α × Int
  read_ps1 : Int → Nat → Int → List Nat × sub_header_t
  get_last : Int → Nat

/-- The class `dvda_disc_t` with decoder objects of type `α`. Left out are the
media and file system handles, the zone (see `SessionEnv`), the scratch
buffer `ps1_data`, and `stream_channel_map`, `stream_channels`, `stream_bits`,
`stream_samplerate`, which no modelled method reads. -/
structure dvda_disc_t (α : Type) where
  track_list : List audio_track_t
  track_stream : stream_buffer_t
  audio_stream : Option α
  audio_track : audio_track_t
  stream_size : Nat
  stream_duration : ℚ
  stream_ps1_info : sub_header_t
  stream_block_current : Nat
  stream_downmix : Bool
  stream_needs_reinit : Bool
  major_sync_0 : Bool
  sel_titleset_index : Int
  sel_track_index : Int
  sel_track_offset : Nat

namespace dvda_disc_t

/-- The method `dvda_disc_t::get_downmix()`. -/
def get_downmix {α : Type} (d : dvda_disc_t α) : Bool := d.stream_downmix

/-- The method `dvda_disc_t::set_downmix(downmix)`: the value returned and the
session afterwards. -/
def set_downmix {α : Type} (d : dvda_disc_t α) (downmix : Bool) : Bool × dvda_disc_t α :=
  if downmix && !d.audio_track.audio_stream_info.can_downmix then (false, d)
  else (true, { d with stream_downmix := downmix })

/-- The method `dvda_disc_t::seek(seconds)`, the `double` values taken as
exact rationals and the block numbers as `uint32_t`: the value returned and
the session afterwards. -/
def seek {α : Type} (d : dvda_disc_t α) (seconds : ℚ) : Bool × dvda_disc_t α :=
  let offset := double_to_uint32
    ((seconds / (d.audio_track.duration + 1)) *
      (to_uint32 ((d.audio_track.block_last : Int) + 1 - d.audio_track.block_first) : ℚ))
  let limit := to_uint32 ((d.audio_track.block_last : Int) - d.audio_track.block_first - 1)
  let offset := if offset > limit then limit else offset
  (true,
    { d with
      track_stream := d.track_stream.reinit
      audio_stream := none
      stream_block_current := to_uint32 ((d.audio_track.block_first : Int) + offset)
      stream_ps1_info := { d.stream_ps1_info with stream_id := UNK_STREAM_ID } })

end dvda_disc_t

/-! ## The track session: what the specification says -/

namespace dvda_disc_t

end dvda_disc_t

/-! ## `dvda_disc.cpp`: `stream_buffer_read`, `create_audio_stream`, `read_frame` -/

namespace dvda_disc_t

/-- The method `dvda_disc_t::stream_buffer_read()`. `blocks_to_read`,
`blocks_after_last` and `blocks_to_sync` are `int`, the block numbers
`uint32_t`; a sum or comparison of both is made in `uint32_t`. -/
def stream_buffer_read {α : Type} (env : SessionEnv α) (d : dvda_disc_t α) : dvda_disc_t α :=
  let block_last : Int := d.audio_track.block_last
  let blocks_to_read : Int := (d.track_stream.get_write_size / DVD_BLOCK_SIZE : Nat)
  if d.stream_block_current ≤ d.audio_track.block_last then
    let blocks_to_read :=
      if to_uint32 (d.stream_block_current + blocks_to_read) > to_uint32 (block_last + 1) then
        to_int32 (block_last + 1 - d.stream_block_current)
      else blocks_to_read
    let ps1 := env.read_ps1 d.sel_titleset_index d.stream_block_current blocks_to_read
    let d :=
      { d with
        track_stream := d.track_stream.write ps1.1 ps1.1.length
        stream_ps1_info :=
          if d.stream_ps1_info.stream_id = UNK_STREAM_ID then ps1.2 else d.stream_ps1_info
        stream_block_current := to_uint32 (d.stream_block_current + blocks_to_read) }
    if d.stream_block_current > d.audio_track.block_last then
      let blocks_after_last : Int := to_int32 ((env.get_last d.sel_titleset_index : Int) - block_last)
      let blocks_to_sync : Int := if blocks_after_last < 8 then blocks_after_last else 8
      if d.stream_block_current ≤ to_uint32 (block_last + blocks_to_sync) then
        let blocks_to_read :=
          if to_uint32 (d.stream_block_current + blocks_to_read) >
              to_uint32 (block_last + 1 + blocks_to_sync) then
            to_int32 (block_last + 1 + blocks_to_sync - d.stream_block_current)
          else blocks_to_read
        let tail := env.read_ps1 d.sel_titleset_index d.stream_block_current blocks_to_read
        let track_stream :=
          match d.audio_stream with
          | some s =>
            let major_sync := env.ops.resync s tail.1
            if major_sync > 0 then d.track_stream.write tail.1 major_sync.toNat
            else d.track_stream
          | none => d.track_stream
        { d with
          track_stream := track_stream
          stream_block_current := to_uint32 (d.stream_block_current + blocks_to_read) }
      else d
    else d
  else d

/-- The method `dvda_disc_t::create_audio_stream(p_ps1_info, p_buf, p_buf_size, p_downmix)`:
the value returned and the session afterwards. -/
def create_audio_stream {α : Type} (env : SessionEnv α) (d : dvda_disc_t α)
    (p_ps1_info : sub_header_t) (p_buf : List Nat) (p_downmix : Bool) : Bool × dvda_disc_t α :=
  let d := { d with audio_stream := none }
  let made : Option (α × Int) :=
    if d.stream_ps1_info.stream_id = MLP_STREAM_ID then some (env.mlp_init p_buf p_downmix)
    else if d.stream_ps1_info.stream_id = PCM_STREAM_ID then
      some (env.pcm_init d.stream_ps1_info.extra_header p_downmix)
    else none
  match made with
  | none => (false, d)
  | some (s, init_code) =>
    if init_code < 0 then (false, d) else (true, { d with audio_stream := some s })

/-- The method `dvda_disc_t::read_frame(frame_data, frame_size)`: every pass
from the label `decode_run_read_stream_start` takes one unit of `fuel`. The
result is `none` when the fuel runs out before the method returns; else the
value returned, the session afterwards and the frame, or the fault of the
decoder. -/
def read_frame {α : Type} (env : SessionEnv α) (frame_size : Nat) :
    Nat → dvda_disc_t α → Option (Except Fault (Bool × dvda_disc_t α × List Nat))
  | 0, _ => none
  | fuel + 1, d =>
    let d :=
      if d.track_stream.is_ready_to_write && !d.stream_needs_reinit then stream_buffer_read env d
      else d
    let decoded : Except Fault (Option α × Int × List Nat) :=
      match d.audio_stream with
      | some s =>
        match env.ops.decode s frame_size d.track_stream.data with
        | Except.ok r => Except.ok (some r.1, r.2.1, r.2.2)
        | Except.error f => Except.error f
      | none => Except.ok (none, 0, [])
    match decoded with
    | Except.error f => some (Except.error f)
    | Except.ok (audio_stream, bytes_decoded, frame) =>
      let d := { d with audio_stream := audio_stream }
      if bytes_decoded ≤ 0 then
        let d := { d with track_stream := d.track_stream.move_read_ptr 0 }
        if bytes_decoded = RETCODE_EXCEPT then some (Except.ok (false, d, []))
        else if bytes_decoded = RETCODE_REINIT then
          read_frame env frame_size fuel { d with audio_stream := none }
        else if d.track_stream.get_read_size = 0 then
          if d.stream_needs_reinit then
            read_frame env frame_size fuel
              { d with
                stream_needs_reinit := false
                audio_stream := none
                stream_ps1_info := { d.stream_ps1_info with stream_id := UNK_STREAM_ID } }
          else some (Except.ok (false, d, []))
        else
          match d.audio_stream with
          | some s =>
            let major_sync := env.ops.resync s d.track_stream.data
            let second :=
              if major_sync = 0 ∧ d.major_sync_0 ∧ d.track_stream.get_read_size > 4 then
                env.ops.resync s (d.track_stream.data.drop 1)
              else major_sync
            let d :=
              if major_sync = 0 ∧ ¬ d.major_sync_0 then { d with major_sync_0 := true } else d
            let major_sync := second
            if major_sync < 0 then
              let major_sync : Int :=
                if d.stream_needs_reinit then (d.track_stream.get_read_size : Int)
                else if d.track_stream.get_read_size > 4 then
                  (d.track_stream.get_read_size : Int) - 4
                else 0
              if major_sync ≤ 0 then some (Except.ok (false, d, []))
              else
                read_frame env frame_size fuel
                  { d with track_stream := d.track_stream.move_read_ptr major_sync.toNat }
            else if major_sync > 0 then
              read_frame env frame_size fuel
                { d with track_stream := d.track_stream.move_read_ptr major_sync.toNat }
            else read_frame env frame_size fuel d
          | none =>
            let created := create_audio_stream env d d.stream_ps1_info d.track_stream.data
              d.stream_downmix
            let d := created.2
            match d.audio_stream with
            | some s =>
              let s := if env.ops.get_downmix s then env.ops.set_downmix_coef s d.audio_track else s
              let s := env.ops.set_check s false
              read_frame env frame_size fuel
                { d with
                  audio_stream := some s
                  track_stream := d.track_stream.move_read_ptr (env.ops.get_info s).sync_offset }
            | none =>
              read_frame env frame_size fuel
                { d with
                  track_stream := d.track_stream.move_read_ptr DVD_BLOCK_SIZE
                  stream_ps1_info := { d.stream_ps1_info with stream_id := UNK_STREAM_ID } }
      else
        some (Except.ok (true,
          { d with
            major_sync_0 := false
            track_stream := d.track_stream.move_read_ptr bytes_decoded.toNat }, frame))

/-- The virtual methods of `pcm_audio_stream_t`; `mix` is the mixing of
`audio_stream_t::downmix_channels`. The PCM decoder reads neither `do_check`
nor, in this model, the coefficient table. -/
def pcm_ops (mix : Nat → List Int → Int) : audio_stream_ops pcm_audio_stream_t :=
  { decode := fun s _ buf =>
      match pcm_audio_stream_t.decode mix s buf with
      | Except.ok r => Except.ok (r.stream, (r.bytes_decoded : Int), r.data)
      | Except.error f => Except.error f
    resync := fun _ _ => 0
    get_downmix := fun s => s.do_downmix
    get_info := fun s => s.info
    set_downmix_coef := fun s _ => s
    set_check := fun s _ => s }

end dvda_disc_t

/-! ## `dvda_disc.cpp`: `select_track` and the accessors of the selected track -/

/-- The conversion of a `uint32_t` value to `int`: negative from `2^31` on. -/
def uint32_to_int (v : Nat) : Int :=
  if v < 2 ^ 31 then (v : Int) else (v : Int) - 2 ^ 32

namespace track_list_t

/-- The method `track_list_t::get_track_by_index(track_index)`:
`track_list[track_index]`, which reads outside the vector when `track_index`
is not a position of the list. -/
def get_track_by_index (track_list : List audio_track_t) (track_index : Int) :
    Except Fault audio_track_t :=
  if track_index < 0 then Except.error Fault.out_of_bounds_read
  else
    match track_list[track_index.toNat]? with
    | some t => Except.ok t
    | none => Except.error Fault.out_of_bounds_read

/-- The loop of `track_list_t::get_track_index(track_index)`, entered at
position `i` with the entries from there on. -/
def get_track_index_loop (track_index : Int) : List audio_track_t → Nat → Int
  | [], _ => -1
  | t :: rest, i =>
    if track_index = (t.track_index : Int) then uint32_to_int i
    else get_track_index_loop track_index rest (i + 1)

/-- The method `track_list_t::get_track_index(track_index)` with one
argument: the position of the first entry with this `track_index`, or `-1`. -/
def get_track_index_of (track_list : List audio_track_t) (track_index : Int) : Int :=
  get_track_index_loop track_index track_list 0

/-- The position of an entry in the catalog as one number: titleset, title
and track, each counted from 1. -/
def position_key (t : audio_track_t) : Nat :=
  t.dvda_titleset * 65536 + t.dvda_title * 256 + t.dvda_track

/-- An entry as `track_list_t::init` makes it at a position below 256 in
each of titleset, title and track. -/
def IndexedByPosition (downmix : Bool) (t : audio_track_t) : Prop :=
  1 ≤ t.dvda_titleset ∧ t.dvda_titleset ≤ 256 ∧ 1 ≤ t.dvda_title ∧ t.dvda_title ≤ 256 ∧
  1 ≤ t.dvda_track ∧ t.dvda_track ≤ 256 ∧
  t.track_index =
    get_track_index (t.dvda_titleset - 1) (t.dvda_title - 1) (t.dvda_track - 1) downmix

/-- A track list in the order of the catalog, all of whose entries lie
before the position with the key `bound`. -/
def OrderedBelow (downmix : Bool) (track_list : List audio_track_t) (bound : Nat) : Prop :=
  track_list.Pairwise (fun a b => position_key a < position_key b) ∧
  (∀ t ∈ track_list, position_key t < bound ∧ IndexedByPosition downmix t) ∧
  track_list.length < bound

/-- The key of the entry at titleset `ts`, title `ti` and track `tr`, each
counted from 0. -/
def position_bound (ts ti tr : Nat) : Nat :=
  (ts + 1) * 65536 + (ti + 1) * 256 + tr + 1

end track_list_t

namespace dvda_disc_t

/-- The method `dvda_disc_t::get_tracks()`. -/
def get_tracks {α : Type} (d : dvda_disc_t α) : Nat := d.track_list.length

/-- The assignments of `dvda_disc_t::select_track(track_index, offset)` once
`audio_track = track_list.get_track_by_index(sel_track_index)` is read;
`track_stream.init` sets up the buffer of 512 blocks. `DVD_BLOCK_SIZE` is
taken as an `int` constant, so that `stream_size` is computed in `uint32_t`. -/
def select_track_assign {α : Type} (d : dvda_disc_t α) (sel_track_index : Int) (offset : Nat)
    (audio_track : audio_track_t) : dvda_disc_t α :=
  { d with
    sel_track_index := sel_track_index
    sel_track_offset := offset
    audio_track := audio_track
    sel_titleset_index := (audio_track.dvda_titleset : Int) - 1
    track_stream := { buf_size := 512 * DVD_BLOCK_SIZE, data := [] }
    stream_block_current := audio_track.block_first
    stream_size :=
      to_uint32 ((to_uint32 ((audio_track.block_last : Int) + 1 - audio_track.block_first) : Int)
        * DVD_BLOCK_SIZE)
    stream_ps1_info := { d.stream_ps1_info with stream_id := UNK_STREAM_ID }
    stream_duration := audio_track.duration
    stream_needs_reinit := false
    major_sync_0 := false }

/-- The method `dvda_disc_t::select_track(track_index, offset)`: the value
returned and the session afterwards. The `uint32_t` argument is stored in the
`int` member `sel_track_index`; the method has no other return than
`return true`. -/
def select_track {α : Type} (d : dvda_disc_t α) (track_index : Nat) (offset : Nat) :
    Except Fault (Bool × dvda_disc_t α) :=
  match track_list_t.get_track_by_index d.track_list (uint32_to_int track_index) with
  | Except.error f => Except.error f
  | Except.ok audio_track =>
    Except.ok (true, select_track_assign d (uint32_to_int track_index) offset audio_track)

/-- The method `dvda_disc_t::get_channels()`. -/
def get_channels {α : Type} (d : dvda_disc_t α) : Except Fault Nat :=
  match track_list_t.get_track_by_index d.track_list d.sel_track_index with
  | Except.error f => Except.error f
  | Except.ok t =>
    Except.ok (to_uint32 ((t.audio_stream_info.group1_channels : Int)
      + t.audio_stream_info.group2_channels))

/-- The method `dvda_disc_t::get_duration()`. -/
def get_duration {α : Type} (d : dvda_disc_t α) : Except Fault ℚ :=
  match track_list_t.get_track_by_index d.track_list d.sel_track_index with
  | Except.error f => Except.error f
  | Except.ok t => Except.ok t.duration

/-- The method `dvda_disc_t::get_duration(track_index)`, which checks the
index against the size of the track list. -/
def get_duration_of {α : Type} (d : dvda_disc_t α) (track_index : Nat) : Except Fault ℚ :=
  if track_index < to_uint32 (d.track_list.length : Int) then
    match track_list_t.get_track_by_index d.track_list (uint32_to_int track_index) with
    | Except.error f => Except.error f
    | Except.ok t => Except.ok t.duration
  else Except.ok 0

/-- The method `dvda_disc_t::can_downmix()`. -/
def can_downmix {α : Type} (d : dvda_disc_t α) : Except Fault Bool :=
  match track_list_t.get_track_by_index d.track_list d.sel_track_index with
  | Except.error f => Except.error f
  | Except.ok t => Except.ok t.audio_stream_info.can_downmix

end dvda_disc_t

/-! ## `libdstdec/ct_enc.h`: Rice coding of the table entries -/

namespace dst

/-- The expression `a >> m` on `int`: defined for a shift count from 0 to 31,
where it is the division by `2^m` rounded down; `none` for another count,
for which C++ gives the expression no meaning. -/
def shift_right (a m : Int) : Option Int :=
  if 0 ≤ m ∧ m < 32 then some (a / 2 ^ m.toNat) else none

/-- The expression `a << m` on `int`: defined for a shift count from 0 to 31
and an `a ≥ 0` for which `a * 2^m` is a value of `int`; `none` otherwise. -/
def shift_left (a m : Int) : Option Int :=
  if 0 ≤ m ∧ m < 32 ∧ 0 ≤ a ∧ a * 2 ^ m.toNat < 2 ^ 31 then some (a * 2 ^ m.toNat) else none

/-- The expression `a & b` on `int`: bit by bit on the 32 bits of the two
values in two's complement. -/
def int_and (a b : Int) : Int :=
  uint32_to_int (to_uint32 a &&& to_uint32 b)

/-- The lambda `BITMASK(data, bitnr)` on an `unsigned int` and an `int`:
`(uint8_t)((data >> bitnr) & 1)`, `none` for a shift count outside 0 to 31. -/
def BITMASK (data : Nat) (bitnr : Int) : Option Nat :=
  if 0 ≤ bitnr ∧ bitnr < 32 then some (((data >>> bitnr.toNat) &&& 1) % 256) else none

namespace ct_enc_t

/-- The stream that the encoder writes: the array behind the pointer
`EncodedData`, which holds one bit in each element, and the position `BitNr`. -/
structure Stream where
  EncodedData : Int → Nat
  BitNr : Int

/-- The method `AddBitToStream(EncodedData, DataBit, BitNr)`:
`EncodedData[BitNr] = DataBit & 1; BitNr++`. -/
def AddBitToStream (s : Stream) (DataBit : Int) : Stream :=
  { EncodedData := Function.update s.EncodedData s.BitNr (DataBit % 2).toNat
    BitNr := to_int32 (s.BitNr + 1) }

/-- The loop of `AddBitsToStream` with `k + 1 = n`:
`for (; k >= 0; k--) AddBitToStream(EncodedData, BITMASK(DataBits, k), BitNr)`. -/
def AddBitsToStream_loop (DataBits : Nat) : Nat → Stream → Option Stream
  | 0, s => some s
  | k + 1, s =>
    match BITMASK DataBits k with
    | some bit => AddBitsToStream_loop DataBits k (AddBitToStream s bit)
    | none => none

/-- The method `AddBitsToStream(EncodedData, BitCount, DataBits, BitNr)`; the
loop starts at `k = BitCount - 1`. -/
def AddBitsToStream (s : Stream) (BitCount : Int) (DataBits : Nat) : Option Stream :=
  AddBitsToStream_loop DataBits (to_int32 (BitCount - 1) + 1).toNat s

/-- The method `RiceRunLength(Nr, m)`. -/
def RiceRunLength (Nr m : Int) : Option Int :=
  let RunLength : Int := if Nr ≠ 0 then 1 else 0
  let Nr := if Nr < 0 then to_int32 (-Nr) else Nr
  match shift_right Nr m with
  | some q => some (to_int32 (RunLength + to_int32 (to_int32 (q + 1) + m)))
  | none => none

/-- The first loop of `RiceEncode`:
`for (auto i = 0; i < RunLength; i++) AddBitToStream(EncodedFrame, 0, BitNr)`,
with `n` passes left. -/
def RiceEncode_zeros : Nat → Stream → Stream
  | 0, s => s
  | n + 1, s => RiceEncode_zeros n (AddBitToStream s 0)

/-- The method `RiceEncode(EncodedFrame, BitNr, Nr, m)`. -/
def RiceEncode (s : Stream) (Nr m : Int) : Option Stream :=
  let Sign : Int := if Nr < 0 then 1 else 0
  let Nr := if Nr < 0 then to_int32 (-Nr) else Nr
  match shift_left 1 m with
  | none => none
  | some one =>
    let LSBs := int_and (to_int32 (one - 1)) Nr
    match shift_right Nr m with
    | none => none
    | some RunLength =>
      let s := RiceEncode_zeros RunLength.toNat s
      let s := AddBitToStream s 1
      match AddBitsToStream s m (to_uint32 LSBs) with
      | none => none
      | some s => some (if Nr ≠ 0 then AddBitToStream s Sign else s)

/-- The value `r` that the loops over the entries of `FindBestMethod` and of
`AddTableToStream` compute for entry `EntryNr`, by the same statements in
both: the entry `c` less the prediction `x` from the `order` entries before
it, with the coefficients `coef` of the method. For a table of filter
coefficients `is_filter` holds, for a table of probabilities the entries count
from 1. -/
def entry_value (is_filter : Bool) (TableData : Nat → Int) (j : Nat) : Int :=
  if is_filter then TableData j else to_int32 (TableData j - 1)

/-- The loop `for (TapNr = 0; TapNr < CPredOrder[...]; TapNr++) x += ...` of
both methods, with `n` passes left. -/
def prediction (is_filter : Bool) (coef : Nat → Int) (TableData : Nat → Int) (EntryNr : Nat) :
    Nat → Nat → Int → Int
  | 0, _, x => x
  | n + 1, TapNr, x =>
    prediction is_filter coef TableData EntryNr n (TapNr + 1)
      (to_int32 (x + to_int32 (coef TapNr * entry_value is_filter TableData (EntryNr - TapNr - 1))))

/-- The residual `r` of entry `EntryNr`:
`x >= 0 ? c + (x + 4) / 8 : c - (-x + 3) / 8`. -/
def residual (is_filter : Bool) (order : Nat) (coef : Nat → Int) (TableData : Nat → Int)
    (EntryNr : Nat) : Int :=
  let x := prediction is_filter coef TableData EntryNr order 0 0
  let c := entry_value is_filter TableData EntryNr
  if x ≥ 0 then to_int32 (c + Int.tdiv (to_int32 (x + 4)) 8)
  else to_int32 (c - Int.tdiv (to_int32 (to_int32 (-x) + 3)) 8)

/-- One pass of the loop over the entries in `FindBestMethod`:
`RiceLen += RiceRunLength(r, RiceM)`. -/
def FindBestMethod_entry (is_filter : Bool) (order : Nat) (coef : Nat → Int)
    (TableData : Nat → Int) (RiceM : Int) (EntryNr : Nat) (RiceLen : Int) : Option Int :=
  match RiceRunLength (residual is_filter order coef TableData EntryNr) RiceM with
  | some n => some (to_int32 (RiceLen + n))
  | none => none

/-- One pass of the loop over the entries in `AddTableToStream`:
`RiceEncode(EncodedData, BitNr, r, m[TableNr][TableBestMethod])`. -/
def AddTableToStream_entry (is_filter : Bool) (order : Nat) (coef : Nat → Int)
    (TableData : Nat → Int) (m : Int) (EntryNr : Nat) (s : Stream) : Option Stream :=
  RiceEncode s (residual is_filter order coef TableData EntryNr) m

/-- The bits of the stream `s` at the `n` positions from `start` on. -/
def Stream.bits (s : Stream) (start : Int) (n : Nat) : List Nat :=
  (List.range n).map (fun (i : Nat) => s.EncodedData (start + (i : Int)))

/-- What the specification calls appending `bits` to a stream: from `s` to
`t` the position advances by the number of the bits, the elements from the
old position on hold the bits, and the elements before it are as they were. -/
def Stream.Appends (s t : Stream) (bits : List Nat) : Prop :=
  t.BitNr = s.BitNr + bits.length ∧ t.bits s.BitNr bits.length = bits ∧
    ∀ j, j < s.BitNr → t.EncodedData j = s.EncodedData j

/-- The code of a residual in the words of the specification: `|Nr| >> m`
zero bits, a one bit, the `m` low bits of `|Nr|` from the most significant
on, and a sign bit if `Nr` is not 0. -/
def rice_code (Nr : Int) (m : Nat) : List Nat :=
  List.replicate (Nr.natAbs / 2 ^ m) 0 ++ [1] ++
    (List.range m).map (fun j => Nr.natAbs / 2 ^ (m - 1 - j) % 2) ++
    (if Nr ≠ 0 then [if Nr < 0 then 1 else 0] else [])

end ct_enc_t

end dst

/-! ## `audio_stream.h`: the statistics of a decoder -/

/-- The conversion of an integer value to `int64_t`, 64 bits in two's
complement. -/
def to_int64 (v : Int) : Int :=
  if v % 2 ^ 64 < 2 ^ 63 then v % 2 ^ 64 else v % 2 ^ 64 - 2 ^ 64

namespace audio_stream_t

/-- The constant `AVG_BITRATE_SIZE`. -/
def AVG_BITRATE_SIZE : Nat := 256

/-- The members of `audio_stream_t` that hold the statistics. -/
structure Stats where
  instant_bits_read : List Int
  instant_bits_decoded : List Int
  instant_bit_index : Int
  avg_bits_read : Int
  avg_bits_decoded : Int
  bits_read : Int
  bits_decoded : Int

/-- The method `audio_stream_t::reset_stats()`. -/
def reset_stats (_ : Stats) : Stats :=
  { instant_bits_read := List.replicate AVG_BITRATE_SIZE 0
    instant_bits_decoded := List.replicate AVG_BITRATE_SIZE 0
    instant_bit_index := 0
    avg_bits_read := 0
    avg_bits_decoded := 0
    bits_read := 0
    bits_decoded := 0 }

/-- The method `audio_stream_t::update_stats(decoder_bits_read, decoder_bits_decoded)`;
an access to an array outside its elements is a fault. -/
def update_stats (s : Stats) (decoder_bits_read decoder_bits_decoded : Int) :
    Except Fault Stats :=
  let instant_bit_index :=
    if s.instant_bit_index ≥ AVG_BITRATE_SIZE then 0 else s.instant_bit_index
  if instant_bit_index < 0 then Except.error Fault.out_of_bounds_read
  else
    match s.instant_bits_read[instant_bit_index.toNat]?,
      s.instant_bits_decoded[instant_bit_index.toNat]? with
    | some old_read, some old_decoded =>
      Except.ok
        { instant_bits_read := s.instant_bits_read.set instant_bit_index.toNat decoder_bits_read
          instant_bits_decoded :=
            s.instant_bits_decoded.set instant_bit_index.toNat decoder_bits_decoded
          instant_bit_index := to_int32 (instant_bit_index + 1)
          avg_bits_read := to_int32 (to_int32 (s.avg_bits_read - old_read) + decoder_bits_read)
          avg_bits_decoded :=
            to_int32 (to_int32 (s.avg_bits_decoded - old_decoded) + decoder_bits_decoded)
          bits_read := to_int64 (s.bits_read + decoder_bits_read)
          bits_decoded := to_int64 (s.bits_decoded + decoder_bits_decoded) }
    | _, _ => Except.error Fault.out_of_bounds_read

/-- A sequence of calls `update_stats(r, d)`, one for each pair of `calls` in
order. -/
def update_stats_calls (s : Stats) : List (Int × Int) → Except Fault Stats
  | [] => Except.ok s
  | (r, d) :: calls =>
    match update_stats s r d with
    | Except.ok s => update_stats_calls s calls
    | Except.error f => Except.error f

/-- The sum of the most recent `min(n, 256)` of the `n` values `values`, which
are in the order of the calls. -/
def recent_sum (values : List Int) : Int :=
  (values.reverse.take (min values.length AVG_BITRATE_SIZE)).sum

/-- The ring buffer after the calls with the values `R`, most recent first:
256 elements, of which element `j` holds the value of the most recent call
whose number is `j` modulo 256, or 0. -/
def Ring (a : List Int) (R : List Int) : Prop :=
  a.length = 256 ∧
    ∀ j : Nat, j < 256 → a.getD j 0 = R.getD (((R.length : Int) - 1 - j) % 256).toNat 0

/-- The state of the statistics after the calls whose values are `Rr` and
`Rd`, most recent first. -/
def StatsInv (st : Stats) (Rr Rd : List Int) : Prop :=
  Rr.length = Rd.length ∧ Ring st.instant_bits_read Rr ∧ Ring st.instant_bits_decoded Rd ∧
  st.instant_bit_index = (if Rr.length = 0 then 0 else ((Rr.length - 1) % 256 + 1 : Nat)) ∧
  st.instant_bits_read.sum = (Rr.take 256).sum ∧
  st.instant_bits_decoded.sum = (Rd.take 256).sum ∧
  st.avg_bits_read = to_int32 (Rr.take 256).sum ∧
  st.avg_bits_decoded = to_int32 (Rd.take 256).sum ∧
  st.bits_read = to_int64 Rr.sum ∧ st.bits_decoded = to_int64 Rd.sum

end audio_stream_t

/-! ## `DvdaIsoDecoderPlugin.cxx`: the names of the sub-tracks -/

namespace dvdaiso

/-- The literal text of `DVDA_TRACKXXX_FMT`, `"AUDIO_TS__TRACK%03u%c.%3s"`,
before its first conversion. -/
def DVDA_TRACKXXX_PREFIX : List Char := "AUDIO_TS__TRACK".toList

/-- The conversion `%03u` of `sprintf` on an `unsigned`: the decimal digits,
filled up with zeros on the left to 3 characters. -/
def sprintf_03u (n : Nat) : List Char :=
  let digits := Nat.toDigits 10 (n % 2 ^ 32)
  List.replicate (3 - digits.length) '0' ++ digits

/-- The conversion `%3s` of `sprintf`: the string, filled up with blanks on
the left to 3 characters. -/
def sprintf_3s (s : List Char) : List Char :=
  List.replicate (3 - s.length) ' ' ++ s

/-- The call `std::sprintf(track_name, DVDA_TRACKXXX_FMT, track_index + 1, area, suffix)`
of `container_scan`, with `number = track_index + 1`: the name written. -/
def track_name (number : Nat) (area : Char) (suffix : List Char) : List Char :=
  DVDA_TRACKXXX_PREFIX ++ sprintf_03u number ++ [area] ++ ['.'] ++ sprintf_3s suffix

/-- The function `isspace` of C in the "C" locale. -/
def isspace (c : Char) : Bool :=
  c = ' ' || c = '\t' || c = '\n' || c = '\x0b' || c = '\x0c' || c = '\r'

/-- What `sscanf` has done when it returns: the value returned and the
values assigned to `index`, `area` and `suffix`, if any. -/
structure scan_t where
  params : Int
  index : Option Nat
  area : Option Char
  suffix : Option (List Char)
deriving DecidableEq, Repr

/-- The matching of the literal characters of a format against the input:
the input that is left, or `none` at the first difference. -/
def match_literal : List Char → List Char → Option (List Char)
  | [], input => some input
  | _ :: _, [] => none
  | c :: fmt, d :: input => if c = d then match_literal fmt input else none

/-- The value of a run of decimal digits. -/
def digits_value (digits : List Char) : Nat :=
  digits.foldl (fun v c => 10 * v + (c.toNat - '0'.toNat)) 0

/-- The conversion `%03u` of `sscanf`, a field of at most 3 characters: white
space is skipped, then an optional sign and decimal digits are taken, no more
than 3 characters in all; the value is assigned as an `unsigned`. The result
is the value and the input that is left, or `none` when no digit is found. -/
def sscanf_03u (input : List Char) : Option (Nat × List Char) :=
  let input := input.dropWhile isspace
  let field := input.take 3
  let sign := field.takeWhile (fun c => c = '+' || c = '-')
  let sign := sign.take 1
  let digits := (field.drop sign.length).takeWhile Char.isDigit
  if digits.isEmpty then none
  else
    let v := digits_value digits
    let v := if sign = ['-'] then (2 ^ 32 - v % 2 ^ 32) % 2 ^ 32 else v
    some (v, input.drop (sign.length + digits.length))

/-- The conversion `%3s` of `sscanf`: white space is skipped, then at most 3
characters that are not white space are taken; `none` when there is none. -/
def sscanf_3s (input : List Char) : Option (List Char × List Char) :=
  let input := input.dropWhile isspace
  let word := (input.take 3).takeWhile (fun c => !isspace c)
  if word.isEmpty then none else some (word, input.drop word.length)

/-- The call `sscanf(ptr, DVDA_TRACKXXX_FMT, &index, &area, suffix)`. The
value returned is the number of conversions assigned, `EOF` (-1) when the
input ends before the first conversion. -/
def sscanf_track (ptr : List Char) : scan_t :=
  match match_literal DVDA_TRACKXXX_PREFIX ptr with
  | none =>
    { params := if ptr.length < DVDA_TRACKXXX_PREFIX.length ∧
          ptr = DVDA_TRACKXXX_PREFIX.take ptr.length then -1 else 0
      index := none, area := none, suffix := none }
  | some input =>
    match sscanf_03u input with
    | none =>
      { params := if (input.dropWhile isspace).isEmpty then -1 else 0
        index := none, area := none, suffix := none }
    | some (index, input) =>
      match input with
      | [] => { params := 1, index := some index, area := none, suffix := none }
      | area :: input =>
        match match_literal ['.'] input with
        | none => { params := 2, index := some index, area := some area, suffix := none }
        | some input =>
          match sscanf_3s input with
          | none => { params := 2, index := some index, area := some area, suffix := none }
          | some (suffix, _) =>
            { params := 3, index := some index, area := some area, suffix := some suffix }

/-- The function `get_subsong(path_fs, index, downmix)` on the base name `ptr`
of the path; `index` is the value the caller's variable holds before the
call. The result is the value returned, `index` and `downmix`. -/
def get_subsong (ptr : List Char) (index : Nat) : Bool × Nat × Bool :=
  let scan := sscanf_track ptr
  let area := scan.area.getD '\x00'
  let index := scan.index.getD index
  let index := (index + (2 ^ 32 - 1)) % 2 ^ 32
  let downmix := decide (area = 'D')
  (decide (scan.params = 3), index, downmix)

end dvdaiso

/-! ## `DvdaIsoDecoderPlugin.cxx`: `container_scan` and `scan_file` -/

namespace dvdaiso

/-- The enumeration `ChannelMode` of the plugin, the value of
`GetChannelMode()`. -/
inductive ChannelMode where
  | STEREO
  | MULTICHANNEL
  | ALL
deriving DecidableEq, Repr

/-- The parameters of the plugin that `container_scan` reads. -/
structure Params where
  param_no_downmixes : Bool
  param_no_short_tracks : Bool
  param_playable_area : chmode_e

/-- The constant `SHORT_TRACK_SEC`. -/
def SHORT_TRACK_SEC : ℚ := 2

/-- The number of channels that `get_channels` returns when the track `t` is
the selected one. -/
def channels_of (t : audio_track_t) : Nat :=
  to_uint32 ((t.audio_stream_info.group1_channels : Int) + t.audio_stream_info.group2_channels)

/-- The test `!param_no_downmixes && dvda_reader->can_downmix()`, which
calls `can_downmix` only when downmixes are not disabled. -/
def downmix_wanted {α : Type} (params : Params) (d : dvda_disc_t α) : Except Fault Bool :=
  if !params.param_no_downmixes then d.can_downmix else Except.ok false

/-- The part of the loop body of `container_scan` that sets `process_track`
and `process_downmix`. -/
def process_flags {α : Type} (params : Params) (channel_mode : ChannelMode)
    (d : dvda_disc_t α) (is_multichannel : Bool) : Except Fault (Bool × Bool) :=
  match channel_mode with
  | ChannelMode.STEREO =>
    if !is_multichannel then Except.ok (true, false)
    else
      match downmix_wanted params d with
      | Except.error f => Except.error f
      | Except.ok c => Except.ok (false, c)
  | ChannelMode.MULTICHANNEL => Except.ok (is_multichannel, false)
  | ChannelMode.ALL =>
    match params.param_playable_area with
    | chmode_e.CHMODE_MULCH => Except.ok (is_multichannel, false)
    | chmode_e.CHMODE_TWOCH =>
      match downmix_wanted params d with
      | Except.error f => Except.error f
      | Except.ok c => Except.ok (!is_multichannel, c)
    | chmode_e.CHMODE_BOTH =>
      match downmix_wanted params d with
      | Except.error f => Except.error f
      | Except.ok c => Except.ok (true, c)

/-- The names of the entries that the loop body of `container_scan` adds
once the flags are set: the plain entry with the area `M` or `S`, then the
downmix entry with the area `D`. The tags of the entries are left out. -/
def emitted_names (track_index : Nat) (suffix : List Char) (is_multichannel : Bool)
    (process_track process_downmix : Bool) : List (List Char) :=
  (if process_track then
      [track_name (track_index + 1) (if is_multichannel then 'M' else 'S') suffix]
    else []) ++
  (if process_downmix then [track_name (track_index + 1) 'D' suffix] else [])

/-- The body of the loop of `container_scan` for `track_index`: the names of
the entries it adds and the reader afterwards. -/
def container_scan_track {α : Type} (params : Params) (channel_mode : ChannelMode)
    (suffix : List Char) (d : dvda_disc_t α) (track_index : Nat) :
    Except Fault (List (List Char) × dvda_disc_t α) :=
  match d.select_track track_index 0 with
  | Except.error f => Except.error f
  | Except.ok (false, d) => Except.ok ([], d)
  | Except.ok (true, d) =>
    match d.get_duration with
    | Except.error f => Except.error f
    | Except.ok duration =>
      if params.param_no_short_tracks && decide (duration < SHORT_TRACK_SEC) then Except.ok ([], d)
      else
        match d.get_channels with
        | Except.error f => Except.error f
        | Except.ok channels =>
          let is_multichannel := decide (channels > 2)
          match process_flags params channel_mode d is_multichannel with
          | Except.error f => Except.error f
          | Except.ok (process_track, process_downmix) =>
            Except.ok
              (emitted_names track_index suffix is_multichannel process_track process_downmix, d)

/-- The loop `for (auto track_index = 0u; track_index < dvda_reader->get_tracks(); track_index++)`
of `container_scan`, entered at `track_index` with the list so far; `fuel` is
the number of tracks still to visit. -/
def container_scan_loop {α : Type} (params : Params) (channel_mode : ChannelMode)
    (suffix : List Char) :
    Nat → Nat → dvda_disc_t α → List (List Char) → Except Fault (List (List Char) × dvda_disc_t α)
  | 0, _, d, list => Except.ok (list, d)
  | fuel + 1, track_index, d, list =>
    if track_index < d.get_tracks then
      match container_scan_track params channel_mode suffix d track_index with
      | Except.error f => Except.error f
      | Except.ok (names, d) =>
        container_scan_loop params channel_mode suffix fuel (track_index + 1) d (list ++ names)
    else Except.ok (list, d)

/-- The function `container_scan(path_fs)` after `container_update` has
opened the disc in the reader `d`: the names of the songs of the list and the
reader afterwards. -/
def container_scan {α : Type} (params : Params) (channel_mode : ChannelMode)
    (suffix : List Char) (d : dvda_disc_t α) : Except Fault (List (List Char) × dvda_disc_t α) :=
  container_scan_loop params channel_mode suffix d.get_tracks 0 d []

/-- The function `scan_file(path_fs, handler)` after `container_update` has
opened the disc in the reader `d`, for the base name `ptr` of the path; `index`
is what the variable `track_index` holds before `get_subsong`. The result is
the value returned and the reader afterwards; the tags are left out. -/
def scan_file {α : Type} (channel_mode : ChannelMode) (d : dvda_disc_t α) (ptr : List Char)
    (index : Nat) : Except Fault (Bool × dvda_disc_t α) :=
  match get_subsong ptr index with
  | (false, _, _) => Except.ok (false, d)
  | (true, track_index, downmix) =>
    match d.select_track track_index 0 with
    | Except.error f => Except.error f
    | Except.ok (false, d) => Except.ok (false, d)
    | Except.ok (true, d) =>
      match d.get_channels with
      | Except.error f => Except.error f
      | Except.ok channels =>
        let is_multichannel := decide (channels > 2)
        match channel_mode with
        | ChannelMode.STEREO =>
          if is_multichannel && !downmix then Except.ok (false, d) else Except.ok (true, d)
        | ChannelMode.MULTICHANNEL =>
          if !is_multichannel || downmix then Except.ok (false, d) else Except.ok (true, d)
        | ChannelMode.ALL => Except.ok (true, d)

end dvdaiso

/-! ## `FilteredSongUpdate.cxx`, `CueValidator.cxx`: the database update -/

/-- The enumeration `ChannelMode`. -/
inductive ChannelMode where
  | STEREO
  | MULTICHANNEL
  | ALL
deriving DecidableEq, Repr

/-- The fields of `AudioFormat` (`pcm/AudioFormat.hxx` is not part of the
sources). -/
structure AudioFormat where
  sample_rate : Nat
  format : Nat
  channels : Nat
deriving DecidableEq, Repr

namespace FilteredSongUpdate

/-- The function `ShouldFilterByChannelCount(format)`; `mode` is what
`GetChannelMode()` returns and `IsDefined` the method `AudioFormat::IsDefined`,
which is not part of the sources. -/
def ShouldFilterByChannelCount (mode : ChannelMode) (IsDefined : AudioFormat → Bool)
    (format : AudioFormat) : Bool :=
  if mode = ChannelMode.ALL ∨ IsDefined format = false then false
  else
    let channels := format.channels
    if channels = 0 then false
    else if mode = ChannelMode.STEREO ∧ channels > 2 then true
    else if mode = ChannelMode.MULTICHANNEL ∧ channels ≤ 2 then true
    else false

/-- The function `FilteredSongUpdate::ShouldIncludeSong(song)`, on the member
`song.audio_format`. -/
def ShouldIncludeSong (mode : ChannelMode) (IsDefined : AudioFormat → Bool)
    (audio_format : AudioFormat) : Bool :=
  if mode = ChannelMode.ALL then true
  else if ShouldFilterByChannelCount mode IsDefined audio_format then false
  else true

end FilteredSongUpdate

namespace CueValidator

/-- An entry of a directory listing: the name that `dir->Read()` returns and
`info.IsRegular()` of `dir->GetInfo(true)`. -/
structure DirEntry where
  name : List Char
  is_regular : Bool
deriving DecidableEq, Repr

/-- What the functions use of `Storage`: `OpenDirectory path` gives the
entries read until the end of the listing or an exception, `none` for a null
reader or an exception at once; `OpenFile path` gives the lines that
`TextInputStream::ReadLine` returns until the end of the file or an
exception. `ends_with_ignore_case` is `StringEndsWithIgnoreCase`, which is not
part of the sources. -/
structure Storage where
  OpenDirectory : List Char → Option (List DirEntry)
  OpenFile : List Char → List (List Char)
  ends_with_ignore_case : List Char → List Char → Bool

/-- The table `extensions` of `IsSupportedMediaFile`. -/
def extensions : List (List Char) :=
  [".flac".toList, ".wav".toList, ".ape".toList, ".wv".toList, ".dsf".toList, ".dff".toList,
   ".mp3".toList, ".mp4".toList, ".m4a".toList, ".aac".toList, ".ogg".toList, ".opus".toList]

/-- The function `IsSupportedMediaFile(filename)`. -/
def IsSupportedMediaFile (storage : Storage) (filename : List Char) : Bool :=
  extensions.any (fun ext => storage.ends_with_ignore_case filename ext)

/-- The function `CountMediaFilesInDirectory(storage, directory_path)`, an
`unsigned` counter. -/
def CountMediaFilesInDirectory (storage : Storage) (directory_path : List Char) : Nat :=
  match storage.OpenDirectory directory_path with
  | none => 0
  | some entries =>
    entries.foldl (fun count e =>
      if e.name.head? = some '.' then count
      else if e.is_regular && IsSupportedMediaFile storage e.name then (count + 1) % 2 ^ 32
      else count) 0

/-- The call `atoi(p)` at a digit, converted to `unsigned`: the value of the
leading digits (beyond the range of `int` C leaves the result undefined; here
it is reduced to 32 bits). -/
def atoi (p : List Char) : Nat :=
  ((p.takeWhile Char.isDigit).foldl (fun v c => 10 * v + (c.toNat - '0'.toNat)) 0) % 2 ^ 32

/-- The body of the loop of `CountTracksInCueFile` for one line. -/
def count_line (track_count : Nat) (line : List Char) : Nat :=
  if line.take 5 = "TRACK".toList then
    let p := (line.drop 5).dropWhile (fun c => c = ' ' || c = '\t')
    match p with
    | c :: _ =>
      if c.isDigit then
        let track_num := atoi p
        if track_num > track_count then track_num else track_count
      else track_count
    | [] => track_count
  else track_count

/-- The function `CountTracksInCueFile(storage, cue_path)`: the highest
number of a `TRACK` line. -/
def CountTracksInCueFile (storage : Storage) (cue_path : List Char) : Nat :=
  (storage.OpenFile cue_path).foldl count_line 0

/-- The path `cue_path` that `ShouldIgnoreCueFile` builds. -/
def cue_path (directory_path cue_filename : List Char) : List Char :=
  (if directory_path ≠ [] ∧ directory_path.getLast? ≠ some '/' then directory_path ++ ['/']
    else directory_path) ++ cue_filename

/-- The function `ShouldIgnoreCueFile(storage, directory_path, cue_filename)`. -/
def ShouldIgnoreCueFile (storage : Storage) (directory_path cue_filename : List Char) : Bool :=
  let cue_tracks := CountTracksInCueFile storage (cue_path directory_path cue_filename)
  if cue_tracks = 0 then true
  else
    let media_files := CountMediaFilesInDirectory storage directory_path
    if cue_tracks = media_files then true
    else if cue_tracks = (media_files + 1) % 2 ^ 32 then true
    else false

end CueValidator

/-! ## A record layout and a small disc for the worked examples -/

namespace Example

/-- The big-endian value of the four bytes at offset `off`. -/
def be32 (b : List Nat) (off : Nat) : Nat :=
  16777216 * b.getD off 0 + 65536 * b.getD (off + 1) 0 + 256 * b.getD (off + 2) 0 + b.getD (off + 3) 0

/-- A record layout in the style of the DVD-Audio descriptor tables, for the
examples: an 8-byte table header (`nr_of_titles` at 0, `last_byte` at 4),
8-byte title-index records (`title_nr` at 0, `title_table_offset` at 4),
16-byte title records (`tracks` at 2, `indexes` at 3, `len_in_pts` at 4,
`track_sector_table_offset` at 10), 20-byte track timestamps (`n` at 4,
`first_pts` at 6, `len_in_pts` at 10, `downmix_matrix` at 2) and 12-byte
sector records (`first` at 4, `last` at 8), behind 2048-byte headers that
start with the 12-byte identifier. -/
def layout : IfoLayout :=
  { DOWNMIX_MATRICES := 16
    sizeof_amgi_mat := 2048
    amgi_mat := fun b =>
      { amg_identifier := b.take 12
        amg_nr_of_audio_title_sets := b.getD 63 0
        amg_nr_of_video_title_sets := b.getD 62 0 }
    sizeof_atsi_mat := 2048
    atsi_mat := fun b =>
      { ats_identifier := b.take 12
        ats_last_sector := be32 b 12
        atsi_last_sector := be32 b 28
        atsm_vobs := be32 b 192
        ats_downmix_matrices := fun m =>
          { phase_L := b.getD (320 + 18 * m) 0
            phase_R := b.getD (320 + 18 * m + 1) 0
            coef_L := fun ch => b.getD (320 + 18 * m + 2 + 2 * ch) 0
            coef_R := fun ch => b.getD (320 + 18 * m + 3 + 2 * ch) 0 } }
    AUDIO_PGCIT_SIZE := 8
    ATS_TITLE_IDX_SIZE := 8
    ATS_TITLE_SIZE := 16
    ATS_TRACK_TIMESTAMP_SIZE := 20
    ATS_TRACK_SECTOR_SIZE := 12
    sizeof_ats_title_idx := 8
    sizeof_ats_track_timestamp := 20
    sizeof_ats_track_sector := 12
    pgcit_nr_of_titles := 0
    pgcit_last_byte := 4
    idx_title_nr := 0
    idx_title_table_offset := 4
    title_tracks := 2
    title_indexes := 3
    title_len_in_pts := 4
    title_track_sector_table_offset := 10
    ts_n := 4
    ts_first_pts := 6
    ts_len_in_pts := 10
    ts_downmix_matrix := 2
    sector_first := 4
    sector_last := 8 }

/-- A 2048-byte header that starts with the identifier `magic`; byte 63 holds
`n` (the number of audio titlesets of the top-level header). -/
def header (magic : List Nat) (n : Nat) : List Nat :=
  magic ++ List.replicate 51 0 ++ [n] ++ List.replicate 1984 0

/-- The table of a titleset with one title of one track (start index 1) and
one sector record with the given `first` and `last` (each below 256):
header, title index pointing to offset 16, title record with the sector table
at offset 36 of the title, one timestamp, one sector record. -/
def one_track_table (first last : Nat) : List Nat :=
  [0, 1, 0, 0, 0, 0, 0, 63] ++
  [1, 0, 0, 0, 0, 0, 0, 16] ++
  [0, 0, 1, 1, 0, 0, 0, 90, 0, 0, 0, 36, 0, 0, 0, 0] ++
  [0, 0, 0, 0, 1, 0, 0, 0, 0, 0, 0, 0, 0, 90, 0, 0, 0, 0, 0, 0] ++
  [0, 0, 0, 0, 0, 0, 0, first, 0, 0, 0, last]

/-- A descriptor file: header and table. -/
def ifo (magic : List Nat) (n : Nat) (table : List Nat) : dvda_fileobject_t :=
  { size := 2048 + table.length, data := header magic n ++ table }

/-- A disc with two declared audio titlesets: titleset 1 has one track whose
sector record is `first = 10`, `last = 5`, the table of titleset 2 is cut off
in the middle of its sector record. -/
def disc : dvda_filesystem_t :=
  { files := fun name =>
      match name with
      | FileName.AUDIO_TS_IFO => some (ifo AMG_MAGIC 2 [])
      | FileName.ATS_IFO 1 => some (ifo ATS_MAGIC 0 (one_track_table 10 5))
      | FileName.ATS_IFO 2 => some (ifo ATS_MAGIC 0 ((one_track_table 3 7).take 60))
      | _ => none }

/-- A disc with one audio titleset, whose single track has the sector record
`first = 3`, `last = 7`. -/
def disc_one_track : dvda_filesystem_t :=
  { files := fun name =>
      match name with
      | FileName.AUDIO_TS_IFO => some (ifo AMG_MAGIC 1 [])
      | FileName.ATS_IFO 1 => some (ifo ATS_MAGIC 0 (one_track_table 3 7))
      | _ => none }

/-- An environment of `track_list_t::init` that accepts every track: no
downmix, no threshold, a PCM stream found for every track, no metabase. -/
def accept_all : track_list_t.InitEnv :=
  { downmix := false
    chmode := chmode_e.CHMODE_BOTH
    below_threshold := fun _ => false
    get_audio_stream_info := fun _ _ => some { (default : audio_stream_info_t) with stream_id := PCM_STREAM_ID }
    tag_exists := none
    no_untagged := false }

/-- A PCM decoder object before `init`: both pack arrays are 32 zero bytes. -/
def fresh_stream : pcm_audio_stream_t :=
  { info := default, do_downmix := false, bits_read := 0, bits_decoded := 0
    raw_group2_index := 0, raw_group2_factor := 0, raw_group1_size := 0, raw_group2_size := 0
    pcm_sample_size := 0, pcm_group1_size := 0, pcm_group2_size := 0
    pcm_group1_pack := List.replicate 32 0, pcm_group2_pack := List.replicate 32 0 }

/-- The stream info of a 20-bit PCM stream with channel assignment 2: two
channels in group 1, one in group 2, both groups at 96 kHz. -/
def info_20bit : audio_stream_info_t :=
  { (default : audio_stream_info_t) with
    stream_id := PCM_STREAM_ID, channel_arrangement := 2
    group1_channels := 2, group1_bits := 20, group1_samplerate := 96000
    group2_channels := 1, group2_bits := 20, group2_samplerate := 96000 }

/-- One access unit of `info_20bit`: the group-2 block (two samples `12 34`
and `56 78` with the shared nibble byte `AB`), then the group-1 block (four
samples `01 02`, `03 04`, `05 06`, `07 08` with the nibble bytes `CD`, `EF`). -/
def unit_20bit : List Nat :=
  [0x12, 0x34, 0x56, 0x78, 0xAB] ++ [0x01, 0x02, 0x03, 0x04, 0x05, 0x06, 0x07, 0x08, 0xCD, 0xEF]

/-- The output of `init` followed by one `decode`, or `none` on a fault. -/
def decode_after_init (info : audio_stream_info_t) (buf : List Nat) : Option (List Nat × Nat) :=
  match pcm_audio_stream_t.init fresh_stream info false true with
  | Except.error _ => none
  | Except.ok s =>
    match pcm_audio_stream_t.decode (fun _ _ => 0) s buf with
    | Except.error _ => none
    | Except.ok r => some (r.data, r.bytes_decoded)

/-- The 32-bit word that four bytes form in little-endian order. -/
def le32 (b : List Nat) : Nat :=
  b.getD 0 0 + 256 * b.getD 1 0 + 65536 * b.getD 2 0 + 16777216 * b.getD 3 0

/-- The stream info that `get_info` gives for a 16-bit stereo stream whose
header carries a reserved sample-rate code: `group1_samplerate` is 0. -/
def info_reserved_rate : audio_stream_info_t :=
  { (default : audio_stream_info_t) with
    stream_id := PCM_STREAM_ID, channel_arrangement := 1
    group1_channels := 2, group1_bits := 16, group1_samplerate := 0
    group2_channels := 0, group2_bits := 16, group2_samplerate := 0 }

/-- The fault, if any, of `init` followed by one `decode`. -/
def fault_after_init (info : audio_stream_info_t) (buf : List Nat) : Option Fault :=
  match pcm_audio_stream_t.init fresh_stream info false true with
  | Except.error e => some e
  | Except.ok s =>
    match pcm_audio_stream_t.decode (fun _ _ => 0) s buf with
    | Except.error e => some e
    | Except.ok _ => none

/-- The decoder that `init` sets up from `fresh_stream` for `info_20bit`. -/
def stream_20bit : pcm_audio_stream_t :=
  { fresh_stream with
    info := info_20bit
    raw_group2_factor := 1, raw_group1_size := 10, raw_group2_size := 5
    pcm_sample_size := 4, pcm_group1_size := 16, pcm_group2_size := 8 }

/-- A codec with a state: it counts the frames it has decoded, adds the count
to every byte of the frame, and reports an error on a frame that starts with
13. -/
def counting_codec : codec_t Nat :=
  { run := fun st inp bits out =>
      (st + 1, if inp.headD 0 = 13 then 1 else 0, (inp.map (fun b => b + st)).take out.length) }

/-- The frame number `k` of a sequence of three-byte frames. -/
def frames (k : Nat) : List Nat := [k + 10, k, k]

/-- A schedule that lets the workers of the slots run in the order 2, 1, 0. -/
def reversed_schedule (k : Nat) : List Nat × List Nat := ([2, 1, 0], [2, 1, 0])

/-- The stream info of a 16-bit stereo stream at 48 kHz. -/
def info_16bit : audio_stream_info_t :=
  { (default : audio_stream_info_t) with
    stream_id := PCM_STREAM_ID, channel_arrangement := 1
    group1_channels := 2, group1_bits := 16, group1_samplerate := 48000
    group2_channels := 0, group2_bits := 16, group2_samplerate := 48000 }

/-- A track of the blocks `first` to `last` that lasts `duration` seconds. -/
def track (first last : Nat) (duration : ℚ) : audio_track_t :=
  { dvda_titleset := 1, dvda_title := 0, dvda_track := 0, track_index := 0, track_number := 1
    block_first := first, block_last := last, duration := duration, track_downmix := false
    audio_stream_info := info_16bit }

/-- The session after `select_track` on `t`, the only track of the list, with
a buffer of 512 blocks: no decoder yet, the position at the first block. -/
def session (t : audio_track_t) : dvda_disc_t pcm_audio_stream_t :=
  { track_list := [t]
    track_stream := { buf_size := 512 * DVD_BLOCK_SIZE, data := [] }
    audio_stream := none
    audio_track := t
    stream_size := (t.block_last + 1 - t.block_first) * DVD_BLOCK_SIZE
    stream_duration := t.duration
    stream_ps1_info := { stream_id := UNK_STREAM_ID, extra_header := [] }
    stream_block_current := t.block_first
    stream_downmix := false
    stream_needs_reinit := false
    major_sync_0 := false
    sel_titleset_index := 0
    sel_track_index := 0
    sel_track_offset := 0 }

/-- The disc `disc_one_track` with two extent files of titleset 1:
`ATS_01_1.AOB` of one block and an empty `ATS_01_2.AOB`. -/
def disc_empty_aob : dvda_filesystem_t :=
  { files := fun name =>
      match name with
      | FileName.ATS_AOB 1 1 => some { size := 2048, data := List.replicate 2048 0 }
      | FileName.ATS_AOB 1 2 => some { size := 0, data := [] }
      | name => disc_one_track.files name }

/-- The disc `disc_one_track` with two extent files of titleset 1:
`ATS_01_1.AOB` of 5000 bytes and `ATS_01_2.AOB` of 2048 bytes. -/
def disc_two_aobs : dvda_filesystem_t :=
  { files := fun name =>
      match name with
      | FileName.ATS_AOB 1 1 => some { size := 5000, data := List.replicate 5000 0 }
      | FileName.ATS_AOB 1 2 => some { size := 2048, data := List.replicate 2048 0 }
      | name => disc_one_track.files name }

/-- The disc `disc_two_aobs` with the table of titleset 1 cut off in the
middle of its sector record, so that `open` lays out the extents and then
fails. -/
def disc_two_aobs_cut_off : dvda_filesystem_t :=
  { files := fun name =>
      match name with
      | FileName.ATS_IFO 1 => some (ifo ATS_MAGIC 0 ((one_track_table 3 7).take 60))
      | name => disc_two_aobs.files name }

/-- The decoder that `init` sets up from `fresh_stream` for `info_16bit`:
access units of 8 bytes. -/
def stream_16bit : pcm_audio_stream_t :=
  { fresh_stream with
    info := info_16bit
    raw_group2_factor := 1, raw_group1_size := 8, raw_group2_size := 0
    pcm_sample_size := 2, pcm_group1_size := 8, pcm_group2_size := 0 }

/-- The disc `disc_one_track` with a track of the blocks 3 to 20. -/
def disc_long_track : dvda_filesystem_t :=
  { files := fun name =>
      match name with
      | FileName.ATS_IFO 1 => some (ifo ATS_MAGIC 0 (one_track_table 3 20))
      | name => disc_one_track.files name }

/-- The surroundings of a session on the disc `fs`: PCM decoders, every
block with a payload of four zero bytes, and `get_last` read from the
titlesets that `dvda_zone_t::open` makes. -/
def session_env (fs : dvda_filesystem_t) : SessionEnv pcm_audio_stream_t :=
  { ops := dvda_disc_t.pcm_ops (fun _ _ => 0)
    mlp_init := fun _ _ => (fresh_stream, -1)
    pcm_init := fun _ _ => (stream_16bit, 0)
    read_ps1 := fun _ _ blocks =>
      (List.replicate (4 * blocks.toNat) 0, { stream_id := PCM_STREAM_ID, extra_header := [] })
    get_last := fun titleset =>
      match (dvda_zone_t.open_zone layout fs).2.dvda_titlesets[titleset.toNat]? with
      | some ts => ts.aobs_last_sector
      | none => 0 }

/-- A session at the end of the track of the blocks 3 to 20: the position is
past the last block, the 16-bit PCM decoder is set up, and three bytes, less
than one access unit of 8 bytes, are left in the buffer. -/
def session_at_end (major_sync_0 : Bool) : dvda_disc_t pcm_audio_stream_t :=
  { session (track 3 20 1) with
    stream_block_current := 21
    audio_stream := some stream_16bit
    stream_ps1_info := { stream_id := PCM_STREAM_ID, extra_header := [] }
    track_stream := { buf_size := 512 * DVD_BLOCK_SIZE, data := [1, 2, 3] }
    major_sync_0 := major_sync_0 }

/-- The codec `counting_codec` without its error: every frame decodes with
the error code 0, to the same output and state. -/
def quiet_codec : codec_t Nat :=
  { run := fun st inp bits out =>
      (st + 1, 0, (inp.map (fun b => b + st)).take out.length) }

/-- A comparison of the end of a name with an extension that ignores the
case of the letters. -/
def ends_with_ignore_case (name ext : List Char) : Bool :=
  decide (((name.drop (name.length - ext.length)).map Char.toLower = ext.map Char.toLower) ∧
    ext.length ≤ name.length)

/-- A directory `album` with the files `a.flac`, `b.flac` and `disc.cue`;
the CUE file holds the given lines. -/
def album (cue_lines : List (List Char)) : CueValidator.Storage :=
  { OpenDirectory := fun path =>
      if path = "album".toList then
        some [{ name := "a.flac".toList, is_regular := true },
              { name := "b.flac".toList, is_regular := true },
              { name := "disc.cue".toList, is_regular := true }]
      else none
    OpenFile := fun path => if path = "album/disc.cue".toList then cue_lines else []
    ends_with_ignore_case := ends_with_ignore_case }

/-- An `InfoEnv`: the constructor leaves `UNK_STREAM_ID`, `operator bool`
tests the stream id, channel assignment 1 is two channels in group 1 and
assignment 2 has one more channel in group 2. -/
def info_env : pcm_audio_stream_t.InfoEnv :=
  { fresh_info := default
    mlppcm_table := fun a => if a = 0 then (1, 0) else if a = 1 then (2, 0) else (2, 1)
    is_valid := fun info => decide (info.stream_id ≠ UNK_STREAM_ID) }

/-- A PCM header with channel assignment `assignment`, the byte `bits` of the
two bit depth codes and the byte `rates` of the two sample rate codes. -/
def pcm_header (assignment bits rates : Nat) : List Nat :=
  [0, 0, 0, bits, rates, 0, assignment, 0, 0, 0]

/-- The decoder after `init` on a header, or `none`. -/
def stream_of_header (header : List Nat) : Option pcm_audio_stream_t :=
  match pcm_audio_stream_t.init_header info_env fresh_stream header false true with
  | Except.ok (0, s) => some s
  | _ => none

/-- The fault of `init` on a header, or `none`. -/
def init_fault (header : List Nat) : Option Fault :=
  match pcm_audio_stream_t.init_header info_env fresh_stream header false true with
  | Except.ok _ => none
  | Except.error f => some f

/-- A stream at position 0 over an array of zeros. -/
def empty_stream : dst.ct_enc_t.Stream :=
  { EncodedData := fun _ => 0, BitNr := 0 }

/-- Statistics with other values than a reset leaves. -/
def stats : audio_stream_t.Stats :=
  { instant_bits_read := [1, 2, 3]
    instant_bits_decoded := []
    instant_bit_index := 700
    avg_bits_read := 5
    avg_bits_decoded := -1
    bits_read := 9
    bits_decoded := 4 }

/-- A catalog with one audio titleset of 257 titles, each of one track. -/
def zone_257_titles : dvda_zone_t :=
  { dvda_titlesets :=
      [{ dvda_titleset_t.fresh with
         dvda_titleset := 1
         is_open := true
         dvda_titleset_type := dvda_titleset_e.DVDTitlesetAudio
         dvda_titles :=
           List.replicate 257
             { dvda_tracks := [{ (default : dvda_track_t) with track := 1, length_pts := 90000 }]
               title := 1, length_pts := 90000, indexes := 1, tracks := 1 } }]
    audio_titlesets := 1
    video_titlesets := 0 }

/-- The defaults of the plugin: no downmixes, no short tracks, both areas. -/
def plugin_defaults : dvdaiso.Params :=
  { param_no_downmixes := true, param_no_short_tracks := true
    param_playable_area := chmode_e.CHMODE_BOTH }

/-- The names that a scan of the container returned, or `none` on a fault. -/
def scanned_names (r : Except Fault (List (List Char) × dvda_disc_t pcm_audio_stream_t)) :
    Option (List (List Char)) :=
  match r with
  | Except.ok (names, _) => some names
  | Except.error _ => none

/-- The value that `scan_file` returned, or `none` on a fault. -/
def scan_result (r : Except Fault (Bool × dvda_disc_t pcm_audio_stream_t)) : Option Bool :=
  match r with
  | Except.ok (b, _) => some b
  | Except.error _ => none

/-- A session on a disc with 1000 stereo tracks of four minutes. -/
def session_1000_tracks : dvda_disc_t pcm_audio_stream_t :=
  { session (track 3 20 240) with track_list := List.replicate 1000 (track 3 20 240) }

/-- An `InfoEnv` whose `mlppcm_table` gives channel assignment 18 four
channels in group 1 and one in group 2. -/
def info_env_5ch : pcm_audio_stream_t.InfoEnv :=
  { info_env with mlppcm_table := fun a => if a = 18 then (4, 1) else info_env.mlppcm_table a }

/-- The stream info that `get_info` makes from the PCM header with channel
assignment 18, 16 bits and 48 kHz in both groups: four channels in group 1,
one in group 2. -/
def info_5ch : audio_stream_info_t :=
  pcm_audio_stream_t.get_info info_env_5ch (pcm_header 18 0x00 0x00)

/-- Two frames of five 16-bit samples with the values 1 to 5 and 6 to 10. -/
def frames_5ch : List (List (List Nat)) :=
  [[[1, 0], [2, 0], [3, 0], [4, 0], [5, 0]], [[6, 0], [7, 0], [8, 0], [9, 0], [10, 0]]]

/-- A title of `n` tracks of one second. -/
def title_of_tracks (n : Nat) : dvda_title_t :=
  { dvda_tracks :=
      (List.range n).map (fun k => { (default : dvda_track_t) with track := k + 1, length_pts := 90000 })
    title := 1, length_pts := 90000 * n, indexes := n, tracks := n }

/-- A catalog with two audio titlesets: the first has two titles of two
tracks each, the second one title of one track. -/
def zone_five_tracks : dvda_zone_t :=
  { dvda_titlesets :=
      [{ dvda_titleset_t.fresh with
         dvda_titleset := 1
         is_open := true
         dvda_titleset_type := dvda_titleset_e.DVDTitlesetAudio
         dvda_titles := [title_of_tracks 2, title_of_tracks 2] },
       { dvda_titleset_t.fresh with
         dvda_titleset := 2
         is_open := true
         dvda_titleset_type := dvda_titleset_e.DVDTitlesetAudio
         dvda_titles := [title_of_tracks 1] }]
    audio_titlesets := 2
    video_titlesets := 0 }

end Example

/-! ## 32-bit arithmetic -/

theorem to_uint32_of_lt (v : Int) (h0 : 0 ≤ v) (h1 : v < 2 ^ 32) : (to_uint32 v : Int) = v := by
  unfold to_uint32
  rw [Int.emod_eq_of_lt h0 h1]
  exact Int.toNat_of_nonneg h0

theorem to_uint32_lt (v : Int) : to_uint32 v < 2 ^ 32 := by
  unfold to_uint32
  have h1 : (0 : Int) ≤ v % 2 ^ 32 := Int.emod_nonneg _ (by norm_num)
  have h2 : v % 2 ^ 32 < 2 ^ 32 := Int.emod_lt_of_pos _ (by norm_num)
  omega

theorem toNat_emod_eq (v : Int) (n : Nat) (h : v = (n : Int)) (hn : n < 2 ^ 32) :
    (v % 2 ^ 32).toNat = n := by
  subst h
  rw [Int.emod_eq_of_lt (by omega) (by omega)]
  exact Int.toNat_natCast n

theorem to_uint32_natCast (n : Nat) (h : n < 2 ^ 32) : to_uint32 (n : Int) = n := by
  have := to_uint32_of_lt (n : Int) (by omega) (by omega)
  omega

theorem to_int32_of_range (v : Int) (h0 : -(2 ^ 31) ≤ v) (h1 : v < 2 ^ 31) : to_int32 v = v := by
  unfold to_int32
  by_cases hv : 0 ≤ v
  · rw [Int.emod_eq_of_lt hv (by omega), if_pos h1]
  · have h2 : v % 2 ^ 32 = v + 2 ^ 32 := by
      rw [← Int.add_emod_self, Int.emod_eq_of_lt (by omega) (by omega)]
    rw [h2, if_neg (by omega)]
    omega

/-! ## Theorems: `dvda_downmix_matrix_t::get_downmix_coef` (C2) -/

namespace dvda_downmix_matrix_t

/-- C2: for a valid entry (channel 0..7, side 0..1) of a downmix matrix
holding the coefficient code `c` (0..255) and the phase flag `p`,
`get_downmix_coef`, with `std::pow` read as the real power function, returns `s * 10 ^ (-0.2007 * c / 20)`
when `c < 200`, `s * 10 ^ (-(2 * 0.2007 * (c - 200) + 0.2007 * 200) / 20)` when
`200 ≤ c < 255` and `0` when `c = 255`, with `s = -1` if `p` is set and `+1`
otherwise. In particular code 0 gives the full gain 1 (times `s`), code 255
gives 0 whatever the phase, and the two segments agree at `c = 200`. The value
is a function of the matrix entry alone: a second call returns the same value
and there is no matrix to change. -/
theorem get_downmix_coef_decodes (m : dvda_downmix_matrix_t) (channel dmx_channel : Nat)
    (c : Nat) (p : Bool) (hch : channel < 8) (hside : dmx_channel < 2) (hc : c ≤ 255)
    (hentry : m.LR_dmx channel dmx_channel = ⟨p, c⟩) :
    (c < 200 → m.get_downmix_coef (fun b e => ((b : ℝ) ^ (e : ℝ) : ℝ)) channel dmx_channel =
        phaseSign p * (10 : ℝ) ^ ((-0.2007 * (c : ℝ) / 20 : ℝ))) ∧
    (200 ≤ c → c < 255 → m.get_downmix_coef (fun b e => ((b : ℝ) ^ (e : ℝ) : ℝ)) channel dmx_channel =
        phaseSign p * (10 : ℝ) ^ ((-(2 * 0.2007 * ((c : ℝ) - 200) + 0.2007 * 200) / 20 : ℝ))) ∧
    (c = 255 → m.get_downmix_coef (fun b e => ((b : ℝ) ^ (e : ℝ) : ℝ)) channel dmx_channel = 0) ∧
    (c = 0 → m.get_downmix_coef (fun b e => ((b : ℝ) ^ (e : ℝ) : ℝ)) channel dmx_channel = phaseSign p) ∧
    ((10 : ℝ) ^ ((-0.2007 * ((200 : ℕ) : ℝ) / 20 : ℝ)) =
      (10 : ℝ) ^ ((-(2 * 0.2007 * (((200 : ℕ) : ℝ) - 200) + 0.2007 * 200) / 20 : ℝ))) := by
  have hget : m.get_downmix_channel (channel : Int) (dmx_channel : Int) = some ⟨p, c⟩ := by
    unfold get_downmix_channel
    rw [if_pos]
    · simp [hentry]
    · simp only [DOWNMIX_CHANNELS]; omega
  refine ⟨?_, ?_, ?_, ?_, ?_⟩
  · intro h
    simp only [get_downmix_coef, hget, if_pos h, phaseSign]
    cases p <;> simp
  · intro h1 h2
    have h3 : ¬ c < 200 := by omega
    simp only [get_downmix_coef, hget, if_neg h3, if_pos h2, phaseSign]
    cases p <;> simp
  · intro h
    subst h
    simp [get_downmix_coef, hget]
  · intro h
    subst h
    simp only [get_downmix_coef, hget, phaseSign]
    cases p <;> simp
  · norm_num

theorem get_downmix_coef_decodes_witness :
    (⟨fun _ _ => ⟨true, 0⟩⟩ : dvda_downmix_matrix_t).get_downmix_coef
      (fun b e => ((b : ℝ) ^ (e : ℝ) : ℝ)) ((3 : ℕ) : Int) ((1 : ℕ) : Int) = phaseSign true :=
  (get_downmix_coef_decodes ⟨fun _ _ => ⟨true, 0⟩⟩ 3 1 0 true (by decide) (by decide)
    (by decide) rfl).2.2.2.1 rfl

end dvda_downmix_matrix_t

/-! ## Theorems: the sector-pointer assignment of `dvda_titleset_t::open` (C8) -/

namespace dvda_titleset_t

theorem sector_belongs_iff (s c n : Nat) :
    sector_belongs s c n = true ↔ (c ≤ s ∧ (s < n ∨ n = 0)) := by
  simp [sector_belongs]

theorem assign_sector_pointer_length (sp : dvda_sector_pointer_t) (tracks : List dvda_track_t) :
    (assign_sector_pointer sp tracks).length = tracks.length := by
  induction tracks with
  | nil => rfl
  | cons t rest ih => simp [assign_sector_pointer, ih]

theorem assign_sector_pointer_index (sp : dvda_sector_pointer_t) (tracks : List dvda_track_t) :
    (assign_sector_pointer sp tracks).map (fun t => t.index) = tracks.map (fun t => t.index) := by
  induction tracks with
  | nil => rfl
  | cons t rest ih =>
    simp only [assign_sector_pointer, List.map_cons, ih]
    split <;> rfl

/-- The effect of the inner loop on the track at position `k`. -/
theorem assign_sector_pointer_get (sp : dvda_sector_pointer_t) (tracks : List dvda_track_t) :
    ∀ (k : Nat) (t : dvda_track_t), tracks[k]? = some t →
      (assign_sector_pointer sp tracks)[k]? = some
        (if sector_belongs sp.index t.index ((tracks.map (fun t => t.index)).getD (k + 1) 0) then
          { t with dvda_sector_pointers := t.dvda_sector_pointers ++ [sp] }
        else t) := by
  induction tracks with
  | nil => intro k t h; simp at h
  | cons t0 rest ih =>
    intro k t h
    cases k with
    | zero =>
      simp only [List.getElem?_cons_zero, Option.some.injEq] at h
      subst h
      cases rest with
      | nil => simp [assign_sector_pointer]
      | cons t1 rest' => simp [assign_sector_pointer]
    | succ k =>
      simp only [List.getElem?_cons_succ] at h
      have := ih k t h
      simp only [assign_sector_pointer, List.getElem?_cons_succ, List.map_cons]
      rw [this]
      simp

theorem assignedTo_iff (idxs : List Nat) (k s : Nat) (hk : k < idxs.length) :
    AssignedTo idxs k s ↔ sector_belongs s (idxs.getD k 0) (idxs.getD (k + 1) 0) = true := by
  rw [sector_belongs_iff]
  unfold AssignedTo
  have h0 : idxs[k]? = some idxs[k] := List.getElem?_eq_getElem hk
  have hd : idxs.getD k 0 = idxs[k] := by simp [List.getD, h0]
  rw [hd]
  by_cases h1 : k + 1 < idxs.length
  · have h2 : idxs[k + 1]? = some idxs[k + 1] := List.getElem?_eq_getElem h1
    have hd1 : idxs.getD (k + 1) 0 = idxs[k + 1] := by simp [List.getD, h2]
    rw [hd1]
    constructor
    · rintro ⟨c, hc, hcs, h⟩
      rw [h0] at hc
      simp only [Option.some.injEq] at hc
      subst hc
      refine ⟨hcs, ?_⟩
      rcases h with ⟨n, hn, hsn⟩ | h | ⟨n, hn, hn0⟩
      · rw [h2] at hn; simp only [Option.some.injEq] at hn; subst hn; exact Or.inl hsn
      · omega
      · rw [h2] at hn; simp only [Option.some.injEq] at hn; subst hn; exact Or.inr hn0
    · rintro ⟨hcs, h⟩
      refine ⟨_, h0, hcs, ?_⟩
      rcases h with h | h
      · exact Or.inl ⟨_, h2, h⟩
      · exact Or.inr (Or.inr ⟨_, h2, h⟩)
  · have h2 : idxs[k + 1]? = none := List.getElem?_eq_none (by omega)
    have hd1 : idxs.getD (k + 1) 0 = 0 := by simp [List.getD, h2]
    rw [hd1]
    constructor
    · rintro ⟨c, hc, hcs, _⟩
      rw [h0] at hc
      simp only [Option.some.injEq] at hc
      subst hc
      exact ⟨hcs, Or.inr rfl⟩
    · rintro ⟨hcs, _⟩
      exact ⟨_, h0, hcs, Or.inr (Or.inl (by omega))⟩

theorem assigned_records_succ (idxs : List Nat) (k m : Nat) :
    assigned_records idxs k (m + 1) = assigned_records idxs k m ++
      (if sector_belongs (m + 1) (idxs.getD k 0) (idxs.getD (k + 1) 0) then [m + 1] else []) := by
  unfold assigned_records
  rw [List.range'_1_concat, List.filter_append]
  congr 1
  simp only [List.filter_cons, List.filter_nil, Nat.add_comm 1 m]

theorem sectorsAssigned_step (tracks : List dvda_track_t) (m : Nat) (sp : dvda_sector_pointer_t)
    (hsp : sp.index = m + 1) (h : SectorsAssigned tracks m) :
    SectorsAssigned (assign_sector_pointer sp tracks) (m + 1) := by
  intro k t ht
  rw [assign_sector_pointer_index]
  have hlen := assign_sector_pointer_length sp tracks
  have hk : k < tracks.length := by
    have := (List.getElem?_eq_some_iff.1 ht).1
    omega
  have h0 : tracks[k]? = some tracks[k] := List.getElem?_eq_getElem hk
  have h1 := assign_sector_pointer_get sp tracks k _ h0
  rw [ht] at h1
  simp only [Option.some.injEq] at h1
  have h2 := h k _ h0
  have hd : (tracks.map (fun t => t.index)).getD k 0 = tracks[k].index := by
    simp [List.getD, h0]
  rw [assigned_records_succ, hd, ← hsp, h1]
  split
  · simp [h2]
  · simp [h2]

theorem read_track_sectors_assigned (L : IfoLayout) (ats_end title_off sector_off : Nat) :
    ∀ (fuel j : Nat) (buf : List Nat) (tracks : List dvda_track_t)
      (buf1 : List Nat) (tracks1 : List dvda_track_t),
      read_track_sectors L ats_end title_off sector_off fuel j buf tracks = some (buf1, tracks1) →
      SectorsAssigned tracks j →
      ∃ m, j ≤ m ∧ SectorsAssigned tracks1 m ∧
        tracks1.map (fun t => t.index) = tracks.map (fun t => t.index) := by
  intro fuel
  induction fuel with
  | zero =>
    intro j buf tracks buf1 tracks1 h hinv
    simp only [read_track_sectors, Option.some.injEq, Prod.mk.injEq] at h
    rcases h with ⟨_, rfl⟩
    exact ⟨j, le_refl _, hinv, rfl⟩
  | succ fuel ih =>
    intro j buf tracks buf1 tracks1 h hinv
    simp only [read_track_sectors] at h
    split at h
    · split at h
      · exact absurd h (by simp)
      · rcases ih _ _ _ _ _ h (sectorsAssigned_step tracks j _ rfl hinv) with ⟨m, hm, hinv1, hidx⟩
        exact ⟨m, by omega, hinv1, by rw [hidx, assign_sector_pointer_index]⟩
    · simp only [Option.some.injEq, Prod.mk.injEq] at h
      rcases h with ⟨_, rfl⟩
      exact ⟨j, le_refl _, hinv, rfl⟩

theorem read_track_timestamps_empty (L : IfoLayout) (ats_end title_off ts_off : Nat) :
    ∀ (fuel j : Nat) (buf : List Nat) (tracks : List dvda_track_t)
      (buf1 : List Nat) (tracks1 : List dvda_track_t),
      read_track_timestamps L ats_end title_off ts_off fuel j buf tracks = some (buf1, tracks1) →
      (∀ t ∈ tracks, t.dvda_sector_pointers = []) →
      ∀ t ∈ tracks1, t.dvda_sector_pointers = [] := by
  intro fuel
  induction fuel with
  | zero =>
    intro j buf tracks buf1 tracks1 h hinv
    simp only [read_track_timestamps, Option.some.injEq, Prod.mk.injEq] at h
    rcases h with ⟨_, rfl⟩
    exact hinv
  | succ fuel ih =>
    intro j buf tracks buf1 tracks1 h hinv
    simp only [read_track_timestamps] at h
    split at h
    · split at h
      · exact absurd h (by simp)
      · refine ih _ _ _ _ _ h ?_
        intro t ht
        rcases List.mem_append.1 ht with ht | ht
        · exact hinv t ht
        · simp only [List.mem_singleton] at ht
          subst ht
          rfl
    · simp only [Option.some.injEq, Prod.mk.injEq] at h
      rcases h with ⟨_, rfl⟩
      exact hinv

theorem sectorsAssigned_zero (tracks : List dvda_track_t)
    (h : ∀ t ∈ tracks, t.dvda_sector_pointers = []) : SectorsAssigned tracks 0 := by
  intro k t ht
  have := h t (List.getElem?_mem ht)
  simp [this, assigned_records]

theorem read_title_assigned (L : IfoLayout) (ats_end i : Nat) (buf buf1 : List Nat)
    (title : dvda_title_t) (h : read_title L ats_end i buf = some (buf1, title)) :
    ∃ m, SectorsAssigned title.dvda_tracks m := by
  simp only [read_title] at h
  split at h
  · exact absurd h (by simp)
  · split at h
    · exact absurd h (by simp)
    · split at h
      · exact absurd h (by simp)
      · rename_i b1 tr1 h1
        split at h
        · exact absurd h (by simp)
        · rename_i b2 tr2 h2
          simp only [Option.some.injEq, Prod.mk.injEq] at h
          rcases h with ⟨_, rfl⟩
          have he := read_track_timestamps_empty L _ _ _ _ _ _ _ _ _ h1 (by simp)
          rcases read_track_sectors_assigned L _ _ _ _ _ _ _ _ _ h2 (sectorsAssigned_zero _ he)
            with ⟨m, _, hm, _⟩
          exact ⟨m, hm⟩

theorem read_titles_assigned (L : IfoLayout) (ats_end : Nat) :
    ∀ (fuel i : Nat) (buf : List Nat) (titles titles1 : List dvda_title_t),
      read_titles L ats_end fuel i buf titles = some titles1 →
      (∀ title ∈ titles, ∃ m, SectorsAssigned title.dvda_tracks m) →
      ∀ title ∈ titles1, ∃ m, SectorsAssigned title.dvda_tracks m := by
  intro fuel
  induction fuel with
  | zero =>
    intro i buf titles titles1 h hinv
    simp only [read_titles, Option.some.injEq] at h
    subst h
    exact hinv
  | succ fuel ih =>
    intro i buf titles titles1 h hinv
    simp only [read_titles] at h
    split at h
    · split at h
      · exact absurd h (by simp)
      · rename_i b1 t1 h1
        refine ih _ _ _ _ h ?_
        intro title ht
        rcases List.mem_append.1 ht with ht | ht
        · exact hinv title ht
        · simp only [List.mem_singleton] at ht
          subst ht
          exact read_title_assigned L _ _ _ _ _ h1
    · simp only [Option.some.injEq] at h
      subst h
      exact hinv

theorem open_titleset_titles (L : IfoLayout) (fs : dvda_filesystem_t) (titleset : Nat) :
    (open_titleset L fs titleset).dvda_titles = [] ∨
    ∃ ats_buf, read_pgcit L ats_buf = some (open_titleset L fs titleset).dvda_titles := by
  unfold open_titleset
  simp only
  split
  · left; rfl
  · split
    · split
      · split
        · split
          · left; rfl
          · rename_i titles h
            right
            exact ⟨_, h⟩
        · left; rfl
      · left; rfl
    · left; rfl

theorem open_titleset_assigned (L : IfoLayout) (fs : dvda_filesystem_t) (titleset : Nat) :
    ∀ title ∈ (open_titleset L fs titleset).dvda_titles,
      ∃ m, SectorsAssigned title.dvda_tracks m := by
  rcases open_titleset_titles L fs titleset with h | ⟨ats_buf, h⟩
  · rw [h]; simp
  · simp only [read_pgcit] at h
    split at h
    · exact absurd h (by simp)
    · exact read_titles_assigned L _ _ _ _ _ _ h (by simp)

theorem assignedTo_cons_succ (c : Nat) (rest : List Nat) (k s : Nat) :
    AssignedTo (c :: rest) (k + 1) s ↔ AssignedTo rest k s := by
  simp [AssignedTo]

theorem assignedTo_lower (idxs : List Nat) (k s : Nat) (h : AssignedTo idxs k s) :
    ∃ c, idxs[k]? = some c ∧ c ≤ s := by
  rcases h with ⟨c, hc, hcs, _⟩
  exact ⟨c, hc, hcs⟩

/-- With strictly increasing start indexes of which the first is at most `s`,
exactly one track takes the record `s`. -/
theorem assignedTo_unique (s : Nat) (rest : List Nat) : ∀ (c : Nat),
    List.Sorted (· < ·) (c :: rest) → c ≤ s → ∃! k, AssignedTo (c :: rest) k s := by
  induction rest with
  | nil =>
    intro c _ hcs
    refine ⟨0, ⟨c, rfl, hcs, Or.inr (Or.inl rfl)⟩, ?_⟩
    intro k hk
    rcases assignedTo_lower _ _ _ hk with ⟨c', hc', _⟩
    cases k with
    | zero => rfl
    | succ k => simp at hc'
  | cons d rest' ih =>
    intro c hsorted hcs
    have hcd : c < d := by
      have := List.rel_of_sorted_cons hsorted d (List.mem_cons_self _ _)
      exact this
    have hsorted' : List.Sorted (· < ·) (d :: rest') := List.Sorted.of_cons hsorted
    by_cases hsd : s < d
    · refine ⟨0, ⟨c, rfl, hcs, Or.inl ⟨d, by simp, hsd⟩⟩, ?_⟩
      intro k hk
      cases k with
      | zero => rfl
      | succ k =>
        rw [assignedTo_cons_succ] at hk
        rcases assignedTo_lower _ _ _ hk with ⟨c', hc', hc's⟩
        have hmem : c' ∈ d :: rest' := List.getElem?_mem hc'
        have hd : d ≤ c' := by
          rcases List.mem_cons.1 hmem with h | h
          · omega
          · have := List.rel_of_sorted_cons hsorted' c' h
            omega
        omega
    · rcases ih d hsorted' (by omega) with ⟨k, hk, huniq⟩
      refine ⟨k + 1, (assignedTo_cons_succ _ _ _ _).2 hk, ?_⟩
      intro k' hk'
      cases k' with
      | zero =>
        rcases hk' with ⟨_, _, _, h⟩
        rcases h with ⟨n, hn, hsn⟩ | h | ⟨n, hn, hn0⟩
        · simp at hn; omega
        · simp at h
        · simp at hn; omega
      | succ k' =>
        rw [assignedTo_cons_succ] at hk'
        rw [huniq k' hk']

theorem assignedTo_lt_length (idxs : List Nat) (k s : Nat) (h : AssignedTo idxs k s) :
    k < idxs.length := by
  rcases h with ⟨c, hc, _⟩
  exact (List.getElem?_eq_some_iff.1 hc).1

theorem mem_assigned_records (idxs : List Nat) (k m s : Nat) (hk : k < idxs.length) :
    s ∈ assigned_records idxs k m ↔ (1 ≤ s ∧ s ≤ m ∧ AssignedTo idxs k s) := by
  unfold assigned_records
  rw [List.mem_filter, List.mem_range'_1, assignedTo_iff idxs k s hk]
  constructor
  · rintro ⟨⟨h1, h2⟩, h3⟩
    exact ⟨h1, by omega, h3⟩
  · rintro ⟨h1, h2, h3⟩
    exact ⟨⟨h1, by omega⟩, h3⟩

theorem assigned_records_sorted (idxs : List Nat) (k m : Nat) :
    List.Sorted (· < ·) (assigned_records idxs k m) := by
  unfold assigned_records
  apply List.Sorted.filter
  exact List.pairwise_lt_range' 1 m

/-- C8: in `dvda_titleset_t::open`, the sector-pointer record with 1-based
index `s` is appended to the sector-pointer list of the track at position `k`
if and only if `index_k ≤ s` and (`s < index_(k+1)`, or `k` is the last track
of the title, or `index_(k+1) = 0`). Hence, for every title of an opened
titleset, with `m` the number of sector records read, the list of every track
holds exactly the records among `1 .. m` that the rule gives it, in ascending
order; and when the start indexes of the tracks are strictly increasing and
the first is 1, every record `1 .. m` belongs to exactly one track. -/
theorem sector_pointer_assignment (L : IfoLayout) (fs : dvda_filesystem_t) (titleset : Nat) :
    (∀ (sp : dvda_sector_pointer_t) (tracks : List dvda_track_t) (k : Nat) (t : dvda_track_t),
      tracks[k]? = some t →
      (AssignedTo (tracks.map (fun t => t.index)) k sp.index →
        (assign_sector_pointer sp tracks)[k]? =
          some { t with dvda_sector_pointers := t.dvda_sector_pointers ++ [sp] }) ∧
      (¬ AssignedTo (tracks.map (fun t => t.index)) k sp.index →
        (assign_sector_pointer sp tracks)[k]? = some t)) ∧
    (∀ title ∈ (open_titleset L fs titleset).dvda_titles, ∃ m,
      (∀ (k : Nat) (t : dvda_track_t), title.dvda_tracks[k]? = some t →
        (∀ s, s ∈ t.dvda_sector_pointers.map (fun sp => sp.index) ↔
          (1 ≤ s ∧ s ≤ m ∧ AssignedTo (title.dvda_tracks.map (fun t => t.index)) k s)) ∧
        List.Sorted (· < ·) (t.dvda_sector_pointers.map (fun sp => sp.index))) ∧
      (List.Sorted (· < ·) (title.dvda_tracks.map (fun t => t.index)) →
        (title.dvda_tracks.map (fun t => t.index)).head? = some 1 →
        ∀ s, 1 ≤ s → s ≤ m →
          ∃! k, AssignedTo (title.dvda_tracks.map (fun t => t.index)) k s)) := by
  constructor
  · intro sp tracks k t ht
    have hk : k < (tracks.map (fun t => t.index)).length := by
      have := (List.getElem?_eq_some_iff.1 ht).1
      simpa using this
    have hget := assign_sector_pointer_get sp tracks k t ht
    have hd : (tracks.map (fun t => t.index)).getD k 0 = t.index := by
      simp [List.getD, ht]
    have hiff := assignedTo_iff (tracks.map (fun t => t.index)) k sp.index hk
    rw [hd] at hiff
    constructor
    · intro h
      rw [hget, if_pos (hiff.1 h)]
    · intro h
      rw [hget, if_neg (fun hb => h (hiff.2 hb))]
  · intro title htitle
    rcases open_titleset_assigned L fs titleset title htitle with ⟨m, hm⟩
    refine ⟨m, ?_, ?_⟩
    · intro k t ht
      have hk : k < (title.dvda_tracks.map (fun t => t.index)).length := by
        have := (List.getElem?_eq_some_iff.1 ht).1
        simpa using this
      rw [hm k t ht]
      exact ⟨fun s => mem_assigned_records _ k m s hk, assigned_records_sorted _ k m⟩
    · intro hsorted hhead s hs _
      cases hidx : title.dvda_tracks.map (fun t => t.index) with
      | nil => rw [hidx] at hhead; simp at hhead
      | cons c rest =>
        rw [hidx] at hhead hsorted
        simp only [List.head?_cons, Option.some.injEq] at hhead
        exact assignedTo_unique s rest c hsorted (by omega)

end dvda_titleset_t

/-! ## Theorems: block ranges of tracks (C9) -/

namespace dvda_track_t

theorem get_first_loop_le (sps : List dvda_sector_pointer_t) : ∀ (sector : Nat),
    get_first_loop sector sps ≤ sector ∧
    (∀ sp ∈ sps, get_first_loop sector sps ≤ sp.first) ∧
    (get_first_loop sector sps = sector ∨ ∃ sp ∈ sps, get_first_loop sector sps = sp.first) := by
  induction sps with
  | nil => intro sector; simp [get_first_loop]
  | cons sp rest ih =>
    intro sector
    rcases ih (min sector sp.first) with ⟨h1, h2, h3⟩
    simp only [get_first_loop]
    refine ⟨by omega, ?_, ?_⟩
    · intro sp' hsp'
      rcases List.mem_cons.1 hsp' with h | h
      · subst h; omega
      · exact h2 sp' h
    · rcases h3 with h | ⟨sp', hsp', h⟩
      · rcases Nat.le_total sector sp.first with hle | hle
        · left; rw [h]; exact Nat.min_eq_left hle
        · right; exact ⟨sp, List.mem_cons_self _ _, by rw [h]; exact Nat.min_eq_right hle⟩
      · right; exact ⟨sp', List.mem_cons_of_mem _ hsp', h⟩

theorem get_last_loop_ge (sps : List dvda_sector_pointer_t) : ∀ (sector : Nat),
    sector ≤ get_last_loop sector sps ∧
    (∀ sp ∈ sps, sp.last ≤ get_last_loop sector sps) ∧
    (get_last_loop sector sps = sector ∨ ∃ sp ∈ sps, get_last_loop sector sps = sp.last) := by
  induction sps with
  | nil => intro sector; simp [get_last_loop]
  | cons sp rest ih =>
    intro sector
    rcases ih (max sector sp.last) with ⟨h1, h2, h3⟩
    simp only [get_last_loop]
    refine ⟨by omega, ?_, ?_⟩
    · intro sp' hsp'
      rcases List.mem_cons.1 hsp' with h | h
      · subst h; omega
      · exact h2 sp' h
    · rcases h3 with h | ⟨sp', hsp', h⟩
      · rcases Nat.le_total sector sp.last with hle | hle
        · right; exact ⟨sp, List.mem_cons_self _ _, by rw [h]; exact Nat.max_eq_right hle⟩
        · left; rw [h]; exact Nat.max_eq_left hle
      · right; exact ⟨sp', List.mem_cons_of_mem _ hsp', h⟩

/-- The method `get_first` gives the minimum of `first` over the sector
pointers, and 0 when there are none. -/
theorem get_first_is_min (t : dvda_track_t) :
    (t.dvda_sector_pointers = [] → t.get_first = 0) ∧
    (∀ sp ∈ t.dvda_sector_pointers, t.get_first ≤ sp.first) ∧
    (t.dvda_sector_pointers ≠ [] → ∃ sp ∈ t.dvda_sector_pointers, t.get_first = sp.first) := by
  unfold get_first
  cases h : t.dvda_sector_pointers with
  | nil => simp
  | cons sp0 rest =>
    rcases get_first_loop_le rest sp0.first with ⟨h1, h2, h3⟩
    refine ⟨by simp, ?_, ?_⟩
    · intro sp hsp
      rcases List.mem_cons.1 hsp with h | h
      · subst h; exact h1
      · exact h2 sp h
    · intro _
      rcases h3 with h | ⟨sp, hsp, h⟩
      · exact ⟨sp0, List.mem_cons_self _ _, h⟩
      · exact ⟨sp, List.mem_cons_of_mem _ hsp, h⟩

/-- The method `get_last` gives the maximum of `last` over the sector
pointers, and 0 when there are none. -/
theorem get_last_is_max (t : dvda_track_t) :
    (t.dvda_sector_pointers = [] → t.get_last = 0) ∧
    (∀ sp ∈ t.dvda_sector_pointers, sp.last ≤ t.get_last) ∧
    (t.dvda_sector_pointers ≠ [] → ∃ sp ∈ t.dvda_sector_pointers, t.get_last = sp.last) := by
  unfold get_last
  cases h : t.dvda_sector_pointers with
  | nil => simp
  | cons sp0 rest =>
    rcases get_last_loop_ge rest sp0.last with ⟨h1, h2, h3⟩
    refine ⟨by simp, ?_, ?_⟩
    · intro sp hsp
      rcases List.mem_cons.1 hsp with h | h
      · subst h; exact h1
      · exact h2 sp h
    · intro _
      rcases h3 with h | ⟨sp, hsp, h⟩
      · exact ⟨sp0, List.mem_cons_self _ _, h⟩
      · exact ⟨sp, List.mem_cons_of_mem _ hsp, h⟩

theorem get_first_le_get_last (t : dvda_track_t)
    (h : ∀ sp ∈ t.dvda_sector_pointers, sp.first ≤ sp.last) : t.get_first ≤ t.get_last := by
  by_cases he : t.dvda_sector_pointers = []
  · rw [(get_first_is_min t).1 he, (get_last_is_max t).1 he]
  · rcases (get_first_is_min t).2.2 he with ⟨sp, hsp, hf⟩
    have h1 := h sp hsp
    have h2 := (get_last_is_max t).2.1 sp hsp
    omega

end dvda_track_t

namespace track_list_t

theorem init_track_blocks (env : InitEnv) (dvda_titleset : dvda_titleset_t)
    (dvda_track : dvda_track_t) (ts ti tr track_number : Nat) (e : audio_track_t)
    (h : init_track env dvda_titleset dvda_track ts ti tr track_number = some e) :
    e.block_first = dvda_track.get_first ∧ e.block_last = dvda_track.get_last := by
  unfold init_track at h
  simp only at h
  split at h
  · exact absurd h (by simp)
  · split at h
    · exact absurd h (by simp)
    · rename_i info hinfo
      generalize hadd : (match env.tag_exists with
        | some tag_exists => _
        | none => _) = add_track at h
      cases add_track with
      | false => simp at h
      | true =>
        simp only [if_true, Option.some.injEq] at h
        subst h
        exact ⟨rfl, rfl⟩

theorem init_tracks_mem (env : InitEnv) (dvda_titleset : dvda_titleset_t) (ts ti : Nat)
    (P : audio_track_t → Prop) (tracks : List dvda_track_t) :
    ∀ (tr : Nat) (st : Nat × List audio_track_t),
      (∀ t ∈ tracks, ∀ tr n e, init_track env dvda_titleset t ts ti tr n = some e → P e) →
      (∀ e ∈ st.2, P e) →
      ∀ e ∈ (init_tracks env dvda_titleset ts ti tracks tr st).2, P e := by
  induction tracks with
  | nil => intro tr st _ hst; simpa [init_tracks] using hst
  | cons t rest ih =>
    intro tr st hP hst
    obtain ⟨n, l⟩ := st
    simp only [init_tracks]
    have hrest : ∀ t ∈ rest, ∀ tr n e, init_track env dvda_titleset t ts ti tr n = some e → P e :=
      fun t' ht' => hP t' (List.mem_cons_of_mem _ ht')
    split
    · rename_i e he
      apply ih _ _ hrest
      intro e' he'
      rcases List.mem_append.1 he' with h | h
      · exact hst e' h
      · simp only [List.mem_singleton] at h
        subst h
        exact hP t (List.mem_cons_self _ _) _ _ _ he
    · exact ih _ _ hrest hst

theorem init_titles_mem (env : InitEnv) (dvda_titleset : dvda_titleset_t) (ts : Nat)
    (P : audio_track_t → Prop) (titles : List dvda_title_t) :
    ∀ (ti : Nat) (st : Nat × List audio_track_t),
      (∀ title ∈ titles, ∀ t ∈ title.dvda_tracks, ∀ ti tr n e,
        init_track env dvda_titleset t ts ti tr n = some e → P e) →
      (∀ e ∈ st.2, P e) →
      ∀ e ∈ (init_titles env dvda_titleset ts titles ti st).2, P e := by
  induction titles with
  | nil => intro ti st _ hst; simpa [init_titles] using hst
  | cons title rest ih =>
    intro ti st hP hst
    simp only [init_titles]
    apply ih _ _ (fun title' h' => hP title' (List.mem_cons_of_mem _ h'))
    apply init_tracks_mem env dvda_titleset ts ti P _ _ _ _ hst
    intro t ht tr n e he
    exact hP title (List.mem_cons_self _ _) t ht ti tr n e he

theorem init_titlesets_mem (env : InitEnv) (P : audio_track_t → Prop)
    (titlesets : List dvda_titleset_t) :
    ∀ (ts : Nat) (st : Nat × List audio_track_t),
      (∀ titleset ∈ titlesets, ∀ title ∈ titleset.dvda_titles, ∀ t ∈ title.dvda_tracks,
        ∀ ts ti tr n e, init_track env titleset t ts ti tr n = some e → P e) →
      (∀ e ∈ st.2, P e) →
      ∀ e ∈ (init_titlesets env titlesets ts st).2, P e := by
  induction titlesets with
  | nil => intro ts st _ hst; simpa [init_titlesets] using hst
  | cons titleset rest ih =>
    intro ts st hP hst
    simp only [init_titlesets]
    apply ih _ _ (fun ts' h' => hP ts' (List.mem_cons_of_mem _ h'))
    split
    · apply init_titles_mem env titleset ts P _ _ _ _ hst
      intro title htitle t ht ti tr n e he
      exact hP titleset (List.mem_cons_self _ _) title htitle t ht ts ti tr n e he
    · exact hst

end track_list_t

/-- C9, as stated, fails: the catalog that `dvda_zone_t::open` builds from a
disc whose titleset 1 has one track with the single sector record
`first = 10`, `last = 5` has a track with `get_first() = 10 > get_last() = 5`,
and `track_list_t::init` adds it with `block_first = 10 > block_last = 5`. -/
theorem track_first_after_last :
    (dvda_zone_t.open_zone Example.layout Example.disc).1 = true ∧
    (∃ ts ∈ (dvda_zone_t.open_zone Example.layout Example.disc).2.dvda_titlesets,
      ∃ title ∈ ts.dvda_titles, ∃ t ∈ title.dvda_tracks,
        t.get_first = 10 ∧ t.get_last = 5 ∧ ¬ t.get_first ≤ t.get_last) ∧
    (∃ e ∈ track_list_t.init Example.accept_all
        (dvda_zone_t.open_zone Example.layout Example.disc).2,
      e.block_first = 10 ∧ e.block_last = 5 ∧ ¬ e.block_first ≤ e.block_last) := by
  decide!

/-- C9, amended: every track of a catalog all of whose sector pointers
satisfy `first ≤ last` satisfies `get_first() ≤ get_last()`, where
`get_first()` is the minimum of `first` and `get_last()` the maximum of `last`
over the track's sector pointers (both 0 for a track that has none); hence
every entry that `track_list_t::init` adds to the track list from such a
catalog has `block_first ≤ block_last`. -/
theorem track_first_le_last (zone : dvda_zone_t) (env : track_list_t.InitEnv)
    (hwf : ∀ ts ∈ zone.dvda_titlesets, ∀ title ∈ ts.dvda_titles, ∀ t ∈ title.dvda_tracks,
      ∀ sp ∈ t.dvda_sector_pointers, sp.first ≤ sp.last) :
    (∀ ts ∈ zone.dvda_titlesets, ∀ title ∈ ts.dvda_titles, ∀ t ∈ title.dvda_tracks,
      t.get_first ≤ t.get_last ∧
      (t.dvda_sector_pointers = [] → t.get_first = 0 ∧ t.get_last = 0) ∧
      (∀ sp ∈ t.dvda_sector_pointers, t.get_first ≤ sp.first ∧ sp.last ≤ t.get_last) ∧
      (t.dvda_sector_pointers ≠ [] →
        (∃ sp ∈ t.dvda_sector_pointers, t.get_first = sp.first) ∧
        (∃ sp ∈ t.dvda_sector_pointers, t.get_last = sp.last))) ∧
    (∀ e ∈ track_list_t.init env zone, e.block_first ≤ e.block_last) := by
  constructor
  · intro ts hts title htitle t ht
    have hmin := dvda_track_t.get_first_is_min t
    have hmax := dvda_track_t.get_last_is_max t
    refine ⟨dvda_track_t.get_first_le_get_last t (hwf ts hts title htitle t ht),
      fun he => ⟨hmin.1 he, hmax.1 he⟩,
      fun sp hsp => ⟨hmin.2.1 sp hsp, hmax.2.1 sp hsp⟩,
      fun hne => ⟨hmin.2.2 hne, hmax.2.2 hne⟩⟩
  · unfold track_list_t.init
    apply track_list_t.init_titlesets_mem env (fun e => e.block_first ≤ e.block_last)
    · intro ts hts title htitle t ht ts' ti tr n e he
      rcases track_list_t.init_track_blocks env ts t ts' ti tr n e he with ⟨h1, h2⟩
      show e.block_first ≤ e.block_last
      rw [h1, h2]
      exact dvda_track_t.get_first_le_get_last t (hwf ts hts title htitle t ht)
    · intro e he
      simp at he

theorem track_first_le_last_witness :
    (∀ ts ∈ (dvda_zone_t.open_zone Example.layout Example.disc_one_track).2.dvda_titlesets,
      ∀ title ∈ ts.dvda_titles, ∀ t ∈ title.dvda_tracks,
        ∀ sp ∈ t.dvda_sector_pointers, sp.first ≤ sp.last) ∧
    (∀ e ∈ track_list_t.init Example.accept_all
        (dvda_zone_t.open_zone Example.layout Example.disc_one_track).2,
      e.block_first ≤ e.block_last) :=
  ⟨by decide!,
    (track_first_le_last (dvda_zone_t.open_zone Example.layout Example.disc_one_track).2
      Example.accept_all (by decide!)).2⟩

/-! ## Theorems: opening the zone and its titlesets (C10) -/

namespace dvda_titleset_t

theorem timestamp_records_bounds (L : IfoLayout) (ats_end title_off ts_off : Nat) :
    ∀ (fuel j : Nat) (buf : List Nat) (tracks : List dvda_track_t) (res : List Nat × List dvda_track_t),
      read_track_timestamps L ats_end title_off ts_off fuel j buf tracks = some res →
      ∀ r ∈ timestamp_records L ats_end title_off ts_off fuel j buf,
        r.2 + record_size L r.1 ≤ ats_end := by
  intro fuel
  induction fuel with
  | zero => intro j buf tracks res _ r hr; simp [timestamp_records] at hr
  | succ fuel ih =>
    intro j buf tracks res h r hr
    simp only [read_track_timestamps] at h
    simp only [timestamp_records] at hr
    split at h
    · rename_i hj
      rw [if_pos hj] at hr
      split at h
      · exact absurd h (by simp)
      · rename_i hb
        rw [if_neg hb] at hr
        rcases List.mem_cons.1 hr with hr | hr
        · subst hr
          simp only [record_size]
          omega
        · exact ih _ _ _ _ h r hr
    · rename_i hj
      rw [if_neg hj] at hr
      simp at hr

theorem sector_records_bounds (L : IfoLayout) (ats_end title_off sector_off : Nat) :
    ∀ (fuel j : Nat) (buf : List Nat) (tracks : List dvda_track_t) (res : List Nat × List dvda_track_t),
      read_track_sectors L ats_end title_off sector_off fuel j buf tracks = some res →
      ∀ r ∈ sector_records L ats_end title_off sector_off fuel j buf,
        r.2 + record_size L r.1 ≤ ats_end := by
  intro fuel
  induction fuel with
  | zero => intro j buf tracks res _ r hr; simp [sector_records] at hr
  | succ fuel ih =>
    intro j buf tracks res h r hr
    simp only [read_track_sectors] at h
    simp only [sector_records] at hr
    split at h
    · rename_i hj
      rw [if_pos hj] at hr
      split at h
      · exact absurd h (by simp)
      · rename_i hb
        rw [if_neg hb] at hr
        rcases List.mem_cons.1 hr with hr | hr
        · subst hr
          simp only [record_size]
          omega
        · exact ih _ _ _ _ h r hr
    · rename_i hj
      rw [if_neg hj] at hr
      simp at hr

theorem title_records_bounds (L : IfoLayout) (ats_end i : Nat) (buf : List Nat)
    (res : List Nat × dvda_title_t) (h : read_title L ats_end i buf = some res) :
    ∀ r ∈ title_records L ats_end i buf, r.2 + record_size L r.1 ≤ ats_end := by
  intro r hr
  simp only [read_title] at h
  simp only [title_records] at hr
  split at h
  · exact absurd h (by simp)
  · rename_i h1
    rw [if_neg h1] at hr
    split at h
    · exact absurd h (by simp)
    · rename_i h2
      rw [if_neg h2] at hr
      split at h
      · exact absurd h (by simp)
      · rename_i b1 tr1 hts
        rw [hts] at hr
        split at h
        · exact absurd h (by simp)
        · rename_i b2 tr2 hsec
          rcases List.mem_cons.1 hr with hr | hr
          · subst hr; simp only [record_size]; omega
          · rcases List.mem_cons.1 hr with hr | hr
            · subst hr; simp only [record_size]; omega
            · rcases List.mem_append.1 hr with hr | hr
              · exact timestamp_records_bounds L _ _ _ _ _ _ _ _ hts r hr
              · exact sector_records_bounds L _ _ _ _ _ _ _ _ hsec r hr

theorem titles_records_bounds (L : IfoLayout) (ats_end : Nat) :
    ∀ (fuel i : Nat) (buf : List Nat) (titles res : List dvda_title_t),
      read_titles L ats_end fuel i buf titles = some res →
      ∀ r ∈ titles_records L ats_end fuel i buf, r.2 + record_size L r.1 ≤ ats_end := by
  intro fuel
  induction fuel with
  | zero => intro i buf titles res _ r hr; simp [titles_records] at hr
  | succ fuel ih =>
    intro i buf titles res h r hr
    simp only [read_titles] at h
    simp only [titles_records] at hr
    split at h
    · rename_i hi
      rw [if_pos hi] at hr
      split at h
      · exact absurd h (by simp)
      · rename_i b1 t1 ht
        rw [ht] at hr
        rcases List.mem_append.1 hr with hr | hr
        · exact title_records_bounds L _ _ _ _ ht r hr
        · exact ih _ _ _ _ h r hr
    · rename_i hi
      rw [if_neg hi] at hr
      simp at hr

/-- A successful parse has found every record that it reached inside the
descriptor buffer. -/
theorem records_read_bounds (L : IfoLayout) (ats_buf : List Nat) (titles : List dvda_title_t)
    (h : read_pgcit L ats_buf = some titles) :
    ∀ r ∈ records_read L ats_buf, r.2 + record_size L r.1 ≤ ats_buf.length := by
  intro r hr
  simp only [read_pgcit] at h
  simp only [records_read] at hr
  split at h
  · exact absurd h (by simp)
  · rename_i h1
    rw [if_neg h1] at hr
    rcases List.mem_cons.1 hr with hr | hr
    · subst hr; simp only [record_size]; omega
    · have := titles_records_bounds L _ _ _ _ _ _ h r hr
      refine le_trans this ?_
      split
      · exact le_refl _
      · omega

/-- What a true result of `dvda_titleset_t::open` implies. -/
theorem open_titleset_true (L : IfoLayout) (fs : dvda_filesystem_t) (titleset : Nat)
    (h : (open_titleset L fs titleset).is_open = true) :
    ∃ f, atsi_file fs titleset = some f ∧
      (L.atsi_mat (f.read 0 L.sizeof_atsi_mat)).ats_identifier = ATS_MAGIC ∧
      ∀ r ∈ records_read L (read_ats_buf L f),
        r.2 + record_size L r.1 ≤ (read_ats_buf L f).length := by
  unfold open_titleset at h
  simp only at h
  split at h
  · exact absurd h (by simp [fresh])
  · rename_i f hf
    split at h
    · split at h
      · split at h
        · rename_i hmagic
          split at h
          · exact absurd h (by simp [fresh])
          · rename_i titles hparse
            exact ⟨f, hf, hmagic, records_read_bounds L _ _ hparse⟩
        · exact absurd h (by simp [fresh])
      · exact absurd h (by simp [fresh])
    · exact absurd h (by simp [fresh])

end dvda_titleset_t

namespace dvda_zone_t

theorem open_titlesets_eq (L : IfoLayout) (fs : dvda_filesystem_t) :
    ∀ (n i : Nat) (titlesets : List dvda_titleset_t),
      open_titlesets L fs n i titlesets = titlesets ++
        (List.range' (i + 1) n).filterMap (fun t =>
          if (dvda_titleset_t.open_titleset L fs t).is_open then
            some (dvda_titleset_t.open_titleset L fs t)
          else none) := by
  intro n
  induction n with
  | zero => intro i titlesets; simp [open_titlesets]
  | succ n ih =>
    intro i titlesets
    simp only [open_titlesets, List.range'_succ, List.filterMap_cons]
    rw [ih]
    cases hopen : (dvda_titleset_t.open_titleset L fs (i + 1)).is_open
    · simp
    · simp

end dvda_zone_t

/-- C10: if the top-level descriptor carries the magic `"DVDAUDIO-AMG"` and
declares `n` audio titlesets, `dvda_zone_t::open` returns true and its catalog
consists of exactly the titlesets `i` in `1 .. min(n, 99)`, in ascending
order, for which `dvda_titleset_t::open(i)` returned true; and
`dvda_titleset_t::open` returns false whenever the magic of the titleset
descriptor is not `"DVDAUDIO-ATS"` or a title-index, title, track-timestamp or
sector record (or the table header) that the parse reaches extends past the
end of the descriptor buffer. Such a failure removes that titleset alone: the
other titlesets of the list are there whatever `open` returned for it. -/
theorem zone_open_catalog (L : IfoLayout) (fs : dvda_filesystem_t) :
    (∀ (f : dvda_fileobject_t) (n : Nat), dvda_zone_t.amgi_file fs = some f →
      (f.read 0 L.sizeof_amgi_mat).length = L.sizeof_amgi_mat →
      (L.amgi_mat (f.read 0 L.sizeof_amgi_mat)).amg_identifier = AMG_MAGIC →
      (L.amgi_mat (f.read 0 L.sizeof_amgi_mat)).amg_nr_of_audio_title_sets = n →
      (dvda_zone_t.open_zone L fs).1 = true ∧
      (dvda_zone_t.open_zone L fs).2.dvda_titlesets =
        (List.range' 1 (min n 99)).filterMap (fun i =>
          if (dvda_titleset_t.open_titleset L fs i).is_open then
            some (dvda_titleset_t.open_titleset L fs i)
          else none)) ∧
    (∀ (i : Nat) (f : dvda_fileobject_t), dvda_titleset_t.atsi_file fs i = some f →
      ((L.atsi_mat (f.read 0 L.sizeof_atsi_mat)).ats_identifier ≠ ATS_MAGIC ∨
        ∃ r ∈ dvda_titleset_t.records_read L (dvda_titleset_t.read_ats_buf L f),
          (dvda_titleset_t.read_ats_buf L f).length < r.2 + dvda_titleset_t.record_size L r.1) →
      (dvda_titleset_t.open_titleset L fs i).is_open = false) := by
  constructor
  · intro f n hf hlen hmagic hn
    have hmin : (if 99 < n then 99 else n) = min n 99 := by
      split <;> omega
    unfold dvda_zone_t.open_zone
    simp only [hf, hlen, if_true, hmagic, hn, hmin]
    refine ⟨trivial, ?_⟩
    rw [dvda_zone_t.open_titlesets_eq]
    simp
  · intro i f hf hbad
    cases hopen : (dvda_titleset_t.open_titleset L fs i).is_open with
    | false => rfl
    | true =>
      rcases dvda_titleset_t.open_titleset_true L fs i hopen with ⟨f', hf', hmagic, hrec⟩
      rw [hf] at hf'
      simp only [Option.some.injEq] at hf'
      subst hf'
      rcases hbad with h | ⟨r, hr, hlt⟩
      · exact absurd hmagic h
      · have := hrec r hr
        omega

theorem zone_open_catalog_witness :
    (dvda_zone_t.open_zone Example.layout Example.disc).1 = true ∧
    (dvda_titleset_t.open_titleset Example.layout Example.disc 2).is_open = false :=
  ⟨((zone_open_catalog Example.layout Example.disc).1 (Example.ifo AMG_MAGIC 2 []) 2
      (by decide!) (by decide!) (by decide!) (by decide!)).1,
    (zone_open_catalog Example.layout Example.disc).2 2
      (Example.ifo ATS_MAGIC 0 ((Example.one_track_table 3 7).take 60)) (by decide!)
      (Or.inr ⟨(RecordKind.ats_track_sector, 52), by decide!, by decide!⟩)⟩

/-! ## The AOB extents of a titleset -/

namespace dvda_titleset_t

/-- Once `open` has reached the loop over the nine extents, the extents are
those of the loop, whether the parse of the titles that follows succeeds or
not. The list `aobs` is empty until the loop has run. -/
theorem open_titleset_aobs (L : IfoLayout) (fs : dvda_filesystem_t) (titleset : Nat)
    (h : (open_titleset L fs titleset).aobs ≠ []) :
    (open_titleset L fs titleset).aobs = layout_aobs fs titleset 9 0 0 := by
  unfold open_titleset at h ⊢
  simp only at h ⊢
  split
  · rename_i hf
    rw [hf] at h
    exact absurd rfl h
  · rename_i f hf
    rw [hf] at h
    simp only at h
    split
    · rename_i hsize
      rw [if_pos hsize] at h
      split
      · rename_i hlen
        rw [if_pos hlen] at h
        split
        · split <;> rfl
        · rename_i hmagic
          rw [if_neg hmagic] at h
          exact absurd rfl h
      · rename_i hlen
        rw [if_neg hlen] at h
        exact absurd rfl h
    · rename_i hsize
      rw [if_neg hsize] at h
      exact absurd rfl h

theorem layout_aobs_length (fs : dvda_filesystem_t) (titleset : Nat) :
    ∀ n i off, (layout_aobs fs titleset n i off).length = n := by
  intro n
  induction n with
  | zero => intro i off; rfl
  | succ n ih => intro i off; simp [layout_aobs, ih]

/-- The extents that the layout loop makes, as long as no extent is empty and
the block numbers stay below `2^32`. -/
theorem layout_aobs_get (fs : dvda_filesystem_t) (titleset : Nat)
    (hpos : ∀ i, 0 < aob_blocks fs titleset i)
    (hmax : ∀ i, aob_blocks fs titleset i ≤ 2 ^ 28) :
    ∀ n i j a, aob_start fs titleset i + n * 2 ^ 28 < 2 ^ 32 →
      (layout_aobs fs titleset n i (aob_start fs titleset i))[j]? = some a →
      a.block_first = aob_start fs titleset (i + j) ∧
        a.block_last + 1 = aob_start fs titleset (i + j + 1) := by
  intro n
  induction n with
  | zero => intro i j a _ h; simp [layout_aobs] at h
  | succ n ih =>
    intro i j a hbound h
    have hp := hpos i
    have hm := hmax i
    have hlast : (match fs.open_file (FileName.ATS_AOB titleset (i + 1)) with
        | some f =>
          (((aob_start fs titleset i : Int) + (f.size / DVD_BLOCK_SIZE : Nat)
            + (if f.size % DVD_BLOCK_SIZE > 0 then 1 else 0) - 1) % 2 ^ 32).toNat
        | none =>
          (((aob_start fs titleset i : Int) + ((1024 * 1024 - 32) * 1024 / DVD_BLOCK_SIZE : Nat) - 1)
            % 2 ^ 32).toNat) = aob_start fs titleset i + aob_blocks fs titleset i - 1 := by
      generalize aob_start fs titleset i = s at hbound
      have hs : s + 2 ^ 28 < 2 ^ 32 := by omega
      unfold aob_blocks at hp hm ⊢
      cases hf : fs.open_file (FileName.ATS_AOB titleset (i + 1)) with
      | none =>
        rw [hf] at hp hm
        simp only [DVD_BLOCK_SIZE] at hp hm ⊢
        exact toNat_emod_eq _ _ (by omega) (by omega)
      | some f =>
        rw [hf] at hp hm
        simp only [DVD_BLOCK_SIZE] at hp hm ⊢
        generalize hq : f.size / 2048 = q at hp hm ⊢
        by_cases hr : f.size % 2048 > 0
        · rw [if_pos hr]
          have hceil : (f.size + (2048 - 1)) / 2048 = q + 1 := by omega
          rw [hceil] at hp hm ⊢
          exact toNat_emod_eq _ _ (by omega) (by omega)
        · rw [if_neg hr]
          have hceil : (f.size + (2048 - 1)) / 2048 = q := by omega
          rw [hceil] at hp hm ⊢
          exact toNat_emod_eq _ _ (by omega) (by omega)
    unfold layout_aobs at h
    simp only at h
    rw [hlast] at h
    have hnext : (aob_start fs titleset i + aob_blocks fs titleset i - 1 + 1) % 2 ^ 32 =
        aob_start fs titleset (i + 1) := by
      simp only [aob_start]
      generalize aob_start fs titleset i = s at hbound
      generalize aob_blocks fs titleset i = b at hp hm
      have h1 : s + b - 1 + 1 = s + b := by omega
      rw [h1]
      exact Nat.mod_eq_of_lt (by omega)
    rw [hnext] at h
    cases j with
    | zero =>
      simp only [List.getElem?_cons_zero, Option.some.injEq] at h
      subst h
      simp only [Nat.add_zero, aob_start]
      generalize aob_start fs titleset i = s at hbound
      generalize aob_blocks fs titleset i = b at hp hm
      exact ⟨trivial, by omega⟩
    | succ j =>
      simp only [List.getElem?_cons_succ] at h
      have hb : aob_start fs titleset (i + 1) + n * 2 ^ 28 < 2 ^ 32 := by
        simp only [aob_start]
        generalize aob_start fs titleset i = s at hbound
        generalize aob_blocks fs titleset i = b at hp hm
        omega
      have := ih (i + 1) j a hb h
      rw [show i + (j + 1) = i + 1 + j by omega]
      exact this

end dvda_titleset_t

namespace Example

/-- The extent files of `disc_two_aobs` are those of 5000 and of 2048 bytes. -/
theorem disc_two_aobs_files (n : Nat) (f : dvda_fileobject_t)
    (h : disc_two_aobs.open_file (FileName.ATS_AOB 1 n) = some f) :
    0 < f.size ∧ f.size < 2 ^ 39 := by
  rcases n with _ | _ | _ | n
  · have h2 : (none : Option dvda_fileobject_t) = some f := h
    exact absurd h2 (by simp)
  · have h2 : (some { size := 5000, data := List.replicate 5000 0 } : Option dvda_fileobject_t) =
        some f := h
    rw [← Option.some.inj h2]
    exact ⟨by decide, by decide⟩
  · have h2 : (some { size := 2048, data := List.replicate 2048 0 } : Option dvda_fileobject_t) =
        some f := h
    rw [← Option.some.inj h2]
    exact ⟨by decide, by decide⟩
  · have h2 : (none : Option dvda_fileobject_t) = some f := h
    exact absurd h2 (by simp)

theorem disc_two_aobs_cut_off_files (n : Nat) (f : dvda_fileobject_t)
    (h : disc_two_aobs_cut_off.open_file (FileName.ATS_AOB 1 n) = some f) :
    0 < f.size ∧ f.size < 2 ^ 39 :=
  disc_two_aobs_files n f h

end Example

namespace dvda_titleset_t

/-- Counterexample to C11: with `ATS_01_1.AOB` of one block and an empty
`ATS_01_2.AOB`, `open` succeeds and lays out the second extent as
`block_first = 1`, `block_last = 0`, so `block_first <= block_last` fails. -/
theorem aobs_empty_file_extent :
    (open_titleset Example.layout Example.disc_empty_aob 1).is_open = true ∧
      ((open_titleset Example.layout Example.disc_empty_aob 1).aobs.map
        (fun a => (a.block_first, a.block_last))).take 3 = [(0, 0), (1, 0), (1, 524272)] ∧
      ¬ AobsTile Example.disc_empty_aob 1
        (open_titleset Example.layout Example.disc_empty_aob 1).aobs := by
  refine ⟨by decide!, by decide!, fun h => ?_⟩
  have h1 : (open_titleset Example.layout Example.disc_empty_aob 1).aobs[1]? =
      some { file_name := FileName.ATS_AOB 1 2, block_first := 1, block_last := 0,
             present := true } := by decide!
  have := (h.2.2.2 1 _ h1).1
  exact absurd this (by decide)

/-- C11 as amended: after `open` has laid out the nine extents (whether it
then returns true or false), when every extent file that exists is non-empty
and smaller than `2^39` bytes, the extents tile the block addresses from 0 on
without gap or overlap, none is empty, an existing file of `s` bytes has
`ceil(s / 2048)` blocks and a missing file 524272. -/
theorem aobs_tile (L : IfoLayout) (fs : dvda_filesystem_t) (titleset : Nat)
    (hlaid : (open_titleset L fs titleset).aobs ≠ [])
    (hfiles : ∀ n f, fs.open_file (FileName.ATS_AOB titleset n) = some f →
      0 < f.size ∧ f.size < 2 ^ 39) :
    AobsTile fs titleset (open_titleset L fs titleset).aobs ∧
      ∀ i, aob_blocks fs titleset i =
        match fs.open_file (FileName.ATS_AOB titleset (i + 1)) with
        | some f => (f.size + 2047) / 2048
        | none => 524272 := by
  have hpos : ∀ i, 0 < aob_blocks fs titleset i := by
    intro i
    unfold aob_blocks
    cases hf : fs.open_file (FileName.ATS_AOB titleset (i + 1)) with
    | none => decide
    | some f =>
      have := hfiles _ f hf
      simp only [DVD_BLOCK_SIZE]
      omega
  have hmax : ∀ i, aob_blocks fs titleset i ≤ 2 ^ 28 := by
    intro i
    unfold aob_blocks
    cases hf : fs.open_file (FileName.ATS_AOB titleset (i + 1)) with
    | none => decide
    | some f =>
      have := hfiles _ f hf
      simp only [DVD_BLOCK_SIZE]
      omega
  have hget := layout_aobs_get fs titleset hpos hmax 9 0
  have hb : aob_start fs titleset 0 + 9 * 2 ^ 28 < 2 ^ 32 := by
    simp only [aob_start]
    omega
  rw [open_titleset_aobs L fs titleset hlaid]
  refine ⟨⟨layout_aobs_length fs titleset 9 0 0, ?_, ?_, ?_⟩, fun i => rfl⟩
  · intro a ha
    exact (hget 0 a hb ha).1
  · intro i a b hi ha hb2
    have h1 := hget i a hb ha
    have h2 := hget (i + 1) b hb hb2
    rw [h2.1, h1.2, Nat.zero_add, Nat.zero_add]
  · intro i a ha
    have h1 := hget i a hb ha
    have hp := hpos i
    rw [Nat.zero_add] at h1
    simp only [aob_start] at h1
    omega

/-- Witness of C11 as amended: titleset 1 of a disc with `ATS_01_1.AOB` of
5000 bytes and `ATS_01_2.AOB` of 2048 bytes, the other seven extent files
missing. The two files get 3 blocks and 1 block, the extents are `0..2`,
`3..3` and, for the first placeholder, `4..524275`; and the same holds on the
disc whose table is cut off, where `open` returns false after the layout. -/
theorem aobs_tile_witness :
    ((open_titleset Example.layout Example.disc_two_aobs 1).aobs ≠ [] ∧
    (∀ n f, Example.disc_two_aobs.open_file (FileName.ATS_AOB 1 n) = some f →
      0 < f.size ∧ f.size < 2 ^ 39) ∧
    ((Example.disc_two_aobs.open_file (FileName.ATS_AOB 1 1)).map dvda_fileobject_t.size =
        some 5000 ∧
      (Example.disc_two_aobs.open_file (FileName.ATS_AOB 1 2)).map dvda_fileobject_t.size =
        some 2048 ∧
      Example.disc_two_aobs.open_file (FileName.ATS_AOB 1 3) = none) ∧
    (open_titleset Example.layout Example.disc_two_aobs 1).is_open = true ∧
    ((open_titleset Example.layout Example.disc_two_aobs 1).aobs.map
      (fun a => (a.block_first, a.block_last))).take 3 = [(0, 2), (3, 3), (4, 524275)] ∧
    (AobsTile Example.disc_two_aobs 1 (open_titleset Example.layout Example.disc_two_aobs 1).aobs ∧
      ∀ i, aob_blocks Example.disc_two_aobs 1 i =
        match Example.disc_two_aobs.open_file (FileName.ATS_AOB 1 (i + 1)) with
        | some f => (f.size + 2047) / 2048
        | none => 524272)) ∧
    ((open_titleset Example.layout Example.disc_two_aobs_cut_off 1).aobs ≠ [] ∧
    (∀ n f, Example.disc_two_aobs_cut_off.open_file (FileName.ATS_AOB 1 n) = some f →
      0 < f.size ∧ f.size < 2 ^ 39) ∧
    (open_titleset Example.layout Example.disc_two_aobs_cut_off 1).is_open = false ∧
    (AobsTile Example.disc_two_aobs_cut_off 1
        (open_titleset Example.layout Example.disc_two_aobs_cut_off 1).aobs ∧
      ∀ i, aob_blocks Example.disc_two_aobs_cut_off 1 i =
        match Example.disc_two_aobs_cut_off.open_file (FileName.ATS_AOB 1 (i + 1)) with
        | some f => (f.size + 2047) / 2048
        | none => 524272)) :=
  ⟨⟨by decide!, Example.disc_two_aobs_files, ⟨by decide, by decide, by decide⟩, by decide!,
      by decide!,
      aobs_tile Example.layout Example.disc_two_aobs 1 (by decide!) Example.disc_two_aobs_files⟩,
    ⟨by decide!, Example.disc_two_aobs_cut_off_files, by decide!,
      aobs_tile Example.layout Example.disc_two_aobs_cut_off 1 (by decide!)
        Example.disc_two_aobs_cut_off_files⟩⟩

end dvda_titleset_t

/-! ## Theorems: `mlp_audio_stream_t::resync` (C3, C4) -/

namespace MlpAudioStream


/-- Masking a 32-bit value with `0xfffffffe` clears its lowest bit. -/
theorem mask_even (x : Nat) (h : x < 2 ^ 32) : x &&& 0xfffffffe = 2 * (x / 2) := by
  have h1 : (x &&& 0xfffffffe) / 2 = x / 2 := by
    rw [Nat.and_div_two]
    have : (0xfffffffe : Nat) / 2 = 2 ^ 31 - 1 := by norm_num
    rw [this]
    exact Nat.and_pow_two_sub_one_of_lt_two_pow (by omega)
  have h2 : (x &&& 0xfffffffe) % 2 = 0 := by
    have := @Nat.and_mod_two_eq_one x 0xfffffffe
    omega
  omega

/-- Shifting a byte into the 32-bit register, arithmetically. -/
theorem shift_or (ms b : Nat) (hb : b < 256) :
    ((ms <<< 8) % 2 ^ 32) ||| b = (ms % 2 ^ 24) * 256 + b := by
  rw [Nat.shiftLeft_eq]
  have h1 : ms * 2 ^ 8 % 2 ^ 32 = 2 ^ 8 * (ms % 2 ^ 24) := by omega
  rw [h1, ← Nat.mul_add_lt_is_or (by omega)]
  omega

/-- The comparison in the loop succeeds exactly when the last four bytes
shifted in are the pattern. -/
theorem step_match (ms p3 p2 p1 b : Nat) (h3 : p3 < 256) (h2 : p2 < 256) (h1 : p1 < 256)
    (hb : b < 256) (hms : ms % 2 ^ 24 = p3 * 65536 + p2 * 256 + p1) :
    ((((ms <<< 8) % 2 ^ 32) ||| b) &&& 0xfffffffe = 0xf8726fba) ↔
      (p3 = 0xF8 ∧ p2 = 0x72 ∧ p1 = 0x6F ∧ (b = 0xBA ∨ b = 0xBB)) := by
  rw [shift_or ms b hb, mask_even _ (by omega), hms]
  omega

theorem syncAt_cons (a : Nat) (l : List Nat) (t : Nat) :
    SyncAt (a :: l) (t + 1) ↔ SyncAt l t := by
  simp [SyncAt, Nat.add_right_comm _ 1]

theorem syncAt_zero (p3 p2 p1 b : Nat) (rest : List Nat) :
    SyncAt (p3 :: p2 :: p1 :: b :: rest) 0 ↔
      (p3 = 0xF8 ∧ p2 = 0x72 ∧ p1 = 0x6F ∧ (b = 0xBA ∨ b = 0xBB)) := by
  simp [SyncAt]

theorem resync_loop_spec (l : List Nat) : ∀ (i ms p3 p2 p1 : Nat),
    (∀ b ∈ l, b < 256) → p3 < 256 → p2 < 256 → p1 < 256 →
    ms % 2 ^ 24 = p3 * 65536 + p2 * 256 + p1 →
    (resync_loop l i ms = -1 ∧ ∀ t, ¬ SyncAt (p3 :: p2 :: p1 :: l) t) ∨
    (∃ t, SyncAt (p3 :: p2 :: p1 :: l) t ∧ (∀ u, u < t → ¬ SyncAt (p3 :: p2 :: p1 :: l) u) ∧
      resync_loop l i ms = (i : Int) + t - 7) := by
  induction l with
  | nil =>
    intro i ms p3 p2 p1 _ _ _ _ _
    left
    refine ⟨rfl, ?_⟩
    intro t h
    rcases t with _ | _ | _ | t <;> simp [SyncAt] at h
  | cons b rest ih =>
    intro i ms p3 p2 p1 hl h3 h2 h1 hms
    have hb : b < 256 := hl b (List.mem_cons_self _ _)
    have hrest : ∀ c ∈ rest, c < 256 := fun c hc => hl c (List.mem_cons_of_mem _ hc)
    have hm := step_match ms p3 p2 p1 b h3 h2 h1 hb hms
    by_cases hc : (((ms <<< 8) % 2 ^ 32) ||| b) &&& 0xfffffffe = 0xf8726fba
    · right
      refine ⟨0, (syncAt_zero p3 p2 p1 b rest).2 (hm.1 hc), fun u hu => absurd hu (Nat.not_lt_zero u), ?_⟩
      simp only [resync_loop, hc, if_true]
      push_cast; ring
    · have hms2 : ((((ms <<< 8) % 2 ^ 32) ||| b)) % 2 ^ 24 = p2 * 65536 + p1 * 256 + b := by
        rw [shift_or ms b hb]; omega
      have hno : ¬ SyncAt (p3 :: p2 :: p1 :: b :: rest) 0 := fun h =>
        hc (hm.2 ((syncAt_zero p3 p2 p1 b rest).1 h))
      rcases ih (i + 1) _ p2 p1 b hrest h2 h1 hb hms2 with ⟨hr, hnone⟩ | ⟨t, ht, hmin, hr⟩
      · left
        refine ⟨by simp only [resync_loop, hc, if_false]; exact hr, ?_⟩
        intro t
        cases t with
        | zero => exact hno
        | succ t => rw [syncAt_cons]; exact hnone t
      · right
        refine ⟨t + 1, (syncAt_cons _ _ _).2 ht, ?_, ?_⟩
        · intro u hu
          cases u with
          | zero => exact hno
          | succ u => rw [syncAt_cons]; exact hmin u (by omega)
        · simp only [resync_loop, hc, if_false]
          rw [hr]; push_cast; ring

theorem syncAt_pad (buf : List Nat) (t : Nat) :
    SyncAt (0 :: 0 :: 0 :: buf.drop 4) t ↔ (3 ≤ t ∧ SyncAt buf (t + 1)) := by
  rcases t with _ | _ | _ | t
  · simp [SyncAt]
  · simp [SyncAt]
  · simp [SyncAt]
  · rw [syncAt_cons, syncAt_cons, syncAt_cons]
    simp [SyncAt, List.getElem?_drop]
    have e1 : 4 + t = t + 1 + 1 + 1 + 1 := by omega
    have e2 : 4 + (t + 1) = t + 1 + 1 + 1 + 1 + 1 := by omega
    have e3 : 4 + (t + 2) = t + 1 + 1 + 1 + 1 + 2 := by omega
    have e4 : 4 + (t + 3) = t + 1 + 1 + 1 + 1 + 3 := by omega
    rw [e1, e2, e3, e4]

/-- The result of `resync` in full: either no pattern begins at an offset
`k ≥ 4` and the result is `-1`, or the result is `k - 4` for the first offset
`k ≥ 4` at which a pattern begins. -/
theorem resync_spec (buf : List Nat) (hbuf : ∀ b ∈ buf, b < 256) :
    (resync buf = -1 ∧ ∀ k, 4 ≤ k → ¬ SyncAt buf k) ∨
    (∃ k, 4 ≤ k ∧ SyncAt buf k ∧ (∀ j, 4 ≤ j → j < k → ¬ SyncAt buf j) ∧
      resync buf = (k : Int) - 4) := by
  have hd : ∀ b ∈ buf.drop 4, b < 256 := fun b hb => hbuf b (List.mem_of_mem_drop hb)
  rcases resync_loop_spec (buf.drop 4) 4 0 0 0 0 hd (by decide) (by decide) (by decide) (by decide)
    with ⟨hr, hnone⟩ | ⟨t, ht, hmin, hr⟩
  · left
    refine ⟨hr, ?_⟩
    intro k hk h
    have := hnone (k - 1)
    rw [syncAt_pad] at this
    apply this
    refine ⟨by omega, ?_⟩
    have : k - 1 + 1 = k := by omega
    rw [this]; exact h
  · right
    rw [syncAt_pad] at ht
    refine ⟨t + 1, by omega, ht.2, ?_, ?_⟩
    · intro j h4 hj hs
      have := hmin (j - 1) (by omega)
      rw [syncAt_pad] at this
      apply this
      refine ⟨by omega, ?_⟩
      have : j - 1 + 1 = j := by omega
      rw [this]; exact hs
    · unfold resync; rw [hr]; push_cast; ring

theorem syncAt_length {buf : List Nat} {k : Nat} (h : SyncAt buf k) : k + 4 ≤ buf.length := by
  rcases h with ⟨_, _, _, h4⟩
  have : (buf[k + 3]?).isSome := by rcases h4 with h | h <;> simp [h]
  have := (List.getElem?_eq_some_iff.1 (Option.eq_some_of_isSome this)).1
  omega

/-- C3, as stated, fails: a pattern that begins at offset 1 (indeed at any of
the offsets 0..3) is not seen, because the scan shifts in bytes from index 4
on; on this window `resync` returns `-1`, not `1 - 4`. -/
theorem resync_pattern_before_scan_start :
    ¬ (∀ (buf : List Nat) (k : Nat), (∀ b ∈ buf, b < 256) → SyncAt buf k →
        (∀ j, j < k → ¬ SyncAt buf j) → resync buf = (k : Int) - 4) := by
  intro h
  have h1 := h [0x00, 0xF8, 0x72, 0x6F, 0xBA, 0x01, 0x02, 0x03, 0x04, 0x05, 0x06, 0x07] 1
    (by decide) (by decide) (by decide)
  revert h1
  decide

/-- C3, amended: for every byte buffer and every offset `k ≥ 4` such that the
major-sync pattern `F8 72 6F BA` (or `F8 72 6F BB`) begins at offset `k` and
at no smaller offset, `mlp_audio_stream_t::resync` returns `k - 4`. -/
theorem resync_returns_sync_offset_minus_backoff (buf : List Nat) (k : Nat)
    (hbuf : ∀ b ∈ buf, b < 256) (hk : 4 ≤ k) (hsync : SyncAt buf k)
    (hfirst : ∀ j, j < k → ¬ SyncAt buf j) : resync buf = (k : Int) - 4 := by
  rcases resync_spec buf hbuf with ⟨_, hnone⟩ | ⟨k', hk', hs', hmin', hr⟩
  · exact absurd hsync (hnone k hk)
  · have : k' = k := by
      rcases Nat.lt_trichotomy k' k with hlt | heq | hgt
      · exact absurd hs' (hfirst k' hlt)
      · exact heq
      · exact absurd hsync (hmin' k hk hgt)
    rw [hr, this]

theorem resync_returns_sync_offset_minus_backoff_witness :
    resync [0x11, 0x22, 0x33, 0x44, 0x55, 0xF8, 0x72, 0x6F, 0xBB, 0x00, 0x00] = ((5 : Nat) : Int) - 4 :=
  resync_returns_sync_offset_minus_backoff
    [0x11, 0x22, 0x33, 0x44, 0x55, 0xF8, 0x72, 0x6F, 0xBB, 0x00, 0x00] 5
    (by decide) (by decide) (by decide) (by decide)

/-- C4: `mlp_audio_stream_t::resync` returns `-1` on every window without an
occurrence of the sync pattern, and whenever it returns `r ≠ -1` then
`0 ≤ r ≤ buf_size - 8` and the bytes `r+4 .. r+7` of the window are
`F8 72 6F` followed by `BA` or `BB`; so `-1` is the only negative result. -/
theorem resync_not_found_or_valid (buf : List Nat) (hbuf : ∀ b ∈ buf, b < 256) :
    ((∀ k, ¬ SyncAt buf k) → resync buf = -1) ∧
    (∀ r : Int, resync buf = r → r ≠ -1 →
      0 ≤ r ∧ r ≤ (buf.length : Int) - 8 ∧ SyncAt buf (r.toNat + 4)) := by
  rcases resync_spec buf hbuf with ⟨hr, _⟩ | ⟨k, hk, hs, _, hr⟩
  · exact ⟨fun _ => hr, fun r h1 h2 => absurd (hr ▸ h1.symm) h2⟩
  · refine ⟨fun hno => absurd hs (hno k), ?_⟩
    intro r h1 _
    have hlen := syncAt_length hs
    have hr' : r = (k : Int) - 4 := by rw [← h1, hr]
    have hk' : r.toNat + 4 = k := by omega
    refine ⟨by omega, by omega, ?_⟩
    rw [hk']; exact hs

theorem resync_not_found_or_valid_witness :
    ((∀ k, ¬ SyncAt [0x00, 0x00, 0x00, 0x00, 0xF8, 0x72, 0x6F, 0xBA] k) →
        resync [0x00, 0x00, 0x00, 0x00, 0xF8, 0x72, 0x6F, 0xBA] = -1) ∧
    (∀ r : Int, resync [0x00, 0x00, 0x00, 0x00, 0xF8, 0x72, 0x6F, 0xBA] = r → r ≠ -1 →
      0 ≤ r ∧ r ≤ (([0x00, 0x00, 0x00, 0x00, 0xF8, 0x72, 0x6F, 0xBA] : List Nat).length : Int) - 8 ∧
        SyncAt [0x00, 0x00, 0x00, 0x00, 0xF8, 0x72, 0x6F, 0xBA] (r.toNat + 4)) :=
  resync_not_found_or_valid [0x00, 0x00, 0x00, 0x00, 0xF8, 0x72, 0x6F, 0xBA] (by decide)

end MlpAudioStream

/-! ## Theorems: `pcm_audio_stream_t::decode` (C5, C7) -/

namespace audio_stream_t

theorem write_bytes_length : ∀ (v data : List Nat) (pos : Nat),
    (write_bytes data pos v).length = data.length
  | [], data, pos => rfl
  | b :: bs, data, pos => by
    simp only [write_bytes]
    rw [write_bytes_length bs]
    simp

theorem set_sample_length (w : Nat) (data : List Nat) (offset k : Nat) (v : List Nat) :
    (set_sample w data offset k v).length = data.length :=
  write_bytes_length v data _

theorem move_group2_length (w g offset : Nat) : ∀ (n i : Nat) (data : List Nat),
    (move_group2 w g offset n i data).length = data.length
  | 0, _, _ => rfl
  | n + 1, i, data => by
    simp only [move_group2]
    rw [move_group2_length w g offset n, set_sample_length]

theorem reorder_frame_length (w : Nat) (info : audio_stream_info_t) (data : List Nat) (offset : Nat) :
    (reorder_frame w info data offset).length = data.length := by
  simp only [reorder_frame, set_sample_length, move_group2_length]

theorem frame_loop_ok (step : Nat) (body : List Nat → Nat → List Nat) (hstep : 1 ≤ step)
    (hbody : ∀ d o, (body d o).length = d.length) :
    ∀ (fuel offset : Nat) (data : List Nat), 1 ≤ fuel → data.length + 1 ≤ fuel + offset →
      ∃ d, frame_loop step body fuel offset data = Except.ok d ∧ d.length = data.length := by
  intro fuel
  induction fuel with
  | zero => intro offset data h; omega
  | succ fuel ih =>
    intro offset data _ h
    simp only [frame_loop]
    split
    · rcases ih (offset + step) (body data offset) (by omega) (by rw [hbody]; omega)
        with ⟨d, hd, hl⟩
      exact ⟨d, hd, by rw [hl, hbody]⟩
    · exact ⟨data, rfl, rfl⟩

/-- The method `reorder_channels` returns, and keeps the size of the data,
when the stream has a channel. -/
theorem reorder_channels_ok (info : audio_stream_info_t) (data : List Nat)
    (hch : 1 ≤ info.group1_channels + info.group2_channels) :
    ∃ d, reorder_channels info data = Except.ok d ∧ d.length = data.length := by
  unfold reorder_channels
  split
  · exact ⟨data, rfl, rfl⟩
  · split
    · split
      · exact frame_loop_ok _ _ (by omega) (fun d o => set_sample_length _ _ _ _ _) _ _ _
          (by omega) (by omega)
      · split
        · exact frame_loop_ok _ _ (by omega)
            (fun d o => by simp only [set_sample_length]) _ _ _ (by omega) (by omega)
        · exact ⟨data, rfl, rfl⟩
    · split
      · exact ⟨data, rfl, rfl⟩
      · split
        · exact frame_loop_ok _ _ (by omega) (fun d o => reorder_frame_length _ _ _ _) _ _ _
            (by omega) (by omega)
        · split
          · exact frame_loop_ok _ _ (by omega) (fun d o => reorder_frame_length _ _ _ _) _ _ _
              (by omega) (by omega)
          · exact ⟨data, rfl, rfl⟩

/-- For a channel assignment below 18 `reorder_channels` leaves the data as
they are. -/
theorem reorder_channels_below_18 (info : audio_stream_info_t) (data : List Nat)
    (h : info.channel_arrangement < 18) : reorder_channels info data = Except.ok data := by
  unfold reorder_channels
  split
  · rfl
  · rw [if_neg (show ¬ info.channel_arrangement = 33 by omega)]

theorem downmix_frame_length (w channels : Nat) (mix : Nat → List Int → Int) (data : List Nat)
    (offset dmx_offset : Nat) :
    (downmix_frame w channels mix data offset dmx_offset).length = data.length := by
  simp only [downmix_frame, write_bytes_length]

theorem downmix_loop_ok (w channels : Nat) (mix : Nat → List Int → Int) (hstep : 1 ≤ channels * w) :
    ∀ (fuel offset dmx_offset : Nat) (data : List Nat), 1 ≤ fuel →
      data.length + 1 ≤ fuel + offset →
      ∃ r, downmix_loop w channels mix fuel offset dmx_offset data = Except.ok r ∧
        (data.length ≤ offset → r = (data, dmx_offset)) := by
  intro fuel
  induction fuel with
  | zero => intro offset dmx_offset data h; omega
  | succ fuel ih =>
    intro offset dmx_offset data _ h
    simp only [downmix_loop]
    split
    · rcases ih (offset + channels * w) (dmx_offset + 2 * w)
        (downmix_frame w channels mix data offset dmx_offset) (by omega)
        (by rw [downmix_frame_length]; omega) with ⟨r, hr, _⟩
      exact ⟨r, hr, fun hle => by omega⟩
    · exact ⟨_, rfl, fun _ => rfl⟩

/-- The method `downmix_channels` returns when the stream has a channel, and
gives an empty buffer for an empty one. -/
theorem downmix_channels_ok (mix : Nat → List Int → Int) (info : audio_stream_info_t)
    (data : List Nat) (hch : 1 ≤ info.group1_channels + info.group2_channels) :
    ∃ d, downmix_channels mix info data = Except.ok d ∧ (data = [] → d = []) := by
  unfold downmix_channels
  simp only
  split
  · rcases downmix_loop_ok 2 (info.group1_channels + info.group2_channels) mix (by omega) (data.length + 1) 0 0 data (by omega) (by omega)
      with ⟨r, hr, h0⟩
    rw [hr]
    refine ⟨_, rfl, ?_⟩
    intro he
    have := h0 (by rw [he]; simp)
    rw [this]
    simp
  · split
    · rcases downmix_loop_ok 4 (info.group1_channels + info.group2_channels) mix (by omega) (data.length + 1) 0 0 data (by omega) (by omega)
        with ⟨r, hr, h0⟩
      rw [hr]
      refine ⟨_, rfl, ?_⟩
      intro he
      have := h0 (by rw [he]; simp)
      rw [this]
      simp
    · exact ⟨[], rfl, fun _ => rfl⟩

end audio_stream_t

namespace pcm_audio_stream_t

theorem rd_ok (buf : List Nat) (p k : Nat) (h : p + k < buf.length) :
    rd buf p k = Except.ok (buf.getD (p + k) 0) := by
  unfold rd
  rw [List.getElem?_eq_getElem h]
  simp [List.getD, List.getElem?_eq_getElem h]

theorem group1_sample_ok (info : audio_stream_info_t) (buf : List Nat) (p i : Nat)
    (hd : IsDepth info.group1_bits) (hi : i < 2 * info.group1_channels)
    (hb : p + info.group1_channels * info.group1_bits / 4 ≤ buf.length) :
    group1_sample info buf p i = Except.ok (group1_bytes info buf p i) := by
  unfold group1_sample group1_bytes
  rcases hd with h | h | h <;> rw [h] at hb ⊢ <;> simp only [Nat.reduceEqDiff, if_true, if_false]
  · rw [rd_ok _ _ _ (by omega), rd_ok _ _ _ (by omega)]; rfl
  · rw [rd_ok _ _ _ (by omega), rd_ok _ _ _ (by omega), rd_ok _ _ _ (by omega)]; rfl
  · rw [rd_ok _ _ _ (by omega), rd_ok _ _ _ (by omega), rd_ok _ _ _ (by omega)]; rfl

theorem group2_sample_ok (info : audio_stream_info_t) (buf : List Nat) (p i : Nat)
    (hd : IsDepth info.group2_bits) (hi : i < 2 * info.group2_channels)
    (hb : p + info.group2_channels * info.group2_bits / 4 ≤ buf.length) :
    group2_sample info buf p i = Except.ok (group2_bytes info buf p i) := by
  unfold group2_sample group2_bytes
  rcases hd with h | h | h <;> rw [h] at hb ⊢ <;> simp only [Nat.reduceEqDiff, if_true, if_false]
  · rw [rd_ok _ _ _ (by omega), rd_ok _ _ _ (by omega)]; rfl
  · rw [rd_ok _ _ _ (by omega), rd_ok _ _ _ (by omega), rd_ok _ _ _ (by omega)]; rfl
  · rw [rd_ok _ _ _ (by omega), rd_ok _ _ _ (by omega), rd_ok _ _ _ (by omega)]; rfl

theorem unpack_samples_ok (sample : Nat → Except Fault (List Nat)) (f : Nat → List Nat) :
    ∀ (n i : Nat), (∀ j, i ≤ j → j < i + n → sample j = Except.ok (f j)) →
      unpack_samples sample n i = Except.ok (concat_from f n i)
  | 0, _, _ => rfl
  | n + 1, i, h => by
    simp only [unpack_samples, concat_from]
    rw [h i (le_refl _) (by omega), unpack_samples_ok sample f n (i + 1) (fun j h1 h2 => h j (by omega) (by omega))]
    rfl

theorem unit_pure_inp (s : pcm_audio_stream_t) (buf : List Nat) (st : LoopState) :
    (unit_pure s buf st).inp = st.inp + unit_size s st.raw_group2_index := by
  simp only [unit_pure, unit_size]
  split <;> omega

theorem unit_pure_index (s : pcm_audio_stream_t) (buf : List Nat) (st : LoopState) :
    (unit_pure s buf st).raw_group2_index = next_index s st.raw_group2_index := rfl

theorem decode_unit_ok (s : pcm_audio_stream_t) (buf : List Nat) (st : LoopState)
    (hinit : Initialised s) (hd1 : IsDepth s.info.group1_bits)
    (hd2 : s.info.group2_channels = 0 ∨ IsDepth s.info.group2_bits)
    (hb : st.inp + unit_size s st.raw_group2_index ≤ buf.length) :
    decode_unit s buf st = Except.ok (unit_pure s buf st) := by
  obtain ⟨hr1, hr2, _, _, _⟩ := hinit
  unfold decode_unit unit_pure
  by_cases hidx : st.raw_group2_index = 0
  · simp only [unit_size, hidx, if_true] at hb
    have h2 : unpack_samples (group2_sample s.info buf st.inp) (2 * s.info.group2_channels) 0 =
        Except.ok (concat_from (group2_bytes s.info buf st.inp) (2 * s.info.group2_channels) 0) := by
      apply unpack_samples_ok
      intro j _ hj
      rcases hd2 with h0 | hd2
      · omega
      · exact group2_sample_ok _ _ _ _ hd2 (by omega) (by rw [← hr2]; omega)
    have h1 : unpack_samples (group1_sample s.info buf (st.inp + s.raw_group2_size))
        (2 * s.info.group1_channels) 0 =
        Except.ok (concat_from (group1_bytes s.info buf (st.inp + s.raw_group2_size))
          (2 * s.info.group1_channels) 0) := by
      apply unpack_samples_ok
      intro j _ hj
      exact group1_sample_ok _ _ _ _ hd1 (by omega) (by rw [← hr1]; omega)
    simp only [hidx, if_true, h2, bind, Except.bind, pure, Except.pure, h1, next_index]
  · simp only [unit_size, hidx, if_false] at hb
    have h1 : unpack_samples (group1_sample s.info buf st.inp) (2 * s.info.group1_channels) 0 =
        Except.ok (concat_from (group1_bytes s.info buf st.inp) (2 * s.info.group1_channels) 0) := by
      apply unpack_samples_ok
      intro j _ hj
      exact group1_sample_ok _ _ _ _ hd1 (by omega) (by rw [← hr1]; omega)
    simp only [hidx, if_false, bind, Except.bind, pure, Except.pure, h1, next_index]

theorem units_pure_inp (s : pcm_audio_stream_t) (buf : List Nat) : ∀ (n : Nat) (st : LoopState),
    (units_pure s buf n st).inp = st.inp + units_size s st.raw_group2_index n
  | 0, st => rfl
  | n + 1, st => by
    simp only [units_pure, units_size]
    rw [units_pure_inp s buf n, unit_pure_inp, unit_pure_index]
    omega

theorem units_size_succ (s : pcm_audio_stream_t) : ∀ (n idx : Nat),
    units_size s idx (n + 1) =
      units_size s idx n + unit_size s ((next_index s)^[n] idx)
  | 0, idx => by simp [units_size]
  | n + 1, idx => by
    rw [units_size, units_size_succ s n (next_index s idx), units_size]
    simp only [Function.iterate_succ, Function.comp]
    omega

theorem units_pure_index (s : pcm_audio_stream_t) (buf : List Nat) : ∀ (n : Nat) (st : LoopState),
    (units_pure s buf n st).raw_group2_index = (next_index s)^[n] st.raw_group2_index
  | 0, st => rfl
  | n + 1, st => by
    simp only [units_pure, Function.iterate_succ, Function.comp]
    rw [units_pure_index s buf n, unit_pure_index]

theorem decode_loop_ok (s : pcm_audio_stream_t) (buf : List Nat) (limit : Nat)
    (hinit : Initialised s) (hd1 : IsDepth s.info.group1_bits)
    (hd2 : s.info.group2_channels = 0 ∨ IsDepth s.info.group2_bits)
    (hraw : 1 ≤ s.raw_group1_size) (hlimit : limit ≤ buf.length) :
    ∀ (fuel : Nat) (st : LoopState), 1 ≤ fuel → limit + 1 ≤ fuel + st.inp →
      ∃ n, decode_loop s buf limit fuel st = Except.ok (units_pure s buf n st) ∧
        units_size s st.raw_group2_index n + st.inp ≤ max limit st.inp ∧
        limit < st.inp + units_size s st.raw_group2_index (n + 1) := by
  intro fuel
  induction fuel with
  | zero => intro st h; omega
  | succ fuel ih =>
    intro st _ hfuel
    simp only [decode_loop]
    by_cases hc : st.inp + unit_size s st.raw_group2_index ≤ limit
    · rw [if_pos hc, decode_unit_ok s buf st hinit hd1 hd2 (by omega)]
      have hu : 1 ≤ unit_size s st.raw_group2_index := by
        simp only [unit_size]; omega
      have hinp := unit_pure_inp s buf st
      rcases ih (unit_pure s buf st) (by omega) (by omega) with ⟨n, hn, h1, h2⟩
      refine ⟨n + 1, ?_, ?_, ?_⟩
      · simp only [units_pure]; exact hn
      · rw [unit_pure_index, hinp] at h1
        simp only [units_size]
        omega
      · rw [unit_pure_index, hinp] at h2
        rw [units_size]
        omega
    · rw [if_neg hc]
      refine ⟨0, rfl, ?_, ?_⟩
      · simp only [units_size]; omega
      · simp only [units_size]; omega

theorem units_pure_out_zero (s : pcm_audio_stream_t) (buf : List Nat) (st : LoopState) :
    (units_pure s buf 0 st).out = st.out := rfl

theorem idiv_ok (a b : Nat) (hb : b ≠ 0) : idiv a b = Except.ok (a / b) := by
  simp [idiv, hb]

/-- The run of `decode` on a stream whose group-1 sample rate is not 0: it
returns, having consumed the first `n` access units, the largest number that
fits into the first `min(buf_size, DVD_BLOCK_SIZE)` bytes. -/
theorem decode_returns (mix : Nat → List Int → Int) (s : pcm_audio_stream_t) (buf : List Nat)
    (hinit : Initialised s) (hd1 : IsDepth s.info.group1_bits)
    (hd2 : s.info.group2_channels = 0 ∨ IsDepth s.info.group2_bits)
    (hch : 1 ≤ s.info.group1_channels) (hrate : s.info.group1_samplerate ≠ 0) :
    ∃ r n, decode mix s buf = Except.ok r ∧
      r.bytes_decoded = units_size s s.raw_group2_index n ∧
      units_size s s.raw_group2_index n ≤ min buf.length DVD_BLOCK_SIZE ∧
      min buf.length DVD_BLOCK_SIZE < units_size s s.raw_group2_index (n + 1) ∧
      r.stream.raw_group2_index = (next_index s)^[n] s.raw_group2_index ∧
      (n = 0 → r.data = []) ∧
      (s.do_downmix = false → s.info.channel_arrangement < 18 →
        r.data = (units_pure s buf n
          { inp := 0, out := [], raw_group2_index := s.raw_group2_index,
            pcm_group1_pack := s.pcm_group1_pack, pcm_group2_pack := s.pcm_group2_pack }).out) := by
  have hraw : 1 ≤ s.raw_group1_size := by
    rw [hinit.1]
    rcases hd1 with h | h | h <;> rw [h] <;> omega
  have hlim : (if buf.length > DVD_BLOCK_SIZE then DVD_BLOCK_SIZE else buf.length) =
      min buf.length DVD_BLOCK_SIZE := by
    split <;> omega
  have hss : s.pcm_sample_size ≠ 0 := by
    rw [hinit.2.2.1]; split <;> omega
  rcases decode_loop_ok s buf (min buf.length DVD_BLOCK_SIZE) hinit hd1 hd2 hraw (by omega)
    (min buf.length DVD_BLOCK_SIZE + 1)
    { inp := 0, out := [], raw_group2_index := s.raw_group2_index,
      pcm_group1_pack := s.pcm_group1_pack, pcm_group2_pack := s.pcm_group2_pack }
    (by omega) (by simp) with ⟨n, hloop, h1, h2⟩
  simp only [Nat.add_zero, Nat.zero_add, Nat.zero_le, max_eq_left] at h1 h2
  have hinp := units_pure_inp s buf n
    { inp := 0, out := [], raw_group2_index := s.raw_group2_index,
      pcm_group1_pack := s.pcm_group1_pack, pcm_group2_pack := s.pcm_group2_pack }
  have hidx := units_pure_index s buf n
    { inp := 0, out := [], raw_group2_index := s.raw_group2_index,
      pcm_group1_pack := s.pcm_group1_pack, pcm_group2_pack := s.pcm_group2_pack }
  simp only [Nat.zero_add] at hinp hidx
  generalize hst : units_pure s buf n
    { inp := 0, out := [], raw_group2_index := s.raw_group2_index,
      pcm_group1_pack := s.pcm_group1_pack, pcm_group2_pack := s.pcm_group2_pack } = st
    at hloop hinp hidx
  have hout0 : n = 0 → st.out = [] := by
    intro h0; subst h0; rw [← hst]; rfl
  rcases audio_stream_t.reorder_channels_ok s.info st.out (by omega) with ⟨d1, hd1', hl1⟩
  rcases audio_stream_t.downmix_channels_ok mix s.info d1 (by omega) with ⟨d2, hd2', he2⟩
  have hd1nil : n = 0 → d1 = [] := by
    intro h0
    have := hout0 h0
    rw [this] at hl1
    exact List.length_eq_zero.1 hl1
  unfold decode
  simp only [hlim, hloop, bind, Except.bind, pure, Except.pure,
    idiv_ok _ _ hss, idiv_ok _ _ (show s.info.group1_channels + s.info.group2_channels ≠ 0 by omega),
    idiv_ok _ _ hrate, hd1']
  cases hdm : s.do_downmix
  · simp only [Bool.not_false, if_true]
    refine ⟨_, n, rfl, hinp, h1, h2, hidx, hd1nil, ?_⟩
    intro _ harr
    have := audio_stream_t.reorder_channels_below_18 s.info st.out harr
    rw [hd1'] at this
    have heq : d1 = st.out := by injection this
    show d1 = _
    rw [hst]
    exact heq
  · simp only [Bool.not_true, Bool.false_eq_true, if_false]
    cases hcd : s.info.can_downmix
    · simp only [Bool.not_false, if_true, hd2']
      refine ⟨_, n, rfl, hinp, h1, h2, hidx, fun h0 => he2 (hd1nil h0), ?_⟩
      intro h; exact absurd h (by simp)
    · simp only [Bool.not_true, Bool.false_eq_true, if_false]
      refine ⟨_, n, rfl, hinp, h1, h2, hidx, hout0, ?_⟩
      intro h; exact absurd h (by simp)

/-- C7 holds for every stream whose group-1 sample rate is not 0, and fails
otherwise. For an initialised PCM stream with group depths in {16, 20, 24},
`group1_channels ≥ 1` and `group1_samplerate ≠ 0`, `decode` returns (so it
reads no byte at or beyond `buf_size`), having consumed exactly the largest
whole number `n` of consecutive access units that fits into the first
`min(buf_size, DVD_BLOCK_SIZE)` bytes of the window; when the window is
shorter than the next access unit it returns 0 and the output is empty. But
for the stream that `init` sets up from a header with a reserved sample-rate
code (`group1_samplerate = 0`, two channels of 16 bits) `decode` does not
return, on the empty window as on any other: the statistics at its end divide
by `info.group1_samplerate`. -/
theorem pcm_decode_access_units :
    (∀ (mix : Nat → List Int → Int) (s : pcm_audio_stream_t) (buf : List Nat),
      Initialised s → IsDepth s.info.group1_bits → IsDepth s.info.group2_bits →
      1 ≤ s.info.group1_channels → s.info.group1_samplerate ≠ 0 →
      ∃ r n, decode mix s buf = Except.ok r ∧
        r.bytes_decoded = units_size s s.raw_group2_index n ∧
        units_size s s.raw_group2_index n ≤ min buf.length DVD_BLOCK_SIZE ∧
        min buf.length DVD_BLOCK_SIZE < units_size s s.raw_group2_index (n + 1) ∧
        (buf.length < unit_size s s.raw_group2_index → r.bytes_decoded = 0 ∧ r.data = [])) ∧
    (∃ s, init Example.fresh_stream Example.info_reserved_rate false true = Except.ok s ∧
      Initialised s ∧ IsDepth s.info.group1_bits ∧ IsDepth s.info.group2_bits ∧
      1 ≤ s.info.group1_channels ∧
      decode (fun _ _ => 0) s [] = Except.error Fault.division_by_zero ∧
      decode (fun _ _ => 0) s [0x01, 0x02, 0x03, 0x04] = Except.error Fault.division_by_zero) := by
  constructor
  · intro mix s buf hinit hd1 hd2 hch hrate
    rcases decode_returns mix s buf hinit hd1 (Or.inr hd2) hch hrate
      with ⟨r, n, hr, hb, h1, h2, _, hdata, _⟩
    refine ⟨r, n, hr, hb, h1, h2, ?_⟩
    intro hshort
    have hn : n = 0 := by
      cases n with
      | zero => rfl
      | succ n =>
        exfalso
        simp only [units_size] at h1
        omega
    subst hn
    exact ⟨by rw [hb]; rfl, hdata rfl⟩
  · exact ⟨_, rfl, by decide, by decide, by decide, by decide, rfl, rfl⟩

theorem byte_and_f0 (a : Nat) (ha : a < 256) : a &&& 0xf0 = 16 * (a / 16) := by
  interval_cases a <;> rfl

theorem byte_shl4 (a : Nat) : (a <<< 4) % 256 = 16 * (a % 16) := by
  rw [Nat.shiftLeft_eq]; omega

theorem byte_and_0f (a : Nat) : a &&& 0x0f = a % 16 := by
  have := Nat.and_pow_two_sub_one_eq_mod a 4
  simpa using this

theorem byte_shr4 (a : Nat) : a >>> 4 = a / 16 := by
  rw [Nat.shiftRight_eq_div_pow]

theorem getD_lt_256 (x : List Nat) (hx : ∀ b ∈ x, b < 256) (j : Nat) : x.getD j 0 < 256 := by
  rw [List.getD_eq_getElem?_getD]
  cases h : x[j]? with
  | none => simp
  | some b => simpa using hx b (List.getElem?_mem h)

theorem concat_from_length (f : Nat → List Nat) (w : Nat) : ∀ (n i : Nat),
    (∀ j, i ≤ j → j < i + n → (f j).length = w) → (concat_from f n i).length = n * w
  | 0, _, _ => by simp [concat_from]
  | n + 1, i, h => by
    simp only [concat_from, List.length_append]
    rw [h i (le_refl _) (by omega),
      concat_from_length f w n (i + 1) (fun j h1 h2 => h j (by omega) (by omega))]
    ring

theorem concat_from_congr (f g : Nat → List Nat) : ∀ (n i : Nat),
    (∀ j, i ≤ j → j < i + n → f j = g j) → concat_from f n i = concat_from g n i
  | 0, _, _ => rfl
  | n + 1, i, h => by
    simp only [concat_from]
    rw [h i (le_refl _) (by omega),
      concat_from_congr f g n (i + 1) (fun j h1 h2 => h j (by omega) (by omega))]

theorem concat_from_inj (f g : Nat → List Nat) (w : Nat) : ∀ (n i : Nat),
    (∀ j, i ≤ j → j < i + n → (f j).length = w) →
    (∀ j, i ≤ j → j < i + n → (g j).length = w) →
    concat_from f n i = concat_from g n i →
    ∀ j, i ≤ j → j < i + n → f j = g j
  | 0, _, _, _, _ => fun j h1 h2 => by omega
  | n + 1, i, hf, hg, h => by
    simp only [concat_from] at h
    have hlen : (f i).length = (g i).length := by
      rw [hf i (le_refl _) (by omega), hg i (le_refl _) (by omega)]
    have := List.append_inj h hlen
    intro j h1 h2
    rcases Nat.eq_or_lt_of_le h1 with heq | hlt
    · subst heq; exact this.1
    · exact concat_from_inj f g w n (i + 1) (fun j h1 h2 => hf j (by omega) (by omega))
        (fun j h1 h2 => hg j (by omega) (by omega)) this.2 j hlt (by omega)

theorem group1_bytes_length (info : audio_stream_info_t) (buf : List Nat) (p i : Nat)
    (hd : IsDepth info.group1_bits) :
    (group1_bytes info buf p i).length = (if info.group1_bits > 16 then 4 else 2) := by
  unfold group1_bytes
  rcases hd with h | h | h <;> rw [h] <;> simp

theorem group2_bytes_length (info : audio_stream_info_t) (buf : List Nat) (p i : Nat)
    (hd1 : IsDepth info.group1_bits) (hd : IsDepth info.group2_bits)
    (hle : info.group2_bits ≤ info.group1_bits) :
    (group2_bytes info buf p i).length = (if info.group1_bits > 16 then 4 else 2) := by
  unfold group2_bytes
  rcases hd with h | h | h <;> rcases hd1 with h1 | h1 | h1 <;> rw [h, h1] at hle ⊢ <;>
    first | omega | simp

theorem group1_bytes_congr (info : audio_stream_info_t) (x y : List Nat) (p i : Nat)
    (hd : IsDepth info.group1_bits) (hi : i < 2 * info.group1_channels)
    (h : ∀ k, k < info.group1_channels * info.group1_bits / 4 →
      x.getD (p + k) 0 = y.getD (p + k) 0) :
    group1_bytes info x p i = group1_bytes info y p i := by
  unfold group1_bytes
  rcases hd with hb | hb | hb <;> rw [hb] at h ⊢ <;> simp only [Nat.reduceEqDiff, if_true, if_false]
  · rw [h (2 * i + 1) (by omega), h (2 * i) (by omega)]
  · rw [h (2 * i + 1) (by omega), h (2 * i) (by omega),
      h (4 * info.group1_channels + i / 2) (by omega)]
  · rw [h (2 * i + 1) (by omega), h (2 * i) (by omega),
      h (4 * info.group1_channels + i) (by omega)]

theorem group2_bytes_congr (info : audio_stream_info_t) (x y : List Nat) (p i : Nat)
    (hd : IsDepth info.group2_bits) (hi : i < 2 * info.group2_channels)
    (h : ∀ k, k < info.group2_channels * info.group2_bits / 4 →
      x.getD (p + k) 0 = y.getD (p + k) 0) :
    group2_bytes info x p i = group2_bytes info y p i := by
  unfold group2_bytes
  rcases hd with hb | hb | hb <;> rw [hb] at h ⊢ <;> simp only [Nat.reduceEqDiff, if_true, if_false]
  · rw [h (2 * i + 1) (by omega), h (2 * i) (by omega)]
  · rw [h (2 * i + 1) (by omega), h (2 * i) (by omega),
      h (4 * info.group2_channels + i / 2) (by omega)]
  · rw [h (2 * i + 1) (by omega), h (2 * i) (by omega),
      h (4 * info.group2_channels + i) (by omega)]

/-- The bytes that the group-1 loop stores determine the group-1 block. -/
theorem group1_block_inj (info : audio_stream_info_t) (x y : List Nat) (p : Nat)
    (hx : ∀ b ∈ x, b < 256) (hy : ∀ b ∈ y, b < 256) (hd : IsDepth info.group1_bits)
    (h : ∀ i, i < 2 * info.group1_channels → group1_bytes info x p i = group1_bytes info y p i) :
    ∀ k, k < info.group1_channels * info.group1_bits / 4 →
      x.getD (p + k) 0 = y.getD (p + k) 0 := by
  intro k hk
  unfold group1_bytes at h
  rcases hd with hb | hb | hb <;> rw [hb] at h hk <;>
    simp only [Nat.reduceEqDiff, if_true, if_false] at h
  · have := h (k / 2) (by omega)
    simp only [List.cons.injEq, and_true] at this
    rcases Nat.mod_two_eq_zero_or_one k with hm | hm
    · have e : 2 * (k / 2) = k := by omega
      rw [e] at this; exact this.2
    · have e : 2 * (k / 2) + 1 = k := by omega
      rw [e] at this; exact this.1
  · by_cases hlow : k < 4 * info.group1_channels
    · have := h (k / 2) (by omega)
      simp only [List.cons.injEq, and_true, true_and] at this
      rcases Nat.mod_two_eq_zero_or_one k with hm | hm
      · have e : 2 * (k / 2) = k := by omega
        rw [e] at this; exact this.2.2
      · have e : 2 * (k / 2) + 1 = k := by omega
        rw [e] at this; exact this.2.1
    · have he := h (2 * (k - 4 * info.group1_channels)) (by omega)
      have ho := h (2 * (k - 4 * info.group1_channels) + 1) (by omega)
      simp only [List.cons.injEq, and_true, true_and] at he ho
      have e1 : 4 * info.group1_channels + 2 * (k - 4 * info.group1_channels) / 2 = k := by omega
      have e2 : 4 * info.group1_channels + (2 * (k - 4 * info.group1_channels) + 1) / 2 = k := by
        omega
      have e3 : 2 * (k - 4 * info.group1_channels) % 2 = 0 := by omega
      have e4 : (2 * (k - 4 * info.group1_channels) + 1) % 2 = 1 := by omega
      rw [e1, e3] at he
      rw [e2, e4] at ho
      simp only [ne_eq, not_true_eq_false, if_false, one_ne_zero, not_false_eq_true, if_true] at he ho
      have h1 := he.1
      have h2 := ho.1
      rw [byte_and_f0 _ (getD_lt_256 x hx _), byte_and_f0 _ (getD_lt_256 y hy _)] at h1
      rw [byte_shl4, byte_shl4] at h2
      omega
  · by_cases hlow : k < 4 * info.group1_channels
    · have := h (k / 2) (by omega)
      simp only [List.cons.injEq, and_true, true_and] at this
      rcases Nat.mod_two_eq_zero_or_one k with hm | hm
      · have e : 2 * (k / 2) = k := by omega
        rw [e] at this; exact this.2.2
      · have e : 2 * (k / 2) + 1 = k := by omega
        rw [e] at this; exact this.2.1
    · have := h (k - 4 * info.group1_channels) (by omega)
      simp only [List.cons.injEq, and_true, true_and] at this
      have e : 4 * info.group1_channels + (k - 4 * info.group1_channels) = k := by omega
      rw [e] at this
      exact this.1

/-- The bytes that the group-2 loop stores determine the group-2 block. -/
theorem group2_block_inj (info : audio_stream_info_t) (x y : List Nat) (p : Nat)
    (hx : ∀ b ∈ x, b < 256) (hy : ∀ b ∈ y, b < 256) (hd : IsDepth info.group2_bits)
    (h : ∀ i, i < 2 * info.group2_channels → group2_bytes info x p i = group2_bytes info y p i) :
    ∀ k, k < info.group2_channels * info.group2_bits / 4 →
      x.getD (p + k) 0 = y.getD (p + k) 0 := by
  intro k hk
  unfold group2_bytes at h
  rcases hd with hb | hb | hb <;> rw [hb] at h hk <;>
    simp only [Nat.reduceEqDiff, if_true, if_false] at h
  · have := h (k / 2) (by omega)
    have := List.append_cancel_left this
    simp only [List.cons.injEq, and_true] at this
    rcases Nat.mod_two_eq_zero_or_one k with hm | hm
    · have e : 2 * (k / 2) = k := by omega
      rw [e] at this; exact this.2
    · have e : 2 * (k / 2) + 1 = k := by omega
      rw [e] at this; exact this.1
  · by_cases hlow : k < 4 * info.group2_channels
    · have := h (k / 2) (by omega)
      simp only [List.cons.injEq, and_true, true_and] at this
      rcases Nat.mod_two_eq_zero_or_one k with hm | hm
      · have e : 2 * (k / 2) = k := by omega
        rw [e] at this; exact this.2.2
      · have e : 2 * (k / 2) + 1 = k := by omega
        rw [e] at this; exact this.2.1
    · have he := h (2 * (k - 4 * info.group2_channels)) (by omega)
      have ho := h (2 * (k - 4 * info.group2_channels) + 1) (by omega)
      simp only [List.cons.injEq, and_true, true_and] at he ho
      have e1 : 4 * info.group2_channels + 2 * (k - 4 * info.group2_channels) / 2 = k := by omega
      have e2 : 4 * info.group2_channels + (2 * (k - 4 * info.group2_channels) + 1) / 2 = k := by
        omega
      have e3 : 2 * (k - 4 * info.group2_channels) % 2 = 0 := by omega
      have e4 : (2 * (k - 4 * info.group2_channels) + 1) % 2 = 1 := by omega
      rw [e1, e3] at he
      rw [e2, e4] at ho
      simp only [ne_eq, not_true_eq_false, if_false, one_ne_zero, not_false_eq_true, if_true] at he ho
      have h1 := he.1
      have h2 := ho.1
      rw [byte_shr4, byte_shr4] at h1
      rw [byte_and_0f, byte_and_0f] at h2
      omega
  · by_cases hlow : k < 4 * info.group2_channels
    · have := h (k / 2) (by omega)
      simp only [List.cons.injEq, and_true, true_and] at this
      rcases Nat.mod_two_eq_zero_or_one k with hm | hm
      · have e : 2 * (k / 2) = k := by omega
        rw [e] at this; exact this.2.2
      · have e : 2 * (k / 2) + 1 = k := by omega
        rw [e] at this; exact this.2.1
    · have := h (k - 4 * info.group2_channels) (by omega)
      simp only [List.cons.injEq, and_true, true_and] at this
      have e : 4 * info.group2_channels + (k - 4 * info.group2_channels) = k := by omega
      rw [e] at this
      exact this.1

theorem unit_pure_out (s : pcm_audio_stream_t) (buf : List Nat) (st : LoopState) :
    (unit_pure s buf st).out = st.out ++ chunk s buf st := by
  simp only [unit_pure, chunk, List.append_assoc]

theorem units_pure_out (s : pcm_audio_stream_t) (buf : List Nat) : ∀ (n : Nat) (st : LoopState),
    (units_pure s buf n st).out = st.out ++ chunks s buf n st
  | 0, st => by simp [units_pure, chunks]
  | n + 1, st => by
    simp only [units_pure, chunks]
    rw [units_pure_out s buf n, unit_pure_out, List.append_assoc]

theorem pack_halves (B D : List Nat) (h : Nat) (hB : B.length = 2 * h) :
    (B ++ D).take h = B.take h ∧ ((B ++ D).drop h).take h = B.drop h := by
  constructor
  · rw [List.take_append_of_le_length (by omega)]
  · rw [List.drop_append_of_le_length (by omega), List.take_append_of_le_length (by simp; omega)]
    apply List.take_of_length_le
    simp; omega

/-- The part of the input that a pass reads, and the bytes it stores, for the
group-1 block. -/
theorem unit_pure_pack1 (s : pcm_audio_stream_t) (buf : List Nat) (st : LoopState) :
    (unit_pure s buf st).pcm_group1_pack =
      concat_from (group1_bytes s.info buf
        (if st.raw_group2_index = 0 then st.inp + s.raw_group2_size else st.inp))
        (2 * s.info.group1_channels) 0 ++
      st.pcm_group1_pack.drop (concat_from (group1_bytes s.info buf
        (if st.raw_group2_index = 0 then st.inp + s.raw_group2_size else st.inp))
        (2 * s.info.group1_channels) 0).length := rfl

theorem unit_pure_pack2 (s : pcm_audio_stream_t) (buf : List Nat) (st : LoopState) :
    (unit_pure s buf st).pcm_group2_pack =
      if st.raw_group2_index = 0 then
        concat_from (group2_bytes s.info buf st.inp) (2 * s.info.group2_channels) 0 ++
          st.pcm_group2_pack.drop
            (concat_from (group2_bytes s.info buf st.inp) (2 * s.info.group2_channels) 0).length
      else st.pcm_group2_pack := rfl

theorem lossless_len1 (s : pcm_audio_stream_t) (hs : Lossless s) (buf : List Nat) (p : Nat) :
    (concat_from (group1_bytes s.info buf p) (2 * s.info.group1_channels) 0).length =
      2 * (s.pcm_group1_size / 2) := by
  obtain ⟨⟨_, _, _, hg1, _⟩, hd1, _⟩ := hs
  rw [concat_from_length _ (if s.info.group1_bits > 16 then 4 else 2) _ _
    (fun j _ _ => group1_bytes_length _ _ _ _ hd1), hg1]
  split <;> omega

theorem lossless_len2 (s : pcm_audio_stream_t) (hs : Lossless s) (buf : List Nat) (p : Nat) :
    (concat_from (group2_bytes s.info buf p) (2 * s.info.group2_channels) 0).length =
      2 * (s.pcm_group2_size / 2) := by
  obtain ⟨⟨_, _, _, _, hg2⟩, hd1, hd2⟩ := hs
  rcases hd2 with h0 | ⟨hd2, hle⟩
  · rw [hg2, h0]; simp [concat_from]
  · rw [concat_from_length _ (if s.info.group1_bits > 16 then 4 else 2) _ _
      (fun j _ _ => group2_bytes_length _ _ _ _ hd1 hd2 hle), hg2]
    split <;> omega

/-- The four pieces of the output of a pass. -/
theorem chunk_eq (s : pcm_audio_stream_t) (hs : Lossless s) (buf : List Nat) (st : LoopState) :
    chunk s buf st =
      (concat_from (group1_bytes s.info buf
          (if st.raw_group2_index = 0 then st.inp + s.raw_group2_size else st.inp))
          (2 * s.info.group1_channels) 0).take (s.pcm_group1_size / 2)
      ++ (unit_pure s buf st).pcm_group2_pack.take (s.pcm_group2_size / 2)
      ++ (concat_from (group1_bytes s.info buf
          (if st.raw_group2_index = 0 then st.inp + s.raw_group2_size else st.inp))
          (2 * s.info.group1_channels) 0).drop (s.pcm_group1_size / 2)
      ++ ((unit_pure s buf st).pcm_group2_pack.drop (s.pcm_group2_size / 2)).take
          (s.pcm_group2_size / 2) := by
  have h := pack_halves _ (st.pcm_group1_pack.drop (concat_from (group1_bytes s.info buf
        (if st.raw_group2_index = 0 then st.inp + s.raw_group2_size else st.inp))
        (2 * s.info.group1_channels) 0).length) _ (lossless_len1 s hs buf
        (if st.raw_group2_index = 0 then st.inp + s.raw_group2_size else st.inp))
  unfold chunk
  rw [unit_pure_pack1, h.1, h.2]

theorem unit_pure_pack2_length (s : pcm_audio_stream_t) (hs : Lossless s) (x y : List Nat)
    (a b : LoopState) (hab : Agree a b) :
    (unit_pure s x a).pcm_group2_pack.length = (unit_pure s y b).pcm_group2_pack.length := by
  obtain ⟨hinp, hidx, _, hp2⟩ := hab
  rw [unit_pure_pack2, unit_pure_pack2, ← hidx, ← hinp, ← hp2]
  split
  · simp only [List.length_append, List.length_drop, lossless_len2 s hs]
  · rfl

/-- The output of a pass determines the bytes of its access unit. -/
theorem unit_inj (s : pcm_audio_stream_t) (hs : Lossless s) (x y : List Nat)
    (hx : ∀ b ∈ x, b < 256) (hy : ∀ b ∈ y, b < 256) (a b : LoopState) (hab : Agree a b)
    (h : chunk s x a = chunk s y b) :
    ∀ k, k < unit_size s a.raw_group2_index → x.getD (a.inp + k) 0 = y.getD (a.inp + k) 0 := by
  have hlen2 := unit_pure_pack2_length s hs x y a b hab
  obtain ⟨hinp, hidx, hp1, hp2⟩ := hab
  rw [chunk_eq s hs, chunk_eq s hs, ← hidx, ← hinp] at h
  have hl1x := lossless_len1 s hs x (if a.raw_group2_index = 0 then a.inp + s.raw_group2_size else a.inp)
  have hl1y := lossless_len1 s hs y (if a.raw_group2_index = 0 then a.inp + s.raw_group2_size else a.inp)
  generalize hB1x : concat_from (group1_bytes s.info x
    (if a.raw_group2_index = 0 then a.inp + s.raw_group2_size else a.inp))
    (2 * s.info.group1_channels) 0 = B1x at h hl1x
  generalize hB1y : concat_from (group1_bytes s.info y
    (if a.raw_group2_index = 0 then a.inp + s.raw_group2_size else a.inp))
    (2 * s.info.group1_channels) 0 = B1y at h hl1y
  have e1 := List.append_inj h (by
    simp only [List.length_append, List.length_take, List.length_drop, hl1x, hl1y, hlen2])
  have e2 := List.append_inj e1.1 (by
    simp only [List.length_append, List.length_take, hl1x, hl1y, hlen2])
  have e3 := List.append_inj e2.1 (by simp only [List.length_take, hl1x, hl1y])
  have hB1 : B1x = B1y := by
    rw [← List.take_append_drop (s.pcm_group1_size / 2) B1x,
      ← List.take_append_drop (s.pcm_group1_size / 2) B1y, e3.1, e2.2]
  obtain ⟨⟨hr1, hr2, _, _, _⟩, hd1, hd2⟩ := hs
  have hg1 : ∀ k, k < s.raw_group1_size →
      x.getD ((if a.raw_group2_index = 0 then a.inp + s.raw_group2_size else a.inp) + k) 0 =
      y.getD ((if a.raw_group2_index = 0 then a.inp + s.raw_group2_size else a.inp) + k) 0 := by
    intro k hk
    have hall : ∀ i, i < 2 * s.info.group1_channels →
        group1_bytes s.info x
          (if a.raw_group2_index = 0 then a.inp + s.raw_group2_size else a.inp) i =
        group1_bytes s.info y
          (if a.raw_group2_index = 0 then a.inp + s.raw_group2_size else a.inp) i := by
      intro i hi
      exact concat_from_inj
        (group1_bytes s.info x
          (if a.raw_group2_index = 0 then a.inp + s.raw_group2_size else a.inp))
        (group1_bytes s.info y
          (if a.raw_group2_index = 0 then a.inp + s.raw_group2_size else a.inp))
        (if s.info.group1_bits > 16 then 4 else 2)
        (2 * s.info.group1_channels) 0
        (fun j _ _ => group1_bytes_length _ _ _ _ hd1)
        (fun j _ _ => group1_bytes_length _ _ _ _ hd1) (by rw [hB1x, hB1y, hB1]) i
        (Nat.zero_le _) (by omega)
    exact group1_block_inj s.info x y _ hx hy hd1 hall k (by rw [← hr1]; exact hk)
  intro k hk
  by_cases hdue : a.raw_group2_index = 0
  · simp only [hdue, if_true] at hg1
    simp only [unit_size, hdue, if_true] at hk
    by_cases hk2 : k < s.raw_group2_size
    · rcases hd2 with h0 | ⟨hd2, hle⟩
      · rw [hr2, h0] at hk2; simp at hk2
      · have hs' : Lossless s := ⟨⟨hr1, hr2, by assumption, by assumption, by assumption⟩, hd1,
          Or.inr ⟨hd2, hle⟩⟩
        have hl2x := lossless_len2 s hs' x a.inp
        have hl2y := lossless_len2 s hs' y a.inp
        have u := e3.2
        have w := e1.2
        rw [unit_pure_pack2, unit_pure_pack2, ← hidx, ← hinp, if_pos hdue, if_pos hdue] at u w
        rw [(pack_halves _ _ _ hl2x).1, (pack_halves _ _ _ hl2y).1] at u
        rw [(pack_halves _ _ _ hl2x).2, (pack_halves _ _ _ hl2y).2] at w
        have hB2 : concat_from (group2_bytes s.info x a.inp) (2 * s.info.group2_channels) 0 =
            concat_from (group2_bytes s.info y a.inp) (2 * s.info.group2_channels) 0 := by
          rw [← List.take_append_drop (s.pcm_group2_size / 2)
              (concat_from (group2_bytes s.info x a.inp) (2 * s.info.group2_channels) 0),
            ← List.take_append_drop (s.pcm_group2_size / 2)
              (concat_from (group2_bytes s.info y a.inp) (2 * s.info.group2_channels) 0), u, w]
        have hall : ∀ i, i < 2 * s.info.group2_channels →
            group2_bytes s.info x a.inp i = group2_bytes s.info y a.inp i := by
          intro i hi
          exact concat_from_inj (group2_bytes s.info x a.inp) (group2_bytes s.info y a.inp)
            (if s.info.group1_bits > 16 then 4 else 2)
            (2 * s.info.group2_channels) 0
            (fun j _ _ => group2_bytes_length _ _ _ _ hd1 hd2 hle)
            (fun j _ _ => group2_bytes_length _ _ _ _ hd1 hd2 hle) hB2 i
            (Nat.zero_le _) (by omega)
        exact group2_block_inj s.info x y _ hx hy hd2 hall k (by rw [← hr2]; exact hk2)
    · have := hg1 (k - s.raw_group2_size) (by omega)
      have e : a.inp + s.raw_group2_size + (k - s.raw_group2_size) = a.inp + k := by omega
      rw [e] at this
      exact this
  · simp only [hdue, if_false] at hg1
    simp only [unit_size, hdue, if_false, Nat.add_zero] at hk
    exact hg1 k hk

theorem unit_congr (s : pcm_audio_stream_t) (hs : Lossless s) (x y : List Nat)
    (a b : LoopState) (hab : Agree a b)
    (h : ∀ k, k < unit_size s a.raw_group2_index → x.getD (a.inp + k) 0 = y.getD (a.inp + k) 0) :
    Agree (unit_pure s x a) (unit_pure s y b) := by
  obtain ⟨hinp, hidx, hp1, hp2⟩ := hab
  obtain ⟨⟨hr1, hr2, _, _, _⟩, hd1, hd2⟩ := hs
  have hB1 : concat_from (group1_bytes s.info x
      (if a.raw_group2_index = 0 then a.inp + s.raw_group2_size else a.inp))
      (2 * s.info.group1_channels) 0 =
    concat_from (group1_bytes s.info y
      (if a.raw_group2_index = 0 then a.inp + s.raw_group2_size else a.inp))
      (2 * s.info.group1_channels) 0 := by
    apply concat_from_congr
    intro i _ hi
    apply group1_bytes_congr _ _ _ _ _ hd1 (by omega)
    intro k hk
    rw [← hr1] at hk
    by_cases hdue : a.raw_group2_index = 0
    · simp only [hdue, if_true]
      have := h (s.raw_group2_size + k) (by simp only [unit_size, hdue, if_true]; omega)
      rw [← Nat.add_assoc] at this
      exact this
    · simp only [hdue, if_false]
      exact h k (by simp only [unit_size, hdue, if_false]; omega)
  refine ⟨?_, ?_, ?_, ?_⟩
  · rw [unit_pure_inp, unit_pure_inp, hinp, hidx]
  · rw [unit_pure_index, unit_pure_index, hidx]
  · rw [unit_pure_pack1, unit_pure_pack1, ← hidx, ← hinp, ← hp1, hB1]
  · rw [unit_pure_pack2, unit_pure_pack2, ← hidx, ← hinp, ← hp2]
    split
    · rename_i hdue
      have hB2 : concat_from (group2_bytes s.info x a.inp) (2 * s.info.group2_channels) 0 =
          concat_from (group2_bytes s.info y a.inp) (2 * s.info.group2_channels) 0 := by
        apply concat_from_congr
        intro i _ hi
        rcases hd2 with h0 | ⟨hd2, _⟩
        · omega
        · apply group2_bytes_congr _ _ _ _ _ hd2 (by omega)
          intro k hk
          rw [← hr2] at hk
          exact h k (by simp only [unit_size, hdue, if_true]; omega)
      rw [hB2]
    · rfl

theorem chunk_length_agree (s : pcm_audio_stream_t) (hs : Lossless s) (x y : List Nat)
    (a b : LoopState) (hab : Agree a b) : (chunk s x a).length = (chunk s y b).length := by
  have hlen2 := unit_pure_pack2_length s hs x y a b hab
  obtain ⟨hinp, hidx, _, _⟩ := hab
  rw [chunk_eq s hs, chunk_eq s hs, ← hidx, ← hinp]
  simp only [List.length_append, List.length_take, List.length_drop, lossless_len1 s hs, hlen2]

/-- The output of `n` passes determines the bytes of their access units. -/
theorem chunks_inj (s : pcm_audio_stream_t) (hs : Lossless s) (x y : List Nat)
    (hx : ∀ b ∈ x, b < 256) (hy : ∀ b ∈ y, b < 256) :
    ∀ (n : Nat) (a b : LoopState), Agree a b → chunks s x n a = chunks s y n b →
      ∀ k, k < units_size s a.raw_group2_index n → x.getD (a.inp + k) 0 = y.getD (a.inp + k) 0
  | 0, a, b, _, _ => fun k hk => by simp [units_size] at hk
  | n + 1, a, b, hab, h => by
    simp only [chunks] at h
    have hsplit := List.append_inj h (chunk_length_agree s hs x y a b hab)
    have hunit := unit_inj s hs x y hx hy a b hab hsplit.1
    have hab' := unit_congr s hs x y a b hab hunit
    have ih := chunks_inj s hs x y hx hy n _ _ hab' hsplit.2
    intro k hk
    simp only [units_size] at hk
    by_cases hku : k < unit_size s a.raw_group2_index
    · exact hunit k hku
    · have := ih (k - unit_size s a.raw_group2_index) (by
        rw [unit_pure_index]; omega)
      rw [unit_pure_inp] at this
      have e : a.inp + unit_size s a.raw_group2_index + (k - unit_size s a.raw_group2_index) =
          a.inp + k := by omega
      rw [e] at this
      exact this

/-- A run of the loop of `decode` that returns has made some number `n` of
passes, each of which found its access unit inside the window. -/
theorem decode_loop_some (s : pcm_audio_stream_t) (buf : List Nat) (limit : Nat)
    (hinit : Initialised s) (hd1 : IsDepth s.info.group1_bits)
    (hd2 : s.info.group2_channels = 0 ∨ IsDepth s.info.group2_bits)
    (hlimit : limit ≤ buf.length) :
    ∀ (fuel : Nat) (st st' : LoopState), decode_loop s buf limit fuel st = Except.ok st' →
      ∃ n, st' = units_pure s buf n st ∧
        limit < st'.inp + unit_size s st'.raw_group2_index ∧
        st.inp + units_size s st.raw_group2_index n ≤ max limit st.inp := by
  intro fuel
  induction fuel with
  | zero => intro st st' h; simp [decode_loop] at h
  | succ fuel ih =>
    intro st st' h
    simp only [decode_loop] at h
    by_cases hc : st.inp + unit_size s st.raw_group2_index ≤ limit
    · rw [if_pos hc, decode_unit_ok s buf st hinit hd1 hd2 (by omega)] at h
      rcases ih _ _ h with ⟨n, hn, h1, h2⟩
      refine ⟨n + 1, hn, h1, ?_⟩
      rw [unit_pure_inp, unit_pure_index] at h2
      simp only [units_size]
      omega
    · rw [if_neg hc] at h
      injection h with h
      subst h
      exact ⟨0, rfl, by omega, by simp [units_size]⟩

theorem units_size_add (s : pcm_audio_stream_t) : ∀ (n k idx : Nat),
    units_size s idx (n + k) = units_size s idx n + units_size s ((next_index s)^[n] idx) k
  | 0, k, idx => by simp [units_size]
  | n + 1, k, idx => by
    have e : n + 1 + k = (n + k) + 1 := by omega
    rw [e, units_size, units_size, units_size_add s n k (next_index s idx)]
    simp only [Function.iterate_succ, Function.comp]
    omega

theorem units_size_ge (s : pcm_audio_stream_t) (idx k : Nat) (hk : 1 ≤ k) :
    unit_size s idx ≤ units_size s idx k := by
  cases k with
  | zero => omega
  | succ k => simp only [units_size]; omega

/-- What a returning `decode` without downmix and without reordering gives:
the output and the input offset of the loop. -/
theorem decode_ok_inv (mix : Nat → List Int → Int) (s : pcm_audio_stream_t) (buf : List Nat)
    (r : DecodeResult) (hdm : s.do_downmix = false) (harr : s.info.channel_arrangement < 18)
    (h : decode mix s buf = Except.ok r) :
    ∃ st', decode_loop s buf (min buf.length DVD_BLOCK_SIZE) (min buf.length DVD_BLOCK_SIZE + 1)
        { inp := 0, out := [], raw_group2_index := s.raw_group2_index,
          pcm_group1_pack := s.pcm_group1_pack, pcm_group2_pack := s.pcm_group2_pack } =
          Except.ok st' ∧
      r.data = st'.out ∧ r.bytes_decoded = st'.inp := by
  have hlim : (if buf.length > DVD_BLOCK_SIZE then DVD_BLOCK_SIZE else buf.length) =
      min buf.length DVD_BLOCK_SIZE := by
    split <;> omega
  unfold decode at h
  simp only [hlim, bind, Except.bind, pure, Except.pure, hdm, Bool.not_false, if_true,
    audio_stream_t.reorder_channels_below_18 _ _ harr] at h
  split at h
  · exact absurd h (by simp)
  · rename_i st' hloop
    split at h
    · exact absurd h (by simp)
    · split at h
      · exact absurd h (by simp)
      · split at h
        · exact absurd h (by simp)
        · injection h with h
          subst h
          exact ⟨st', hloop, rfl, rfl⟩

theorem take_eq_of_getD (x y : List Nat) (c : Nat) (hx : c ≤ x.length) (hy : c ≤ y.length)
    (h : ∀ k, k < c → x.getD k 0 = y.getD k 0) : x.take c = y.take c := by
  apply List.ext_getElem?
  intro k
  by_cases hk : k < c
  · have hkx : k < x.length := by omega
    have hky : k < y.length := by omega
    have := h k hk
    simp only [List.getD_eq_getElem?_getD, List.getElem?_eq_getElem hkx,
      List.getElem?_eq_getElem hky, Option.getD_some] at this
    rw [List.getElem?_take_of_lt hk, List.getElem?_take_of_lt hk,
      List.getElem?_eq_getElem hkx, List.getElem?_eq_getElem hky, this]
  · have h1 : (x.take c).length ≤ k := by rw [List.length_take]; omega
    have h2 : (y.take c).length ≤ k := by rw [List.length_take]; omega
    rw [List.getElem?_eq_none h1, List.getElem?_eq_none h2]

/-- Two windows that `decode` maps to the same output, consuming the same
number of bytes, agree on the bytes consumed. -/
theorem decode_inj (mix : Nat → List Int → Int) (s : pcm_audio_stream_t) (x y : List Nat)
    (hs : Lossless s) (harr : s.info.channel_arrangement < 18) (hdm : s.do_downmix = false)
    (hx : ∀ b ∈ x, b < 256) (hy : ∀ b ∈ y, b < 256) (rx ry : DecodeResult)
    (hrx : decode mix s x = Except.ok rx) (hry : decode mix s y = Except.ok ry)
    (hc : rx.bytes_decoded = ry.bytes_decoded) (hd : rx.data = ry.data) :
    x.take rx.bytes_decoded = y.take rx.bytes_decoded := by
  have hd2 : s.info.group2_channels = 0 ∨ IsDepth s.info.group2_bits := by
    rcases hs.2.2 with h | h
    · exact Or.inl h
    · exact Or.inr h.1
  rcases decode_ok_inv mix s x rx hdm harr hrx with ⟨sx, hlx, hdx, hbx⟩
  rcases decode_ok_inv mix s y ry hdm harr hry with ⟨sy, hly, hdy, hby⟩
  rcases decode_loop_some s x _ hs.1 hs.2.1 hd2 (Nat.min_le_left _ _) _ _ _ hlx
    with ⟨nx, hnx, hex, hfx⟩
  rcases decode_loop_some s y _ hs.1 hs.2.1 hd2 (Nat.min_le_left _ _) _ _ _ hly
    with ⟨ny, hny, hey, hfy⟩
  simp only [Nat.zero_add, Nat.zero_le, max_eq_left] at hfx hfy
  have hix : sx.inp = units_size s s.raw_group2_index nx := by
    rw [hnx, units_pure_inp]; simp
  have hiy : sy.inp = units_size s s.raw_group2_index ny := by
    rw [hny, units_pure_inp]; simp
  have hjx : sx.raw_group2_index = (next_index s)^[nx] s.raw_group2_index := by
    rw [hnx, units_pure_index]
  have hjy : sy.raw_group2_index = (next_index s)^[ny] s.raw_group2_index := by
    rw [hny, units_pure_index]
  have hcc : units_size s s.raw_group2_index nx = units_size s s.raw_group2_index ny := by
    rw [← hix, ← hiy, ← hbx, ← hby, hc]
  have hn : nx = ny := by
    rcases Nat.lt_trichotomy nx ny with hlt | heq | hgt
    · exfalso
      have e : ny = nx + (ny - nx) := by omega
      have h1 := units_size_add s nx (ny - nx) s.raw_group2_index
      rw [← e] at h1
      have h2 := units_size_ge s ((next_index s)^[nx] s.raw_group2_index) (ny - nx) (by omega)
      rw [hix, hjx] at hex
      omega
    · exact heq
    · exfalso
      have e : nx = ny + (nx - ny) := by omega
      have h1 := units_size_add s ny (nx - ny) s.raw_group2_index
      rw [← e] at h1
      have h2 := units_size_ge s ((next_index s)^[ny] s.raw_group2_index) (nx - ny) (by omega)
      rw [hiy, hjy] at hey
      omega
  subst hn
  have hox : sx.out = chunks s x nx
      { inp := 0, out := [], raw_group2_index := s.raw_group2_index,
        pcm_group1_pack := s.pcm_group1_pack, pcm_group2_pack := s.pcm_group2_pack } := by
    rw [hnx, units_pure_out]; rfl
  have hoy : sy.out = chunks s y nx
      { inp := 0, out := [], raw_group2_index := s.raw_group2_index,
        pcm_group1_pack := s.pcm_group1_pack, pcm_group2_pack := s.pcm_group2_pack } := by
    rw [hny, units_pure_out]; rfl
  have hch : chunks s x nx
      { inp := 0, out := [], raw_group2_index := s.raw_group2_index,
        pcm_group1_pack := s.pcm_group1_pack, pcm_group2_pack := s.pcm_group2_pack } =
      chunks s y nx
      { inp := 0, out := [], raw_group2_index := s.raw_group2_index,
        pcm_group1_pack := s.pcm_group1_pack, pcm_group2_pack := s.pcm_group2_pack } := by
    rw [← hox, ← hoy, ← hdx, ← hdy, hd]
  have hbytes := chunks_inj s hs x y hx hy nx _ _ ⟨rfl, rfl, rfl, rfl⟩ hch
  simp only [Nat.zero_add] at hbytes
  rw [hbx, hix]
  apply take_eq_of_getD
  · have := Nat.min_le_left x.length DVD_BLOCK_SIZE; omega
  · have := Nat.min_le_left y.length DVD_BLOCK_SIZE; omega
  · exact hbytes

/-- C5: PCM unpacking is lossless. For a PCM stream with group-1 depth in
{16, 20, 24}, group 2 absent or of a depth in {16, 20, 24} not above that of
group 1, a channel arrangement below 18 and downmix off, two windows of bytes
on which `decode`, started from the same decoder state, returns the same
consumed byte count and the same output bytes are equal on all consumed
bytes; hence there is a repack function that gives back the consumed prefix
of the window from the output of `decode`. -/
theorem pcm_decode_lossless (mix : Nat → List Int → Int) (s : pcm_audio_stream_t)
    (hinit : Initialised s) (hd1 : IsDepth s.info.group1_bits)
    (hg2 : s.info.group2_channels = 0 ∨
      (IsDepth s.info.group2_bits ∧ s.info.group2_bits ≤ s.info.group1_bits))
    (harr : s.info.channel_arrangement < 18) (hdm : s.do_downmix = false) :
    (∀ (x y : List Nat) (rx ry : DecodeResult), (∀ b ∈ x, b < 256) → (∀ b ∈ y, b < 256) →
      decode mix s x = Except.ok rx → decode mix s y = Except.ok ry →
      rx.bytes_decoded = ry.bytes_decoded → rx.data = ry.data →
      x.take rx.bytes_decoded = y.take ry.bytes_decoded) ∧
    (∃ repack : Nat → List Nat → List Nat,
      ∀ (x : List Nat) (r : DecodeResult), (∀ b ∈ x, b < 256) → decode mix s x = Except.ok r →
        repack r.bytes_decoded r.data = x.take r.bytes_decoded) := by
  have hinj : ∀ (x y : List Nat) (rx ry : DecodeResult), (∀ b ∈ x, b < 256) →
      (∀ b ∈ y, b < 256) → decode mix s x = Except.ok rx → decode mix s y = Except.ok ry →
      rx.bytes_decoded = ry.bytes_decoded → rx.data = ry.data →
      x.take rx.bytes_decoded = y.take ry.bytes_decoded := by
    intro x y rx ry hx hy hrx hry hc hd
    rw [← hc]
    exact decode_inj mix s x y ⟨hinit, hd1, hg2⟩ harr hdm hx hy rx ry hrx hry hc hd
  refine ⟨hinj, ?_⟩
  classical
  refine ⟨fun c d =>
    if h : ∃ (x : List Nat) (r : DecodeResult), (∀ b ∈ x, b < 256) ∧
        decode mix s x = Except.ok r ∧ r.bytes_decoded = c ∧ r.data = d
    then (Classical.choose h).take c else [], ?_⟩
  intro x r hx hr
  have hex : ∃ (x' : List Nat) (r' : DecodeResult), (∀ b ∈ x', b < 256) ∧
      decode mix s x' = Except.ok r' ∧ r'.bytes_decoded = r.bytes_decoded ∧ r'.data = r.data :=
    ⟨x, r, hx, hr, rfl, rfl⟩
  simp only [dif_pos hex]
  obtain ⟨r', hx', hr', hc', hd'⟩ := Classical.choose_spec hex
  have := hinj _ x r' r hx' hx hr' hr hc' hd'
  rw [hc'] at this
  exact this

theorem pcm_decode_lossless_witness :
    (Initialised Example.stream_20bit ∧ IsDepth Example.stream_20bit.info.group1_bits ∧
      Example.stream_20bit.info.channel_arrangement < 18) ∧
    (∃ repack : Nat → List Nat → List Nat,
      ∀ (x : List Nat) (r : DecodeResult), (∀ b ∈ x, b < 256) →
        decode (fun _ _ => 0) Example.stream_20bit x = Except.ok r →
        repack r.bytes_decoded r.data = x.take r.bytes_decoded) :=
  ⟨by decide,
    (pcm_decode_lossless (fun _ _ => 0) Example.stream_20bit (by decide) (by decide)
      (Or.inr (by decide)) (by decide) rfl).2⟩

end pcm_audio_stream_t

/-! ## Theorems: 20-bit samples in `pcm_audio_stream_t::decode` (C6) -/

/-- C6 fails for channel group 2: on one access unit of a 20-bit stream with
two group-1 channels and one group-2 channel, `decode` consumes the 15 bytes
and writes six 32-bit samples. The group-1 samples are left-justified (the
first is `0x0102C000`: word `01 02`, high nibble `C` of `CD` in bits 15..12),
but the first group-2 sample, from the word `12 34` and the high nibble `A` of
`AB`, comes out as `0x12340A00`, with the nibble in bits 11..8, and not as the
left-justified `0x1234A000`; the second comes out as `0x56780B00`. -/
theorem pcm20_group2_nibble_misplaced :
    Example.decode_after_init Example.info_20bit Example.unit_20bit =
      some ([0x00, 0xC0, 0x02, 0x01, 0x00, 0xD0, 0x04, 0x03, 0x00, 0x0A, 0x34, 0x12,
             0x00, 0xE0, 0x06, 0x05, 0x00, 0xF0, 0x08, 0x07, 0x00, 0x0B, 0x78, 0x56], 15) ∧
    Example.le32 [0x00, 0xC0, 0x02, 0x01] = 0x0102C000 ∧
    Example.le32 [0x00, 0x0A, 0x34, 0x12] = 0x12340A00 ∧
    Example.le32 [0x00, 0x0A, 0x34, 0x12] ≠ 0x1234A000 ∧
    Example.le32 [0x00, 0x0B, 0x78, 0x56] = 0x56780B00 := by
  decide!

namespace pcm_audio_stream_t

/-- The placement of the nibble of a 20-bit sample in general: the group-1
loop puts it into bits 15..12 of the 32-bit word, the group-2 loop into bits
11..8; in both the bits 31..16 are the big-endian 16-bit word of the sample
and the nibble is the high one of the shared byte for an even `i`, the low one
for an odd `i`. -/
theorem pcm20_sample_words (info : audio_stream_info_t) (buf : List Nat) (p i : Nat)
    (hbuf : ∀ b ∈ buf, b < 256) :
    (info.group1_bits = 20 →
      Example.le32 (group1_bytes info buf p i) =
        65536 * (256 * buf.getD (p + 2 * i) 0 + buf.getD (p + (2 * i + 1)) 0) +
        4096 * (if i % 2 ≠ 0 then buf.getD (p + (4 * info.group1_channels + i / 2)) 0 % 16
                else buf.getD (p + (4 * info.group1_channels + i / 2)) 0 / 16)) ∧
    (info.group2_bits = 20 →
      Example.le32 (group2_bytes info buf p i) =
        65536 * (256 * buf.getD (p + 2 * i) 0 + buf.getD (p + (2 * i + 1)) 0) +
        256 * (if i % 2 ≠ 0 then buf.getD (p + (4 * info.group2_channels + i / 2)) 0 % 16
                else buf.getD (p + (4 * info.group2_channels + i / 2)) 0 / 16)) := by
  constructor
  · intro h
    simp only [group1_bytes, h, Nat.reduceEqDiff, if_true, if_false, Example.le32,
      List.getD_cons_zero, List.getD_cons_succ]
    split
    · rw [byte_shl4]; omega
    · rw [byte_and_f0 _ (getD_lt_256 buf hbuf _)]; omega
  · intro h
    simp only [group2_bytes, h, Nat.reduceEqDiff, if_true, if_false, Example.le32,
      List.getD_cons_zero, List.getD_cons_succ]
    split
    · rw [byte_and_0f]; omega
    · rw [byte_shr4]; omega

/-- The decoder that `init` sets up is initialised. -/
theorem init_initialised (s0 s : pcm_audio_stream_t) (info : audio_stream_info_t)
    (downmix reset_statistics : Bool) (h : init s0 info downmix reset_statistics = Except.ok s) :
    Initialised s ∧ s.info = info ∧ s.raw_group2_index = 0 ∧ s.do_downmix = downmix := by
  unfold init at h
  split at h
  · exact absurd h (by simp)
  · injection h with h
    subst h
    exact ⟨⟨rfl, rfl, rfl, rfl, rfl⟩, rfl, rfl, rfl⟩

end pcm_audio_stream_t

/-! ## `conv_sample`: range and rounding -/

namespace audio_stream_t

theorem conv_lim_eq (info : audio_stream_info_t) :
    conv_lim info = 2 ^ ((if info.group1_bits ≤ 16 then 16 else 32) - 1) - 1 := by
  unfold conv_lim
  by_cases h : info.group1_bits ≤ 16
  · rw [if_neg (by omega), if_pos h]; rfl
  · rw [if_pos (by omega), if_neg h]; rfl

theorem to_int32_trunc_bounds {F : Type} [LinearOrderedField F] [FloorRing F] (lim : Nat)
    (s : F) (h1 : -(lim : F) ≤ s) (h2 : s ≤ (lim : F)) :
    -(lim : Int) ≤ to_int32_trunc s ∧ to_int32_trunc s ≤ (lim : Int) := by
  unfold to_int32_trunc
  split
  · rename_i h0
    constructor
    · have : (0 : Int) ≤ ⌊s⌋ := Int.floor_nonneg.mpr h0
      omega
    · have : ⌊s⌋ ≤ ⌊(lim : F)⌋ := Int.floor_le_floor h2
      rw [show ((lim : F)) = ((lim : Int) : F) by push_cast; rfl, Int.floor_intCast] at this
      exact this
  · rename_i h0
    push_neg at h0
    constructor
    · have : ⌈(-(lim : F))⌉ ≤ ⌈s⌉ := Int.ceil_le_ceil h1
      rw [show (-(lim : F)) = ((-(lim : Int) : Int) : F) by push_cast; rfl, Int.ceil_intCast] at this
      exact this
    · have : ⌈s⌉ ≤ 0 := Int.ceil_le.mpr (by simpa using h0.le)
      omega

theorem conv_sample_bounds {F : Type} [LinearOrderedField F] [FloorRing F]
    (info : audio_stream_info_t) (x : F) :
    -(conv_lim info : Int) ≤ conv_sample info x ∧ conv_sample info x ≤ (conv_lim info : Int) := by
  unfold conv_sample
  apply to_int32_trunc_bounds
  · dsimp only
    split
    · have : (0 : F) ≤ (conv_lim info : F) := Nat.cast_nonneg _
      linarith
    · split
      · exact le_refl _
      · rename_i h1 h2
        exact not_lt.mp h2
  · dsimp only
    split
    · exact le_refl _
    · split
      · have : (0 : F) ≤ (conv_lim info : F) := Nat.cast_nonneg _
        linarith
      · rename_i h1 h2
        exact not_lt.mp h1

/-- C16: for every real `x`, `conv_sample(x)` lies between `-(2^(w-1) - 1)`
and `2^(w-1) - 1`, where `w` is 16 when `group1_bits <= 16` and 32 otherwise;
so the result always fits `int32_t`, and `int16_t` for a 16-bit source. -/
theorem conv_sample_in_range (info : audio_stream_info_t) (x : ℝ) :
    -((2 : Int) ^ ((if info.group1_bits ≤ 16 then 16 else 32) - 1) - 1) ≤ conv_sample info x ∧
      conv_sample info x ≤ (2 : Int) ^ ((if info.group1_bits ≤ 16 then 16 else 32) - 1) - 1 ∧
      -((2 : Int) ^ 31) ≤ conv_sample info x ∧ conv_sample info x < (2 : Int) ^ 31 := by
  have h := conv_sample_bounds info x
  have hl := conv_lim_eq info
  by_cases hb : info.group1_bits ≤ 16
  · rw [if_pos hb] at hl ⊢
    rw [hl] at h
    norm_num at h ⊢
    omega
  · rw [if_neg hb] at hl ⊢
    rw [hl] at h
    norm_num at h ⊢
    omega

end audio_stream_t

namespace audio_stream_t

/-- Where `conv_sample` does round to the nearest integer: at every
non-negative sample up to the limit. -/
theorem conv_sample_nonneg_nearest {F : Type} [LinearOrderedField F] [FloorRing F]
    (info : audio_stream_info_t) (x : F) (h0 : 0 ≤ x) (h1 : x ≤ (conv_lim info : F)) :
    |((conv_sample info x : Int) : F) - x| ≤ 1 / 2 := by
  unfold conv_sample
  dsimp only
  split
  · rename_i hgt
    have hnn : (0 : F) ≤ (conv_lim info : F) := Nat.cast_nonneg _
    unfold to_int32_trunc
    rw [if_pos hnn, show ((conv_lim info : F)) = (((conv_lim info : Int)) : F) by push_cast; rfl,
      Int.floor_intCast]
    push_cast
    rw [abs_le]
    constructor <;> linarith
  · rename_i hle
    rw [if_neg (by
      have hnn : (0 : F) ≤ (conv_lim info : F) := Nat.cast_nonneg _
      intro hlt
      linarith)]
    unfold to_int32_trunc
    rw [if_pos (by linarith)]
    have hf1 := Int.floor_le (x + 1 / 2)
    have hf2 := Int.lt_floor_add_one (x + 1 / 2)
    rw [abs_le]
    constructor <;> linarith

/-- C17: `conv_sample` adds 0.5 to a negative sample as well and then drops
the fraction towards zero: the 16-bit conversion of `-2.75` is `-2`, which is
`0.75` away from the sample. -/
theorem conv_sample_negative_not_nearest :
    conv_sample Example.info_16bit (-11 / 4 : ℚ) = -2 ∧
      -(conv_lim Example.info_16bit : ℚ) ≤ -11 / 4 ∧
      ¬ |((conv_sample Example.info_16bit (-11 / 4 : ℚ) : Int) : ℚ) - (-11 / 4)| ≤ 1 / 2 := by
  have h : conv_sample Example.info_16bit (-11 / 4 : ℚ) = -2 := by
    unfold conv_sample
    have hl : conv_lim Example.info_16bit = 32767 := by decide
    rw [hl]
    norm_num [to_int32_trunc]
    rw [Int.ceil_eq_iff]
    norm_num
  refine ⟨h, ?_, ?_⟩
  · have hl : conv_lim Example.info_16bit = 32767 := by decide
    rw [hl]
    norm_num
  · rw [h]
    norm_num [abs_le]

end audio_stream_t

namespace pcm_audio_stream_t

theorem unpack_samples_nil (sample : Nat → Except Fault (List Nat))
    (h : ∀ j, sample j = Except.ok []) :
    ∀ (n i : Nat), unpack_samples sample n i = Except.ok []
  | 0, _ => rfl
  | n + 1, i => by
    simp only [unpack_samples]
    rw [h i, unpack_samples_nil sample h n (i + 1)]
    rfl

/-- With a bit depth of 0 in both groups a pass of the loop of `decode`
reads nothing and leaves the input position where it was. -/
theorem decode_unit_no_input (s : pcm_audio_stream_t) (buf : List Nat) (st : LoopState)
    (h1 : s.raw_group1_size = 0) (h2 : s.raw_group2_size = 0)
    (hb1 : s.info.group1_bits = 0) (hb2 : s.info.group2_bits = 0) :
    ∃ st2, decode_unit s buf st = Except.ok st2 ∧ st2.inp = st.inp := by
  have hg1 : ∀ p j, group1_sample s.info buf p j = Except.ok [] := by
    intro p j
    simp [group1_sample, hb1]
    rfl
  have hg2 : ∀ p j, group2_sample s.info buf p j = Except.ok [] := by
    intro p j
    simp [group2_sample, hb2]
    rfl
  unfold decode_unit
  by_cases hidx : st.raw_group2_index = 0
  · simp only [hidx, if_true, unpack_samples_nil _ (hg2 _), unpack_samples_nil _ (hg1 _), bind,
      Except.bind, pure, Except.pure, h1, h2]
    exact ⟨_, rfl, rfl⟩
  · simp only [hidx, if_false, unpack_samples_nil _ (hg1 _), bind, Except.bind, pure,
      Except.pure, h1]
    exact ⟨_, rfl, rfl⟩

/-- With a bit depth of 0 in both groups the loop of `decode` has not come
to its end after any number of passes. -/
theorem decode_loop_no_progress (s : pcm_audio_stream_t) (buf : List Nat) (limit : Nat)
    (h1 : s.raw_group1_size = 0) (h2 : s.raw_group2_size = 0)
    (hb1 : s.info.group1_bits = 0) (hb2 : s.info.group2_bits = 0) :
    ∀ (fuel : Nat) (st : LoopState), st.inp ≤ limit →
      decode_loop s buf limit fuel st = Except.error Fault.no_progress := by
  intro fuel
  induction fuel with
  | zero => intro st _; rfl
  | succ fuel ih =>
    intro st hst
    obtain ⟨st2, hst2, hinp⟩ := decode_unit_no_input s buf st h1 h2 hb1 hb2
    simp only [decode_loop]
    rw [if_pos (by simp only [unit_size, h1, h2]; split <;> omega), hst2]
    exact ih st2 (by omega)

/-- C26: `init` accepts a header with a reserved bit depth code and leaves
`raw_group1_size = 0`, after which the loop of `decode` consumes no input and
has not ended after any number of passes; it accepts a header with a
reserved sample rate code and leaves `group1_samplerate = 0`, by which
`decode` divides; and on a header whose group 2 has a channel and a reserved
sample rate code `init` itself divides by zero. -/
theorem pcm_init_reserved_codes :
    (∃ s, Example.stream_of_header (Example.pcm_header 1 0x33 0x00) = some s ∧
      s.raw_group1_size = 0 ∧
      ∀ (buf : List Nat) (fuel : Nat),
        decode_loop s buf (if buf.length > DVD_BLOCK_SIZE then DVD_BLOCK_SIZE else buf.length) fuel
          { inp := 0, out := [], raw_group2_index := s.raw_group2_index,
            pcm_group1_pack := s.pcm_group1_pack, pcm_group2_pack := s.pcm_group2_pack } =
          Except.error Fault.no_progress) ∧
    (∃ s, Example.stream_of_header (Example.pcm_header 1 0x00 0x30) = some s ∧
      s.info.group1_samplerate = 0 ∧
      decode (fun _ _ => 0) s [] = Except.error Fault.division_by_zero) ∧
    Example.init_fault (Example.pcm_header 2 0x00 0x03) = some Fault.division_by_zero := by
  refine ⟨?_, ?_, by decide⟩
  · have h : ∃ s, Example.stream_of_header (Example.pcm_header 1 0x33 0x00) = some s ∧
        s.raw_group1_size = 0 ∧ s.raw_group2_size = 0 ∧ s.info.group1_bits = 0 ∧
        s.info.group2_bits = 0 := ⟨_, rfl, rfl, rfl, rfl, rfl⟩
    obtain ⟨s, hs, h1, h2, hb1, hb2⟩ := h
    exact ⟨s, hs, h1, fun buf fuel =>
      decode_loop_no_progress s buf _ h1 h2 hb1 hb2 fuel _ (Nat.zero_le _)⟩
  · exact ⟨_, rfl, rfl, rfl⟩

end pcm_audio_stream_t

namespace audio_stream_t

theorem write_bytes_middle : ∀ (bs S A B : List Nat), S.length = bs.length →
    write_bytes (A ++ S ++ B) A.length bs = A ++ bs ++ B
  | [], S, A, B, h => by
    have : S = [] := List.length_eq_zero.1 h
    subst this
    rfl
  | b :: bs, [], A, B, h => by simp at h
  | b :: bs, s :: S, A, B, h => by
    simp only [List.length_cons, Nat.add_right_cancel_iff] at h
    simp only [write_bytes]
    have h1 : (A ++ s :: S ++ B).set A.length b = (A ++ [b]) ++ S ++ B := by
      simp
    have h2 : A.length + 1 = (A ++ [b]).length := by simp
    rw [h1, h2, write_bytes_middle bs S (A ++ [b]) B h]
    simp

end audio_stream_t

namespace audio_stream_t

theorem flatten_length_uniform (w : Nat) : ∀ (f : List (List Nat)), (∀ s ∈ f, s.length = w) →
    f.flatten.length = f.length * w
  | [], _ => by simp
  | s :: f, h => by
    rw [List.flatten_cons, List.length_append, h s (List.mem_cons_self _ _),
      flatten_length_uniform w f (fun t ht => h t (List.mem_cons_of_mem _ ht)), List.length_cons]
    ring

theorem flatten_split (f : List (List Nat)) (k : Nat) (hk : k < f.length) :
    f.flatten = (f.take k).flatten ++ f.getD k [] ++ (f.drop (k + 1)).flatten := by
  have h : f = f.take k ++ f.getD k [] :: f.drop (k + 1) := by
    rw [List.getD_eq_getElem?_getD, List.getElem?_eq_getElem hk]
    simp
  conv_lhs => rw [h]
  simp

theorem set_split (f : List (List Nat)) (k : Nat) (v : List Nat) (hk : k < f.length) :
    (f.set k v).flatten = (f.take k).flatten ++ v ++ (f.drop (k + 1)).flatten := by
  have h : f.set k v = f.take k ++ v :: f.drop (k + 1) := by
    rw [List.set_eq_take_append_cons_drop, if_pos hk]
  rw [h]
  simp

theorem map_getD_range (s : List Nat) (A B : List Nat) :
    (List.range s.length).map (fun b => (A ++ s ++ B).getD (A.length + b) 0) = s := by
  apply List.ext_getElem
  · simp
  · intro i h1 h2
    simp only [List.getElem_map, List.getElem_range, List.getD_eq_getElem?_getD]
    rw [List.append_assoc, List.getElem?_append_right (by omega), Nat.add_sub_cancel_left,
      List.getElem?_append_left h2, List.getElem?_eq_getElem h2]
    rfl

/-- The sample `k` of a frame that lies in a buffer behind `pre`. -/
theorem get_sample_frame (w : Nat) (pre post : List Nat) (f : List (List Nat))
    (hf : ∀ s ∈ f, s.length = w) (k : Nat) (hk : k < f.length) :
    get_sample w (pre ++ f.flatten ++ post) pre.length k = f.getD k [] := by
  have hs : (f.getD k []).length = w := by
    rw [List.getD_eq_getElem?_getD, List.getElem?_eq_getElem hk]
    exact hf _ (List.getElem_mem _)
  have hA : (pre ++ (f.take k).flatten).length = pre.length + k * w := by
    rw [List.length_append, flatten_length_uniform w _ (fun s hs => hf s (List.mem_of_mem_take hs)),
      List.length_take, Nat.min_eq_left (by omega)]
  have hd : pre ++ f.flatten ++ post =
      (pre ++ (f.take k).flatten) ++ f.getD k [] ++ ((f.drop (k + 1)).flatten ++ post) := by
    rw [flatten_split f k hk]
    simp
  unfold get_sample
  rw [hd, ← hA]
  have := map_getD_range (f.getD k []) (pre ++ (f.take k).flatten)
    ((f.drop (k + 1)).flatten ++ post)
  rw [hs] at this
  exact this

/-- The assignment to sample `k` of a frame that lies in a buffer behind `pre`. -/
theorem set_sample_frame (w : Nat) (pre post : List Nat) (f : List (List Nat))
    (hf : ∀ s ∈ f, s.length = w) (k : Nat) (hk : k < f.length) (v : List Nat)
    (hv : v.length = w) :
    set_sample w (pre ++ f.flatten ++ post) pre.length k v =
      pre ++ (f.set k v).flatten ++ post := by
  have hs : (f.getD k []).length = v.length := by
    rw [List.getD_eq_getElem?_getD, List.getElem?_eq_getElem hk, hv]
    exact hf _ (List.getElem_mem _)
  have hA : (pre ++ (f.take k).flatten).length = pre.length + k * w := by
    rw [List.length_append, flatten_length_uniform w _ (fun s hs => hf s (List.mem_of_mem_take hs)),
      List.length_take, Nat.min_eq_left (by omega)]
  have hd : pre ++ f.flatten ++ post =
      (pre ++ (f.take k).flatten) ++ f.getD k [] ++ ((f.drop (k + 1)).flatten ++ post) := by
    rw [flatten_split f k hk]
    simp
  unfold set_sample
  rw [hd, ← hA, write_bytes_middle v _ _ _ hs, set_split f k v hk]
  simp

theorem set_uniform (w : Nat) (f : List (List Nat)) (hf : ∀ s ∈ f, s.length = w) (k : Nat)
    (v : List Nat) (hv : v.length = w) : ∀ s ∈ f.set k v, s.length = w := by
  intro s hs
  rcases List.mem_or_eq_of_mem_set hs with h | h
  · exact hf s h
  · rw [h, hv]

theorem getD_uniform (w : Nat) (f : List (List Nat)) (hf : ∀ s ∈ f, s.length = w) (k : Nat)
    (hk : k < f.length) : (f.getD k []).length = w := by
  rw [List.getD_eq_getElem?_getD, List.getElem?_eq_getElem hk]
  exact hf _ (List.getElem_mem _)

theorem move_samples_length (g1 : Nat) : ∀ (n i : Nat) (f : List (List Nat)),
    (move_samples g1 n i f).length = f.length
  | 0, _, _ => rfl
  | n + 1, i, f => by
    rw [move_samples, move_samples_length g1 n, List.length_set]

theorem move_samples_uniform (w g1 : Nat) : ∀ (n i : Nat) (f : List (List Nat)),
    (∀ s ∈ f, s.length = w) → g1 + i + n ≤ f.length →
    ∀ s ∈ move_samples g1 n i f, s.length = w
  | 0, _, _, hf, _ => hf
  | n + 1, i, f, hf, h => by
    rw [move_samples]
    apply move_samples_uniform w g1 n (i + 1) _ _ (by rw [List.length_set]; omega)
    exact set_uniform w f hf _ _ (getD_uniform w f hf _ (by omega))

/-- The loop `move_group2` on a frame that lies in a buffer behind `pre`. -/
theorem move_group2_frame (w g1 : Nat) (pre post : List Nat) (hg : 2 ≤ g1) :
    ∀ (n i : Nat) (f : List (List Nat)), (∀ s ∈ f, s.length = w) → g1 + i + n ≤ f.length →
      move_group2 w g1 pre.length n i (pre ++ f.flatten ++ post) =
        pre ++ (move_samples g1 n i f).flatten ++ post
  | 0, _, _, _, _ => rfl
  | n + 1, i, f, hf, h => by
    rw [move_group2, move_samples, get_sample_frame w pre post f hf _ (by omega),
      set_sample_frame w pre post f hf _ (by omega) _ (getD_uniform w f hf _ (by omega))]
    exact move_group2_frame w g1 pre post hg n (i + 1) _
      (set_uniform w f hf _ _ (getD_uniform w f hf _ (by omega)))
      (by rw [List.length_set]; omega)

/-- The body `reorder_frame` on a frame that lies in a buffer behind `pre`. -/
theorem reorder_frame_frame (w : Nat) (info : audio_stream_info_t) (pre post : List Nat)
    (f : List (List Nat)) (hf : ∀ s ∈ f, s.length = w) (hg : info.group1_channels = 4)
    (hlen : f.length = 4 + info.group2_channels) :
    reorder_frame w info (pre ++ f.flatten ++ post) pre.length =
      pre ++ (reorder_samples info f).flatten ++ post := by
  have hm := move_samples_uniform w info.group1_channels info.group2_channels 0 f hf (by omega)
  have hml := move_samples_length info.group1_channels info.group2_channels 0 f
  unfold reorder_frame reorder_samples
  simp only
  rw [get_sample_frame w pre post f hf 2 (by omega),
    get_sample_frame w pre post f hf 3 (by omega),
    move_group2_frame w _ pre post (by omega) _ 0 f hf (by omega),
    set_sample_frame w pre post _ hm _ (by omega) _ (getD_uniform w f hf _ (by omega)),
    set_sample_frame w pre post _
      (set_uniform w _ hm _ _ (getD_uniform w f hf _ (by omega))) _
      (by rw [List.length_set]; omega) _ (getD_uniform w f hf _ (by omega))]

end audio_stream_t
namespace audio_stream_t

theorem move_samples_getElem? : ∀ (n i : Nat) (f : List (List Nat)) (j : Nat),
    4 + i + n ≤ f.length →
    (move_samples 4 n i f)[j]? = if 2 + i ≤ j ∧ j < 2 + i + n then f[j + 2]? else f[j]?
  | 0, i, f, j, _ => by
    rw [move_samples, if_neg (by omega)]
  | n + 1, i, f, j, h => by
    have hv : some (f.getD (4 + i) []) = f[4 + i]? := by
      rw [List.getD_eq_getElem?_getD, List.getElem?_eq_getElem (by omega)]
      rfl
    rw [move_samples, move_samples_getElem? n (i + 1) _ j (by rw [List.length_set]; omega)]
    simp only [List.getElem?_set, List.length_set]
    by_cases h1 : 2 + (i + 1) ≤ j ∧ j < 2 + (i + 1) + n
    · rw [if_pos h1, if_neg (by omega), if_pos (by omega)]
    · rw [if_neg h1]
      by_cases h2 : 2 + i = j
      · rw [if_pos h2, if_pos (by omega), if_pos (by omega), hv]
        congr 1
        omega
      · rw [if_neg h2, if_neg (by omega)]

theorem reordered_getElem? (f : List (List Nat)) (g : Nat) (hlen : f.length = 4 + g) (j : Nat) :
    (reordered f)[j]? =
      if j < 2 then f[j]? else if j < 2 + g then f[j + 2]?
      else if j < 4 + g then f[j - g]? else none := by
  have h1 : (f.take 2).length = 2 := by rw [List.length_take]; omega
  have h2 : (f.drop 4).length = g := by rw [List.length_drop]; omega
  have h3 : (f.take 2 ++ f.drop 4).length = 2 + g := by rw [List.length_append, h1, h2]
  unfold reordered
  by_cases c1 : j < 2
  · rw [if_pos c1, List.getElem?_append_left (by omega), List.getElem?_append_left (by omega),
      List.getElem?_take_of_lt c1]
  · rw [if_neg c1]
    by_cases c2 : j < 2 + g
    · rw [if_pos c2, List.getElem?_append_left (by omega), List.getElem?_append_right (by omega),
        h1, List.getElem?_drop]
      congr 1
      omega
    · rw [if_neg c2, List.getElem?_append_right (by omega), h3]
      by_cases c3 : j < 4 + g
      · rw [if_pos c3, List.getElem?_take_of_lt (by omega), List.getElem?_drop]
        congr 1
        omega
      · rw [if_neg c3, List.getElem?_eq_none]
        rw [List.length_take, List.length_drop]
        omega

/-- With four channels in group 1 the body of the reordering loop turns the
frame `[Lf, Rf, Ls, Rs, x1..xg]` into `[Lf, Rf, x1..xg, Ls, Rs]`. -/
theorem reorder_samples_eq (info : audio_stream_info_t) (f : List (List Nat))
    (hg : info.group1_channels = 4) (hlen : f.length = 4 + info.group2_channels) :
    reorder_samples info f = reordered f := by
  have hml := move_samples_length 4 info.group2_channels 0 f
  have h2 : some (f.getD 2 []) = f[2]? := by
    rw [List.getD_eq_getElem?_getD, List.getElem?_eq_getElem (by omega)]
    rfl
  have h3 : some (f.getD 3 []) = f[3]? := by
    rw [List.getD_eq_getElem?_getD, List.getElem?_eq_getElem (by omega)]
    rfl
  have hM := move_samples_getElem? info.group2_channels 0 f
  apply List.ext_getElem?
  intro j
  unfold reorder_samples
  rw [hg, reordered_getElem? f _ hlen, Nat.add_zero]
  by_cases c1 : j < 2
  · rw [if_pos c1, List.getElem?_set_ne (by omega), List.getElem?_set_ne (by omega),
      hM j (by omega), if_neg (by omega)]
  · rw [if_neg c1]
    by_cases c2 : j < 2 + info.group2_channels
    · rw [if_pos c2, List.getElem?_set_ne (by omega), List.getElem?_set_ne (by omega),
        hM j (by omega), if_pos (by omega)]
    · rw [if_neg c2]
      by_cases c3 : j < 4 + info.group2_channels
      · rw [if_pos c3]
        by_cases c4 : j = 2 + info.group2_channels
        · rw [List.getElem?_set_ne (by omega), c4,
            List.getElem?_set_self (by rw [hml]; omega), h2]
          congr 1
          omega
        · have c5 : j = 2 + info.group2_channels + 1 := by omega
          rw [c5, List.getElem?_set_self (by rw [List.length_set, hml]; omega), h3]
          congr 1
          omega
      · rw [if_neg c3, List.getElem?_eq_none]
        rw [List.length_set, List.length_set, hml]
        omega

end audio_stream_t
namespace audio_stream_t

theorem frames_bytes_cons (f : List (List Nat)) (frames : List (List (List Nat))) :
    frames_bytes (f :: frames) = f.flatten ++ frames_bytes frames := by
  simp [frames_bytes]

/-- The reordering loop over a buffer of whole frames behind `pre`. -/
theorem frame_loop_frames (w : Nat) (info : audio_stream_info_t) (hw : 0 < w)
    (hg : info.group1_channels = 4) :
    ∀ (frames : List (List (List Nat))) (pre : List Nat) (fuel : Nat),
      (∀ f ∈ frames, f.length = 4 + info.group2_channels ∧ ∀ s ∈ f, s.length = w) →
      frames.length + 1 ≤ fuel →
      frame_loop ((info.group1_channels + info.group2_channels) * w) (reorder_frame w info) fuel
        pre.length (pre ++ frames_bytes frames) =
        Except.ok (pre ++ frames_bytes (frames.map reordered))
  | [], pre, fuel, _, hfuel => by
    obtain ⟨fuel, rfl⟩ : ∃ k, fuel = k + 1 := ⟨fuel - 1, by simp at hfuel; omega⟩
    simp [frame_loop, frames_bytes]
  | f :: frames, pre, fuel, hf, hfuel => by
    obtain ⟨fuel, rfl⟩ : ∃ k, fuel = k + 1 := ⟨fuel - 1, by simp at hfuel; omega⟩
    obtain ⟨hfl, hfu⟩ := hf f (List.mem_cons_self _ _)
    have hbytes : f.flatten.length = (info.group1_channels + info.group2_channels) * w := by
      rw [flatten_length_uniform w f hfu, hfl, hg]
    have hpos : 0 < (info.group1_channels + info.group2_channels) * w :=
      Nat.mul_pos (by omega) hw
    have hbody := reorder_frame_frame w info pre (frames_bytes frames) f hfu hg hfl
    rw [reorder_samples_eq info f hg hfl] at hbody
    have hlen2 : (reordered f).flatten.length = f.flatten.length := by
      have := congrArg List.length hbody
      rw [reorder_frame_length] at this
      simp only [List.length_append] at this
      omega
    simp only [frame_loop]
    rw [frames_bytes_cons, ← List.append_assoc, if_pos (by
      simp only [List.length_append]
      omega), hbody]
    have hoff : pre.length + (info.group1_channels + info.group2_channels) * w =
        (pre ++ (reordered f).flatten).length := by
      rw [List.length_append, hlen2, hbytes]
    rw [hoff, frame_loop_frames w info hw hg frames (pre ++ (reordered f).flatten) fuel
      (fun f2 h2 => hf f2 (List.mem_cons_of_mem _ h2)) (by simp at hfuel; omega)]
    rw [List.map_cons, frames_bytes_cons, List.append_assoc]

theorem frames_bytes_length (w c : Nat) : ∀ (frames : List (List (List Nat))),
    (∀ f ∈ frames, f.length = c ∧ ∀ s ∈ f, s.length = w) →
    (frames_bytes frames).length = frames.length * (c * w)
  | [], _ => by simp [frames_bytes]
  | f :: frames, h => by
    rw [frames_bytes_cons, List.length_append,
      frames_bytes_length w c frames (fun f2 h2 => h f2 (List.mem_cons_of_mem _ h2)),
      flatten_length_uniform w f (h f (List.mem_cons_self _ _)).2,
      (h f (List.mem_cons_self _ _)).1, List.length_cons]
    ring

theorem reordered_perm (f : List (List Nat)) : (reordered f).Perm f := by
  have h1 : f = f.take 2 ++ ((f.drop 2).take 2 ++ f.drop 4) := by
    have : f.drop 4 = (f.drop 2).drop 2 := by rw [List.drop_drop]
    rw [this, List.take_append_drop, List.take_append_drop]
  unfold reordered
  conv_rhs => rw [h1]
  rw [List.append_assoc]
  exact List.Perm.append_left _ List.perm_append_comm

theorem reordered_cons (Lf Rf Ls Rs : List Nat) (xs : List (List Nat)) :
    reordered ([Lf, Rf, Ls, Rs] ++ xs) = [Lf, Rf] ++ xs ++ [Ls, Rs] := by
  simp [reordered]

theorem reordered_uniform (w c : Nat) (f : List (List Nat))
    (h : f.length = c ∧ ∀ s ∈ f, s.length = w) :
    (reordered f).length = c ∧ ∀ s ∈ reordered f, s.length = w :=
  ⟨by rw [(reordered_perm f).length_eq]; exact h.1,
    fun s hs => h.2 s ((reordered_perm f).mem_iff.1 hs)⟩

end audio_stream_t
namespace pcm_audio_stream_t

/-- With software downmix (`do_downmix` and not `info.can_downmix`) the data
that `decode` returns are those of `downmix_channels` on the result of
`reorder_channels` on the decoded frames. -/
theorem decode_reorders_first (mix : Nat → List Int → Int) (s : pcm_audio_stream_t)
    (buf : List Nat) (r : DecodeResult) (hd : s.do_downmix = true)
    (hc : s.info.can_downmix = false) (h : decode mix s buf = Except.ok r) :
    ∃ st, decode_loop s buf (if buf.length > DVD_BLOCK_SIZE then DVD_BLOCK_SIZE else buf.length)
        ((if buf.length > DVD_BLOCK_SIZE then DVD_BLOCK_SIZE else buf.length) + 1)
        { inp := 0, out := [], raw_group2_index := s.raw_group2_index,
          pcm_group1_pack := s.pcm_group1_pack, pcm_group2_pack := s.pcm_group2_pack } =
          Except.ok st ∧
      ∃ d, audio_stream_t.reorder_channels s.info st.out = Except.ok d ∧
        audio_stream_t.downmix_channels mix s.info d = Except.ok r.data := by
  unfold decode at h
  simp only [bind, Except.bind, pure, Except.pure, hd, hc, Bool.not_true, Bool.false_eq_true,
    if_false, Bool.not_false, if_true] at h
  split at h
  · exact absurd h (by simp)
  · rename_i st hst
    refine ⟨st, hst, ?_⟩
    split at h
    · exact absurd h (by simp)
    · split at h
      · exact absurd h (by simp)
      · split at h
        · exact absurd h (by simp)
        · split at h
          · exact absurd h (by simp)
          · rename_i data hdata
            refine ⟨data, hdata, ?_⟩
            split at h
            · exact absurd h (by simp)
            · rename_i v hv
              simp only [Except.ok.injEq] at h
              rw [← h]
              exact hv

end pcm_audio_stream_t
namespace audio_stream_t

/-- The stream info that `pcm_audio_stream_t::get_info` makes from a header
it accepts has the PCM stream id, so it is not that of an MLP TrueHD
stream. -/
theorem get_info_not_truehd (env : pcm_audio_stream_t.InfoEnv) (buf : List Nat)
    (hlen : buf.length ≥ pcm_audio_stream_t.sizeof_pcm_header_t) (hch : buf.getD 6 0 ≤ 20) :
    (pcm_audio_stream_t.get_info env buf).stream_id = PCM_STREAM_ID ∧
      ¬ ((pcm_audio_stream_t.get_info env buf).stream_id = MLP_STREAM_ID ∧
        (pcm_audio_stream_t.get_info env buf).stream_type = STREAM_TYPE_TRUEHD) := by
  have h : (pcm_audio_stream_t.get_info env buf).stream_id = PCM_STREAM_ID := by
    unfold pcm_audio_stream_t.get_info
    simp only
    rw [if_pos hlen, if_pos hch]
  refine ⟨h, fun hmlp => ?_⟩
  rw [h] at hmlp
  exact absurd hmlp.1 (by decide)

/-- C25: for a stream whose channel assignment is in 18..20, with four
channels in group 1 and `g` in group 2, and whose samples are 16-, 20- or
24-bit, `reorder_channels` rewrites every frame `[Lf, Rf, Ls, Rs, x1..xg]` of a
buffer of whole frames to `[Lf, Rf, x1..xg, Ls, Rs]`, a permutation of the
samples of the frame that leaves the size of the data unchanged; for a channel
assignment below 18 it leaves the buffer unchanged; and in
`pcm_audio_stream_t::decode` with software downmix it is applied before
`downmix_channels`. The stream is one that the method is called on: its only
caller is the PCM decoder, whose stream info `get_info` makes with the PCM
stream id, and not the identifiers of MLP TrueHD, which
`mlp_audio_stream_t::get_info` gives to streams without a channel in group 2
only. -/
theorem reorder_channels_frames (info : audio_stream_info_t) (frames : List (List (List Nat)))
    (harr : 18 ≤ info.channel_arrangement ∧ info.channel_arrangement ≤ 20)
    (hg : info.group1_channels = 4)
    (hbits : info.group1_bits = 16 ∨ info.group1_bits = 20 ∨ info.group1_bits = 24)
    (hthd : ¬ (info.stream_id = MLP_STREAM_ID ∧ info.stream_type = STREAM_TYPE_TRUEHD))
    (hframes : ∀ f ∈ frames, f.length = 4 + info.group2_channels ∧
      ∀ s ∈ f, s.length = sample_size info) :
    reorder_channels info (frames_bytes frames) =
      Except.ok (frames_bytes (frames.map reordered)) ∧
    (frames_bytes (frames.map reordered)).length = (frames_bytes frames).length ∧
    (∀ f ∈ frames, (reordered f).Perm f) ∧
    (∀ (Lf Rf Ls Rs : List Nat) (xs : List (List Nat)),
      reordered ([Lf, Rf, Ls, Rs] ++ xs) = [Lf, Rf] ++ xs ++ [Ls, Rs]) ∧
    (∀ (info2 : audio_stream_info_t) (data : List Nat), info2.channel_arrangement < 18 →
      reorder_channels info2 data = Except.ok data) ∧
    (∀ (mix : Nat → List Int → Int) (s : pcm_audio_stream_t) (buf : List Nat)
      (r : pcm_audio_stream_t.DecodeResult), s.do_downmix = true → s.info.can_downmix = false →
      pcm_audio_stream_t.decode mix s buf = Except.ok r →
      ∃ st, pcm_audio_stream_t.decode_loop s buf
          (if buf.length > DVD_BLOCK_SIZE then DVD_BLOCK_SIZE else buf.length)
          ((if buf.length > DVD_BLOCK_SIZE then DVD_BLOCK_SIZE else buf.length) + 1)
          { inp := 0, out := [], raw_group2_index := s.raw_group2_index,
            pcm_group1_pack := s.pcm_group1_pack, pcm_group2_pack := s.pcm_group2_pack } =
            Except.ok st ∧
        ∃ d, reorder_channels s.info st.out = Except.ok d ∧
          downmix_channels mix s.info d = Except.ok r.data) ∧
    (∀ (env : pcm_audio_stream_t.InfoEnv) (buf : List Nat),
      buf.length ≥ pcm_audio_stream_t.sizeof_pcm_header_t → buf.getD 6 0 ≤ 20 →
      ¬ ((pcm_audio_stream_t.get_info env buf).stream_id = MLP_STREAM_ID ∧
        (pcm_audio_stream_t.get_info env buf).stream_type = STREAM_TYPE_TRUEHD)) := by
  have hw : 0 < sample_size info := by
    unfold sample_size
    split <;> omega
  have hlen := frames_bytes_length (sample_size info) (4 + info.group2_channels) frames hframes
  have hlen2 := frames_bytes_length (sample_size info) (4 + info.group2_channels)
    (frames.map reordered) (fun f hf => by
      obtain ⟨f0, hf0, rfl⟩ := List.mem_map.1 hf
      exact reordered_uniform _ _ f0 (hframes f0 hf0))
  have hfuel : frames.length + 1 ≤ (frames_bytes frames).length + 1 := by
    rw [hlen]
    have := Nat.le_mul_of_pos_right frames.length
      (Nat.mul_pos (show 0 < 4 + info.group2_channels by omega) hw)
    omega
  have hloop := frame_loop_frames (sample_size info) info hw hg frames []
    ((frames_bytes frames).length + 1) hframes hfuel
  rw [List.length_nil, List.nil_append, List.nil_append] at hloop
  refine ⟨?_, ?_, fun f _ => reordered_perm f, reordered_cons,
    fun info2 data h => reorder_channels_below_18 info2 data h,
    fun mix s buf r hd hc h => pcm_audio_stream_t.decode_reorders_first mix s buf r hd hc h,
    fun env buf h1 h2 => (get_info_not_truehd env buf h1 h2).2⟩
  · unfold reorder_channels
    rw [if_neg hthd, if_neg (by omega), if_neg (by omega)]
    by_cases h16 : info.group1_bits = 16
    · have hs : sample_size info = 2 := by
        unfold sample_size
        rw [if_pos h16]
      rw [hs] at hloop
      rw [if_pos h16, hloop]
    · have hs : sample_size info = 4 := by
        unfold sample_size
        rw [if_neg h16]
      rw [hs] at hloop
      rw [if_neg h16, if_pos (by omega), hloop]
  · rw [hlen, hlen2, List.length_map]

/-- C25, witness: two frames of the five-channel 16-bit stream whose info
`get_info` makes from the PCM header with channel assignment 18; the frame
`[1, 2, 3, 4, 5]` becomes `[1, 2, 5, 3, 4]` and `[6, 7, 8, 9, 10]` becomes
`[6, 7, 10, 8, 9]`. -/
theorem reorder_channels_frames_witness :
    (18 ≤ Example.info_5ch.channel_arrangement ∧ Example.info_5ch.channel_arrangement ≤ 20) ∧
    Example.info_5ch.group1_channels = 4 ∧
    (Example.info_5ch.group1_bits = 16 ∨ Example.info_5ch.group1_bits = 20 ∨
      Example.info_5ch.group1_bits = 24) ∧
    ¬ (Example.info_5ch.stream_id = MLP_STREAM_ID ∧
      Example.info_5ch.stream_type = STREAM_TYPE_TRUEHD) ∧
    (∀ f ∈ Example.frames_5ch, f.length = 4 + Example.info_5ch.group2_channels ∧
      ∀ s ∈ f, s.length = sample_size Example.info_5ch) ∧
    (Example.info_5ch.group2_channels = 1 ∧ Example.info_5ch.stream_id = PCM_STREAM_ID ∧
      frames_bytes (Example.frames_5ch.map reordered) =
        [1, 0, 2, 0, 5, 0, 3, 0, 4, 0, 6, 0, 7, 0, 10, 0, 8, 0, 9, 0]) ∧
    (reorder_channels Example.info_5ch (frames_bytes Example.frames_5ch) =
      Except.ok (frames_bytes (Example.frames_5ch.map reordered)) ∧
    (frames_bytes (Example.frames_5ch.map reordered)).length =
      (frames_bytes Example.frames_5ch).length ∧
    (∀ f ∈ Example.frames_5ch, (reordered f).Perm f) ∧
    (∀ (Lf Rf Ls Rs : List Nat) (xs : List (List Nat)),
      reordered ([Lf, Rf, Ls, Rs] ++ xs) = [Lf, Rf] ++ xs ++ [Ls, Rs]) ∧
    (∀ (info2 : audio_stream_info_t) (data : List Nat), info2.channel_arrangement < 18 →
      reorder_channels info2 data = Except.ok data) ∧
    (∀ (mix : Nat → List Int → Int) (s : pcm_audio_stream_t) (buf : List Nat)
      (r : pcm_audio_stream_t.DecodeResult), s.do_downmix = true → s.info.can_downmix = false →
      pcm_audio_stream_t.decode mix s buf = Except.ok r →
      ∃ st, pcm_audio_stream_t.decode_loop s buf
          (if buf.length > DVD_BLOCK_SIZE then DVD_BLOCK_SIZE else buf.length)
          ((if buf.length > DVD_BLOCK_SIZE then DVD_BLOCK_SIZE else buf.length) + 1)
          { inp := 0, out := [], raw_group2_index := s.raw_group2_index,
            pcm_group1_pack := s.pcm_group1_pack, pcm_group2_pack := s.pcm_group2_pack } =
            Except.ok st ∧
        ∃ d, reorder_channels s.info st.out = Except.ok d ∧
          downmix_channels mix s.info d = Except.ok r.data) ∧
    (∀ (env : pcm_audio_stream_t.InfoEnv) (buf : List Nat),
      buf.length ≥ pcm_audio_stream_t.sizeof_pcm_header_t → buf.getD 6 0 ≤ 20 →
      ¬ ((pcm_audio_stream_t.get_info env buf).stream_id = MLP_STREAM_ID ∧
        (pcm_audio_stream_t.get_info env buf).stream_type = STREAM_TYPE_TRUEHD))) :=
  ⟨by decide, by decide, by decide, by decide, by decide, ⟨by decide, by decide, by decide⟩,
    reorder_channels_frames Example.info_5ch Example.frames_5ch (by decide) (by decide)
      (by decide) (by decide) (by decide)⟩

end audio_stream_t

/-! ## The parallel codec pipeline: first in, first out -/

namespace dst_engine_t

section
variable {σ : Type} (codec : codec_t σ) (c0 : Nat → σ) (n out_size : Nat) (frame : Nat → List Nat)

theorem worker_step_fresh (c : σ) :
    dst_slot_t.worker_step codec (dst_slot_t.fresh c) = dst_slot_t.fresh c := rfl

theorem worker_step_loaded_false (c : σ) (f : List Nat) :
    dst_slot_t.worker_step codec (slot_loaded false c f out_size) = slot_loaded false c f out_size :=
  rfl

theorem worker_pass_loaded_true (c : σ) (f : List Nat) (hf : f ≠ []) :
    dst_slot_t.worker_pass codec (slot_loaded true c f out_size) =
      slot_done (codec.run c f (8 * f.length) (List.replicate out_size 0)) f := by
  cases f with
  | nil => exact absurd rfl hf
  | cons a l => rfl

theorem worker_step_loaded_true (c : σ) (f : List Nat) (hf : f ≠ []) :
    dst_slot_t.worker_step codec (slot_loaded true c f out_size) =
      slot_done (codec.run c f (8 * f.length) (List.replicate out_size 0)) f := by
  rw [← worker_pass_loaded_true codec out_size c f hf]
  rfl

theorem worker_step_done (res : σ × Int × List Nat) (f : List Nat) :
    dst_slot_t.worker_step codec (slot_done res f) = slot_done res f := rfl

theorem worker_step_collected (res : σ × Int × List Nat) (f : List Nat) :
    dst_slot_t.worker_step codec (slot_collected res f) = slot_collected res f := rfl

theorem released_step (hframe : ∀ k, frame k ≠ []) (r i : Nat) (slot : dst_slot_t σ)
    (h : Released codec c0 n out_size frame r i slot) :
    Released codec c0 n out_size frame r i (dst_slot_t.worker_step codec slot) := by
  rcases h with h | h
  · right
    rw [h, worker_step_loaded_true codec out_size _ _ (hframe _)]
    rfl
  · right
    rw [h, worker_step_done]

theorem pending_step (hframe : ∀ k, frame k ≠ []) (model : model_e) (r i : Nat)
    (slot : dst_slot_t σ) (h : Pending codec c0 n out_size frame model r i slot) :
    Pending codec c0 n out_size frame model r i (dst_slot_t.worker_step codec slot) := by
  cases model with
  | MT => exact released_step codec c0 n out_size frame hframe r i slot h
  | MPP =>
    simp only [Pending] at h ⊢
    rw [h, worker_step_loaded_false]

theorem earlier_step (hframe : ∀ k, frame k ≠ []) (q i : Nat) (slot : dst_slot_t σ)
    (h : Earlier codec c0 n out_size frame q i slot) :
    Earlier codec c0 n out_size frame q i (dst_slot_t.worker_step codec slot) := by
  refine ⟨fun hq => ?_, fun r hr => released_step codec c0 n out_size frame hframe r i slot (h.2 r hr)⟩
  rw [h.1 hq, worker_step_fresh]

theorem atIndex_step (q i : Nat) (slot : dst_slot_t σ)
    (h : AtIndex codec c0 n out_size frame q i slot) :
    AtIndex codec c0 n out_size frame q i (dst_slot_t.worker_step codec slot) := by
  refine ⟨fun hq => ?_, fun r hr => ?_⟩
  · rw [h.1 hq, worker_step_fresh]
  · rw [h.2 r hr, worker_step_collected]

theorem thresh_step (hframe : ∀ k, frame k ≠ []) (model : model_e) (q t i : Nat)
    (slot : dst_slot_t σ) (h : Thresh codec c0 n out_size frame model q t i slot) :
    Thresh codec c0 n out_size frame model q t i (dst_slot_t.worker_step codec slot) := by
  unfold Thresh at h ⊢
  split
  · rename_i hi
    rw [if_pos hi] at h
    exact pending_step codec c0 n out_size frame hframe model q i slot h
  · rename_i hi
    rw [if_neg hi] at h
    exact earlier_step codec c0 n out_size frame hframe q i slot h

/-- A step of a worker keeps a family of slot predicates that each slot keeps
under a step of its own worker. -/
theorem slots_worker_step (P : Nat → dst_slot_t σ → Prop)
    (hP : ∀ i slot, P i slot → P i (dst_slot_t.worker_step codec slot))
    (e : dst_engine_t σ) (w : Nat) (h : Slots n P e) :
    Slots n P (worker_step codec e w) ∧ (worker_step codec e w).slot_index = e.slot_index ∧
      (worker_step codec e w).out_size = e.out_size := by
  unfold worker_step
  cases hw : e.slots[w]? with
  | none => exact ⟨h, rfl, rfl⟩
  | some slot =>
    refine ⟨⟨by simp [h.1], ?_⟩, rfl, rfl⟩
    intro i hi
    rcases h.2 i hi with ⟨s, hs, hp⟩
    by_cases hwi : w = i
    · subst hwi
      rw [hs] at hw
      injection hw with hw
      subst hw
      refine ⟨dst_slot_t.worker_step codec s, ?_, hP _ _ hp⟩
      have hlen : w < e.slots.length := by rw [h.1]; exact hi
      simp [List.getElem?_set_self, hlen]
    · exact ⟨s, by simp only; rw [List.getElem?_set_ne hwi]; exact hs, hp⟩

theorem slots_workers (P : Nat → dst_slot_t σ → Prop)
    (hP : ∀ i slot, P i slot → P i (dst_slot_t.worker_step codec slot))
    (schedule : List Nat) : ∀ (e : dst_engine_t σ), Slots n P e →
      Slots n P (workers codec schedule e) ∧ (workers codec schedule e).slot_index = e.slot_index ∧
        (workers codec schedule e).out_size = e.out_size := by
  induction schedule with
  | nil => intro e h; exact ⟨h, rfl, rfl⟩
  | cons w rest ih =>
    intro e h
    have h1 := slots_worker_step codec n P hP e w h
    have h2 := ih (worker_step codec e w) h1.1
    simp only [workers, List.foldl_cons] at h2 ⊢
    exact ⟨h2.1, by rw [h2.2.1, h1.2.1], by rw [h2.2.2, h1.2.2]⟩

end

theorem run_eq {σ : Type} (codec : codec_t σ) (model : model_e) (before during : List Nat)
    (e : dst_engine_t σ) (dsx_data : List Nat) :
    run codec model before during e dsx_data =
      match (workers codec before e).slots[(workers codec before e).slot_index]? with
      | none => none
      | some slot_set =>
        collect codec
          (workers codec during
            { workers codec before e with
              slots := release_all model (workers codec before e).slot_index
                ((workers codec before e).slots.set (workers codec before e).slot_index
                  (load model (workers codec before e).out_size slot_set dsx_data))
              slot_index := ((workers codec before e).slot_index + 1) %
                (release_all model (workers codec before e).slot_index
                  ((workers codec before e).slots.set (workers codec before e).slot_index
                    (load model (workers codec before e).out_size slot_set dsx_data))).length })
          (((workers codec before e).slot_index + 1) %
            (release_all model (workers codec before e).slot_index
              ((workers codec before e).slots.set (workers codec before e).slot_index
                (load model (workers codec before e).out_size slot_set dsx_data))).length) := by
  unfold run
  generalize workers codec before e = e1
  dsimp only
  cases e1.slots[e1.slot_index]? <;> rfl

theorem slots_set {σ : Type} (n : Nat) (Q : Nat → dst_slot_t σ → Prop)
    (slots : List (dst_slot_t σ))
    (i : Nat) (s : dst_slot_t σ) (hi : i < n) (hs : Q i s)
    (hlen : slots.length = n)
    (h : ∀ j, j < n → ∃ slot, slots[j]? = some slot ∧ (j ≠ i → Q j slot)) :
    (slots.set i s).length = n ∧ ∀ j, j < n → ∃ slot, (slots.set i s)[j]? = some slot ∧ Q j slot := by
  refine ⟨by simp [hlen], fun j hj => ?_⟩
  by_cases hji : i = j
  · subst hji
    exact ⟨s, by simp [List.getElem?_set_self, hlen, hj], hs⟩
  · rcases h j hj with ⟨slot, h1, h2⟩
    exact ⟨slot, by rw [List.getElem?_set_ne hji]; exact h1, h2 (fun h => hji h.symm)⟩

theorem div_mod_of_lt (n r t : Nat) (ht : t < n) : (r * n + t) / n = r ∧ (r * n + t) % n = t := by
  have hn : 0 < n := by omega
  constructor
  · rw [Nat.add_comm, Nat.add_mul_div_right _ _ hn, Nat.div_eq_of_lt ht, Nat.zero_add]
  · rw [Nat.add_comm, Nat.add_mul_mod_self_right, Nat.mod_eq_of_lt ht]

section
variable {σ : Type} (codec : codec_t σ) (c0 : Nat → σ) (n out_size : Nat) (frame : Nat → List Nat)

theorem load_fresh (model : model_e) (c : σ) (f : List Nat) (hf : f ≠ []) :
    load model out_size (dst_slot_t.fresh c) f =
      slot_loaded (decide (model = model_e.MT)) c f out_size := by
  cases f with
  | nil => exact absurd rfl hf
  | cons a l => cases model <;> simp [load, dst_slot_t.fresh, slot_loaded, vector_resize]

theorem load_collected (model : model_e) (res : σ × Int × List Nat) (g f : List Nat)
    (hf : f ≠ []) :
    load model out_size (slot_collected res g) f =
      slot_loaded (decide (model = model_e.MT)) res.1 f out_size := by
  cases f with
  | nil => exact absurd rfl hf
  | cons a l => cases model <;> simp [load, slot_collected, slot_loaded, vector_resize]

theorem load_atIndex (hframe : ∀ k, frame k ≠ []) (model : model_e) (q p : Nat)
    (s : dst_slot_t σ) (h : AtIndex codec c0 n out_size frame q p s) :
    Pending codec c0 n out_size frame model q p (load model out_size s (frame (q * n + p))) := by
  have key : load model out_size s (frame (q * n + p)) =
      slot_loaded (decide (model = model_e.MT)) (codec_before codec c0 n out_size frame q p)
        (frame (q * n + p)) out_size := by
    cases q with
    | zero => rw [h.1 rfl, load_fresh out_size model _ _ (hframe _)]; rfl
    | succ r => rw [h.2 r rfl, load_collected out_size model _ _ _ (hframe _)]; rfl
  rw [key]
  cases model with
  | MT => exact Or.inl rfl
  | MPP => rfl

theorem collect_earlier (hframe : ∀ k, frame k ≠ []) (q t : Nat) (s : dst_slot_t σ)
    (h : Earlier codec c0 n out_size frame q t s) :
    ∃ s2, AtIndex codec c0 n out_size frame q t s2 ∧ ∀ (e : dst_engine_t σ),
      e.slots[t]? = some s →
        collect codec e t =
          some ({ e with slots := e.slots.set t s2 },
            collected_output codec c0 n out_size frame q t) := by
  cases q with
  | zero =>
    refine ⟨s, ⟨fun _ => h.1 rfl, fun r hr => by omega⟩, fun e he => ?_⟩
    have hs := h.1 rfl
    unfold collect
    rw [he]
    subst hs
    rfl
  | succ r =>
    refine ⟨slot_collected (codec_result codec c0 n out_size frame r t) (frame (r * n + t)),
      ⟨fun hq => by omega, fun r2 hr => by
        have : r2 = r := by omega
        subst this; rfl⟩, fun e he => ?_⟩
    unfold collect
    rw [he]
    rcases h.2 r rfl with hs | hs
    · subst hs
      have hp := worker_pass_loaded_true codec out_size
        (codec_before codec c0 n out_size frame r t) (frame (r * n + t)) (hframe _)
      simp only [dst_slot_t.acquire_out, slot_loaded, if_true] at hp ⊢
      simp only [ne_eq, reduceCtorEq, not_false_eq_true, if_true, Nat.lt_irrefl, if_false,
        Nat.lt_one_iff, Nat.zero_lt_one, hp]
      by_cases herr : (codec_result codec c0 n out_size frame r t).2.1 = 0
      · simp [slot_done, slot_collected, codec_result, collected_output, herr]
      · simp [slot_done, slot_collected, codec_result, collected_output, herr]
    · subst hs
      by_cases herr : (codec_result codec c0 n out_size frame r t).2.1 = 0
      · simp [dst_slot_t.acquire_out, slot_done, slot_collected, collected_output, herr]
      · simp [dst_slot_t.acquire_out, slot_done, slot_collected, collected_output, herr]

end

section
variable {σ : Type} (codec : codec_t σ) (c0 : Nat → σ) (n out_size : Nat) (frame : Nat → List Nat)

theorem release_all_thresh (model : model_e) (q p q2 t2 : Nat) (hp : p < n)
    (hnext : (p + 1 < n ∧ q2 = q ∧ t2 = p + 1) ∨ (p + 1 = n ∧ q2 = q + 1 ∧ t2 = 0))
    (slots : List (dst_slot_t σ))
    (h : Slots n (Thresh codec c0 n out_size frame model q (p + 1))
      { slots := slots, slot_index := 0, out_size := 0, run_threads := true }) :
    Slots n (Thresh codec c0 n out_size frame model q2 t2)
      { slots := release_all model p slots, slot_index := 0, out_size := 0,
        run_threads := true } := by
  obtain ⟨hlen, hs⟩ := h
  simp only at hlen hs
  rcases hnext with ⟨h1, h2, h3⟩ | ⟨h1, h2, h3⟩
  · subst h2 h3
    have : release_all model p slots = slots := by
      unfold release_all
      rw [if_neg]
      rw [hlen]
      omega
    rw [this]
    exact ⟨hlen, hs⟩
  · subst h2 h3
    have hall : ∀ i, i < n → ∃ slot, slots[i]? = some slot ∧
        Pending codec c0 n out_size frame model q i slot := by
      intro i hi
      rcases hs i hi with ⟨slot, hslot, hth⟩
      unfold Thresh at hth
      rw [if_pos (by omega)] at hth
      exact ⟨slot, hslot, hth⟩
    cases model with
    | MT =>
      have : release_all model_e.MT p slots = slots := by
        unfold release_all
        rw [if_neg]
        simp
      rw [this]
      refine ⟨hlen, fun i hi => ?_⟩
      rcases hall i hi with ⟨slot, hslot, hpe⟩
      refine ⟨slot, hslot, ?_⟩
      unfold Thresh
      rw [if_neg (by omega)]
      refine ⟨fun hq => by omega, fun r hr => ?_⟩
      have : r = q := by omega
      subst this
      exact hpe
    | MPP =>
      have : release_all model_e.MPP p slots =
          slots.map (fun slot => { slot with inp_semaphore := slot.inp_semaphore + 1 }) := by
        unfold release_all
        rw [if_pos]
        refine ⟨rfl, ?_⟩
        rw [hlen]
        omega
      rw [this]
      refine ⟨by simp [hlen], fun i hi => ?_⟩
      rcases hall i hi with ⟨slot, hslot, hpe⟩
      refine ⟨{ slot with inp_semaphore := slot.inp_semaphore + 1 }, by simp [hslot], ?_⟩
      unfold Thresh
      rw [if_neg (by omega)]
      refine ⟨fun hq => by omega, fun r hr => ?_⟩
      have : r = q := by omega
      subst this
      simp only [Pending] at hpe
      subst hpe
      exact Or.inl rfl

/-- One call of `run` from the invariant: it returns, with what the slot it
collects holds, and the invariant holds again for the next call. -/
theorem run_between (hframe : ∀ k, frame k ≠ []) (model : model_e) (q p q2 t2 : Nat)
    (hp : p < n)
    (hnext : (p + 1 < n ∧ q2 = q ∧ t2 = p + 1) ∨ (p + 1 = n ∧ q2 = q + 1 ∧ t2 = 0))
    (before during : List Nat) (e : dst_engine_t σ)
    (h : Between codec c0 n out_size frame model q p e) :
    ∃ e2, run codec model before during e (frame (q * n + p)) =
        some (e2, collected_output codec c0 n out_size frame q2 t2) ∧
      Between codec c0 n out_size frame model q2 t2 e2 := by
  obtain ⟨hidx, hos, hslots⟩ := h
  have ht2n : t2 < n := by omega
  have ht2 : (p + 1) % n = t2 := by
    rcases hnext with ⟨h1, h2, h3⟩ | ⟨h1, h2, h3⟩
    · rw [h3]; exact Nat.mod_eq_of_lt h1
    · rw [h3, h1]; exact Nat.mod_self n
  have hP : ∀ i slot,
      (if i = p then AtIndex codec c0 n out_size frame q i slot
        else Thresh codec c0 n out_size frame model q p i slot) →
      (if i = p then AtIndex codec c0 n out_size frame q i (dst_slot_t.worker_step codec slot)
        else Thresh codec c0 n out_size frame model q p i (dst_slot_t.worker_step codec slot)) := by
    intro i slot hi
    by_cases hip : i = p
    · rw [if_pos hip] at hi ⊢
      exact atIndex_step codec c0 n out_size frame q i slot hi
    · rw [if_neg hip] at hi ⊢
      exact thresh_step codec c0 n out_size frame hframe model q p i slot hi
  have h1 := slots_workers codec n _ hP before e hslots
  rw [run_eq]
  generalize workers codec before e = e1 at h1 ⊢
  obtain ⟨⟨hlen1, hs1⟩, hidx1, hos1⟩ := h1
  rw [hidx] at hidx1
  rw [hos] at hos1
  rcases hs1 p hp with ⟨s, hsp, hat⟩
  rw [if_pos rfl] at hat
  rw [hidx1, hos1, hsp]
  dsimp only
  have hset := slots_set n (Thresh codec c0 n out_size frame model q (p + 1)) e1.slots p
    (load model out_size s (frame (q * n + p))) hp (by
      unfold Thresh
      rw [if_pos (Nat.lt_succ_self p)]
      exact load_atIndex codec c0 n out_size frame hframe model q p s hat) hlen1 (fun j hj => by
      rcases hs1 j hj with ⟨slot, hslot, hth⟩
      refine ⟨slot, hslot, fun hjp => ?_⟩
      rw [if_neg hjp] at hth
      unfold Thresh at hth ⊢
      by_cases hlt : j < p
      · rw [if_pos hlt] at hth
        rw [if_pos (by omega)]
        exact hth
      · rw [if_neg hlt] at hth
        rw [if_neg (by omega)]
        exact hth)
  have hrel := release_all_thresh codec c0 n out_size frame model q p q2 t2 hp hnext _ hset
  generalize release_all model p (e1.slots.set p (load model out_size s (frame (q * n + p)))) =
    slots2 at hrel ⊢
  have hlen2 : slots2.length = n := hrel.1
  rw [hlen2, ht2]
  have h4 := slots_workers codec n _
    (thresh_step codec c0 n out_size frame hframe model q2 t2) during
    { slots := slots2, slot_index := t2, out_size := e1.out_size, run_threads := e1.run_threads }
    hrel
  generalize workers codec during
    { slots := slots2, slot_index := t2, out_size := e1.out_size,
      run_threads := e1.run_threads } = e3 at h4 ⊢
  obtain ⟨⟨hlen3, hs3⟩, hidx3, hos3⟩ := h4
  simp only at hidx3 hos3
  rcases hs3 t2 ht2n with ⟨s3, hs3t, hth3⟩
  unfold Thresh at hth3
  rw [if_neg (Nat.lt_irrefl t2)] at hth3
  obtain ⟨s4, hat4, hcol⟩ := collect_earlier codec c0 n out_size frame hframe q2 t2 s3 hth3
  refine ⟨_, hcol e3 hs3t, hidx3, by rw [← hos1]; exact hos3, ?_⟩
  exact slots_set n _ e3.slots t2 s4 ht2n (by rw [if_pos rfl]; exact hat4) hlen3 (fun j hj => by
    rcases hs3 j hj with ⟨slot, hslot, hth⟩
    refine ⟨slot, hslot, fun hjt => ?_⟩
    rw [if_neg hjt]
    exact hth)

end

section
variable {σ : Type} (codec : codec_t σ) (c0 : Nat → σ) (n out_size : Nat) (frame : Nat → List Nat)

theorem collected_output_eq (q p q2 t2 : Nat) (hp : p < n)
    (hnext : (p + 1 < n ∧ q2 = q ∧ t2 = p + 1) ∨ (p + 1 = n ∧ q2 = q + 1 ∧ t2 = 0)) :
    collected_output codec c0 n out_size frame q2 t2 =
      fifo_output codec c0 n out_size frame (q * n + p) := by
  unfold fifo_output decoded
  rcases hnext with ⟨h1, h2, h3⟩ | ⟨h1, h2, h3⟩
  · rw [h2, h3]
    cases q with
    | zero =>
      rw [if_pos (by omega)]
      rfl
    | succ r =>
      have hk : (r + 1) * n + p - (n - 1) = r * n + (p + 1) := by
        rw [Nat.succ_mul]
        omega
      rw [if_neg (by rw [Nat.succ_mul]; omega), hk, (div_mod_of_lt n r (p + 1) h1).1,
        (div_mod_of_lt n r (p + 1) h1).2]
      rfl
  · rw [h2, h3]
    have hk : q * n + p - (n - 1) = q * n + 0 := by omega
    rw [if_neg (by omega), hk, (div_mod_of_lt n q 0 (by omega)).1,
      (div_mod_of_lt n q 0 (by omega)).2]
    rfl

theorem next_counter (k : Nat) (hn : 0 < n) :
    (k % n + 1 < n ∧ (k + 1) / n = k / n ∧ (k + 1) % n = k % n + 1) ∨
      (k % n + 1 = n ∧ (k + 1) / n = k / n + 1 ∧ (k + 1) % n = 0) := by
  have hp : k % n < n := Nat.mod_lt k hn
  have hk : k / n * n + k % n = k := by
    rw [Nat.mul_comm]
    exact Nat.div_add_mod k n
  by_cases h : k % n + 1 < n
  · have := div_mod_of_lt n (k / n) (k % n + 1) h
    rw [show k / n * n + (k % n + 1) = k + 1 by omega] at this
    exact Or.inl ⟨h, this.1, this.2⟩
  · have := div_mod_of_lt n (k / n + 1) 0 hn
    rw [show (k / n + 1) * n + 0 = k + 1 by rw [Nat.succ_mul]; omega] at this
    exact Or.inr ⟨by omega, this.1, this.2⟩

theorem run_calls_between (hn : 0 < n) (hframe : ∀ k, frame k ≠ []) (model : model_e)
    (schedule : Nat → List Nat × List Nat) :
    ∀ (m k : Nat) (e : dst_engine_t σ),
      Between codec c0 n out_size frame model (k / n) (k % n) e →
      ∃ e2, run_calls codec model schedule frame m k e =
        some (e2, (List.range' k m).map (fifo_output codec c0 n out_size frame)) := by
  intro m
  induction m with
  | zero => intro k e _; exact ⟨e, rfl⟩
  | succ m ih =>
    intro k e h
    have hp : k % n < n := Nat.mod_lt k hn
    have hk : k / n * n + k % n = k := by
      rw [Nat.mul_comm]
      exact Nat.div_add_mod k n
    have hnext := next_counter n k hn
    obtain ⟨e1, hrun, hbet⟩ := run_between codec c0 n out_size frame hframe model (k / n) (k % n)
      ((k + 1) / n) ((k + 1) % n) hp hnext (schedule k).1 (schedule k).2 e h
    have hout := collected_output_eq codec c0 n out_size frame (k / n) (k % n) ((k + 1) / n)
      ((k + 1) % n) hp hnext
    rw [hk] at hrun hout
    obtain ⟨e2, hrest⟩ := ih (k + 1) e1 hbet
    refine ⟨e2, ?_⟩
    simp only [run_calls, hrun, hrest, hout, List.range'_succ, List.map_cons]

theorem between_fresh (hn : 0 < n) (model : model_e) :
    Between codec c0 n out_size frame model 0 0 (fresh c0 n out_size) := by
  refine ⟨rfl, rfl, by simp [fresh], fun i hi => ?_⟩
  refine ⟨dst_slot_t.fresh (c0 i), by simp [fresh, hi], ?_⟩
  dsimp only
  by_cases h0 : i = 0
  · rw [if_pos h0]
    exact ⟨fun _ => rfl, fun r hr => by omega⟩
  · rw [if_neg h0]
    unfold Thresh
    rw [if_neg (by omega)]
    exact ⟨fun _ => rfl, fun r hr => by omega⟩

/-- C1: for every pool size `n ≥ 1`, in either threading model, every
sequence `frame 0, frame 1, ...` of non-empty frames and every schedule of the
worker threads, `m` successive calls of `run` on a fresh engine all return,
and call `k` returns the empty buffer when `k < n - 1` and otherwise the
decoded output of `frame (k - (n - 1))`: the outputs come in the order of
submission, each once, whatever the order the workers finish in. -/
theorem run_fifo_order (codec : codec_t σ) (model : model_e) (c0 : Nat → σ) (n out_size : Nat)
    (frame : Nat → List Nat) (schedule : Nat → List Nat × List Nat) (m : Nat)
    (hn : 1 ≤ n) (hframe : ∀ k, frame k ≠ []) :
    ∃ e, run_calls codec model schedule frame m 0 (fresh c0 n out_size) =
      some (e, (List.range m).map (fun k =>
        if k < n - 1 then [] else decoded codec c0 n out_size frame (k - (n - 1)))) := by
  obtain ⟨e, he⟩ := run_calls_between codec c0 n out_size frame hn hframe model schedule m 0
    (fresh c0 n out_size) (by
      rw [Nat.zero_div, Nat.zero_mod]
      exact between_fresh codec c0 n out_size frame hn model)
  refine ⟨e, ?_⟩
  rw [he, List.range_eq_range']
  rfl

end

/-- Witness of C1: a pool of three slots in the model `MT`, five frames, the
workers scheduled in reversed order. -/
theorem run_fifo_order_witness :
    1 ≤ 3 ∧ (∀ k, Example.frames k ≠ []) ∧
      ∃ e, run_calls Example.counting_codec model_e.MT Example.reversed_schedule Example.frames 5 0
          (fresh (fun i => 100 * i) 3 3) =
        some (e, (List.range 5).map (fun k =>
          if k < 3 - 1 then []
          else decoded Example.counting_codec (fun i => 100 * i) 3 3 Example.frames (k - (3 - 1)))) :=
  ⟨by decide, fun k => List.cons_ne_nil _ _,
    run_fifo_order Example.counting_codec model_e.MT (fun i => 100 * i) 3 3 Example.frames
      Example.reversed_schedule 5 (by decide) (fun k => List.cons_ne_nil _ _)⟩

end dst_engine_t

/-! ## The parallel codec pipeline: codec errors -/

namespace dst_engine_t

section
variable {σ : Type}

theorem worker_pass_error (codec : codec_t σ) (slot : dst_slot_t σ) (hinp : slot.inp_data ≠ [])
    (herr : (codec.run slot.codec slot.inp_data (8 * slot.inp_data.length) slot.out_data).2.1 ≠ 0) :
    (dst_slot_t.worker_pass codec slot).state = slot_state_t.SLOT_READY_WITH_ERROR := by
  unfold dst_slot_t.worker_pass
  cases hd : slot.inp_data with
  | nil => exact absurd hd hinp
  | cons a l =>
    rw [hd] at herr
    simp only [List.length_cons] at herr
    simp [herr]

theorem codec_before_congr (c1 c2 : codec_t σ)
    (hsame : ∀ s inp bits out, (c1.run s inp bits out).1 = (c2.run s inp bits out).1 ∧
      (c1.run s inp bits out).2.2 = (c2.run s inp bits out).2.2)
    (c0 : Nat → σ) (n out_size : Nat) (frame : Nat → List Nat) (i : Nat) :
    ∀ r, codec_before c1 c0 n out_size frame r i = codec_before c2 c0 n out_size frame r i := by
  intro r
  induction r with
  | zero => rfl
  | succ r ih =>
    simp only [codec_before]
    rw [ih]
    exact (hsame _ _ _ _).1

theorem fifo_output_congr (c1 c2 : codec_t σ)
    (hsame : ∀ s inp bits out, (c1.run s inp bits out).1 = (c2.run s inp bits out).1 ∧
      (c1.run s inp bits out).2.2 = (c2.run s inp bits out).2.2)
    (c0 : Nat → σ) (n out_size : Nat) (frame : Nat → List Nat) :
    fifo_output c1 c0 n out_size frame = fifo_output c2 c0 n out_size frame := by
  funext k
  unfold fifo_output decoded codec_result
  rw [codec_before_congr c1 c2 hsame]
  split
  · rfl
  · exact (hsame _ _ _ _).2

/-- Counterexample to C18: the codec `counting_codec` reports an error on
frame 3, the codec `quiet_codec` decodes the same frames to the same bytes
without any error, and six calls of `run` hand the caller the same buffers in
both cases; the slot is marked `SLOT_READY_WITH_ERROR` in the first case only. -/
theorem run_result_hides_error :
    (codec_result Example.counting_codec (fun i => 100 * i) 3 3 Example.frames 1 0).2.1 ≠ 0 ∧
      (codec_result Example.quiet_codec (fun i => 100 * i) 3 3 Example.frames 1 0).2.1 = 0 ∧
      (run_calls Example.counting_codec model_e.MT Example.reversed_schedule Example.frames 6 0
          (fresh (fun i => 100 * i) 3 3)).map Prod.snd =
        (run_calls Example.quiet_codec model_e.MT Example.reversed_schedule Example.frames 6 0
          (fresh (fun i => 100 * i) 3 3)).map Prod.snd ∧
      ((run_calls Example.counting_codec model_e.MT Example.reversed_schedule Example.frames 6 0
          (fresh (fun i => 100 * i) 3 3)).map Prod.snd).isSome = true := by
  refine ⟨by decide, by decide, by decide!, by decide!⟩

/-- C18 as amended: when `codec.run` returns a non-zero error for a frame the
worker marks the slot `SLOT_READY_WITH_ERROR`, and `run` hands the caller the
buffer the codec left, as for a frame decoded without error: two codecs that
differ in nothing but the error codes they return give the caller the same
buffers, call after call. -/
theorem run_result_without_error_flag (c1 c2 : codec_t σ) (model : model_e) (c0 : Nat → σ)
    (n out_size : Nat) (frame : Nat → List Nat) (schedule : Nat → List Nat × List Nat) (m : Nat)
    (hn : 1 ≤ n) (hframe : ∀ k, frame k ≠ [])
    (hsame : ∀ s inp bits out, (c1.run s inp bits out).1 = (c2.run s inp bits out).1 ∧
      (c1.run s inp bits out).2.2 = (c2.run s inp bits out).2.2) :
    (∀ slot : dst_slot_t σ, slot.inp_data ≠ [] →
        (c1.run slot.codec slot.inp_data (8 * slot.inp_data.length) slot.out_data).2.1 ≠ 0 →
        (dst_slot_t.worker_pass c1 slot).state = slot_state_t.SLOT_READY_WITH_ERROR) ∧
      (run_calls c1 model schedule frame m 0 (fresh c0 n out_size)).map Prod.snd =
        (run_calls c2 model schedule frame m 0 (fresh c0 n out_size)).map Prod.snd ∧
      ((run_calls c1 model schedule frame m 0 (fresh c0 n out_size)).map Prod.snd).isSome = true := by
  refine ⟨fun slot hinp herr => worker_pass_error c1 slot hinp herr, ?_⟩
  obtain ⟨e1, h1⟩ := run_calls_between c1 c0 n out_size frame hn hframe model schedule m 0
    (fresh c0 n out_size) (by
      rw [Nat.zero_div, Nat.zero_mod]
      exact between_fresh c1 c0 n out_size frame hn model)
  obtain ⟨e2, h2⟩ := run_calls_between c2 c0 n out_size frame hn hframe model schedule m 0
    (fresh c0 n out_size) (by
      rw [Nat.zero_div, Nat.zero_mod]
      exact between_fresh c2 c0 n out_size frame hn model)
  rw [h1, h2, fifo_output_congr c1 c2 hsame]
  exact ⟨rfl, rfl⟩

/-- Witness of C18 as amended: the codecs `counting_codec` and `quiet_codec`
on a pool of three slots. -/
theorem run_result_without_error_flag_witness :
    (1 ≤ 3 ∧ ∀ (s : Nat) (inp : List Nat) (bits : Nat) (out : List Nat),
        (Example.counting_codec.run s inp bits out).1 = (Example.quiet_codec.run s inp bits out).1 ∧
        (Example.counting_codec.run s inp bits out).2.2 =
          (Example.quiet_codec.run s inp bits out).2.2) ∧
      (run_calls Example.counting_codec model_e.MT Example.reversed_schedule Example.frames 6 0
          (fresh (fun i => 100 * i) 3 3)).map Prod.snd =
        (run_calls Example.quiet_codec model_e.MT Example.reversed_schedule Example.frames 6 0
          (fresh (fun i => 100 * i) 3 3)).map Prod.snd :=
  ⟨⟨by decide, fun _ _ _ _ => ⟨rfl, rfl⟩⟩,
    (run_result_without_error_flag Example.counting_codec Example.quiet_codec model_e.MT
      (fun i => 100 * i) 3 3 Example.frames Example.reversed_schedule 6 (by decide)
      (fun k => List.cons_ne_nil _ _) (fun _ _ _ _ => ⟨rfl, rfl⟩)).2.1⟩

end

end dst_engine_t

/-! ## The track session: `set_downmix` and `seek` -/

namespace dvda_disc_t

/-- C20: `set_downmix(d)` returns false exactly when `d` is true and the
selected track cannot be downmixed, and then leaves the session as it was;
in every other case it returns true and `get_downmix()` is `d` afterwards. -/
theorem set_downmix_result {α : Type} (d : dvda_disc_t α) (downmix : Bool) :
    ((d.set_downmix downmix).1 = false ↔
        (downmix = true ∧ d.audio_track.audio_stream_info.can_downmix = false)) ∧
      ((d.set_downmix downmix).1 = false →
        (d.set_downmix downmix).2 = d ∧ (d.set_downmix downmix).2.get_downmix = d.get_downmix) ∧
      ((d.set_downmix downmix).1 = true → (d.set_downmix downmix).2.get_downmix = downmix) := by
  unfold set_downmix get_downmix
  cases downmix <;> cases h : d.audio_track.audio_stream_info.can_downmix <;> simp

/-- On a track of two blocks or more the target of `seek` stays inside the
track, whatever the time asked for. -/
theorem seek_within_track {α : Type} (d : dvda_disc_t α) (seconds : ℚ)
    (h1 : d.audio_track.block_first < d.audio_track.block_last)
    (h2 : d.audio_track.block_last < 2 ^ 32) :
    d.audio_track.block_first ≤ (d.seek seconds).2.stream_block_current ∧
      (d.seek seconds).2.stream_block_current < d.audio_track.block_last := by
  unfold seek
  simp only
  generalize double_to_uint32 _ = offset
  have hlim : (to_uint32 ((d.audio_track.block_last : Int) - d.audio_track.block_first - 1) : Int) =
      (d.audio_track.block_last : Int) - d.audio_track.block_first - 1 :=
    to_uint32_of_lt _ (by omega) (by omega)
  generalize to_uint32 ((d.audio_track.block_last : Int) - d.audio_track.block_first - 1) = limit
    at hlim ⊢
  have hoff : (if offset > limit then limit else offset) ≤ limit := by
    split <;> omega
  generalize (if offset > limit then limit else offset) = off at hoff ⊢
  have hcur := to_uint32_of_lt ((d.audio_track.block_first : Int) + off) (by omega) (by omega)
  omega

/-- C12: on a track of the single block 10, one second long, `seek(2.0)`
leaves the clamp `block_last - block_first - 1` at `0xFFFFFFFF` and sets
`stream_block_current` to 11, past the last block of the track. -/
theorem seek_single_block_past_last :
    (Example.session (Example.track 10 10 1)).audio_track.block_first ≤
        (Example.session (Example.track 10 10 1)).audio_track.block_last ∧
      ((Example.session (Example.track 10 10 1)).seek 2).2.stream_block_current = 11 ∧
      ¬ ((Example.session (Example.track 10 10 1)).seek 2).2.stream_block_current ≤
        (Example.session (Example.track 10 10 1)).audio_track.block_last := by
  have h : ((Example.session (Example.track 10 10 1)).seek 2).2.stream_block_current = 11 := by
    decide!
  refine ⟨le_refl _, h, ?_⟩
  rw [h]
  decide

end dvda_disc_t

namespace dvda_disc_t

end dvda_disc_t

/-! ## The track session: reading blocks and frames -/

namespace dvda_disc_t

/-- A call of `stream_buffer_read` past the last block of the track changes
nothing. -/
theorem stream_buffer_read_past_last {α : Type} (env : SessionEnv α) (d : dvda_disc_t α)
    (h : d.audio_track.block_last < d.stream_block_current) :
    stream_buffer_read env d = d := by
  unfold stream_buffer_read
  simp only
  rw [if_neg (by omega)]

/-- The position after `stream_buffer_read` as long as all the numbers stay
in the range where `int` and `uint32_t` agree: at most 8 blocks past the
track, and no further than the last sector of the titleset. -/
theorem stream_buffer_read_position {α : Type} (env : SessionEnv α) (d : dvda_disc_t α)
    (hcur : d.stream_block_current ≤ d.audio_track.block_last + 1)
    (hlast : d.audio_track.block_last + 9 < 2 ^ 31)
    (hget : env.get_last d.sel_titleset_index < 2 ^ 31)
    (hw : d.track_stream.get_write_size / DVD_BLOCK_SIZE < 2 ^ 31) :
    (stream_buffer_read env d).stream_block_current ≤ d.audio_track.block_last + 1 + 8 ∧
      (d.audio_track.block_last ≤ env.get_last d.sel_titleset_index →
        (stream_buffer_read env d).stream_block_current ≤
          d.audio_track.block_last + 1 +
            (env.get_last d.sel_titleset_index - d.audio_track.block_last)) := by
  unfold stream_buffer_read
  simp only
  generalize d.track_stream.get_write_size / DVD_BLOCK_SIZE = w at hw
  generalize d.audio_track.block_last = last at hcur hlast
  generalize hceq : d.stream_block_current = cur at hcur
  generalize env.get_last d.sel_titleset_index = g at hget
  by_cases h1 : cur ≤ last
  swap
  · rw [if_neg h1, hceq]
    omega
  rw [if_pos h1]
  have e1 : to_uint32 ((cur : Int) + (w : Int)) = cur + w := by
    have := to_uint32_natCast (cur + w) (by omega)
    rw [← this]
    push_cast
    rfl
  have e2 : to_uint32 ((last : Int) + 1) = last + 1 := by
    have := to_uint32_natCast (last + 1) (by omega)
    rw [← this]
    push_cast
    rfl
  have e3 : to_int32 ((last : Int) + 1 - (cur : Int)) = (last : Int) + 1 - cur :=
    to_int32_of_range _ (by omega) (by omega)
  rw [e1, e2, e3]
  obtain ⟨b, hb, hb0, hb1⟩ : ∃ b : Nat,
      (if cur + w > last + 1 then (last : Int) + 1 - cur else (w : Int)) = (b : Int) ∧
        cur + b ≤ last + 1 ∧ b ≤ w := by
    by_cases hc : cur + w > last + 1
    · exact ⟨last + 1 - cur, by rw [if_pos hc]; omega, by omega, by omega⟩
    · exact ⟨w, by rw [if_neg hc], by omega, le_refl _⟩
  rw [hb]
  have e4 : to_uint32 ((cur : Int) + (b : Int)) = cur + b := by
    have := to_uint32_natCast (cur + b) (by omega)
    rw [← this]
    push_cast
    rfl
  rw [e4]
  by_cases h2 : cur + b > last
  swap
  · rw [if_neg h2]
    simp only
    omega
  rw [if_pos h2]
  have e5 : to_int32 ((g : Int) - (last : Int)) = (g : Int) - last :=
    to_int32_of_range _ (by omega) (by omega)
  rw [e5]
  obtain ⟨s, hs, hs8, hsg⟩ : ∃ s : Nat,
      (last : Int) + (if (g : Int) - last < 8 then (g : Int) - last else 8) = (s : Int) ∧
        s ≤ last + 8 ∧ (s : Int) ≤ g := by
    by_cases hc : (g : Int) - last < 8
    · exact ⟨g, by rw [if_pos hc]; omega, by omega, le_refl _⟩
    · exact ⟨last + 8, by rw [if_neg hc]; omega, le_refl _, by omega⟩
  have hsync : (if (g : Int) - last < 8 then (g : Int) - last else 8) = (s : Int) - last := by
    omega
  rw [hsync]
  have e6 : to_uint32 ((last : Int) + ((s : Int) - (last : Int))) = s := by
    have := to_uint32_natCast s (by omega)
    rw [← this]
    congr 1
    omega
  rw [e6]
  by_cases h3 : cur + b ≤ s
  swap
  · rw [if_neg h3]
    simp only
    omega
  rw [if_pos h3]
  simp only
  have e7 : to_uint32 (((cur + b : Nat) : Int) + (b : Int)) = cur + b + b := by
    have := to_uint32_natCast (cur + b + b) (by omega)
    rw [← this]
    push_cast
    rfl
  have e8 : to_uint32 ((last : Int) + 1 + ((s : Int) - (last : Int))) = s + 1 := by
    have := to_uint32_natCast (s + 1) (by omega)
    rw [← this]
    congr 1
    push_cast
    omega
  have e9 : to_int32 ((last : Int) + 1 + ((s : Int) - (last : Int)) - ((cur + b : Nat) : Int)) =
      (s : Int) + 1 - (cur + b : Nat) :=
    by rw [to_int32_of_range _ (by omega) (by omega)]; omega
  rw [e7, e8, e9]
  by_cases h4 : cur + b + b > s + 1
  · rw [if_pos h4]
    have e10 : to_uint32 (((cur + b : Nat) : Int) + ((s : Int) + 1 - ((cur + b : Nat) : Int))) =
        s + 1 := by
      have := to_uint32_natCast (s + 1) (by omega)
      rw [← this]
      congr 1
      push_cast
      omega
    rw [e10]
    omega
  · rw [if_neg h4, e7]
    omega

/-- C14: on the track of the blocks 3 to 20 of a titleset whose header gives
`ats_last_sector = 0`, so that `get_last()` is `0xFFFFFFFE`, the first
`stream_buffer_read` of the session reads the 18 blocks of the track and then
18 more: `blocks_after_last` is `-22` as an `int`, the test against
`block_last + blocks_to_sync` is made in `uint32_t`, and the position ends at
block 39, past `block_last + 1 + 8 = 29`. -/
theorem stream_buffer_read_tail_unbounded :
    (Example.session_env Example.disc_long_track).get_last 0 = 4294967294 ∧
      (Example.session (Example.track 3 20 1)).audio_track.block_first ≤
        (Example.session (Example.track 3 20 1)).stream_block_current ∧
      (Example.session (Example.track 3 20 1)).stream_block_current ≤
        (Example.session (Example.track 3 20 1)).audio_track.block_last + 1 ∧
      (stream_buffer_read (Example.session_env Example.disc_long_track)
        (Example.session (Example.track 3 20 1))).stream_block_current = 39 ∧
      ¬ (stream_buffer_read (Example.session_env Example.disc_long_track)
          (Example.session (Example.track 3 20 1))).stream_block_current ≤
        (Example.session (Example.track 3 20 1)).audio_track.block_last + 1 + 8 := by
  have h : (stream_buffer_read (Example.session_env Example.disc_long_track)
      (Example.session (Example.track 3 20 1))).stream_block_current = 39 := by decide!
  refine ⟨by decide!, by decide, by decide, h, ?_⟩
  rw [h]
  decide

end dvda_disc_t

namespace dvda_disc_t

theorem read_frame_at_end_first (frame_size n : Nat) :
    read_frame (Example.session_env Example.disc_long_track) frame_size (n + 1)
        (Example.session_at_end false) =
      read_frame (Example.session_env Example.disc_long_track) frame_size n
        (Example.session_at_end true) := rfl

theorem read_frame_at_end_again (frame_size n : Nat) :
    read_frame (Example.session_env Example.disc_long_track) frame_size (n + 1)
        (Example.session_at_end true) =
      read_frame (Example.session_env Example.disc_long_track) frame_size n
        (Example.session_at_end true) := rfl

theorem read_frame_at_end_loops (frame_size : Nat) :
    ∀ fuel, read_frame (Example.session_env Example.disc_long_track) frame_size fuel
      (Example.session_at_end true) = none := by
  intro fuel
  induction fuel with
  | zero => rfl
  | succ n ih => rw [read_frame_at_end_again, ih]

/-- C15: at the end of a PCM track with three bytes left in the buffer,
fewer than one access unit, no pass of `read_frame` from the start label
reaches a `return`: the decoder consumes nothing, `resync` gives 0, nothing is
skipped, and the next pass finds the same session. The position is past the
last block, so no pass reads from the disc. -/
theorem read_frame_pcm_never_returns (frame_size fuel : Nat) :
    (Example.session_at_end false).audio_track.block_last <
        (Example.session_at_end false).stream_block_current ∧
      stream_buffer_read (Example.session_env Example.disc_long_track)
          (Example.session_at_end false) = Example.session_at_end false ∧
      read_frame (Example.session_env Example.disc_long_track) frame_size fuel
        (Example.session_at_end false) = none := by
  refine ⟨by decide, rfl, ?_⟩
  cases fuel with
  | zero => rfl
  | succ n => rw [read_frame_at_end_first, read_frame_at_end_loops]

end dvda_disc_t

/-! ## The track session: `select_track` -/

namespace dvda_disc_t

/-- Whenever `select_track` returns, it returns true. -/
theorem select_track_true {α : Type} (d : dvda_disc_t α) (track_index offset : Nat)
    (r : Bool × dvda_disc_t α) (h : select_track d track_index offset = Except.ok r) :
    r.1 = true := by
  unfold select_track at h
  cases hg : track_list_t.get_track_by_index d.track_list (uint32_to_int track_index) with
  | error f => rw [hg] at h; exact absurd h (by simp)
  | ok t =>
    rw [hg] at h
    simp only [Except.ok.injEq] at h
    rw [← h]

/-- For a position of the track list `select_track` makes that track the
selected one. -/
theorem select_track_in_range {α : Type} (d : dvda_disc_t α) (track_index offset : Nat)
    (t : audio_track_t) (hi : track_index < 2 ^ 31) (ht : d.track_list[track_index]? = some t) :
    ∃ d2, select_track d track_index offset = Except.ok (true, d2) ∧ d2.audio_track = t ∧
      d2.track_list = d.track_list ∧ d2.sel_track_index = track_index := by
  have hidx : uint32_to_int track_index = track_index := by
    unfold uint32_to_int
    rw [if_pos hi]
  have hget : track_list_t.get_track_by_index d.track_list (track_index : Int) = Except.ok t := by
    unfold track_list_t.get_track_by_index
    rw [if_neg (by omega), Int.toNat_natCast, ht]
  unfold select_track
  rw [hidx, hget]
  exact ⟨_, rfl, rfl, rfl, rfl⟩

/-- C21: on a session with a single track, `select_track(5)` has no test of
the index: it reads `track_list[5]`, outside the vector, and no call of
`select_track` returns false. -/
theorem select_track_out_of_range :
    (Example.session (Example.track 3 20 1)).get_tracks = 1 ∧
      select_track (Example.session (Example.track 3 20 1)) 5 0 =
        Except.error Fault.out_of_bounds_read ∧
      ∀ (track_index offset : Nat) (r : Bool × dvda_disc_t pcm_audio_stream_t),
        select_track (Example.session (Example.track 3 20 1)) track_index offset = Except.ok r →
          r.1 = true :=
  ⟨rfl, rfl, fun track_index offset r h => select_track_true _ track_index offset r h⟩

end dvda_disc_t

namespace dst

namespace ct_enc_t

theorem Stream.appends_nil (s : Stream) : Stream.Appends s s [] :=
  ⟨by simp, rfl, fun _ _ => rfl⟩

theorem Stream.bits_eq_iff (t : Stream) (start : Int) (bits : List Nat) :
    t.bits start bits.length = bits ↔
      ∀ (i : Nat) (h : i < bits.length), t.EncodedData (start + i) = bits[i] := by
  constructor
  · intro h i hi
    have h2 : (t.bits start bits.length)[i]? = bits[i]? := by rw [h]
    simp only [Stream.bits, List.getElem?_map, List.getElem?_range hi, Option.map_some'] at h2
    rw [List.getElem?_eq_getElem hi] at h2
    exact Option.some.inj h2
  · intro h
    apply List.ext_getElem
    · simp [Stream.bits]
    · intro i h1 h2
      simp only [Stream.bits, List.getElem_map, List.getElem_range]
      exact h i h2

theorem Stream.appends_trans (s t u : Stream) (a b : List Nat)
    (h1 : Stream.Appends s t a) (h2 : Stream.Appends t u b) :
    Stream.Appends s u (a ++ b) := by
  obtain ⟨p1, b1, e1⟩ := h1
  obtain ⟨p2, b2, e2⟩ := h2
  rw [Stream.bits_eq_iff] at b1 b2
  refine ⟨by rw [p2, p1, List.length_append]; push_cast; ring, ?_, ?_⟩
  · rw [Stream.bits_eq_iff]
    intro i hi
    by_cases hia : i < a.length
    · rw [List.getElem_append_left hia, e2 _ (by rw [p1]; omega)]
      exact b1 i hia
    · have hi2 : i < a.length + b.length := by simpa using hi
      rw [List.getElem_append_right (by omega)]
      have := b2 (i - a.length) (by omega)
      rw [← this, p1]
      congr 1
      omega
  · intro j hj
    rw [e2 j (by rw [p1]; omega), e1 j hj]

theorem AddBitToStream_appends (s : Stream) (DataBit : Int)
    (h0 : 0 ≤ s.BitNr) (h1 : s.BitNr + 1 < 2 ^ 31) :
    Stream.Appends s (AddBitToStream s DataBit) [(DataBit % 2).toNat] := by
  refine ⟨?_, ?_, ?_⟩
  · simp only [AddBitToStream, List.length_singleton]
    rw [to_int32_of_range _ (by omega) h1]
    rfl
  · simp [Stream.bits, AddBitToStream, List.range_succ, Function.update_apply]
  · intro j hj
    simp only [AddBitToStream]
    rw [Function.update_noteq (by omega)]

theorem RiceEncode_zeros_appends : ∀ (n : Nat) (s : Stream), 0 ≤ s.BitNr →
    s.BitNr + n < 2 ^ 31 →
    Stream.Appends s (RiceEncode_zeros n s) (List.replicate n 0)
  | 0, s, _, _ => Stream.appends_nil s
  | n + 1, s, h0, h1 => by
    have ha := AddBitToStream_appends s 0 h0 (by push_cast at h1; omega)
    have hp := ha.1
    simp only [List.length_singleton] at hp
    have hb := RiceEncode_zeros_appends n (AddBitToStream s 0) (by rw [hp]; omega)
      (by rw [hp]; push_cast at h1 ⊢; omega)
    have := Stream.appends_trans _ _ _ _ _ ha hb
    simpa [RiceEncode_zeros, List.replicate_succ] using this

theorem BITMASK_eq (data k : Nat) (hk : k < 32) : BITMASK data k = some (data / 2 ^ k % 2) := by
  have h2 : data / 2 ^ k % 2 % 256 = data / 2 ^ k % 2 := by omega
  simp [BITMASK, hk, Nat.shiftRight_eq_div_pow, Nat.and_one_is_mod, h2]

theorem AddBitsToStream_loop_succ (d k : Nat) (s : Stream) :
    AddBitsToStream_loop d (k + 1) s =
      match BITMASK d k with
      | some bit => AddBitsToStream_loop d k (AddBitToStream s bit)
      | none => none := rfl

theorem range_map_bits (DataBits n : Nat) :
    (List.range (n + 1)).map (fun j => DataBits / 2 ^ (n + 1 - 1 - j) % 2) =
      DataBits / 2 ^ n % 2 :: (List.range n).map (fun j => DataBits / 2 ^ (n - 1 - j) % 2) := by
  have hf : ((fun j => DataBits / 2 ^ (n + 1 - 1 - j) % 2) ∘ Nat.succ) =
      fun j => DataBits / 2 ^ (n - 1 - j) % 2 := by
    funext j
    simp only [Function.comp, Nat.succ_eq_add_one]
    congr 3
    omega
  rw [List.range_succ_eq_map, List.map_cons, List.map_map, hf]
  rfl

theorem AddBitsToStream_loop_appends (DataBits : Nat) (n : Nat) : ∀ (s : Stream), n ≤ 32 →
    0 ≤ s.BitNr → s.BitNr + n < 2 ^ 31 →
    ∃ t, AddBitsToStream_loop DataBits n s = some t ∧
      Stream.Appends s t ((List.range n).map (fun j => DataBits / 2 ^ (n - 1 - j) % 2)) := by
  induction n with
  | zero => exact fun s _ _ _ => ⟨s, rfl, Stream.appends_nil s⟩
  | succ n ih =>
    intro s hn h0 h1
    have hlt : DataBits / 2 ^ n % 2 < 2 := Nat.mod_lt _ Nat.two_pos
    have hmask := BITMASK_eq DataBits n (by omega)
    rw [range_map_bits]
    rw [AddBitsToStream_loop_succ, hmask]
    simp only
    revert ih
    generalize (List.range n).map (fun j => DataBits / 2 ^ (n - 1 - j) % 2) = rest
    generalize DataBits / 2 ^ n % 2 = b at hlt
    intro ih
    have h1b : s.BitNr + 1 + (n : Int) < 2 ^ 31 := by push_cast at h1; omega
    have ha := AddBitToStream_appends s (b : Int) h0 (by omega)
    have hp := ha.1
    simp only [List.length_singleton] at hp
    have hbit : ((b : Int) % 2).toNat = b := by omega
    rw [hbit] at ha
    obtain ⟨t, ht, hb⟩ := ih (AddBitToStream s (b : Int)) (by omega) (by rw [hp]; omega)
      (by rw [hp]; exact h1b)
    exact ⟨t, ht, Stream.appends_trans _ _ _ _ _ ha hb⟩

end ct_enc_t

end dst
namespace dst

theorem low_bit_of_mod (n M k : Nat) (hk : k < M) :
    n % 2 ^ M / 2 ^ k % 2 = n / 2 ^ k % 2 := by
  have hM : 2 ^ M = 2 ^ k * 2 ^ (M - k) := by
    rw [← pow_add]
    congr 1
    omega
  have hd : 2 ∣ 2 ^ (M - k) := by
    have : M - k = (M - k - 1) + 1 := by omega
    rw [this, pow_succ]
    exact Dvd.intro_left _ rfl
  rw [hM, Nat.mod_mul_right_div_self, Nat.mod_mod_of_dvd _ hd]

theorem uint32_to_int_of_lt (v : Nat) (h : v < 2 ^ 31) : uint32_to_int v = v := by
  unfold uint32_to_int
  rw [if_pos h]

theorem two_pow_le_30 (M : Nat) (h : M ≤ 30) : 2 ^ M ≤ 2 ^ 30 :=
  Nat.pow_le_pow_right (by decide) h

namespace ct_enc_t

theorem abs_of_int (Nr : Int) (h1 : -(2 ^ 31) < Nr) (h2 : Nr < 2 ^ 31) :
    (if Nr < 0 then to_int32 (-Nr) else Nr) = (Nr.natAbs : Int) := by
  split
  · rw [to_int32_of_range _ (by omega) (by omega)]
    omega
  · omega

theorem rice_code_length (Nr : Int) (M : Nat) :
    (rice_code Nr M).length = Nr.natAbs / 2 ^ M + 1 + M + (if Nr ≠ 0 then 1 else 0) := by
  unfold rice_code
  split <;> simp <;> omega

theorem RiceRunLength_eq (Nr m : Int) (hm0 : 0 ≤ m) (hm : m < 32)
    (h1 : -(2 ^ 31) < Nr) (h2 : Nr < 2 ^ 31)
    (hfit : (Nr.natAbs / 2 ^ m.toNat : Nat) + m + 2 < 2 ^ 31) :
    RiceRunLength Nr m = some ((rice_code Nr m.toNat).length : Int) := by
  unfold RiceRunLength
  simp only
  rw [abs_of_int Nr h1 h2, shift_right, if_pos ⟨hm0, hm⟩]
  simp only
  have hq : ((Nr.natAbs : Int) / 2 ^ m.toNat) = ((Nr.natAbs / 2 ^ m.toNat : Nat) : Int) := by
    push_cast
    rfl
  rw [hq, rice_code_length]
  generalize Nr.natAbs / 2 ^ m.toNat = q at hfit
  have hM : (m.toNat : Int) = m := Int.toNat_of_nonneg hm0
  congr 1
  rw [to_int32_of_range (q + 1 : Int) (by omega) (by omega),
    to_int32_of_range ((q : Int) + 1 + m) (by omega) (by omega)]
  split
  · rw [to_int32_of_range _ (by omega) (by omega)]
    push_cast
    omega
  · rw [to_int32_of_range _ (by omega) (by omega)]
    push_cast
    omega

theorem LSBs_eq (n M : Nat) (hn : n < 2 ^ 31) (hM : M ≤ 30) :
    to_uint32 (int_and (to_int32 ((2 : Int) ^ M - 1)) (n : Int)) = n % 2 ^ M := by
  have hp := two_pow_le_30 M hM
  have hpos : 0 < 2 ^ M := Nat.pos_pow_of_pos _ (by decide)
  have hc : ((2 : Int) ^ M - 1) = ((2 ^ M - 1 : Nat) : Int) := by
    rw [Nat.cast_sub hpos]
    push_cast
    rfl
  rw [hc]
  generalize hP : 2 ^ M = P at hp hpos
  have hlt : n % P < P := Nat.mod_lt _ hpos
  rw [to_int32_of_range _ (by omega) (by omega)]
  unfold int_and
  rw [to_uint32_natCast _ (by omega), to_uint32_natCast _ (by omega), ← hP, Nat.and_comm,
    Nat.and_pow_two_sub_one_eq_mod, hP, uint32_to_int_of_lt _ (by omega),
    to_uint32_natCast _ (by omega)]

end ct_enc_t

end dst
namespace dst

namespace ct_enc_t

theorem AddBitsToStream_appends (s : Stream) (m : Int) (n : Nat) (hm0 : 0 ≤ m) (hm : m ≤ 30)
    (h0 : 0 ≤ s.BitNr) (h1 : s.BitNr + m < 2 ^ 31) :
    ∃ t, AddBitsToStream s m (n % 2 ^ m.toNat) = some t ∧
      Stream.Appends s t ((List.range m.toNat).map (fun j => n / 2 ^ (m.toNat - 1 - j) % 2)) := by
  have hM : (m.toNat : Int) = m := Int.toNat_of_nonneg hm0
  have hk : (to_int32 (m - 1) + 1).toNat = m.toNat := by
    rw [to_int32_of_range _ (by omega) (by omega)]
    congr 1
    omega
  unfold AddBitsToStream
  rw [hk]
  obtain ⟨t, ht, ha⟩ := AddBitsToStream_loop_appends (n % 2 ^ m.toNat) m.toNat s (by omega) h0
    (by omega)
  refine ⟨t, ht, ?_⟩
  have hl : (List.range m.toNat).map (fun j => n % 2 ^ m.toNat / 2 ^ (m.toNat - 1 - j) % 2) =
      (List.range m.toNat).map (fun j => n / 2 ^ (m.toNat - 1 - j) % 2) := by
    apply List.map_congr_left
    intro j hj
    rw [List.mem_range] at hj
    exact low_bit_of_mod n m.toNat _ (by omega)
  rw [← hl]
  exact ha

/-- For `0 ≤ m ≤ 30`, `|Nr| < 2^31` and a position from which the code fits
below `2^31`, `RiceEncode` returns and appends the code of `Nr`. -/
theorem RiceEncode_appends (s : Stream) (Nr m : Int) (hm0 : 0 ≤ m) (hm : m ≤ 30)
    (h1 : -(2 ^ 31) < Nr) (h2 : Nr < 2 ^ 31) (h0 : 0 ≤ s.BitNr)
    (hfit : s.BitNr + (Nr.natAbs / 2 ^ m.toNat : Nat) + m + 2 < 2 ^ 31) :
    ∃ t, RiceEncode s Nr m = some t ∧ Stream.Appends s t (rice_code Nr m.toNat) := by
  have hM : (m.toNat : Int) = m := Int.toNat_of_nonneg hm0
  have hM30 : m.toNat ≤ 30 := by omega
  have hp := two_pow_le_30 m.toNat hM30
  have hn : Nr.natAbs < 2 ^ 31 := by omega
  unfold RiceEncode
  simp only
  rw [abs_of_int Nr h1 h2]
  have hsl : shift_left 1 m = some ((2 : Int) ^ m.toNat) := by
    unfold shift_left
    rw [if_pos ⟨hm0, by omega, by decide, by
      have : ((2 ^ m.toNat : Nat) : Int) ≤ 2 ^ 30 := by exact_mod_cast hp
      push_cast at this
      omega⟩, one_mul]
  have hsr : shift_right (Nr.natAbs : Int) m = some ((Nr.natAbs / 2 ^ m.toNat : Nat) : Int) := by
    unfold shift_right
    rw [if_pos ⟨hm0, by omega⟩]
    push_cast
    rfl
  rw [hsl]
  simp only
  rw [hsr]
  simp only [Int.toNat_ofNat]
  rw [LSBs_eq _ _ hn hM30]
  have hne : ((Nr.natAbs : Int) ≠ 0) ↔ Nr ≠ 0 := by omega
  generalize hq : Nr.natAbs / 2 ^ m.toNat = q at hfit
  have ha1 := RiceEncode_zeros_appends q s h0 (by omega)
  have hp1 := ha1.1
  rw [List.length_replicate] at hp1
  have ha2 := AddBitToStream_appends (RiceEncode_zeros q s) 1 (by omega) (by omega)
  have hp2 := ha2.1
  rw [List.length_singleton] at hp2
  obtain ⟨t3, ht3, ha3⟩ := AddBitsToStream_appends (AddBitToStream (RiceEncode_zeros q s) 1) m
    Nr.natAbs hm0 hm (by omega) (by omega)
  have hp3 := ha3.1
  rw [List.length_map, List.length_range] at hp3
  rw [ht3]
  simp only
  have h12 := Stream.appends_trans _ _ _ _ _ ha1 ha2
  have h123 := Stream.appends_trans _ _ _ _ _ h12 ha3
  have hone : ((1 : Int) % 2).toNat = 1 := rfl
  rw [hone] at h123
  unfold rice_code
  rw [hq]
  by_cases hz : Nr = 0
  · have hz2 : ¬ ((Nr.natAbs : Int) ≠ 0) := by omega
    rw [if_neg hz2, if_neg (by simpa using hz), List.append_nil]
    exact ⟨t3, rfl, h123⟩
  · have hz2 : (Nr.natAbs : Int) ≠ 0 := by omega
    rw [if_pos hz2, if_pos hz]
    have ha4 := AddBitToStream_appends t3 (if Nr < 0 then 1 else 0) (by omega) (by omega)
    have hs : (((if Nr < 0 then 1 else 0 : Int)) % 2).toNat = if Nr < 0 then 1 else 0 := by
      split <;> rfl
    rw [hs] at ha4
    exact ⟨_, rfl, Stream.appends_trans _ _ _ _ _ h123 ha4⟩

end ct_enc_t

end dst
namespace dst

namespace ct_enc_t

/-- C30, counterexample: for `Nr = 2^31 - 1` and `m = 0`, inside the stated
range, the sum `(Nr >> m) + 1` of `RiceRunLength` passes the largest `int` and
the count comes out negative, which is no number of bits; and for `m = 31`
and `m = 32` the shifts `1 << m` of `RiceEncode` and `Nr >> m` of
`RiceRunLength` have no defined value. -/
theorem RiceRunLength_overflow :
    ((2 ^ 31 - 1 : Int).natAbs < 2 ^ 31 ∧ (0 : Int) ≤ 0 ∧
      RiceRunLength (2 ^ 31 - 1) 0 = some (1 - 2 ^ 31)) ∧
    ((1 : Int).natAbs < 2 ^ 31 ∧ (0 : Int) ≤ 31 ∧
      (RiceEncode Example.empty_stream 1 31).isNone = true) ∧
    ((0 : Int) ≤ 32 ∧ RiceRunLength 1 32 = none) := by
  refine ⟨⟨by decide, by decide, by decide⟩, ⟨by decide, by decide, by decide⟩, by decide, by decide⟩

/-- C30, amended: for every `Nr` with `|Nr| < 2^31`, every `m` with
`0 ≤ m ≤ 30` and every position `BitNr ≥ 0` with
`BitNr + (|Nr| >> m) + m + 2 < 2^31`, `RiceEncode` returns and appends
exactly `RiceRunLength(Nr, m)` bits to the stream: `|Nr| >> m` zero bits, a
one bit, the `m` low bits of `|Nr|` from the most significant on, and a sign
bit if and only if `Nr ≠ 0`; and for a table entry with this residual the
length that `FindBestMethod` adds is the number of bits that
`AddTableToStream` writes. -/
theorem RiceEncode_appends_RiceRunLength (s : Stream) (Nr m : Int) (hm0 : 0 ≤ m) (hm : m ≤ 30)
    (hNr : Nr.natAbs < 2 ^ 31) (h0 : 0 ≤ s.BitNr)
    (hfit : s.BitNr + (Nr.natAbs / 2 ^ m.toNat : Nat) + m + 2 < 2 ^ 31) :
    ∃ t, RiceEncode s Nr m = some t ∧ Stream.Appends s t (rice_code Nr m.toNat) ∧
      RiceRunLength Nr m = some (t.BitNr - s.BitNr) ∧
      ∀ (is_filter : Bool) (order : Nat) (coef TableData : Nat → Int) (EntryNr : Nat)
        (RiceLen : Int), residual is_filter order coef TableData EntryNr = Nr →
        AddTableToStream_entry is_filter order coef TableData m EntryNr s = some t ∧
        FindBestMethod_entry is_filter order coef TableData m EntryNr RiceLen =
          some (to_int32 (RiceLen + (t.BitNr - s.BitNr))) := by
  have h1 : -(2 ^ 31) < Nr := by omega
  have h2 : Nr < 2 ^ 31 := by omega
  obtain ⟨t, ht, ha⟩ := RiceEncode_appends s Nr m hm0 hm h1 h2 h0 hfit
  have hr := RiceRunLength_eq Nr m hm0 (by omega) h1 h2 (by omega)
  have hlen : ((rice_code Nr m.toNat).length : Int) = t.BitNr - s.BitNr := by
    rw [ha.1]
    ring
  rw [hlen] at hr
  refine ⟨t, ht, ha, hr, ?_⟩
  intro is_filter order coef TableData EntryNr RiceLen hres
  unfold AddTableToStream_entry FindBestMethod_entry
  rw [hres, hr]
  exact ⟨ht, rfl⟩

/-- C30, witness: `Nr = -5` with `m = 1` at the start of a stream. -/
theorem RiceEncode_appends_RiceRunLength_witness :
    (0 : Int) ≤ 1 ∧ (1 : Int) ≤ 30 ∧ (-5 : Int).natAbs < 2 ^ 31 ∧
    (0 : Int) ≤ Example.empty_stream.BitNr ∧
    Example.empty_stream.BitNr + ((-5 : Int).natAbs / 2 ^ (1 : Int).toNat : Nat) + 1 + 2
      < 2 ^ 31 ∧
    ∃ t, RiceEncode Example.empty_stream (-5) 1 = some t ∧
      Stream.Appends Example.empty_stream t (rice_code (-5) (1 : Int).toNat) ∧
      RiceRunLength (-5) 1 = some (t.BitNr - Example.empty_stream.BitNr) ∧
      ∀ (is_filter : Bool) (order : Nat) (coef TableData : Nat → Int) (EntryNr : Nat)
        (RiceLen : Int), residual is_filter order coef TableData EntryNr = -5 →
        AddTableToStream_entry is_filter order coef TableData 1 EntryNr Example.empty_stream =
          some t ∧
        FindBestMethod_entry is_filter order coef TableData 1 EntryNr RiceLen =
          some (to_int32 (RiceLen + (t.BitNr - Example.empty_stream.BitNr))) :=
  ⟨by decide, by decide, by decide, by decide, by decide,
    RiceEncode_appends_RiceRunLength Example.empty_stream (-5) 1 (by decide) (by decide)
      (by decide) (by decide) (by decide)⟩

end ct_enc_t

end dst

namespace audio_stream_t

theorem to_int64_of_range (v : Int) (h0 : -(2 ^ 63) ≤ v) (h1 : v < 2 ^ 63) : to_int64 v = v := by
  unfold to_int64
  split <;> omega

theorem to_int32_congr (x y : Int) (h : x % 2 ^ 32 = y % 2 ^ 32) : to_int32 x = to_int32 y := by
  unfold to_int32
  rw [h]

theorem to_int32_add_left (a b : Int) : to_int32 (to_int32 a + b) = to_int32 (a + b) := by
  have h : to_int32 a % 2 ^ 32 = a % 2 ^ 32 := by
    unfold to_int32
    split <;> omega
  exact to_int32_congr _ _ (by omega)

theorem to_int64_congr (x y : Int) (h : x % 2 ^ 64 = y % 2 ^ 64) : to_int64 x = to_int64 y := by
  unfold to_int64
  rw [h]

theorem to_int64_add_left (a b : Int) : to_int64 (to_int64 a + b) = to_int64 (a + b) := by
  have h : to_int64 a % 2 ^ 64 = a % 2 ^ 64 := by
    unfold to_int64
    split <;> omega
  exact to_int64_congr _ _ (by omega)

theorem sum_set (l : List Int) (i : Nat) (x old : Int) (h : l[i]? = some old) :
    (l.set i x).sum = l.sum - old + x := by
  induction l generalizing i with
  | nil => simp at h
  | cons a l ih =>
    cases i with
    | zero =>
      simp only [List.getElem?_cons_zero, Option.some.injEq] at h
      simp only [List.set_cons_zero, List.sum_cons]
      omega
    | succ i =>
      simp only [List.getElem?_cons_succ] at h
      simp only [List.set_cons_succ, List.sum_cons, ih i h]
      omega

theorem sum_take_succ (l : List Int) (k : Nat) :
    (l.take (k + 1)).sum = (l.take k).sum + l.getD k 0 := by
  induction l generalizing k with
  | nil => simp
  | cons a l ih =>
    cases k with
    | zero => simp
    | succ k =>
      simp only [List.take_succ_cons, List.sum_cons, ih k, List.getD_cons_succ]
      omega

end audio_stream_t


namespace audio_stream_t

theorem ring_replicate (n : Nat) (hn : n = 256) : Ring (List.replicate n 0) [] := by
  refine ⟨by rw [List.length_replicate]; exact hn, ?_⟩
  intro j hj
  rw [List.getD_eq_getElem?_getD, List.getElem?_replicate]
  split <;> simp

theorem sum_replicate_zero (n : Nat) : (List.replicate n (0 : Int)).sum = 0 := by
  simp

theorem ring_get (a R : List Int) (h : Ring a R) :
    a[R.length % 256]? = some (R.getD 255 0) := by
  have hlt : R.length % 256 < 256 := Nat.mod_lt _ (by decide)
  have := h.2 _ hlt
  have he : (((R.length : Int) - 1 - (R.length % 256 : Nat)) % 256).toNat = 255 := by omega
  rw [he, List.getD_eq_getElem?_getD, List.getElem?_eq_getElem (by rw [h.1]; exact hlt)] at this
  rw [List.getElem?_eq_getElem (by rw [h.1]; exact hlt)]
  simpa using this

theorem ring_set (a R : List Int) (x : Int) (h : Ring a R) :
    Ring (a.set (R.length % 256) x) (x :: R) := by
  have hlt : R.length % 256 < 256 := Nat.mod_lt _ (by decide)
  refine ⟨by rw [List.length_set]; exact h.1, ?_⟩
  intro j hj
  rw [List.getD_eq_getElem?_getD, List.getElem?_set]
  by_cases hjp : R.length % 256 = j
  · have he : ((((x :: R).length : Int) - 1 - j) % 256).toNat = 0 := by
      rw [List.length_cons]
      push_cast
      omega
    rw [if_pos hjp, he, if_pos (by rw [h.1]; exact hlt)]
    rfl
  · have he : ((((x :: R).length : Int) - 1 - j) % 256).toNat =
        (((R.length : Int) - 1 - j) % 256).toNat + 1 := by
      rw [List.length_cons]
      push_cast
      omega
    rw [if_neg hjp, he, List.getD_cons_succ, ← h.2 j hj, List.getD_eq_getElem?_getD]

theorem ring_sum (a R : List Int) (x : Int) (h : Ring a R)
    (hs : a.sum = (R.take 256).sum) :
    (a.set (R.length % 256) x).sum = ((x :: R).take 256).sum := by
  rw [sum_set a _ x _ (ring_get a R h), hs, sum_take_succ R 255, List.take_succ_cons,
    List.sum_cons]
  omega

end audio_stream_t
namespace audio_stream_t

theorem statsInv_reset (s : Stats) : StatsInv (reset_stats s) [] [] :=
  ⟨rfl, ring_replicate _ rfl, ring_replicate _ rfl, rfl, sum_replicate_zero _,
    sum_replicate_zero _, rfl, rfl, rfl, rfl⟩

theorem statsInv_update (st : Stats) (Rr Rd : List Int) (r d : Int) (h : StatsInv st Rr Rd) :
    ∃ st2, update_stats st r d = Except.ok st2 ∧ StatsInv st2 (r :: Rr) (d :: Rd) := by
  obtain ⟨hlen, hr, hd, hidx, hsr, hsd, har, had, hbr, hbd⟩ := h
  have hlt : Rr.length % 256 < 256 := Nat.mod_lt _ (by decide)
  have heff : (if st.instant_bit_index ≥ (AVG_BITRATE_SIZE : Int) then 0
      else st.instant_bit_index) = ((Rr.length % 256 : Nat) : Int) := by
    have h256 : ((AVG_BITRATE_SIZE : Nat) : Int) = 256 := rfl
    rw [h256, hidx]
    split <;> split <;> omega
  have hgr := ring_get _ _ hr
  have hgd := ring_get _ _ hd
  rw [← hlen] at hgd
  unfold update_stats
  simp only
  rw [heff, if_neg (by omega), Int.toNat_ofNat, hgr, hgd]
  refine ⟨_, rfl, ?_⟩
  refine ⟨by simp [hlen], ring_set _ _ r hr, by rw [hlen]; exact ring_set _ _ d hd, ?_,
    ring_sum _ _ r hr hsr, by rw [hlen]; exact ring_sum _ _ d hd hsd, ?_, ?_, ?_, ?_⟩
  · simp only [List.length_cons]
    rw [to_int32_of_range _ (by omega) (by omega)]
    rw [if_neg (by omega)]
    push_cast
    omega
  · simp only
    rw [to_int32_add_left, har]
    have h1 : to_int32 (Rr.take 256).sum - Rr.getD 255 0 + r =
        to_int32 (Rr.take 256).sum + (r - Rr.getD 255 0) := by ring
    rw [h1, to_int32_add_left, sum_take_succ Rr 255, List.take_succ_cons, List.sum_cons]
    congr 1
    ring
  · simp only
    rw [to_int32_add_left, had]
    have h1 : to_int32 (Rd.take 256).sum - Rd.getD 255 0 + d =
        to_int32 (Rd.take 256).sum + (d - Rd.getD 255 0) := by ring
    rw [h1, to_int32_add_left, sum_take_succ Rd 255, List.take_succ_cons, List.sum_cons]
    congr 1
    ring
  · simp only
    rw [hbr, to_int64_add_left, List.sum_cons, add_comm]
  · simp only
    rw [hbd, to_int64_add_left, List.sum_cons, add_comm]

theorem statsInv_calls : ∀ (calls : List (Int × Int)) (st : Stats) (Rr Rd : List Int),
    StatsInv st Rr Rd →
    ∃ st2, update_stats_calls st calls = Except.ok st2 ∧
      StatsInv st2 ((calls.map Prod.fst).reverse ++ Rr) ((calls.map Prod.snd).reverse ++ Rd)
  | [], st, Rr, Rd, h => ⟨st, rfl, by simpa using h⟩
  | (r, d) :: calls, st, Rr, Rd, h => by
    obtain ⟨st1, h1, hinv1⟩ := statsInv_update st Rr Rd r d h
    obtain ⟨st2, h2, hinv2⟩ := statsInv_calls calls st1 (r :: Rr) (d :: Rd) hinv1
    refine ⟨st2, ?_, ?_⟩
    · simp only [update_stats_calls, h1]
      exact h2
    · simpa using hinv2

theorem take_min_length (l : List Int) (k : Nat) : l.take (min l.length k) = l.take k := by
  by_cases h : l.length ≤ k
  · rw [Nat.min_eq_left h, List.take_of_length_le (le_refl _), List.take_of_length_le h]
  · rw [Nat.min_eq_right (by omega)]

theorem recent_sum_eq (values : List Int) : recent_sum values = (values.reverse.take 256).sum := by
  unfold recent_sum
  have h := take_min_length values.reverse 256
  rw [List.length_reverse] at h
  exact congrArg List.sum h

end audio_stream_t
namespace audio_stream_t

/-- C29: after `reset_stats` every sequence of calls of `update_stats` runs
without an access outside the arrays; if the sums of the most recent
`min(n, 256)` values fit in `int` and the totals in `int64_t`, then
`avg_bits_read` is the sum of the entries of `instant_bits_read`, which is the
sum of the most recent `min(n, 256)` values `r_i`, likewise for
`avg_bits_decoded`, `bits_read` and `bits_decoded` are the totals over all
calls, and `instant_bit_index` is within 0..256 with both arrays of 256
elements. -/
theorem update_stats_sums (s : Stats) (calls : List (Int × Int))
    (hr : -(2 ^ 31) ≤ recent_sum (calls.map Prod.fst) ∧ recent_sum (calls.map Prod.fst) < 2 ^ 31)
    (hd : -(2 ^ 31) ≤ recent_sum (calls.map Prod.snd) ∧ recent_sum (calls.map Prod.snd) < 2 ^ 31)
    (htr : -(2 ^ 63) ≤ (calls.map Prod.fst).sum ∧ (calls.map Prod.fst).sum < 2 ^ 63)
    (htd : -(2 ^ 63) ≤ (calls.map Prod.snd).sum ∧ (calls.map Prod.snd).sum < 2 ^ 63) :
    ∃ st, update_stats_calls (reset_stats s) calls = Except.ok st ∧
      st.avg_bits_read = st.instant_bits_read.sum ∧
      st.instant_bits_read.sum = recent_sum (calls.map Prod.fst) ∧
      st.avg_bits_decoded = st.instant_bits_decoded.sum ∧
      st.instant_bits_decoded.sum = recent_sum (calls.map Prod.snd) ∧
      st.bits_read = (calls.map Prod.fst).sum ∧
      st.bits_decoded = (calls.map Prod.snd).sum ∧
      0 ≤ st.instant_bit_index ∧ st.instant_bit_index ≤ 256 ∧
      st.instant_bits_read.length = 256 ∧ st.instant_bits_decoded.length = 256 := by
  obtain ⟨st, hst, hinv⟩ := statsInv_calls calls (reset_stats s) [] [] (statsInv_reset s)
  rw [List.append_nil, List.append_nil] at hinv
  obtain ⟨_, hrr, hrd, hidx, hsr, hsd, har, had, hbr, hbd⟩ := hinv
  rw [recent_sum_eq] at hr hd
  rw [List.sum_reverse] at hbr hbd
  refine ⟨st, hst, ?_, ?_, ?_, ?_, ?_, ?_, ?_, ?_, hrr.1, hrd.1⟩
  · rw [har, hsr, to_int32_of_range _ hr.1 hr.2]
  · rw [hsr, recent_sum_eq]
  · rw [had, hsd, to_int32_of_range _ hd.1 hd.2]
  · rw [hsd, recent_sum_eq]
  · rw [hbr, to_int64_of_range _ htr.1 htr.2]
  · rw [hbd, to_int64_of_range _ htd.1 htd.2]
  · rw [hidx]
    split <;> omega
  · rw [hidx]
    split <;> omega

/-- C29, witness: two calls after a reset. -/
theorem update_stats_sums_witness :
    (-(2 ^ 31) ≤ recent_sum ([((8 : Int), (16 : Int)), (24, 32)].map Prod.fst) ∧
      recent_sum ([((8 : Int), (16 : Int)), (24, 32)].map Prod.fst) < 2 ^ 31) ∧
    (-(2 ^ 31) ≤ recent_sum ([((8 : Int), (16 : Int)), (24, 32)].map Prod.snd) ∧
      recent_sum ([((8 : Int), (16 : Int)), (24, 32)].map Prod.snd) < 2 ^ 31) ∧
    (-(2 ^ 63) ≤ ([((8 : Int), (16 : Int)), (24, 32)].map Prod.fst).sum ∧
      ([((8 : Int), (16 : Int)), (24, 32)].map Prod.fst).sum < 2 ^ 63) ∧
    (-(2 ^ 63) ≤ ([((8 : Int), (16 : Int)), (24, 32)].map Prod.snd).sum ∧
      ([((8 : Int), (16 : Int)), (24, 32)].map Prod.snd).sum < 2 ^ 63) ∧
    ∃ st, update_stats_calls (reset_stats Example.stats) [(8, 16), (24, 32)] = Except.ok st ∧
      st.avg_bits_read = st.instant_bits_read.sum ∧
      st.instant_bits_read.sum = recent_sum ([((8 : Int), (16 : Int)), (24, 32)].map Prod.fst) ∧
      st.avg_bits_decoded = st.instant_bits_decoded.sum ∧
      st.instant_bits_decoded.sum =
        recent_sum ([((8 : Int), (16 : Int)), (24, 32)].map Prod.snd) ∧
      st.bits_read = ([((8 : Int), (16 : Int)), (24, 32)].map Prod.fst).sum ∧
      st.bits_decoded = ([((8 : Int), (16 : Int)), (24, 32)].map Prod.snd).sum ∧
      0 ≤ st.instant_bit_index ∧ st.instant_bit_index ≤ 256 ∧
      st.instant_bits_read.length = 256 ∧ st.instant_bits_decoded.length = 256 :=
  ⟨by decide, by decide, by decide, by decide,
    update_stats_sums Example.stats [(8, 16), (24, 32)] (by decide) (by decide) (by decide)
      (by decide)⟩

end audio_stream_t

namespace track_list_t

theorem or_bit24_aux (hi lo : Nat) (hlo : lo < 2 ^ 24) (hhi : hi = 0 ∨ hi = 1) :
    (2 ^ 24 * hi + lo) ||| 2 ^ 24 * 1 = 2 ^ 24 + lo := by
  have h1 := Nat.mul_add_lt_is_or hlo 1
  rcases hhi with h | h
  · rw [h, Nat.mul_zero, Nat.zero_add, Nat.or_comm, ← h1]
    omega
  · rw [h, h1, Nat.or_comm, ← Nat.or_assoc, Nat.or_self, ← h1]
    omega

theorem or_bit24 (v : Nat) (hv : v < 2 ^ 25) : v ||| 0x01000000 = 2 ^ 24 + v % 2 ^ 24 := by
  have hlo : v % 2 ^ 24 < 2 ^ 24 := Nat.mod_lt _ (by decide)
  have hhi : v / 2 ^ 24 = 0 ∨ v / 2 ^ 24 = 1 := by omega
  have h := or_bit24_aux (v / 2 ^ 24) (v % 2 ^ 24) hlo hhi
  rw [Nat.div_add_mod] at h
  exact h

/-- The track index as a sum: the three fields do not overlap. -/
theorem get_track_index_eq (ts ti tr : Nat) (downmix : Bool) :
    get_track_index ts ti tr downmix =
      if downmix then
        2 ^ 24 + ((ts % 256 + 1) * 65536 + (ti + 1) % 256 * 256 + (tr + 1) % 256) % 2 ^ 24
      else (ts % 256 + 1) * 65536 + (ti + 1) % 256 * 256 + (tr + 1) % 256 := by
  have hm : ∀ x : Nat, x &&& 0xff = x % 256 := fun x => Nat.and_pow_two_sub_one_eq_mod x 8
  have ha : ts % 256 < 256 := Nat.mod_lt _ (by decide)
  have hb : (ti + 1) % 256 < 256 := Nat.mod_lt _ (by decide)
  have hc : (tr + 1) % 256 < 2 ^ 8 := Nat.mod_lt _ (by decide)
  unfold get_track_index
  rw [hm, hm, hm, Nat.shiftLeft_eq, Nat.shiftLeft_eq]
  generalize ts % 256 = a at ha
  generalize (ti + 1) % 256 = b at hb
  generalize (tr + 1) % 256 = c at hc
  have h1 := Nat.mul_add_lt_is_or hc b
  have hbc : 2 ^ 8 * b + c < 2 ^ 16 := by omega
  have h2 := Nat.mul_add_lt_is_or hbc (a + 1)
  have hv : (a + 1) * 2 ^ 16 ||| b * 2 ^ 8 ||| c = (a + 1) * 65536 + b * 256 + c := by
    rw [Nat.or_assoc, Nat.mul_comm b, ← h1, Nat.mul_comm (a + 1), ← h2]
    omega
  rw [hv]
  cases downmix with
  | false => simp
  | true =>
    simp only [if_true]
    exact or_bit24 _ (by omega)

/-- Below 256 in each position the track index tells the positions apart. -/
theorem get_track_index_inj (ts ti tr ts2 ti2 tr2 : Nat) (downmix : Bool)
    (h1 : ts < 256) (h2 : ti < 256) (h3 : tr < 256)
    (h4 : ts2 < 256) (h5 : ti2 < 256) (h6 : tr2 < 256)
    (h : get_track_index ts ti tr downmix = get_track_index ts2 ti2 tr2 downmix) :
    ts = ts2 ∧ ti = ti2 ∧ tr = tr2 := by
  rw [get_track_index_eq, get_track_index_eq] at h
  cases downmix with
  | false =>
    simp only [Bool.false_eq_true, if_false] at h
    omega
  | true =>
    simp only [if_true] at h
    omega

end track_list_t
namespace track_list_t

theorem init_track_fields (env : InitEnv) (dvda_titleset : dvda_titleset_t)
    (dvda_track : dvda_track_t) (ts ti tr track_number : Nat) (e : audio_track_t)
    (h : init_track env dvda_titleset dvda_track ts ti tr track_number = some e) :
    e.dvda_titleset = ts + 1 ∧ e.dvda_title = ti + 1 ∧ e.dvda_track = tr + 1 ∧
      e.track_index = get_track_index ts ti tr env.downmix := by
  unfold init_track at h
  simp only at h
  split at h
  · exact absurd h (by simp)
  · split at h
    · exact absurd h (by simp)
    · rename_i info hinfo
      generalize hadd : (match env.tag_exists with
        | some tag_exists => _
        | none => _) = add_track at h
      cases add_track with
      | false => simp at h
      | true =>
        simp only [if_true, Option.some.injEq] at h
        subst h
        exact ⟨rfl, rfl, rfl, rfl⟩

theorem orderedBelow_mono (downmix : Bool) (l : List audio_track_t) (b b2 : Nat) (hb : b ≤ b2)
    (h : OrderedBelow downmix l b) : OrderedBelow downmix l b2 :=
  ⟨h.1, fun t ht => ⟨lt_of_lt_of_le (h.2.1 t ht).1 hb, (h.2.1 t ht).2⟩, lt_of_lt_of_le h.2.2 hb⟩

theorem orderedBelow_append (downmix : Bool) (l : List audio_track_t) (e : audio_track_t)
    (ts ti tr : Nat) (h1 : ts < 256) (h2 : ti < 256) (h3 : tr < 256)
    (he : e.dvda_titleset = ts + 1 ∧ e.dvda_title = ti + 1 ∧ e.dvda_track = tr + 1 ∧
      e.track_index = get_track_index ts ti tr downmix)
    (h : OrderedBelow downmix l (position_bound ts ti tr)) :
    OrderedBelow downmix (l ++ [e]) (position_bound ts ti (tr + 1)) := by
  obtain ⟨e1, e2, e3, e4⟩ := he
  have hkey : position_key e = position_bound ts ti tr := by
    unfold position_key position_bound
    rw [e1, e2, e3]
    ring
  have hb : position_bound ts ti (tr + 1) = position_bound ts ti tr + 1 := by
    unfold position_bound
    ring
  refine ⟨?_, ?_, ?_⟩
  · rw [List.pairwise_append]
    refine ⟨h.1, List.pairwise_singleton _ _, ?_⟩
    intro a ha b hb2
    rw [List.mem_singleton] at hb2
    rw [hb2]
    have := (h.2.1 a ha).1
    omega
  · intro t ht
    rcases List.mem_append.1 ht with ht | ht
    · exact ⟨by have := (h.2.1 t ht).1; omega, (h.2.1 t ht).2⟩
    · rw [List.mem_singleton] at ht
      subst ht
      refine ⟨by omega, by omega, by omega, by omega, by omega, by omega, by omega, ?_⟩
      rw [e1, e2, e3, e4]
      rfl
  · rw [List.length_append, List.length_singleton]
    have := h.2.2
    omega

theorem init_tracks_ordered (env : InitEnv) (dvda_titleset : dvda_titleset_t) (ts ti : Nat)
    (h1 : ts < 256) (h2 : ti < 256) (tracks : List dvda_track_t) :
    ∀ (tr : Nat) (st : Nat × List audio_track_t), tr + tracks.length ≤ 256 →
      OrderedBelow env.downmix st.2 (position_bound ts ti tr) →
      OrderedBelow env.downmix (init_tracks env dvda_titleset ts ti tracks tr st).2
        (position_bound ts ti (tr + tracks.length)) := by
  induction tracks with
  | nil => intro tr st _ hst; simpa [init_tracks] using hst
  | cons t rest ih =>
    intro tr st hlen hst
    obtain ⟨n, l⟩ := st
    rw [List.length_cons] at hlen
    have hidx : tr + (t :: rest).length = tr + 1 + rest.length := by
      rw [List.length_cons]
      omega
    rw [hidx]
    simp only [init_tracks]
    split
    · rename_i e he
      apply ih _ _ (by omega)
      exact orderedBelow_append _ _ _ ts ti tr h1 h2 (by omega)
        (init_track_fields env dvda_titleset t ts ti tr n e he) hst
    · apply ih _ _ (by omega)
      exact orderedBelow_mono _ _ _ _ (by unfold position_bound; omega) hst

theorem init_titles_ordered (env : InitEnv) (dvda_titleset : dvda_titleset_t) (ts : Nat)
    (h1 : ts < 256) (titles : List dvda_title_t) :
    ∀ (ti : Nat) (st : Nat × List audio_track_t), ti + titles.length ≤ 256 →
      (∀ title ∈ titles, title.dvda_tracks.length ≤ 256) →
      OrderedBelow env.downmix st.2 (position_bound ts ti 0) →
      OrderedBelow env.downmix (init_titles env dvda_titleset ts titles ti st).2
        (position_bound ts (ti + titles.length) 0) := by
  induction titles with
  | nil => intro ti st _ _ hst; simpa [init_titles] using hst
  | cons title rest ih =>
    intro ti st hlen htr hst
    rw [List.length_cons] at hlen
    have hidx : ti + (title :: rest).length = ti + 1 + rest.length := by
      rw [List.length_cons]
      omega
    rw [hidx]
    simp only [init_titles]
    apply ih _ _ (by omega) (fun t ht => htr t (List.mem_cons_of_mem _ ht))
    have h := init_tracks_ordered env dvda_titleset ts ti h1 (by omega) title.dvda_tracks 0 st
      (by have := htr title (List.mem_cons_self _ _); omega) hst
    refine orderedBelow_mono _ _ _ _ ?_ h
    have := htr title (List.mem_cons_self _ _)
    unfold position_bound
    omega

theorem init_titlesets_ordered (env : InitEnv) (titlesets : List dvda_titleset_t) :
    ∀ (ts : Nat) (st : Nat × List audio_track_t), ts + titlesets.length ≤ 256 →
      (∀ titleset ∈ titlesets, titleset.dvda_titles.length ≤ 256) →
      (∀ titleset ∈ titlesets, ∀ title ∈ titleset.dvda_titles, title.dvda_tracks.length ≤ 256) →
      OrderedBelow env.downmix st.2 (position_bound ts 0 0) →
      OrderedBelow env.downmix (init_titlesets env titlesets ts st).2
        (position_bound (ts + titlesets.length) 0 0) := by
  induction titlesets with
  | nil => intro ts st _ _ _ hst; simpa [init_titlesets] using hst
  | cons titleset rest ih =>
    intro ts st hlen hti htr hst
    rw [List.length_cons] at hlen
    have hidx : ts + (titleset :: rest).length = ts + 1 + rest.length := by
      rw [List.length_cons]
      omega
    rw [hidx]
    simp only [init_titlesets]
    apply ih _ _ (by omega) (fun t ht => hti t (List.mem_cons_of_mem _ ht))
      (fun t ht => htr t (List.mem_cons_of_mem _ ht))
    split
    · have h := init_titles_ordered env titleset ts (by omega) titleset.dvda_titles 0 st
        (by have := hti titleset (List.mem_cons_self _ _); omega)
        (htr titleset (List.mem_cons_self _ _)) hst
      refine orderedBelow_mono _ _ _ _ ?_ h
      have := hti titleset (List.mem_cons_self _ _)
      unfold position_bound
      omega
    · exact orderedBelow_mono _ _ _ _ (by unfold position_bound; omega) hst

theorem init_ordered (env : InitEnv) (dvda_zone : dvda_zone_t)
    (hts : dvda_zone.dvda_titlesets.length ≤ 256)
    (hti : ∀ titleset ∈ dvda_zone.dvda_titlesets, titleset.dvda_titles.length ≤ 256)
    (htr : ∀ titleset ∈ dvda_zone.dvda_titlesets, ∀ title ∈ titleset.dvda_titles,
      title.dvda_tracks.length ≤ 256) :
    OrderedBelow env.downmix (init env dvda_zone)
      (position_bound dvda_zone.dvda_titlesets.length 0 0) := by
  have h := init_titlesets_ordered env dvda_zone.dvda_titlesets 0 (1, []) (by omega) hti htr
    ⟨List.Pairwise.nil, fun _ h => absurd h (List.not_mem_nil _), by decide⟩
  rw [Nat.zero_add] at h
  exact h

end track_list_t
namespace track_list_t

theorem orderedBelow_distinct (downmix : Bool) (l : List audio_track_t) (b : Nat)
    (h : OrderedBelow downmix l b) :
    l.Pairwise (fun x y => x.track_index ≠ y.track_index) := by
  refine List.Pairwise.imp_of_mem ?_ h.1
  intro x y hx hy hlt heq
  obtain ⟨x1, x2, x3, x4, x5, x6, x7⟩ := (h.2.1 x hx).2
  obtain ⟨y1, y2, y3, y4, y5, y6, y7⟩ := (h.2.1 y hy).2
  rw [x7, y7] at heq
  have := get_track_index_inj _ _ _ _ _ _ downmix (by omega) (by omega) (by omega) (by omega)
    (by omega) (by omega) heq
  unfold position_key at hlt
  omega

theorem get_track_index_loop_eq (x : Int) : ∀ (l : List audio_track_t) (i0 k : Nat)
    (hk : k < l.length), (l[k].track_index : Int) = x →
    (∀ (j : Nat) (hj : j < l.length), j < k → (l[j].track_index : Int) ≠ x) →
    get_track_index_loop x l i0 = uint32_to_int (i0 + k)
  | [], _, _, hk, _, _ => absurd hk (by simp)
  | t :: rest, i0, 0, _, hx, _ => by
    simp only [List.getElem_cons_zero] at hx
    simp only [get_track_index_loop]
    rw [if_pos hx.symm]
    rfl
  | t :: rest, i0, k + 1, hk, hx, hne => by
    simp only [List.getElem_cons_succ] at hx
    have h0 := hne 0 (by simp) (by omega)
    simp only [List.getElem_cons_zero] at h0
    simp only [get_track_index_loop]
    rw [if_neg (fun h => h0 h.symm)]
    have hk2 : k < rest.length := by simpa using hk
    rw [get_track_index_loop_eq x rest (i0 + 1) k hk2 hx (fun j hj hjk => by
      have := hne (j + 1) (by simp; omega) (by omega)
      simpa using this)]
    congr 1
    omega

/-- C28, counterexample: in the list that `track_list_t::init` builds from a
catalog whose titleset has 257 titles of one track each, the entries at the
positions 0 and 256 are different entries with the same `track_index`
`0x010101`, and `get_track_index(0x010101)` returns 0, not 256. -/
theorem track_index_title_256_collides :
    (init Example.accept_all Example.zone_257_titles).length = 257 ∧
    (((init Example.accept_all Example.zone_257_titles)[0]?).map
      (fun (t : audio_track_t) => (t.dvda_title, t.track_index)) = some (1, 0x010101)) ∧
    (((init Example.accept_all Example.zone_257_titles)[256]?).map
      (fun (t : audio_track_t) => (t.dvda_title, t.track_index)) = some (257, 0x010101)) ∧
    get_track_index_of (init Example.accept_all Example.zone_257_titles) 0x010101 = 0 := by
  decide!

/-- C28, amended: in the list that `track_list_t::init` builds from a
catalog with at most 256 titlesets, at most 256 titles in each titleset and
at most 256 tracks in each title, every entry carries the `track_index` of
its position, two different entries never have the same `track_index`, and
`get_track_index(track_index)` returns the position of the entry that carries
the index. -/
theorem init_track_index_unique (env : InitEnv) (dvda_zone : dvda_zone_t)
    (hts : dvda_zone.dvda_titlesets.length ≤ 256)
    (hti : ∀ titleset ∈ dvda_zone.dvda_titlesets, titleset.dvda_titles.length ≤ 256)
    (htr : ∀ titleset ∈ dvda_zone.dvda_titlesets, ∀ title ∈ titleset.dvda_titles,
      title.dvda_tracks.length ≤ 256) :
    (∀ e ∈ init env dvda_zone, e.track_index =
      get_track_index (e.dvda_titleset - 1) (e.dvda_title - 1) (e.dvda_track - 1) env.downmix) ∧
    (∀ (i j : Nat) (hi : i < (init env dvda_zone).length) (hj : j < (init env dvda_zone).length),
      (init env dvda_zone)[i].track_index = (init env dvda_zone)[j].track_index → i = j) ∧
    (∀ (i : Nat) (hi : i < (init env dvda_zone).length),
      get_track_index_of (init env dvda_zone) ((init env dvda_zone)[i].track_index) = i) := by
  have hord := init_ordered env dvda_zone hts hti htr
  have hdist := orderedBelow_distinct _ _ _ hord
  rw [List.pairwise_iff_getElem] at hdist
  have hinj : ∀ (i j : Nat) (hi : i < (init env dvda_zone).length)
      (hj : j < (init env dvda_zone).length),
      (init env dvda_zone)[i].track_index = (init env dvda_zone)[j].track_index → i = j := by
    intro i j hi hj heq
    rcases Nat.lt_trichotomy i j with h | h | h
    · exact absurd heq (hdist i j hi hj h)
    · exact h
    · exact absurd heq.symm (hdist j i hj hi h)
  refine ⟨fun e he => (hord.2.1 e he).2.2.2.2.2.2.2, hinj, ?_⟩
  intro i hi
  unfold get_track_index_of
  rw [get_track_index_loop_eq _ _ 0 i hi rfl (fun j hj hji heq => by
    have := hinj j i hj hi (by exact_mod_cast heq)
    omega)]
  have hlen := hord.2.2
  have hb : position_bound dvda_zone.dvda_titlesets.length 0 0 < 2 ^ 31 := by
    unfold position_bound
    omega
  unfold uint32_to_int
  rw [if_pos (by omega), Nat.zero_add]

/-- C28, witness: a catalog of two titlesets with five tracks in all; the
five entries carry five different values of `track_index`. -/
theorem init_track_index_unique_witness :
    Example.zone_five_tracks.dvda_titlesets.length ≤ 256 ∧
    (∀ titleset ∈ Example.zone_five_tracks.dvda_titlesets,
      titleset.dvda_titles.length ≤ 256) ∧
    (∀ titleset ∈ Example.zone_five_tracks.dvda_titlesets,
      ∀ title ∈ titleset.dvda_titles, title.dvda_tracks.length ≤ 256) ∧
    (init Example.accept_all Example.zone_five_tracks).map
      (fun (t : audio_track_t) => t.track_index) =
      [0x010101, 0x010102, 0x010201, 0x010202, 0x020101] ∧
    ((∀ e ∈ init Example.accept_all Example.zone_five_tracks,
      e.track_index = get_track_index (e.dvda_titleset - 1) (e.dvda_title - 1)
        (e.dvda_track - 1) Example.accept_all.downmix) ∧
    (∀ (i j : Nat)
      (hi : i < (init Example.accept_all Example.zone_five_tracks).length)
      (hj : j < (init Example.accept_all Example.zone_five_tracks).length),
      (init Example.accept_all Example.zone_five_tracks)[i].track_index
        = (init Example.accept_all Example.zone_five_tracks)[j].track_index → i = j) ∧
    (∀ (i : Nat)
      (hi : i < (init Example.accept_all Example.zone_five_tracks).length),
      get_track_index_of (init Example.accept_all Example.zone_five_tracks)
        ((init Example.accept_all Example.zone_five_tracks)[i].track_index) = i)) :=
  ⟨by decide, by decide, by decide, by decide!,
    init_track_index_unique Example.accept_all Example.zone_five_tracks (by decide) (by decide)
      (by decide)⟩

end track_list_t

/-! ## The names of the sub-tracks: formatting and parsing -/

namespace dvdaiso

theorem toDigits_lt_1000 (n : Nat) (h : n < 1000) :
    List.replicate (3 - (Nat.toDigits 10 n).length) '0' ++ Nat.toDigits 10 n =
      [Nat.digitChar (n / 100), Nat.digitChar (n / 10 % 10), Nat.digitChar (n % 10)] := by
  unfold Nat.toDigits
  by_cases h1 : n < 10
  · have e1 : n / 10 = 0 := by omega
    have e2 : n / 100 = 0 := by omega
    simp only [Nat.toDigitsCore, e1, e2, if_true, Nat.zero_mod]
    rfl
  · obtain ⟨m, rfl⟩ : ∃ m, n = m + 1 := ⟨n - 1, by omega⟩
    by_cases h2 : m + 1 < 100
    · have e1 : (m + 1) / 10 ≠ 0 := by omega
      have e2 : (m + 1) / 10 / 10 = 0 := by omega
      have e3 : (m + 1) / 100 = 0 := by omega
      have e4 : (m + 1) / 10 % 10 = (m + 1) / 10 := by omega
      simp only [Nat.toDigitsCore, e1, e2, e3, e4, if_true, if_false]
      rfl
    · obtain ⟨k, rfl⟩ : ∃ k, m = k + 1 := ⟨m - 1, by omega⟩
      have e1 : (k + 1 + 1) / 10 ≠ 0 := by omega
      have e2 : (k + 1 + 1) / 10 / 10 ≠ 0 := by omega
      have e3 : (k + 1 + 1) / 10 / 10 / 10 = 0 := by omega
      have e4 : (k + 1 + 1) / 10 / 10 % 10 = (k + 1 + 1) / 100 := by omega
      simp only [Nat.toDigitsCore, e1, e2, e3, e4, if_true, if_false]
      rfl

theorem digitChar_props :
    ∀ x, x < 10 → (Nat.digitChar x).isDigit = true ∧ isspace (Nat.digitChar x) = false ∧
      (Nat.digitChar x = '+' || Nat.digitChar x = '-') = false ∧
      (Nat.digitChar x).toNat - '0'.toNat = x := by
  decide

theorem match_literal_append (fmt input : List Char) :
    match_literal fmt (fmt ++ input) = some input := by
  induction fmt with
  | nil => cases input <;> rfl
  | cons c fmt ih => simp [match_literal, ih]

theorem sscanf_03u_digits (x y z : Nat) (hx : x < 10) (hy : y < 10) (hz : z < 10)
    (rest : List Char) :
    sscanf_03u (Nat.digitChar x :: Nat.digitChar y :: Nat.digitChar z :: rest) =
      some (100 * x + 10 * y + z, rest) := by
  obtain ⟨dx, sx, gx, vx⟩ := digitChar_props x hx
  obtain ⟨dy, sy, gy, vy⟩ := digitChar_props y hy
  obtain ⟨dz, sz, gz, vz⟩ := digitChar_props z hz
  have h0 : '0'.toNat = 48 := rfl
  rw [h0] at vx vy vz
  simp [sscanf_03u, List.dropWhile, List.takeWhile, sx, gx, dx, dy, dz, digits_value, vx, vy, vz]
  omega

/-- The name that `container_scan` formats for a track number from 1 to 999
is scanned back in full. -/
theorem sscanf_track_name (i : Nat) (a : Char) (hi : i < 999) :
    sscanf_track (track_name (i + 1) a "iso".toList) =
      { params := 3, index := some (i + 1), area := some a, suffix := some "iso".toList } := by
  have hmod : (i + 1) % 2 ^ 32 = i + 1 := Nat.mod_eq_of_lt (by omega)
  have hname : track_name (i + 1) a "iso".toList =
      DVDA_TRACKXXX_PREFIX ++ (Nat.digitChar ((i + 1) / 100) :: Nat.digitChar ((i + 1) / 10 % 10) ::
        Nat.digitChar ((i + 1) % 10) :: a :: '.' :: "iso".toList) := by
    unfold track_name sprintf_03u
    simp only [hmod]
    rw [toDigits_lt_1000 (i + 1) (by omega)]
    rfl
  rw [hname]
  unfold sscanf_track
  rw [match_literal_append]
  simp only
  rw [sscanf_03u_digits _ _ _ (by omega) (by omega) (by omega)]
  have hv : 100 * ((i + 1) / 100) + 10 * ((i + 1) / 10 % 10) + (i + 1) % 10 = i + 1 := by omega
  rw [hv]
  rfl

/-- Counterexample to C19: position 999 of the track table gets the name
`AUDIO_TS__TRACK1000S.iso`; `%03u` of `sscanf` takes only the three characters
`100`, `%c` takes the fourth digit, the literal `.` meets `S`, and
`get_subsong` returns false with index 99. -/
theorem get_subsong_four_digits :
    track_name (999 + 1) 'S' "iso".toList = "AUDIO_TS__TRACK1000S.iso".toList ∧
      get_subsong (track_name (999 + 1) 'S' "iso".toList) 0 = (false, 99, false) ∧
      ¬ get_subsong (track_name (999 + 1) 'S' "iso".toList) 0 = (true, 999, decide ('S' = 'D')) := by
  refine ⟨by decide!, by decide!, by decide!⟩

/-- C19 as amended: for every position `i` below 999 of the track table,
every area marker `a` of `S`, `M`, `D` and the suffix `iso`, the name that
`container_scan` formats from `(i + 1, a, suffix)` is parsed back by
`get_subsong` with a true result, index `i` and `downmix = (a == 'D')`,
whatever `index` held before. -/
theorem get_subsong_track_name (i : Nat) (a : Char) (index : Nat) (hi : i < 999)
    (ha : a ∈ ['S', 'M', 'D']) :
    get_subsong (track_name (i + 1) a "iso".toList) index = (true, i, decide (a = 'D')) := by
  unfold get_subsong
  rw [sscanf_track_name i a hi]
  simp only [Option.getD_some, decide_True, Prod.mk.injEq, true_and, and_true]
  omega

/-- Witness of C19 as amended: the downmix entry of the first track. -/
theorem get_subsong_track_name_witness :
    (0 < 999 ∧ 'D' ∈ ['S', 'M', 'D']) ∧
      get_subsong (track_name (0 + 1) 'D' "iso".toList) 7 = (true, 0, decide ('D' = 'D')) :=
  ⟨⟨by decide, by decide⟩, get_subsong_track_name 0 'D' 7 (by decide) (by decide)⟩

end dvdaiso

namespace dvda_disc_t

theorem get_track_by_index_natCast (l : List audio_track_t) (i : Nat) (t : audio_track_t)
    (ht : l[i]? = some t) : track_list_t.get_track_by_index l (i : Int) = Except.ok t := by
  unfold track_list_t.get_track_by_index
  rw [if_neg (by omega), Int.toNat_natCast, ht]

/-- The accessors of the selected track after `select_track` on a position
of the track list. -/
theorem selected_accessors {α : Type} (d : dvda_disc_t α) (i : Nat) (t : audio_track_t)
    (ht : d.track_list[i]? = some t) (hs : d.sel_track_index = i) :
    d.get_duration = Except.ok t.duration ∧
    d.get_channels = Except.ok (to_uint32 ((t.audio_stream_info.group1_channels : Int)
      + t.audio_stream_info.group2_channels)) ∧
    d.can_downmix = Except.ok t.audio_stream_info.can_downmix := by
  have h := get_track_by_index_natCast d.track_list i t ht
  refine ⟨?_, ?_, ?_⟩
  · unfold get_duration
    rw [hs, h]
  · unfold get_channels
    rw [hs, h]
  · unfold can_downmix
    rw [hs, h]

end dvda_disc_t

namespace dvdaiso

theorem get_subsong_scanned (i : Nat) (a : Char) (index : Nat) (hi : i < 999) :
    get_subsong (track_name (i + 1) a "iso".toList) index = (true, i, decide (a = 'D')) := by
  unfold get_subsong
  rw [sscanf_track_name i a hi]
  simp only [Option.getD_some, decide_True, Prod.mk.injEq, true_and, and_true]
  omega

theorem track_name_area (n : Nat) (a b : Char) (suffix : List Char)
    (h : track_name n a suffix = track_name n b suffix) : a = b := by
  unfold track_name at h
  simp only [List.append_assoc, List.append_cancel_left_eq, List.singleton_append,
    List.cons.injEq, and_true] at h
  have h2 := congrArg List.head? h
  simpa using h2

/-- The name of a position below 999 is accepted by `scan_file` when the mode
admits the area of the name for the channels of the track. -/
theorem scan_file_accepts {α : Type} (channel_mode : ChannelMode) (d : dvda_disc_t α)
    (i index : Nat) (a : Char) (t : audio_track_t) (hi : i < 999)
    (ht : d.track_list[i]? = some t)
    (hs : channel_mode = ChannelMode.STEREO →
      decide (channels_of t > 2) = false ∨ a = 'D')
    (hm : channel_mode = ChannelMode.MULTICHANNEL →
      decide (channels_of t > 2) = true ∧ a ≠ 'D') :
    ∃ d2, scan_file channel_mode d (track_name (i + 1) a "iso".toList) index =
      Except.ok (true, d2) := by
  obtain ⟨d2, hsel, _, htl, hidx⟩ := dvda_disc_t.select_track_in_range d i 0 t (by omega) ht
  obtain ⟨_, hch, _⟩ := dvda_disc_t.selected_accessors d2 i t (by rw [htl]; exact ht) hidx
  unfold channels_of at hs hm
  unfold scan_file
  rw [get_subsong_scanned i a index hi]
  simp only
  rw [hsel]
  simp only
  rw [hch]
  simp only
  cases channel_mode with
  | STEREO =>
    simp only
    rcases hs rfl with h | h
    · rw [h]
      exact ⟨d2, rfl⟩
    · rw [h]
      simp only [decide_True, Bool.not_true, Bool.and_false]
      exact ⟨d2, rfl⟩
  | MULTICHANNEL =>
    simp only
    obtain ⟨h1, h2⟩ := hm rfl
    rw [h1]
    have h3 : decide (a = 'D') = false := by simpa using h2
    rw [h3]
    exact ⟨d2, rfl⟩
  | ALL => exact ⟨d2, rfl⟩

end dvdaiso
namespace dvdaiso

theorem process_flags_ok {α : Type} (params : Params) (channel_mode : ChannelMode)
    (d : dvda_disc_t α) (mc c : Bool) (hc : d.can_downmix = Except.ok c) :
    ∃ pt pd, process_flags params channel_mode d mc = Except.ok (pt, pd) ∧
      (channel_mode = ChannelMode.STEREO →
        pt = !mc ∧ pd = (mc && !params.param_no_downmixes && c)) ∧
      (channel_mode = ChannelMode.MULTICHANNEL → pt = mc ∧ pd = false) := by
  have hw : downmix_wanted params d = Except.ok (!params.param_no_downmixes && c) := by
    unfold downmix_wanted
    cases params.param_no_downmixes with
    | true => rfl
    | false => simpa using hc
  unfold process_flags
  cases channel_mode with
  | STEREO =>
    cases mc with
    | false =>
      exact ⟨true, false, rfl, fun _ => ⟨rfl, by simp⟩, fun h => absurd h (by simp)⟩
    | true =>
      simp only [Bool.not_true, Bool.false_eq_true, if_false]
      rw [hw]
      exact ⟨false, _, rfl, fun _ => ⟨rfl, by simp⟩, fun h => absurd h (by simp)⟩
  | MULTICHANNEL => exact ⟨mc, false, rfl, fun h => absurd h (by simp), fun _ => ⟨rfl, rfl⟩⟩
  | ALL =>
    simp only
    cases params.param_playable_area with
    | CHMODE_MULCH => exact ⟨_, _, rfl, fun h => absurd h (by simp), fun h => absurd h (by simp)⟩
    | CHMODE_TWOCH =>
      simp only
      rw [hw]
      exact ⟨_, _, rfl, fun h => absurd h (by simp), fun h => absurd h (by simp)⟩
    | CHMODE_BOTH =>
      simp only
      rw [hw]
      exact ⟨_, _, rfl, fun h => absurd h (by simp), fun h => absurd h (by simp)⟩

/-- One pass of the loop of `container_scan` on a position of the track
list: no entry for a track skipped as short, otherwise the entries of the
flags, which in the modes STEREO and MULTICHANNEL are as given. -/
theorem container_scan_track_ok {α : Type} (params : Params) (channel_mode : ChannelMode)
    (suffix : List Char) (d : dvda_disc_t α) (i : Nat) (t : audio_track_t) (hi : i < 2 ^ 31)
    (ht : d.track_list[i]? = some t) :
    ∃ names d2, container_scan_track params channel_mode suffix d i = Except.ok (names, d2) ∧
      d2.track_list = d.track_list ∧
      ((params.param_no_short_tracks && decide (t.duration < SHORT_TRACK_SEC)) = true →
        names = []) ∧
      ((params.param_no_short_tracks && decide (t.duration < SHORT_TRACK_SEC)) = false →
        ∃ pt pd, names = emitted_names i suffix (decide (channels_of t > 2)) pt pd ∧
          (channel_mode = ChannelMode.STEREO →
            pt = !decide (channels_of t > 2) ∧
            pd = (decide (channels_of t > 2) && !params.param_no_downmixes
              && t.audio_stream_info.can_downmix)) ∧
          (channel_mode = ChannelMode.MULTICHANNEL →
            pt = decide (channels_of t > 2) ∧ pd = false)) := by
  obtain ⟨d2, hsel, _, htl, hidx⟩ := dvda_disc_t.select_track_in_range d i 0 t hi ht
  obtain ⟨hdur, hch, hcan⟩ := dvda_disc_t.selected_accessors d2 i t (by rw [htl]; exact ht) hidx
  obtain ⟨pt, pd, hfl, h1, h2⟩ := process_flags_ok params channel_mode d2
    (decide (channels_of t > 2)) _ hcan
  unfold container_scan_track
  rw [hsel]
  simp only
  rw [hdur]
  simp only
  cases hshort : (params.param_no_short_tracks && decide (t.duration < SHORT_TRACK_SEC)) with
  | true =>
    rw [if_pos rfl]
    exact ⟨[], d2, rfl, htl, fun _ => rfl, fun h => absurd h (by simp)⟩
  | false =>
    rw [if_neg (by simp), hch]
    simp only
    unfold channels_of at hfl
    rw [hfl]
    exact ⟨_, d2, rfl, htl, fun h => absurd h (by simp), fun _ => ⟨pt, pd, rfl, h1, h2⟩⟩

/-- Every name of `names` is accepted by `scan_file` on a reader with the
track list `track_list`. -/
theorem emitted_names_accepted {α : Type} (channel_mode : ChannelMode)
    (track_list : List audio_track_t) (i : Nat) (t : audio_track_t) (hi : i < 999)
    (ht : track_list[i]? = some t) (pt pd : Bool)
    (h1 : channel_mode = ChannelMode.STEREO → pt = !decide (channels_of t > 2))
    (h2 : channel_mode = ChannelMode.MULTICHANNEL →
      pt = decide (channels_of t > 2) ∧ pd = false) :
    ∀ e ∈ emitted_names i "iso".toList (decide (channels_of t > 2)) pt pd,
      ∀ (d : dvda_disc_t α) (index : Nat), d.track_list = track_list →
        ∃ d2, scan_file channel_mode d e index = Except.ok (true, d2) := by
  intro e he d index hd
  unfold emitted_names at he
  rcases List.mem_append.1 he with he | he
  · cases hpt : pt with
    | false => rw [hpt] at he; simp at he
    | true =>
      rw [hpt, if_pos rfl, List.mem_singleton] at he
      rw [he]
      apply scan_file_accepts channel_mode d i index _ t hi (by rw [hd]; exact ht)
      · intro hm
        have := h1 hm
        rw [hpt] at this
        left
        cases hmc : decide (channels_of t > 2) with
        | false => rfl
        | true => rw [hmc] at this; simp at this
      · intro hm
        have := (h2 hm).1
        rw [hpt] at this
        rw [← this]
        exact ⟨rfl, by decide⟩
  · cases hpd : pd with
    | false => rw [hpd] at he; simp at he
    | true =>
      rw [hpd, if_pos rfl, List.mem_singleton] at he
      rw [he]
      apply scan_file_accepts channel_mode d i index _ t hi (by rw [hd]; exact ht)
      · intro _
        right
        rfl
      · intro hm
        have := (h2 hm).2
        rw [hpd] at this
        exact absurd this (by simp)

theorem container_scan_loop_accepted {α : Type} (params : Params) (channel_mode : ChannelMode)
    (track_list : List audio_track_t) (hlen : track_list.length ≤ 999) :
    ∀ (fuel i : Nat) (d : dvda_disc_t α) (list : List (List Char)),
      d.track_list = track_list →
      (∀ e ∈ list, ∀ (d3 : dvda_disc_t α) (index : Nat), d3.track_list = track_list →
        ∃ d4, scan_file channel_mode d3 e index = Except.ok (true, d4)) →
      ∃ names d2, container_scan_loop params channel_mode "iso".toList fuel i d list =
          Except.ok (names, d2) ∧
        ∀ e ∈ names, ∀ (d3 : dvda_disc_t α) (index : Nat), d3.track_list = track_list →
          ∃ d4, scan_file channel_mode d3 e index = Except.ok (true, d4) := by
  intro fuel
  induction fuel with
  | zero => intro i d list _ hacc; exact ⟨list, d, rfl, hacc⟩
  | succ fuel ih =>
    intro i d list hd hacc
    simp only [container_scan_loop]
    by_cases hlt : i < d.get_tracks
    · rw [if_pos hlt]
      unfold dvda_disc_t.get_tracks at hlt
      have ht : d.track_list[i]? = some (d.track_list[i]) := List.getElem?_eq_getElem hlt
      obtain ⟨names, d2, hs, htl, hshort, hlong⟩ :=
        container_scan_track_ok params channel_mode "iso".toList d i _ (by rw [hd] at hlt; omega) ht
      rw [hs]
      simp only
      apply ih (i + 1) d2 _ (by rw [htl, hd])
      intro e he
      rcases List.mem_append.1 he with he | he
      · exact hacc e he
      · cases hsh : (params.param_no_short_tracks &&
            decide ((d.track_list[i]).duration < SHORT_TRACK_SEC)) with
        | true =>
          rw [hshort hsh] at he
          simp at he
        | false =>
          obtain ⟨pt, pd, hn, h1, h2⟩ := hlong hsh
          rw [hn] at he
          exact emitted_names_accepted channel_mode track_list i _ (by rw [hd] at hlt; omega)
            (by rw [← hd]; exact ht) pt pd (fun hm => (h1 hm).1) h2 e he
    · rw [if_neg hlt]
      exact ⟨list, d, rfl, hacc⟩

end dvdaiso
namespace dvdaiso

theorem mem_emitted_plain (i : Nat) (suffix : List Char) (mc pt pd : Bool) :
    track_name (i + 1) (if mc then 'M' else 'S') suffix ∈ emitted_names i suffix mc pt pd ↔
      pt = true := by
  have hne : track_name (i + 1) (if mc then 'M' else 'S') suffix ≠ track_name (i + 1) 'D' suffix := by
    intro h
    have := track_name_area _ _ _ _ h
    cases mc <;> simp at this
  unfold emitted_names
  cases pt <;> cases pd <;> simp [hne]

theorem mem_emitted_downmix (i : Nat) (suffix : List Char) (mc pt pd : Bool) :
    track_name (i + 1) 'D' suffix ∈ emitted_names i suffix mc pt pd ↔ pd = true := by
  have hne : track_name (i + 1) 'D' suffix ≠ track_name (i + 1) (if mc then 'M' else 'S') suffix := by
    intro h
    have := track_name_area _ _ _ _ h
    cases mc <;> simp at this
  unfold emitted_names
  cases pt <;> cases pd <;> simp [hne]

/-- C23, counterexample: with the defaults of the plugin and the mode
STEREO, a track of 2 channels that lasts 1 second yields no entry; and the
plain entry of the track at position 999, `AUDIO_TS__TRACK1000S.iso`, is not
accepted by `scan_file` under the same mode. -/
theorem container_scan_short_track :
    (channels_of (Example.track 3 20 1) = 2 ∧
      Example.scanned_names (container_scan Example.plugin_defaults ChannelMode.STEREO
        "iso".toList (Example.session (Example.track 3 20 1))) = some []) ∧
    (Example.scanned_names (container_scan_track Example.plugin_defaults ChannelMode.STEREO
        "iso".toList Example.session_1000_tracks 999) =
        some ["AUDIO_TS__TRACK1000S.iso".toList] ∧
      Example.scan_result (scan_file ChannelMode.STEREO Example.session_1000_tracks
        "AUDIO_TS__TRACK1000S.iso".toList 0) = some false) := by
  refine ⟨⟨by decide!, by decide!⟩, by decide!, by decide!⟩

/-- C23, amended: on a disc of at most 999 tracks, for a track that
`container_scan` does not skip as short (`param_no_short_tracks` and a duration
below 2 seconds), with the mode STEREO the track yields a plain entry iff it
has at most 2 channels and a `D` entry iff it has more than 2 channels,
downmixes are not disabled and the track can be downmixed, never both; with
the mode MULTICHANNEL it yields a plain entry iff it has more than 2 channels
and never a `D` entry; and `container_scan` returns, and every entry it emits
under a mode is accepted by `scan_file` under the same mode. -/
theorem container_scan_entries {α : Type} (params : Params) (channel_mode : ChannelMode)
    (d : dvda_disc_t α) (hlen : d.track_list.length ≤ 999) :
    (∀ (i : Nat) (t : audio_track_t), d.track_list[i]? = some t →
      (params.param_no_short_tracks && decide (t.duration < SHORT_TRACK_SEC)) = false →
      ∃ names d2, container_scan_track params channel_mode "iso".toList d i =
          Except.ok (names, d2) ∧
        (channel_mode = ChannelMode.STEREO →
          (track_name (i + 1) (if decide (channels_of t > 2) then 'M' else 'S') "iso".toList
            ∈ names ↔ channels_of t ≤ 2) ∧
          (track_name (i + 1) 'D' "iso".toList ∈ names ↔
            channels_of t > 2 ∧ params.param_no_downmixes = false ∧
              t.audio_stream_info.can_downmix = true) ∧
          ¬ (track_name (i + 1) (if decide (channels_of t > 2) then 'M' else 'S') "iso".toList
              ∈ names ∧ track_name (i + 1) 'D' "iso".toList ∈ names)) ∧
        (channel_mode = ChannelMode.MULTICHANNEL →
          (track_name (i + 1) (if decide (channels_of t > 2) then 'M' else 'S') "iso".toList
            ∈ names ↔ channels_of t > 2) ∧
          track_name (i + 1) 'D' "iso".toList ∉ names)) ∧
    (∃ names d2, container_scan params channel_mode "iso".toList d = Except.ok (names, d2) ∧
      ∀ e ∈ names, ∀ (d3 : dvda_disc_t α) (index : Nat), d3.track_list = d.track_list →
        ∃ d4, scan_file channel_mode d3 e index = Except.ok (true, d4)) := by
  refine ⟨?_, ?_⟩
  · intro i t ht hshort
    have hi : i < d.track_list.length := by
      by_contra h
      rw [List.getElem?_eq_none (by omega)] at ht
      exact absurd ht (by simp)
    obtain ⟨names, d2, hs, _, _, hlong⟩ :=
      container_scan_track_ok params channel_mode "iso".toList d i t (by omega) ht
    obtain ⟨pt, pd, hn, h1, h2⟩ := hlong hshort
    refine ⟨names, d2, hs, ?_, ?_⟩
    · intro hm
      obtain ⟨hpt, hpd⟩ := h1 hm
      rw [hn, mem_emitted_plain, mem_emitted_downmix, hpt, hpd]
      cases hmc : decide (channels_of t > 2) with
      | false =>
        have : ¬ channels_of t > 2 := by simpa using hmc
        refine ⟨by simp; omega, by simp; intro h; omega, by simp⟩
      | true =>
        have : channels_of t > 2 := by simpa using hmc
        refine ⟨by simp; omega, by simp; intro _ _; exact this, by simp⟩
    · intro hm
      obtain ⟨hpt, hpd⟩ := h2 hm
      rw [hn, mem_emitted_plain, mem_emitted_downmix, hpt, hpd]
      simp
  · unfold container_scan
    exact container_scan_loop_accepted params channel_mode d.track_list hlen _ 0 d [] rfl
      (fun e he => absurd he (List.not_mem_nil _))

/-- C23, witness: the session on a single stereo track of four minutes. -/
theorem container_scan_entries_witness :
    (Example.session (Example.track 3 20 240)).track_list.length ≤ 999 ∧
    ((∀ (i : Nat) (t : audio_track_t),
      (Example.session (Example.track 3 20 240)).track_list[i]? = some t →
      (Example.plugin_defaults.param_no_short_tracks &&
        decide (t.duration < SHORT_TRACK_SEC)) = false →
      ∃ names d2, container_scan_track Example.plugin_defaults ChannelMode.STEREO "iso".toList
          (Example.session (Example.track 3 20 240)) i = Except.ok (names, d2) ∧
        (ChannelMode.STEREO = ChannelMode.STEREO →
          (track_name (i + 1) (if decide (channels_of t > 2) then 'M' else 'S') "iso".toList
            ∈ names ↔ channels_of t ≤ 2) ∧
          (track_name (i + 1) 'D' "iso".toList ∈ names ↔
            channels_of t > 2 ∧ Example.plugin_defaults.param_no_downmixes = false ∧
              t.audio_stream_info.can_downmix = true) ∧
          ¬ (track_name (i + 1) (if decide (channels_of t > 2) then 'M' else 'S') "iso".toList
              ∈ names ∧ track_name (i + 1) 'D' "iso".toList ∈ names)) ∧
        (ChannelMode.STEREO = ChannelMode.MULTICHANNEL →
          (track_name (i + 1) (if decide (channels_of t > 2) then 'M' else 'S') "iso".toList
            ∈ names ↔ channels_of t > 2) ∧
          track_name (i + 1) 'D' "iso".toList ∉ names)) ∧
    (∃ names d2, container_scan Example.plugin_defaults ChannelMode.STEREO "iso".toList
        (Example.session (Example.track 3 20 240)) = Except.ok (names, d2) ∧
      ∀ e ∈ names, ∀ (d3 : dvda_disc_t pcm_audio_stream_t) (index : Nat),
        d3.track_list = (Example.session (Example.track 3 20 240)).track_list →
        ∃ d4, scan_file ChannelMode.STEREO d3 e index = Except.ok (true, d4))) :=
  ⟨by decide, container_scan_entries Example.plugin_defaults ChannelMode.STEREO
    (Example.session (Example.track 3 20 240)) (by decide)⟩

end dvdaiso

/-! ## The database update: channel filter and CUE files -/

namespace FilteredSongUpdate

/-- C22: `ShouldIncludeSong` returns false exactly when the format of the
song is defined with a channel count other than 0 and either the mode is
`STEREO` and there are more than 2 channels, or the mode is `MULTICHANNEL` and
there are at most 2; in the mode `ALL` every song is included, and so is, in
every mode, a song whose format is undefined or has 0 channels. -/
theorem ShouldIncludeSong_false_iff (mode : ChannelMode) (IsDefined : AudioFormat → Bool)
    (audio_format : AudioFormat) :
    (ShouldIncludeSong mode IsDefined audio_format = false ↔
      (IsDefined audio_format = true ∧ audio_format.channels ≠ 0 ∧
        ((mode = ChannelMode.STEREO ∧ audio_format.channels > 2) ∨
          (mode = ChannelMode.MULTICHANNEL ∧ audio_format.channels ≤ 2)))) ∧
      ShouldIncludeSong ChannelMode.ALL IsDefined audio_format = true ∧
      ((IsDefined audio_format = false ∨ audio_format.channels = 0) →
        ShouldIncludeSong mode IsDefined audio_format = true) := by
  unfold ShouldIncludeSong ShouldFilterByChannelCount
  cases mode <;> cases hd : IsDefined audio_format <;>
    by_cases hc : audio_format.channels = 0 <;>
    by_cases h2 : audio_format.channels > 2 <;>
    simp [hc, h2]

end FilteredSongUpdate

namespace CueValidator

/-- Counterexample to C24: a CUE file without any `TRACK` line in a
directory with two media files has 0 tracks, neither 2 nor 3, and
`ShouldIgnoreCueFile` returns true. -/
theorem ShouldIgnoreCueFile_no_tracks :
    CountTracksInCueFile (Example.album ["REM empty".toList])
        (cue_path "album".toList "disc.cue".toList) = 0 ∧
      CountMediaFilesInDirectory (Example.album ["REM empty".toList]) "album".toList = 2 ∧
      ShouldIgnoreCueFile (Example.album ["REM empty".toList]) "album".toList
        "disc.cue".toList = true := by
  decide!

/-- C24 as amended: `ShouldIgnoreCueFile` returns true if the CUE file has no
track, or as many tracks as the directory has media files, or exactly one
more, and false in every other case; the number of tracks is the highest
number of a `TRACK` line, as `CountTracksInCueFile` computes it. -/
theorem ShouldIgnoreCueFile_iff (storage : Storage) (directory_path cue_filename : List Char) :
    ShouldIgnoreCueFile storage directory_path cue_filename = true ↔
      (CountTracksInCueFile storage (cue_path directory_path cue_filename) = 0 ∨
        CountTracksInCueFile storage (cue_path directory_path cue_filename) =
          CountMediaFilesInDirectory storage directory_path ∨
        CountTracksInCueFile storage (cue_path directory_path cue_filename) =
          CountMediaFilesInDirectory storage directory_path + 1) := by
  have hline : ∀ (c : Nat) (l : List Char), c < 2 ^ 32 → count_line c l < 2 ^ 32 := by
    intro c l hc
    unfold count_line
    split
    · simp only
      generalize List.dropWhile (fun c => decide (c = ' ') || decide (c = '\t')) (List.drop 5 l) = p
      cases p with
      | nil => exact hc
      | cons d rest =>
        simp only
        split
        · split
          · unfold atoi
            exact Nat.mod_lt _ (by norm_num)
          · exact hc
        · exact hc
    · exact hc
  have hlt : ∀ (lines : List (List Char)) (c : Nat), c < 2 ^ 32 →
      lines.foldl count_line c < 2 ^ 32 := by
    intro lines
    induction lines with
    | nil => intro c hc; exact hc
    | cons l rest ih =>
      intro c hc
      exact ih _ (hline c l hc)
  have hmedia : CountMediaFilesInDirectory storage directory_path < 2 ^ 32 := by
    unfold CountMediaFilesInDirectory
    cases storage.OpenDirectory directory_path with
    | none => norm_num
    | some entries =>
      simp only
      have : ∀ (es : List DirEntry) (c : Nat), c < 2 ^ 32 →
          es.foldl (fun count e =>
            if e.name.head? = some '.' then count
            else if e.is_regular && IsSupportedMediaFile storage e.name then (count + 1) % 2 ^ 32
            else count) c < 2 ^ 32 := by
        intro es
        induction es with
        | nil => intro c hc; exact hc
        | cons e rest ih =>
          intro c hc
          apply ih
          simp only
          split
          · exact hc
          · split
            · exact Nat.mod_lt _ (by norm_num)
            · exact hc
      exact this entries 0 (by norm_num)
  have ht := hlt (storage.OpenFile (cue_path directory_path cue_filename)) 0 (by norm_num)
  unfold ShouldIgnoreCueFile
  simp only
  unfold CountTracksInCueFile at ht ⊢
  generalize List.foldl count_line 0 (storage.OpenFile (cue_path directory_path cue_filename)) = t
    at ht ⊢
  generalize CountMediaFilesInDirectory storage directory_path = m at hmedia ⊢
  by_cases h0 : t = 0
  · simp [h0]
  · by_cases h1 : t = m
    · simp [h1]
    · by_cases h2 : t = (m + 1) % 2 ^ 32
      · rw [if_neg h0, if_neg h1, if_pos h2]
        have : t = m + 1 := by omega
        simp [this]
      · rw [if_neg h0, if_neg h1, if_neg h2]
        have : ¬ t = m + 1 := by omega
        simp [h0, h1, this]

end CueValidator
